import Mathlib

/-!
# vectors-cpp: fixed-dimension numeric vectors

A shallow embedding of the class templates `Vector2<T>`, `Vector3<T>` and
`Vector4<T>` (`src/vector2.hpp`, `src/vector3.hpp`, `src/vector4.hpp`) and of
the three scalar types they are instantiated with (`int`, `float`, `double`).

* `I32` is the C++ `int`: an integer in `[-2^31, 2^31)`.  `+`, `-`, `*` and
  unary `-` wrap modulo `2^32` (two's complement); `/` truncates toward zero
  and has no result when the divisor is zero or the quotient is `2^31`.
* `Fp F` is an IEEE 754 binary floating-point datum of format `F`
  (`binary32` for `float`, `binary64` for `double`): NaN, a signed infinity,
  or a signed finite magnitude counted in units of the smallest subnormal.
  Arithmetic is exact arithmetic followed by round-to-nearest, ties-to-even.
* `Scalar T` collects what the templates ask of `T`; each member function is
  written once over it, as in the headers, and instantiated at `I32`, `F32`
  and `F64` for `Vector2i`, `Vector2f`, `Vector2d` and so on.

* `Convert T K` is the scalar conversion behind the conversion operators, and
  `Ostream` a stream in its default formatting state, to which `operator<<`
  appends text; `std::pow` is a parameter (`Libm`).

Signed overflow of `int` and the cast of an out-of-range `double` to `int` are
undefined in C++: the first is modelled by two's-complement wrap-around, the
second by the absence of a result.
-/

namespace VectorsCpp

/-! ## The scalar type `int` -/

/-- A 32-bit two's-complement integer, the C++ `int`. -/
structure I32 where
  val : Int
  lo : -2147483648 ≤ val
  hi : val ≤ 2147483647
deriving DecidableEq

namespace I32

/-- Reduction of a mathematical integer to its 32-bit two's-complement value. -/
def wrap (n : Int) : I32 :=
  ⟨(n + 2147483648) % 4294967296 - 2147483648, by omega, by omega⟩

/-- The `int` addition `a + b`. -/
def add (a b : I32) : I32 := wrap (a.val + b.val)

/-- The `int` subtraction `a - b`. -/
def sub (a b : I32) : I32 := wrap (a.val - b.val)

/-- The `int` multiplication `a * b`. -/
def mul (a b : I32) : I32 := wrap (a.val * b.val)

/-- The `int` negation `-a`. -/
def neg (a : I32) : I32 := wrap (-a.val)

/-- The `int` division `a / b`: quotient truncated toward zero; there is no
result (the program faults) when `b` is zero or the quotient is not an `int`. -/
def div (a b : I32) : Option I32 :=
  if b.val = 0 then none
  else if a.val = -2147483648 ∧ b.val = -1 then none
  else some (wrap (Int.tdiv a.val b.val))

/-- The comparison `a == b`. -/
def eq (a b : I32) : Bool := decide (a.val = b.val)

/-- The comparison `a >= b`. -/
def ge (a b : I32) : Bool := decide (b.val ≤ a.val)

end I32

/-! ## IEEE 754 binary floating point -/

/-- A binary interchange format: precision in bits and maximal exponent. -/
structure Fmt where
  prec : Nat
  emax : Nat

/-- The format of `float`. -/
def binary32 : Fmt := ⟨24, 127⟩

/-- The format of `double`. -/
def binary64 : Fmt := ⟨53, 1023⟩

namespace Fmt

/-- Minus the exponent of the smallest subnormal: 149 for `float`, 1074 for `double`. -/
def scale (F : Fmt) : Nat := F.emax + F.prec - 2

/-- The number one, counted in units of the smallest subnormal. -/
@[irreducible] def unit (F : Fmt) : Nat := 2 ^ F.scale

/-- The least magnitude (in units) that is too large to be finite: `2^(emax+1)`. -/
@[irreducible] def huge (F : Fmt) : Nat := 2 ^ (2 * F.emax + F.prec - 1)

end Fmt

/-- A floating-point datum of format `F`.  `fin neg mag` is the finite number
`(-1)^neg * mag * 2^(-F.scale)`; `fin false 0` and `fin true 0` are `+0` and `-0`. -/
inductive Fp (F : Fmt) where
  | nan : Fp F
  | inf (neg : Bool) : Fp F
  | fin (neg : Bool) (mag : Nat) : Fp F
deriving DecidableEq

/-- Number of binary digits of `n`, by halving at most `fuel` times. -/
def bitlenAux : Nat → Nat → Nat
  | 0, _ => 0
  | fuel + 1, n => if n = 0 then 0 else bitlenAux fuel (n / 2) + 1

/-- Number of binary digits of `n` (`0` for `0`). -/
def bitlen (n : Nat) : Nat := bitlenAux n n

/-- Integer square root, digit by digit, with at most `fuel` digits. -/
def isqrtAux : Nat → Nat → Nat
  | 0, _ => 0
  | fuel + 1, n =>
    if n = 0 then 0
    else
      let r := 2 * isqrtAux fuel (n / 4)
      if (r + 1) * (r + 1) ≤ n then r + 1 else r

/-- Integer square root: the greatest `r` with `r * r ≤ n`. -/
def isqrt (n : Nat) : Nat := isqrtAux n n

/-- The integer nearest to `num / den`, ties to the even one. -/
def rne (num den : Nat) : Nat :=
  let q := num / den
  let r := num % den
  if 2 * r < den then q
  else if den < 2 * r then q + 1
  else if q % 2 = 0 then q else q + 1

namespace Fp

variable {F : Fmt}

/-- The signed integer `(-1)^neg * mag`. -/
def sval (neg : Bool) (mag : Nat) : Int := if neg then -(mag : Int) else (mag : Int)

/-- Rounding to format `F` (nearest, ties to even) of the exact value
`(-1)^neg * (num / den)` given in units of the smallest subnormal: the quotient
is kept to `F.prec` significant bits, and overflows to infinity. -/
def round (F : Fmt) (neg : Bool) (num den : Nat) : Fp F :=
  let s := bitlen (num / den) - F.prec
  let m := rne num (den * 2 ^ s) * 2 ^ s
  if F.huge ≤ m then inf neg else fin neg m

/-- Conversion of an integer to format `F`. -/
def ofInt (F : Fmt) (n : Int) : Fp F := round F (decide (n < 0)) (n.natAbs * F.unit) 1

/-- Conversion from format `F` to format `G`. -/
def cvt (G : Fmt) : Fp F → Fp G
  | nan => nan
  | inf s => inf s
  | fin s a => round G s (a * G.unit) F.unit

/-- Truncation toward zero to an integer; none for NaN and the infinities. -/
def trunc : Fp F → Option Int
  | fin s a => some (sval s (a / F.unit))
  | _ => none

/-- Floating-point negation. -/
def neg : Fp F → Fp F
  | nan => nan
  | inf s => inf (!s)
  | fin s a => fin (!s) a

/-- Floating-point addition. -/
def add : Fp F → Fp F → Fp F
  | nan, _ => nan
  | _, nan => nan
  | inf s, inf t => if s = t then inf s else nan
  | inf s, fin _ _ => inf s
  | fin _ _, inf t => inf t
  | fin s a, fin t b =>
    let c : Int := sval s a + sval t b
    if c = 0 then fin (s && t) 0 else round F (decide (c < 0)) c.natAbs 1

/-- Floating-point subtraction. -/
def sub (x y : Fp F) : Fp F := add x (neg y)

/-- Floating-point multiplication. -/
def mul : Fp F → Fp F → Fp F
  | nan, _ => nan
  | _, nan => nan
  | inf s, inf t => inf (xor s t)
  | inf s, fin t b => if b = 0 then nan else inf (xor s t)
  | fin s a, inf t => if a = 0 then nan else inf (xor s t)
  | fin s a, fin t b => round F (xor s t) (a * b) F.unit

/-- Floating-point division. -/
def div : Fp F → Fp F → Fp F
  | nan, _ => nan
  | _, nan => nan
  | inf _, inf _ => nan
  | inf s, fin t _ => inf (xor s t)
  | fin s _, inf t => fin (xor s t) 0
  | fin s a, fin t b =>
    if b = 0 then (if a = 0 then nan else inf (xor s t))
    else round F (xor s t) (a * F.unit) b

/-- The magnitude (in units) nearest to the square root of `n / F.unit`,
where `N = n * F.unit`, kept to `F.prec` significant bits. -/
def sqrtMag (F : Fmt) (N : Nat) : Nat :=
  let s := bitlen (isqrt N) - F.prec
  let k := isqrt (N / 4 ^ s)
  let mid := (2 * k + 1) * (2 * k + 1) * 4 ^ s
  if 4 * N < mid then k * 2 ^ s
  else if mid < 4 * N then (k + 1) * 2 ^ s
  else if k % 2 = 0 then k * 2 ^ s else (k + 1) * 2 ^ s

/-- Floating-point square root (`std::sqrt`). -/
def sqrt : Fp F → Fp F
  | nan => nan
  | inf s => if s then nan else inf false
  | fin s a => if s then (if a = 0 then fin true 0 else nan) else fin false (sqrtMag F (a * F.unit))

/-- The comparison `x == y`. -/
def eq : Fp F → Fp F → Bool
  | inf s, inf t => decide (s = t)
  | fin s a, fin t b => decide (sval s a = sval t b)
  | _, _ => false

/-- The comparison `x != y`. -/
def ne (x y : Fp F) : Bool := !(eq x y)

/-- The comparison `x >= y`. -/
def ge : Fp F → Fp F → Bool
  | nan, _ => false
  | _, nan => false
  | inf s, inf t => !s || t
  | inf s, fin _ _ => !s
  | fin _ _, inf t => t
  | fin s a, fin t b => decide (sval t b ≤ sval s a)

end Fp

/-- The scalar type `float`. -/
abbrev F32 : Type := Fp binary32

/-- The scalar type `double`. -/
abbrev F64 : Type := Fp binary64

/-! ## The scalar parameter `T` -/

/-- What the class templates use of their scalar parameter `T`: the four
arithmetic operators, unary minus, `==`, `>=`, conversion from an `int`
(`static_cast<T>(1)`, the literal `0`), and conversion to and from `double`. -/
class Scalar (T : Type) where
  add : T → T → T
  sub : T → T → T
  mul : T → T → T
  div : T → T → Option T
  neg : T → T
  eq : T → T → Bool
  ge : T → T → Bool
  ofInt : Int → T
  toDouble : T → F64
  ofDouble : F64 → Option T

/-- Conversion `static_cast<int>(d)` of a `double`: truncation toward zero,
without a result when the truncated value is not an `int`. -/
def I32.ofDouble (d : F64) : Option I32 :=
  match Fp.trunc d with
  | some n => if h : -2147483648 ≤ n ∧ n ≤ 2147483647 then some ⟨n, h.1, h.2⟩ else none
  | none => none

instance instScalarI32 : Scalar I32 where
  add := I32.add
  sub := I32.sub
  mul := I32.mul
  div := I32.div
  neg := I32.neg
  eq := I32.eq
  ge := I32.ge
  ofInt := I32.wrap
  toDouble := fun a => Fp.ofInt binary64 a.val
  ofDouble := I32.ofDouble

instance instScalarF32 : Scalar F32 where
  add := Fp.add
  sub := Fp.sub
  mul := Fp.mul
  div := fun a b => some (Fp.div a b)
  neg := Fp.neg
  eq := Fp.eq
  ge := Fp.ge
  ofInt := Fp.ofInt binary32
  toDouble := Fp.cvt binary64
  ofDouble := fun d => some (Fp.cvt binary32 d)

instance instScalarF64 : Scalar F64 where
  add := Fp.add
  sub := Fp.sub
  mul := Fp.mul
  div := fun a b => some (Fp.div a b)
  neg := Fp.neg
  eq := Fp.eq
  ge := Fp.ge
  ofInt := Fp.ofInt binary64
  toDouble := fun a => a
  ofDouble := fun d => some d

/-! ## `Vector2<T>` -/

/-- The class template `Vector2<T>`. -/
structure Vector2 (T : Type) where
  x : T
  y : T
deriving DecidableEq

namespace Vector2

variable {T : Type} [Scalar T]

/-- The default constructor: members are value-initialised (`T x{}`). -/
def zero : Vector2 T := ⟨Scalar.ofInt 0, Scalar.ofInt 0⟩

/-- The comparison `operator==`. -/
def eq (v o : Vector2 T) : Bool := Scalar.eq v.x o.x && Scalar.eq v.y o.y

/-- Unary `operator+`. -/
def pos (v : Vector2 T) : Vector2 T := v

/-- Unary `operator-`. -/
def neg (v : Vector2 T) : Vector2 T := ⟨Scalar.neg v.x, Scalar.neg v.y⟩

/-- Vector `operator+`. -/
def add (v o : Vector2 T) : Vector2 T := ⟨Scalar.add v.x o.x, Scalar.add v.y o.y⟩

/-- Vector `operator-`. -/
def sub (v o : Vector2 T) : Vector2 T := ⟨Scalar.sub v.x o.x, Scalar.sub v.y o.y⟩

/-- Vector `operator*`. -/
def mul (v o : Vector2 T) : Vector2 T := ⟨Scalar.mul v.x o.x, Scalar.mul v.y o.y⟩

/-- Vector `operator/`. -/
def div (v o : Vector2 T) : Option (Vector2 T) :=
  (Scalar.div v.x o.x).bind fun a =>
  (Scalar.div v.y o.y).bind fun b => some ⟨a, b⟩

/-- Scalar `operator+`. -/
def adds (v : Vector2 T) (s : T) : Vector2 T := ⟨Scalar.add v.x s, Scalar.add v.y s⟩

/-- Scalar `operator-`. -/
def subs (v : Vector2 T) (s : T) : Vector2 T := ⟨Scalar.sub v.x s, Scalar.sub v.y s⟩

/-- Scalar `operator*`, the vector on the left. -/
def muls (v : Vector2 T) (s : T) : Vector2 T := ⟨Scalar.mul v.x s, Scalar.mul v.y s⟩

/-- Scalar `operator/`. -/
def divs (v : Vector2 T) (s : T) : Option (Vector2 T) :=
  (Scalar.div v.x s).bind fun a =>
  (Scalar.div v.y s).bind fun b => some ⟨a, b⟩

/-- The free `operator*(T s, const Vector2<T> &v)`, the scalar on the left. -/
def smul (s : T) (v : Vector2 T) : Vector2 T := v.muls s

/-- The member `dot`. -/
def dot (v o : Vector2 T) : T := Scalar.add (Scalar.mul v.x o.x) (Scalar.mul v.y o.y)

/-- The member `norm_squared`. -/
def norm_squared (v : Vector2 T) : F64 :=
  Fp.add (Fp.mul (Scalar.toDouble v.x) (Scalar.toDouble v.x))
    (Fp.mul (Scalar.toDouble v.y) (Scalar.toDouble v.y))

/-- The member `normSquared`. -/
def normSquared (v : Vector2 T) : F64 := v.norm_squared

/-- The member `norm`. -/
def norm (v : Vector2 T) : F64 :=
  Fp.sqrt (Fp.add (Fp.mul (Scalar.toDouble v.x) (Scalar.toDouble v.x))
    (Fp.mul (Scalar.toDouble v.y) (Scalar.toDouble v.y)))

/-- The member `length`. -/
def length (v : Vector2 T) : F64 := v.norm

/-- The member `normalize`: `n != 0 ? *this / static_cast<T>(n) : *this`. -/
def normalize (v : Vector2 T) : Option (Vector2 T) :=
  let n := v.norm
  if Fp.ne n (Fp.ofInt binary64 0) then (Scalar.ofDouble n).bind fun s => v.divs s
  else some v

/-- The member `sign`. -/
def sign (v : Vector2 T) : Vector2 T :=
  ⟨if Scalar.ge v.x (Scalar.ofInt 0) then Scalar.ofInt 1 else Scalar.ofInt (-1),
   if Scalar.ge v.y (Scalar.ofInt 0) then Scalar.ofInt 1 else Scalar.ofInt (-1)⟩

end Vector2

/-! ## `Vector3<T>` -/

/-- The class template `Vector3<T>`. -/
structure Vector3 (T : Type) where
  x : T
  y : T
  z : T
deriving DecidableEq

namespace Vector3

variable {T : Type} [Scalar T]

/-- The default constructor: members are value-initialised (`T x{}`). -/
def zero : Vector3 T := ⟨Scalar.ofInt 0, Scalar.ofInt 0, Scalar.ofInt 0⟩

/-- The comparison `operator==`. -/
def eq (v o : Vector3 T) : Bool := Scalar.eq v.x o.x && Scalar.eq v.y o.y && Scalar.eq v.z o.z

/-- Unary `operator+`. -/
def pos (v : Vector3 T) : Vector3 T := v

/-- Unary `operator-`. -/
def neg (v : Vector3 T) : Vector3 T := ⟨Scalar.neg v.x, Scalar.neg v.y, Scalar.neg v.z⟩

/-- Vector `operator+`. -/
def add (v o : Vector3 T) : Vector3 T :=
  ⟨Scalar.add v.x o.x, Scalar.add v.y o.y, Scalar.add v.z o.z⟩

/-- Vector `operator-`. -/
def sub (v o : Vector3 T) : Vector3 T :=
  ⟨Scalar.sub v.x o.x, Scalar.sub v.y o.y, Scalar.sub v.z o.z⟩

/-- Vector `operator*`. -/
def mul (v o : Vector3 T) : Vector3 T :=
  ⟨Scalar.mul v.x o.x, Scalar.mul v.y o.y, Scalar.mul v.z o.z⟩

/-- Vector `operator/`. -/
def div (v o : Vector3 T) : Option (Vector3 T) :=
  (Scalar.div v.x o.x).bind fun a =>
  (Scalar.div v.y o.y).bind fun b =>
  (Scalar.div v.z o.z).bind fun c => some ⟨a, b, c⟩

/-- Scalar `operator+`. -/
def adds (v : Vector3 T) (s : T) : Vector3 T :=
  ⟨Scalar.add v.x s, Scalar.add v.y s, Scalar.add v.z s⟩

/-- Scalar `operator-`. -/
def subs (v : Vector3 T) (s : T) : Vector3 T :=
  ⟨Scalar.sub v.x s, Scalar.sub v.y s, Scalar.sub v.z s⟩

/-- Scalar `operator*`, the vector on the left. -/
def muls (v : Vector3 T) (s : T) : Vector3 T :=
  ⟨Scalar.mul v.x s, Scalar.mul v.y s, Scalar.mul v.z s⟩

/-- Scalar `operator/`. -/
def divs (v : Vector3 T) (s : T) : Option (Vector3 T) :=
  (Scalar.div v.x s).bind fun a =>
  (Scalar.div v.y s).bind fun b =>
  (Scalar.div v.z s).bind fun c => some ⟨a, b, c⟩

/-- The free `operator*(T s, const Vector3<T> &v)`, the scalar on the left. -/
def smul (s : T) (v : Vector3 T) : Vector3 T := v.muls s

/-- The member `dot`. -/
def dot (v o : Vector3 T) : T :=
  Scalar.add (Scalar.add (Scalar.mul v.x o.x) (Scalar.mul v.y o.y)) (Scalar.mul v.z o.z)

/-- The member `cross`. -/
def cross (v o : Vector3 T) : Vector3 T :=
  ⟨Scalar.sub (Scalar.mul v.y o.z) (Scalar.mul v.z o.y),
   Scalar.sub (Scalar.mul v.z o.x) (Scalar.mul v.x o.z),
   Scalar.sub (Scalar.mul v.x o.y) (Scalar.mul v.y o.x)⟩

/-- The member `norm_squared`. -/
def norm_squared (v : Vector3 T) : F64 :=
  Fp.add (Fp.add (Fp.mul (Scalar.toDouble v.x) (Scalar.toDouble v.x)) (Fp.mul (Scalar.toDouble v.y) (Scalar.toDouble v.y))) (Fp.mul (Scalar.toDouble v.z) (Scalar.toDouble v.z))

/-- The member `normSquared`. -/
def normSquared (v : Vector3 T) : F64 := v.norm_squared

/-- The member `norm`. -/
def norm (v : Vector3 T) : F64 :=
  Fp.sqrt (Fp.add (Fp.add (Fp.mul (Scalar.toDouble v.x) (Scalar.toDouble v.x)) (Fp.mul (Scalar.toDouble v.y) (Scalar.toDouble v.y))) (Fp.mul (Scalar.toDouble v.z) (Scalar.toDouble v.z)))

/-- The member `length`. -/
def length (v : Vector3 T) : F64 := v.norm

/-- The member `normalize`: `n != 0 ? *this / static_cast<T>(n) : *this`. -/
def normalize (v : Vector3 T) : Option (Vector3 T) :=
  let n := v.norm
  if Fp.ne n (Fp.ofInt binary64 0) then (Scalar.ofDouble n).bind fun s => v.divs s
  else some v

/-- The member `sign`. -/
def sign (v : Vector3 T) : Vector3 T :=
  ⟨if Scalar.ge v.x (Scalar.ofInt 0) then Scalar.ofInt 1 else Scalar.ofInt (-1),
   if Scalar.ge v.y (Scalar.ofInt 0) then Scalar.ofInt 1 else Scalar.ofInt (-1),
   if Scalar.ge v.z (Scalar.ofInt 0) then Scalar.ofInt 1 else Scalar.ofInt (-1)⟩

end Vector3

/-! ## `Vector4<T>` -/

/-- The class template `Vector4<T>`. -/
structure Vector4 (T : Type) where
  x : T
  y : T
  z : T
  w : T
deriving DecidableEq

namespace Vector4

variable {T : Type} [Scalar T]

/-- The default constructor: members are value-initialised (`T x{}`). -/
def zero : Vector4 T := ⟨Scalar.ofInt 0, Scalar.ofInt 0, Scalar.ofInt 0, Scalar.ofInt 0⟩

/-- The comparison `operator==`. -/
def eq (v o : Vector4 T) : Bool := Scalar.eq v.x o.x && Scalar.eq v.y o.y && Scalar.eq v.z o.z && Scalar.eq v.w o.w

/-- Unary `operator+`. -/
def pos (v : Vector4 T) : Vector4 T := v

/-- Unary `operator-`. -/
def neg (v : Vector4 T) : Vector4 T := ⟨Scalar.neg v.x, Scalar.neg v.y, Scalar.neg v.z, Scalar.neg v.w⟩

/-- Vector `operator+`. -/
def add (v o : Vector4 T) : Vector4 T :=
  ⟨Scalar.add v.x o.x, Scalar.add v.y o.y, Scalar.add v.z o.z, Scalar.add v.w o.w⟩

/-- Vector `operator-`. -/
def sub (v o : Vector4 T) : Vector4 T :=
  ⟨Scalar.sub v.x o.x, Scalar.sub v.y o.y, Scalar.sub v.z o.z, Scalar.sub v.w o.w⟩

/-- Vector `operator*`. -/
def mul (v o : Vector4 T) : Vector4 T :=
  ⟨Scalar.mul v.x o.x, Scalar.mul v.y o.y, Scalar.mul v.z o.z, Scalar.mul v.w o.w⟩

/-- Vector `operator/`. -/
def div (v o : Vector4 T) : Option (Vector4 T) :=
  (Scalar.div v.x o.x).bind fun a =>
  (Scalar.div v.y o.y).bind fun b =>
  (Scalar.div v.z o.z).bind fun c =>
  (Scalar.div v.w o.w).bind fun d => some ⟨a, b, c, d⟩

/-- Scalar `operator+`. -/
def adds (v : Vector4 T) (s : T) : Vector4 T :=
  ⟨Scalar.add v.x s, Scalar.add v.y s, Scalar.add v.z s, Scalar.add v.w s⟩

/-- Scalar `operator-`. -/
def subs (v : Vector4 T) (s : T) : Vector4 T :=
  ⟨Scalar.sub v.x s, Scalar.sub v.y s, Scalar.sub v.z s, Scalar.sub v.w s⟩

/-- Scalar `operator*`, the vector on the left. -/
def muls (v : Vector4 T) (s : T) : Vector4 T :=
  ⟨Scalar.mul v.x s, Scalar.mul v.y s, Scalar.mul v.z s, Scalar.mul v.w s⟩

/-- Scalar `operator/`. -/
def divs (v : Vector4 T) (s : T) : Option (Vector4 T) :=
  (Scalar.div v.x s).bind fun a =>
  (Scalar.div v.y s).bind fun b =>
  (Scalar.div v.z s).bind fun c =>
  (Scalar.div v.w s).bind fun d => some ⟨a, b, c, d⟩

/-- The free `operator*(T s, const Vector4<T> &v)`, the scalar on the left. -/
def smul (s : T) (v : Vector4 T) : Vector4 T := v.muls s

/-- The member `dot`. -/
def dot (v o : Vector4 T) : T :=
  Scalar.add (Scalar.add (Scalar.add (Scalar.mul v.x o.x) (Scalar.mul v.y o.y)) (Scalar.mul v.z o.z)) (Scalar.mul v.w o.w)

/-- The member `norm_squared`. -/
def norm_squared (v : Vector4 T) : F64 :=
  Fp.add (Fp.add (Fp.add (Fp.mul (Scalar.toDouble v.x) (Scalar.toDouble v.x)) (Fp.mul (Scalar.toDouble v.y) (Scalar.toDouble v.y))) (Fp.mul (Scalar.toDouble v.z) (Scalar.toDouble v.z))) (Fp.mul (Scalar.toDouble v.w) (Scalar.toDouble v.w))

/-- The member `normSquared`. -/
def normSquared (v : Vector4 T) : F64 := v.norm_squared

/-- The member `norm`. -/
def norm (v : Vector4 T) : F64 :=
  Fp.sqrt (Fp.add (Fp.add (Fp.add (Fp.mul (Scalar.toDouble v.x) (Scalar.toDouble v.x)) (Fp.mul (Scalar.toDouble v.y) (Scalar.toDouble v.y))) (Fp.mul (Scalar.toDouble v.z) (Scalar.toDouble v.z))) (Fp.mul (Scalar.toDouble v.w) (Scalar.toDouble v.w)))

/-- The member `length`. -/
def length (v : Vector4 T) : F64 := v.norm

/-- The member `normalize`: `n != 0 ? *this / static_cast<T>(n) : *this`. -/
def normalize (v : Vector4 T) : Option (Vector4 T) :=
  let n := v.norm
  if Fp.ne n (Fp.ofInt binary64 0) then (Scalar.ofDouble n).bind fun s => v.divs s
  else some v

/-- The member `sign`. -/
def sign (v : Vector4 T) : Vector4 T :=
  ⟨if Scalar.ge v.x (Scalar.ofInt 0) then Scalar.ofInt 1 else Scalar.ofInt (-1),
   if Scalar.ge v.y (Scalar.ofInt 0) then Scalar.ofInt 1 else Scalar.ofInt (-1),
   if Scalar.ge v.z (Scalar.ofInt 0) then Scalar.ofInt 1 else Scalar.ofInt (-1),
   if Scalar.ge v.w (Scalar.ofInt 0) then Scalar.ofInt 1 else Scalar.ofInt (-1)⟩

end Vector4

/-! ## Compound assignment -/

namespace Vector2

variable {T : Type} [Scalar T]

/-- Vector `operator+=`: the receiver after `x += o.x; y += o.y;`. -/
def addAssign (v : Vector2 T) (o : Vector2 T) : Vector2 T :=
  let v1 : Vector2 T := { v with x := Scalar.add v.x o.x }
  { v1 with y := Scalar.add v1.y o.y }

/-- Scalar `operator+=`: the receiver after `x += s; y += s;`. -/
def addsAssign (v : Vector2 T) (s : T) : Vector2 T :=
  let v1 : Vector2 T := { v with x := Scalar.add v.x s }
  { v1 with y := Scalar.add v1.y s }

/-- Vector `operator-=`: the receiver after `x -= o.x; y -= o.y;`. -/
def subAssign (v : Vector2 T) (o : Vector2 T) : Vector2 T :=
  let v1 : Vector2 T := { v with x := Scalar.sub v.x o.x }
  { v1 with y := Scalar.sub v1.y o.y }

/-- Scalar `operator-=`: the receiver after `x -= s; y -= s;`. -/
def subsAssign (v : Vector2 T) (s : T) : Vector2 T :=
  let v1 : Vector2 T := { v with x := Scalar.sub v.x s }
  { v1 with y := Scalar.sub v1.y s }

/-- Vector `operator*=`: the receiver after `x *= o.x; y *= o.y;`. -/
def mulAssign (v : Vector2 T) (o : Vector2 T) : Vector2 T :=
  let v1 : Vector2 T := { v with x := Scalar.mul v.x o.x }
  { v1 with y := Scalar.mul v1.y o.y }

/-- Scalar `operator*=`: the receiver after `x *= s; y *= s;`. -/
def mulsAssign (v : Vector2 T) (s : T) : Vector2 T :=
  let v1 : Vector2 T := { v with x := Scalar.mul v.x s }
  { v1 with y := Scalar.mul v1.y s }

/-- Vector `operator/=`: the receiver after `x /= o.x; y /= o.y;`, if no division faults. -/
def divAssign (v : Vector2 T) (o : Vector2 T) : Option (Vector2 T) :=
  (Scalar.div v.x o.x).bind fun a =>
  let v1 : Vector2 T := { v with x := a }
  (Scalar.div v1.y o.y).bind fun b =>
  some { v1 with y := b }

/-- Scalar `operator/=`: the receiver after `x /= s; y /= s;`, if no division faults. -/
def divsAssign (v : Vector2 T) (s : T) : Option (Vector2 T) :=
  (Scalar.div v.x s).bind fun a =>
  let v1 : Vector2 T := { v with x := a }
  (Scalar.div v1.y s).bind fun b =>
  some { v1 with y := b }

/-- Vector `operator+=` called on the object at address `self`: the object is
updated in place and `return *this` yields its address. -/
def opAddAssign (σ : Nat → Vector2 T) (self : Nat) (o : Vector2 T) :
    (Nat → Vector2 T) × Nat :=
  (Function.update σ self ((σ self).addAssign o), self)

/-- Scalar `operator+=` called on the object at address `self`: the object is
updated in place and `return *this` yields its address. -/
def opAddsAssign (σ : Nat → Vector2 T) (self : Nat) (s : T) :
    (Nat → Vector2 T) × Nat :=
  (Function.update σ self ((σ self).addsAssign s), self)

/-- Vector `operator-=` called on the object at address `self`: the object is
updated in place and `return *this` yields its address. -/
def opSubAssign (σ : Nat → Vector2 T) (self : Nat) (o : Vector2 T) :
    (Nat → Vector2 T) × Nat :=
  (Function.update σ self ((σ self).subAssign o), self)

/-- Scalar `operator-=` called on the object at address `self`: the object is
updated in place and `return *this` yields its address. -/
def opSubsAssign (σ : Nat → Vector2 T) (self : Nat) (s : T) :
    (Nat → Vector2 T) × Nat :=
  (Function.update σ self ((σ self).subsAssign s), self)

/-- Vector `operator*=` called on the object at address `self`: the object is
updated in place and `return *this` yields its address. -/
def opMulAssign (σ : Nat → Vector2 T) (self : Nat) (o : Vector2 T) :
    (Nat → Vector2 T) × Nat :=
  (Function.update σ self ((σ self).mulAssign o), self)

/-- Scalar `operator*=` called on the object at address `self`: the object is
updated in place and `return *this` yields its address. -/
def opMulsAssign (σ : Nat → Vector2 T) (self : Nat) (s : T) :
    (Nat → Vector2 T) × Nat :=
  (Function.update σ self ((σ self).mulsAssign s), self)

/-- Vector `operator/=` called on the object at address `self`: the object is
updated in place and `return *this` yields its address. -/
def opDivAssign (σ : Nat → Vector2 T) (self : Nat) (o : Vector2 T) :
    Option ((Nat → Vector2 T) × Nat) :=
  ((σ self).divAssign o).map fun v => (Function.update σ self v, self)

/-- Scalar `operator/=` called on the object at address `self`: the object is
updated in place and `return *this` yields its address. -/
def opDivsAssign (σ : Nat → Vector2 T) (self : Nat) (s : T) :
    Option ((Nat → Vector2 T) × Nat) :=
  ((σ self).divsAssign s).map fun v => (Function.update σ self v, self)

end Vector2

namespace Vector3

variable {T : Type} [Scalar T]

/-- Vector `operator+=`: the receiver after `x += o.x; y += o.y; z += o.z;`. -/
def addAssign (v : Vector3 T) (o : Vector3 T) : Vector3 T :=
  let v1 : Vector3 T := { v with x := Scalar.add v.x o.x }
  let v2 : Vector3 T := { v1 with y := Scalar.add v1.y o.y }
  { v2 with z := Scalar.add v2.z o.z }

/-- Scalar `operator+=`: the receiver after `x += s; y += s; z += s;`. -/
def addsAssign (v : Vector3 T) (s : T) : Vector3 T :=
  let v1 : Vector3 T := { v with x := Scalar.add v.x s }
  let v2 : Vector3 T := { v1 with y := Scalar.add v1.y s }
  { v2 with z := Scalar.add v2.z s }

/-- Vector `operator-=`: the receiver after `x -= o.x; y -= o.y; z -= o.z;`. -/
def subAssign (v : Vector3 T) (o : Vector3 T) : Vector3 T :=
  let v1 : Vector3 T := { v with x := Scalar.sub v.x o.x }
  let v2 : Vector3 T := { v1 with y := Scalar.sub v1.y o.y }
  { v2 with z := Scalar.sub v2.z o.z }

/-- Scalar `operator-=`: the receiver after `x -= s; y -= s; z -= s;`. -/
def subsAssign (v : Vector3 T) (s : T) : Vector3 T :=
  let v1 : Vector3 T := { v with x := Scalar.sub v.x s }
  let v2 : Vector3 T := { v1 with y := Scalar.sub v1.y s }
  { v2 with z := Scalar.sub v2.z s }

/-- Vector `operator*=`: the receiver after `x *= o.x; y *= o.y; z *= o.z;`. -/
def mulAssign (v : Vector3 T) (o : Vector3 T) : Vector3 T :=
  let v1 : Vector3 T := { v with x := Scalar.mul v.x o.x }
  let v2 : Vector3 T := { v1 with y := Scalar.mul v1.y o.y }
  { v2 with z := Scalar.mul v2.z o.z }

/-- Scalar `operator*=`: the receiver after `x *= s; y *= s; z *= s;`. -/
def mulsAssign (v : Vector3 T) (s : T) : Vector3 T :=
  let v1 : Vector3 T := { v with x := Scalar.mul v.x s }
  let v2 : Vector3 T := { v1 with y := Scalar.mul v1.y s }
  { v2 with z := Scalar.mul v2.z s }

/-- Vector `operator/=`: the receiver after `x /= o.x; y /= o.y; z /= o.z;`, if no division faults. -/
def divAssign (v : Vector3 T) (o : Vector3 T) : Option (Vector3 T) :=
  (Scalar.div v.x o.x).bind fun a =>
  let v1 : Vector3 T := { v with x := a }
  (Scalar.div v1.y o.y).bind fun b =>
  let v2 : Vector3 T := { v1 with y := b }
  (Scalar.div v2.z o.z).bind fun c =>
  some { v2 with z := c }

/-- Scalar `operator/=`: the receiver after `x /= s; y /= s; z /= s;`, if no division faults. -/
def divsAssign (v : Vector3 T) (s : T) : Option (Vector3 T) :=
  (Scalar.div v.x s).bind fun a =>
  let v1 : Vector3 T := { v with x := a }
  (Scalar.div v1.y s).bind fun b =>
  let v2 : Vector3 T := { v1 with y := b }
  (Scalar.div v2.z s).bind fun c =>
  some { v2 with z := c }

/-- Vector `operator+=` called on the object at address `self`: the object is
updated in place and `return *this` yields its address. -/
def opAddAssign (σ : Nat → Vector3 T) (self : Nat) (o : Vector3 T) :
    (Nat → Vector3 T) × Nat :=
  (Function.update σ self ((σ self).addAssign o), self)

/-- Scalar `operator+=` called on the object at address `self`: the object is
updated in place and `return *this` yields its address. -/
def opAddsAssign (σ : Nat → Vector3 T) (self : Nat) (s : T) :
    (Nat → Vector3 T) × Nat :=
  (Function.update σ self ((σ self).addsAssign s), self)

/-- Vector `operator-=` called on the object at address `self`: the object is
updated in place and `return *this` yields its address. -/
def opSubAssign (σ : Nat → Vector3 T) (self : Nat) (o : Vector3 T) :
    (Nat → Vector3 T) × Nat :=
  (Function.update σ self ((σ self).subAssign o), self)

/-- Scalar `operator-=` called on the object at address `self`: the object is
updated in place and `return *this` yields its address. -/
def opSubsAssign (σ : Nat → Vector3 T) (self : Nat) (s : T) :
    (Nat → Vector3 T) × Nat :=
  (Function.update σ self ((σ self).subsAssign s), self)

/-- Vector `operator*=` called on the object at address `self`: the object is
updated in place and `return *this` yields its address. -/
def opMulAssign (σ : Nat → Vector3 T) (self : Nat) (o : Vector3 T) :
    (Nat → Vector3 T) × Nat :=
  (Function.update σ self ((σ self).mulAssign o), self)

/-- Scalar `operator*=` called on the object at address `self`: the object is
updated in place and `return *this` yields its address. -/
def opMulsAssign (σ : Nat → Vector3 T) (self : Nat) (s : T) :
    (Nat → Vector3 T) × Nat :=
  (Function.update σ self ((σ self).mulsAssign s), self)

/-- Vector `operator/=` called on the object at address `self`: the object is
updated in place and `return *this` yields its address. -/
def opDivAssign (σ : Nat → Vector3 T) (self : Nat) (o : Vector3 T) :
    Option ((Nat → Vector3 T) × Nat) :=
  ((σ self).divAssign o).map fun v => (Function.update σ self v, self)

/-- Scalar `operator/=` called on the object at address `self`: the object is
updated in place and `return *this` yields its address. -/
def opDivsAssign (σ : Nat → Vector3 T) (self : Nat) (s : T) :
    Option ((Nat → Vector3 T) × Nat) :=
  ((σ self).divsAssign s).map fun v => (Function.update σ self v, self)

end Vector3

namespace Vector4

variable {T : Type} [Scalar T]

/-- Vector `operator+=`: the receiver after `x += o.x; y += o.y; z += o.z; w += o.w;`. -/
def addAssign (v : Vector4 T) (o : Vector4 T) : Vector4 T :=
  let v1 : Vector4 T := { v with x := Scalar.add v.x o.x }
  let v2 : Vector4 T := { v1 with y := Scalar.add v1.y o.y }
  let v3 : Vector4 T := { v2 with z := Scalar.add v2.z o.z }
  { v3 with w := Scalar.add v3.w o.w }

/-- Scalar `operator+=`: the receiver after `x += s; y += s; z += s; w += s;`. -/
def addsAssign (v : Vector4 T) (s : T) : Vector4 T :=
  let v1 : Vector4 T := { v with x := Scalar.add v.x s }
  let v2 : Vector4 T := { v1 with y := Scalar.add v1.y s }
  let v3 : Vector4 T := { v2 with z := Scalar.add v2.z s }
  { v3 with w := Scalar.add v3.w s }

/-- Vector `operator-=`: the receiver after `x -= o.x; y -= o.y; z -= o.z; w -= o.w;`. -/
def subAssign (v : Vector4 T) (o : Vector4 T) : Vector4 T :=
  let v1 : Vector4 T := { v with x := Scalar.sub v.x o.x }
  let v2 : Vector4 T := { v1 with y := Scalar.sub v1.y o.y }
  let v3 : Vector4 T := { v2 with z := Scalar.sub v2.z o.z }
  { v3 with w := Scalar.sub v3.w o.w }

/-- Scalar `operator-=`: the receiver after `x -= s; y -= s; z -= s; w -= s;`. -/
def subsAssign (v : Vector4 T) (s : T) : Vector4 T :=
  let v1 : Vector4 T := { v with x := Scalar.sub v.x s }
  let v2 : Vector4 T := { v1 with y := Scalar.sub v1.y s }
  let v3 : Vector4 T := { v2 with z := Scalar.sub v2.z s }
  { v3 with w := Scalar.sub v3.w s }

/-- Vector `operator*=`: the receiver after `x *= o.x; y *= o.y; z *= o.z; w *= o.w;`. -/
def mulAssign (v : Vector4 T) (o : Vector4 T) : Vector4 T :=
  let v1 : Vector4 T := { v with x := Scalar.mul v.x o.x }
  let v2 : Vector4 T := { v1 with y := Scalar.mul v1.y o.y }
  let v3 : Vector4 T := { v2 with z := Scalar.mul v2.z o.z }
  { v3 with w := Scalar.mul v3.w o.w }

/-- Scalar `operator*=`: the receiver after `x *= s; y *= s; z *= s; w *= s;`. -/
def mulsAssign (v : Vector4 T) (s : T) : Vector4 T :=
  let v1 : Vector4 T := { v with x := Scalar.mul v.x s }
  let v2 : Vector4 T := { v1 with y := Scalar.mul v1.y s }
  let v3 : Vector4 T := { v2 with z := Scalar.mul v2.z s }
  { v3 with w := Scalar.mul v3.w s }

/-- Vector `operator/=`: the receiver after `x /= o.x; y /= o.y; z /= o.z; w /= o.w;`, if no division faults. -/
def divAssign (v : Vector4 T) (o : Vector4 T) : Option (Vector4 T) :=
  (Scalar.div v.x o.x).bind fun a =>
  let v1 : Vector4 T := { v with x := a }
  (Scalar.div v1.y o.y).bind fun b =>
  let v2 : Vector4 T := { v1 with y := b }
  (Scalar.div v2.z o.z).bind fun c =>
  let v3 : Vector4 T := { v2 with z := c }
  (Scalar.div v3.w o.w).bind fun d =>
  some { v3 with w := d }

/-- Scalar `operator/=`: the receiver after `x /= s; y /= s; z /= s; w /= s;`, if no division faults. -/
def divsAssign (v : Vector4 T) (s : T) : Option (Vector4 T) :=
  (Scalar.div v.x s).bind fun a =>
  let v1 : Vector4 T := { v with x := a }
  (Scalar.div v1.y s).bind fun b =>
  let v2 : Vector4 T := { v1 with y := b }
  (Scalar.div v2.z s).bind fun c =>
  let v3 : Vector4 T := { v2 with z := c }
  (Scalar.div v3.w s).bind fun d =>
  some { v3 with w := d }

/-- Vector `operator+=` called on the object at address `self`: the object is
updated in place and `return *this` yields its address. -/
def opAddAssign (σ : Nat → Vector4 T) (self : Nat) (o : Vector4 T) :
    (Nat → Vector4 T) × Nat :=
  (Function.update σ self ((σ self).addAssign o), self)

/-- Scalar `operator+=` called on the object at address `self`: the object is
updated in place and `return *this` yields its address. -/
def opAddsAssign (σ : Nat → Vector4 T) (self : Nat) (s : T) :
    (Nat → Vector4 T) × Nat :=
  (Function.update σ self ((σ self).addsAssign s), self)

/-- Vector `operator-=` called on the object at address `self`: the object is
updated in place and `return *this` yields its address. -/
def opSubAssign (σ : Nat → Vector4 T) (self : Nat) (o : Vector4 T) :
    (Nat → Vector4 T) × Nat :=
  (Function.update σ self ((σ self).subAssign o), self)

/-- Scalar `operator-=` called on the object at address `self`: the object is
updated in place and `return *this` yields its address. -/
def opSubsAssign (σ : Nat → Vector4 T) (self : Nat) (s : T) :
    (Nat → Vector4 T) × Nat :=
  (Function.update σ self ((σ self).subsAssign s), self)

/-- Vector `operator*=` called on the object at address `self`: the object is
updated in place and `return *this` yields its address. -/
def opMulAssign (σ : Nat → Vector4 T) (self : Nat) (o : Vector4 T) :
    (Nat → Vector4 T) × Nat :=
  (Function.update σ self ((σ self).mulAssign o), self)

/-- Scalar `operator*=` called on the object at address `self`: the object is
updated in place and `return *this` yields its address. -/
def opMulsAssign (σ : Nat → Vector4 T) (self : Nat) (s : T) :
    (Nat → Vector4 T) × Nat :=
  (Function.update σ self ((σ self).mulsAssign s), self)

/-- Vector `operator/=` called on the object at address `self`: the object is
updated in place and `return *this` yields its address. -/
def opDivAssign (σ : Nat → Vector4 T) (self : Nat) (o : Vector4 T) :
    Option ((Nat → Vector4 T) × Nat) :=
  ((σ self).divAssign o).map fun v => (Function.update σ self v, self)

/-- Scalar `operator/=` called on the object at address `self`: the object is
updated in place and `return *this` yields its address. -/
def opDivsAssign (σ : Nat → Vector4 T) (self : Nat) (s : T) :
    Option ((Nat → Vector4 T) × Nat) :=
  ((σ self).divsAssign s).map fun v => (Function.update σ self v, self)

end Vector4

/-! ## `std::pow` -/

/-- The functions of `<cmath>` called by the headers whose results are not
fixed bit for bit by the language: `std::pow` on `double` and on `float`.
They are a parameter of `pow` below. -/
structure Libm where
  pow : F64 → F64 → F64
  powf : F32 → F32 → F32

/-- The expression `static_cast<T>(std::pow(x, exp))` for `x` and `exp` of type
`T`: for `int` both arguments are converted to `double`, the power is computed
in `double` and the result is cast to `int`; for `float` and `double` the
overload of the type itself is called and the cast does nothing. -/
class StdPow (T : Type) where
  powCast : Libm → T → T → Option T

instance instStdPowI32 : StdPow I32 where
  powCast := fun L x e =>
    I32.ofDouble (L.pow (Fp.ofInt binary64 x.val) (Fp.ofInt binary64 e.val))

instance instStdPowF32 : StdPow F32 where
  powCast := fun L x e => some (L.powf x e)

instance instStdPowF64 : StdPow F64 where
  powCast := fun L x e => some (L.pow x e)

/-- The member `pow` of `Vector2<T>`. -/
def Vector2.pow {T : Type} [StdPow T] (L : Libm) (v : Vector2 T) (exp : T) :
    Option (Vector2 T) :=
  (StdPow.powCast L v.x exp).bind fun a =>
  (StdPow.powCast L v.y exp).bind fun b => some ⟨a, b⟩

/-- The member `pow` of `Vector3<T>`. -/
def Vector3.pow {T : Type} [StdPow T] (L : Libm) (v : Vector3 T) (exp : T) :
    Option (Vector3 T) :=
  (StdPow.powCast L v.x exp).bind fun a =>
  (StdPow.powCast L v.y exp).bind fun b =>
  (StdPow.powCast L v.z exp).bind fun c => some ⟨a, b, c⟩

/-- The member `pow` of `Vector4<T>`. -/
def Vector4.pow {T : Type} [StdPow T] (L : Libm) (v : Vector4 T) (exp : T) :
    Option (Vector4 T) :=
  (StdPow.powCast L v.x exp).bind fun a =>
  (StdPow.powCast L v.y exp).bind fun b =>
  (StdPow.powCast L v.z exp).bind fun c =>
  (StdPow.powCast L v.w exp).bind fun d => some ⟨a, b, c, d⟩

/-- The power `x^n` of a `double` for a natural exponent `n`, correctly rounded. -/
def Fp.powNat {F : Fmt} (x : Fp F) (n : Nat) : Fp F :=
  if n = 0 then Fp.fin false F.unit
  else
    match x with
    | Fp.nan => Fp.nan
    | Fp.inf s => Fp.inf (s && decide (n % 2 = 1))
    | Fp.fin s a => Fp.round F (s && decide (n % 2 = 1)) (a ^ n * F.unit) (F.unit ^ n)

/-- A `pow` that is correctly rounded whenever the exponent is a non-negative
integer (`pow(x, 0)` is `1` for every `x`), and NaN for every other exponent. -/
def Fp.powIntegral {F : Fmt} (x y : Fp F) : Fp F :=
  match y with
  | Fp.fin s m =>
    if m = 0 then Fp.fin false F.unit
    else if s = false ∧ m % F.unit = 0 then Fp.powNat x (m / F.unit)
    else Fp.nan
  | _ => Fp.nan

/-- A library whose `pow` is `Fp.powIntegral`. -/
def Libm.integral : Libm := ⟨Fp.powIntegral, Fp.powIntegral⟩

/-! ## Range of the finite `double`s -/

/-- The largest finite magnitude of format `F`, in units of the smallest
subnormal: `(2^prec - 1) * 2^(emax - prec + 1)` as a number. -/
@[irreducible] def Fmt.maxFinite (F : Fmt) : Nat := (2 ^ F.prec - 1) * 2 ^ (2 * F.emax - 1)

/-- Whether a datum is NaN, `+inf`, or finite, not negative and not above the
largest finite magnitude: the possible values of a sum of squares. -/
def Fp.isSquareSum {F : Fmt} : Fp F → Bool
  | Fp.nan => true
  | Fp.inf s => !s
  | Fp.fin s a => !s && decide (a ≤ F.maxFinite)

/-! ## Conversion between scalar types -/

/-- Conversion `static_cast<int>(f)` of a `float`: truncation toward zero,
without a result when the truncated value is not an `int`. -/
def I32.ofFloat (d : F32) : Option I32 :=
  match Fp.trunc d with
  | some n => if h : -2147483648 ≤ n ∧ n ≤ 2147483647 then some ⟨n, h.1, h.2⟩ else none
  | none => none

/-- The implicit conversion of a value of type `T` to another scalar type `K`,
as applied to the arguments of `Vector2<K>(x, y)` in the conversion operators:
`int` to `float` or `double` gives the nearest value of the target, `float` or
`double` to `int` truncates toward zero, `float` to `double` and `double` to
`float` give the nearest value of the target. -/
class Convert (T K : Type) where
  conv : T → Option K

instance instConvertI32F32 : Convert I32 F32 where
  conv := fun a => some (Fp.ofInt binary32 a.val)

instance instConvertI32F64 : Convert I32 F64 where
  conv := fun a => some (Fp.ofInt binary64 a.val)

instance instConvertF32I32 : Convert F32 I32 where
  conv := I32.ofFloat

instance instConvertF64I32 : Convert F64 I32 where
  conv := I32.ofDouble

instance instConvertF32F64 : Convert F32 F64 where
  conv := fun a => some (Fp.cvt binary64 a)

instance instConvertF64F32 : Convert F64 F32 where
  conv := fun a => some (Fp.cvt binary32 a)

/-- The conversion `operator Vector2<K>()` of `Vector2<T>`: `Vector2<K>(x, y)`. -/
def Vector2.convert {T K : Type} [Convert T K] (v : Vector2 T) : Option (Vector2 K) :=
  (Convert.conv v.x).bind fun a =>
  (Convert.conv v.y).bind fun b => some ⟨a, b⟩

/-- The conversion `operator Vector3<K>()` of `Vector3<T>`: `Vector3<K>(x, y, z)`. -/
def Vector3.convert {T K : Type} [Convert T K] (v : Vector3 T) : Option (Vector3 K) :=
  (Convert.conv v.x).bind fun a =>
  (Convert.conv v.y).bind fun b =>
  (Convert.conv v.z).bind fun c => some ⟨a, b, c⟩

/-- The conversion `operator Vector4<K>()` of `Vector4<T>`: `Vector4<K>(x, y, z, w)`. -/
def Vector4.convert {T K : Type} [Convert T K] (v : Vector4 T) : Option (Vector4 K) :=
  (Convert.conv v.x).bind fun a =>
  (Convert.conv v.y).bind fun b =>
  (Convert.conv v.z).bind fun c =>
  (Convert.conv v.w).bind fun d => some ⟨a, b, c, d⟩

/-- The value of a decimal floating literal with the digits `digits`, the last
`k` of them after the point (`1.124f` is `Fp.lit binary32 1124 3`): the datum
of the format nearest to `digits / 10^k`. -/
def Fp.lit (F : Fmt) (digits k : Nat) : Fp F := Fp.round F false (digits * F.unit) (10 ^ k)

/-! ## A call of `pow` with a `double` argument -/

/-- The call `v.pow(e)` on a `Vector2<T>` with an argument `e` of type
`double`: the parameter `exp` of `pow` has type `T`, so the argument is
converted to `T` at the call (for `int`: truncated toward zero) and the body
runs on the converted value. -/
def Vector2.powOfDouble {T : Type} [Scalar T] [StdPow T] (L : Libm) (v : Vector2 T)
    (e : F64) : Option (Vector2 T) :=
  (Scalar.ofDouble e).bind fun exp => v.pow L exp

/-- The call `v.pow(e)` on a `Vector3<T>` with an argument `e` of type `double`. -/
def Vector3.powOfDouble {T : Type} [Scalar T] [StdPow T] (L : Libm) (v : Vector3 T)
    (e : F64) : Option (Vector3 T) :=
  (Scalar.ofDouble e).bind fun exp => v.pow L exp

/-- The call `v.pow(e)` on a `Vector4<T>` with an argument `e` of type `double`. -/
def Vector4.powOfDouble {T : Type} [Scalar T] [StdPow T] (L : Libm) (v : Vector4 T)
    (e : F64) : Option (Vector4 T) :=
  (Scalar.ofDouble e).bind fun exp => v.pow L exp

/-- A `pow` that is the correctly rounded square root when the exponent is
one half (`pow(-0, 0.5)` is `+0` and `pow(-inf, 0.5)` is `+inf`), and
`Fp.powIntegral` for every other exponent. -/
def Fp.powHalf {F : Fmt} (x y : Fp F) : Fp F :=
  if y = Fp.fin false (F.unit / 2) then
    match x with
    | Fp.fin true 0 => Fp.fin false 0
    | Fp.inf true => Fp.inf false
    | _ => Fp.sqrt x
  else Fp.powIntegral x y

/-- A library whose `pow` is `Fp.powHalf`. -/
def Libm.withSqrt : Libm := ⟨Fp.powHalf, Fp.powHalf⟩

/-! ## Stream output -/

/-- An output stream in its default formatting state (decimal base, no field
width, precision 6, none of `showpos`, `showpoint`, `uppercase`, the classic
locale): the characters written so far. -/
structure Ostream where
  text : String
deriving DecidableEq

/-- What `os << x` appends for a scalar `x`: the text that the inserter of the
standard library writes for the type on a stream in its default state. -/
class Insert (T : Type) where
  render : T → String

namespace Ostream

/-- The insertion `os << s` of a string literal. -/
def putStr (os : Ostream) (s : String) : Ostream := ⟨os.text ++ s⟩

/-- The insertion `os << x` of a scalar. -/
def put {T : Type} [Insert T] (os : Ostream) (x : T) : Ostream := ⟨os.text ++ Insert.render x⟩

end Ostream

/-- The text of an `int` on a default stream: its decimal digits, most
significant first, after a minus sign when it is negative. -/
def I32.render (a : I32) : String :=
  if a.val < 0 then "-" ++ Nat.repr a.val.natAbs else Nat.repr a.val.natAbs

/-- The number that a string of decimal digits denotes. -/
def decimalValue (cs : List Char) : Nat := cs.foldl (fun a c => 10 * a + (c.toNat - 48)) 0

/-- The decimal exponent of `num / den` when it is at least `1`: the least
`X` from `X` on with `num / den < 10^(X+1)`, by at most `fuel` steps. -/
def log10Up : Nat → Nat → Nat → Nat → Nat
  | 0, _, _, X => X
  | fuel + 1, num, den, X =>
    if num < den * 10 ^ (X + 1) then X else log10Up fuel num den (X + 1)

/-- Minus the decimal exponent of `num / den` when it is below `1`: the least
`Y` from `Y` on with `1 <= (num / den) * 10^Y`, by at most `fuel` steps. -/
def log10Down : Nat → Nat → Nat → Nat → Nat
  | 0, _, _, Y => Y
  | fuel + 1, num, den, Y =>
    if den ≤ num * 10 ^ Y then Y else log10Down fuel num den (Y + 1)

/-- A string of digits without its trailing zeros. -/
def stripZeros (cs : List Char) : List Char := (cs.reverse.dropWhile (fun c => c == '0')).reverse

/-- A fraction part after its decimal point; nothing when there is no digit. -/
def fracPart (cs : List Char) : List Char := if cs.isEmpty then [] else '.' :: cs

/-- The conversion `%g` with precision 6 of the positive number `num / den`,
as `printf` defines it: the number is rounded to six significant decimal
digits (to nearest, ties to even), with decimal exponent `X`; for
`-4 <= X < 6` it is written in fixed notation and otherwise as
`d.ddddde+XX`, in both cases without trailing zeros of the fraction and
without the point when no fraction is left. -/
def formatG (num den : Nat) : List Char :=
  let up := decide (den ≤ num)
  let e0 := if up then log10Up 400 num den 0 else log10Down 400 num den 1
  -- six significant digits: the number divided by `10^(X-5)`
  let d0 :=
    if up then
      (if 5 ≤ e0 then rne num (den * 10 ^ (e0 - 5)) else rne (num * 10 ^ (5 - e0)) den)
    else rne (num * 10 ^ (5 + e0)) den
  let carry := decide (d0 = 1000000)
  let d := if carry then 100000 else d0
  -- the decimal exponent is `x` when `pos`, and `-x` otherwise
  let pos := up || (carry && decide (e0 = 1))
  let x := if up then (if carry then e0 + 1 else e0) else (if carry then e0 - 1 else e0)
  let ds := Nat.toDigits 10 d
  if pos then
    if x < 6 then ds.take (x + 1) ++ fracPart (stripZeros (ds.drop (x + 1)))
    else ds.take 1 ++ fracPart (stripZeros (ds.drop 1)) ++ 'e' :: '+' ::
      (if x < 10 then '0' :: Nat.toDigits 10 x else Nat.toDigits 10 x)
  else
    if x ≤ 4 then '0' :: '.' :: (List.replicate (x - 1) '0' ++ stripZeros ds)
    else ds.take 1 ++ fracPart (stripZeros (ds.drop 1)) ++ 'e' :: '-' ::
      (if x < 10 then '0' :: Nat.toDigits 10 x else Nat.toDigits 10 x)

/-- The text of a floating value on a default stream: `nan`, `inf`, or the
`%g` conversion with precision 6 of the magnitude, after a minus sign when the
sign bit is set; a zero is written `0`.  The `NaN` of this model is the one
that arithmetic produces (`0 * inf`, `inf - inf`, the square root of a negative
number): on x86-64 its sign bit is set, and it is written `-nan`. -/
def Fp.render {F : Fmt} : Fp F → String
  | Fp.nan => "-nan"
  | Fp.inf s => if s then "-inf" else "inf"
  | Fp.fin s m =>
    String.mk ((if s then ['-'] else []) ++ (if m = 0 then ['0'] else formatG m F.unit))

instance instInsertI32 : Insert I32 where
  render := I32.render

instance instInsertF32 : Insert F32 where
  render := Fp.render

instance instInsertF64 : Insert F64 where
  render := Fp.render

/-- The friend `operator<<` of `Vector2<T>`:
`os << "Vector2(x=" << vec.x << ", y=" << vec.y << ")"`; the stream is returned. -/
def Vector2.output {T : Type} [Insert T] (os : Ostream) (vec : Vector2 T) : Ostream :=
  ((((os.putStr "Vector2(x=").put vec.x).putStr ", y=").put vec.y).putStr ")"

/-- The friend `operator<<` of `Vector3<T>`:
`os << "Vector3(x=" << v.x << ", y=" << v.y << ", z=" << v.z << ")"`. -/
def Vector3.output {T : Type} [Insert T] (os : Ostream) (v : Vector3 T) : Ostream :=
  ((((((os.putStr "Vector3(x=").put v.x).putStr ", y=").put v.y).putStr ", z=").put
    v.z).putStr ")"

/-- The friend `operator<<` of `Vector4<T>`: `os << "Vector4(x=" << v.x <<
", y=" << v.y << ", z=" << v.z << ", w=" << v.w << ")"`. -/
def Vector4.output {T : Type} [Insert T] (os : Ostream) (v : Vector4 T) : Ostream :=
  ((((((((os.putStr "Vector4(x=").put v.x).putStr ", y=").put v.y).putStr ", z=").put
    v.z).putStr ", w=").put v.w).putStr ")"

/-! ## Range of the components for a normalisation without underflow -/

/-- The value is a zero, or a finite number of magnitude from `2^-k` to `2^k`. -/
def Fp.inBand {F : Fmt} (k : Nat) : Fp F → Bool
  | Fp.fin _ a => decide (a = 0) || (decide (F.unit ≤ a * 2 ^ k) && decide (a ≤ F.unit * 2 ^ k))
  | _ => false

/-! ## Arithmetic of `int` -/

namespace I32

theorem ext_val {a b : I32} (h : a.val = b.val) : a = b := by
  cases a; cases b; simp_all

/-- Reduction does not change the residue modulo `2^32`. -/
theorem wrap_val_cast (n : Int) :
    (((wrap n).val : Int) : ZMod 4294967296) = (n : ZMod 4294967296) := by
  rw [ZMod.intCast_eq_intCast_iff]
  show ((n + 2147483648) % 4294967296 - 2147483648) ≡ n [ZMOD 4294967296]
  unfold Int.ModEq
  omega

/-- Two `int` values with the same residue modulo `2^32` are equal. -/
theorem eq_of_cast {a b : I32}
    (h : ((a.val : Int) : ZMod 4294967296) = (b.val : ZMod 4294967296)) : a = b := by
  apply ext_val
  have h1 := (ZMod.intCast_eq_intCast_iff _ _ _).1 h
  have := a.lo; have := a.hi; have := b.lo; have := b.hi
  unfold Int.ModEq at h1
  push_cast at h1
  omega

/-- A value already in range is not changed by reduction. -/
theorem wrap_of_range {n : Int} (h1 : -2147483648 ≤ n) (h2 : n ≤ 2147483647) :
    (wrap n).val = n := by
  show (n + 2147483648) % 4294967296 - 2147483648 = n
  omega

theorem wrap_val (a : I32) : wrap a.val = a :=
  ext_val (wrap_of_range a.lo a.hi)

end I32

/-! ## Cross product -/

/-- C1: cross-product orthogonality. For every pair of `int` vectors `v`, `w`,
both `v.dot(v.cross(w))` and `w.dot(v.cross(w))` are zero, with every `+`, `-`
and `*` reduced modulo `2^32` (so also when intermediate products wrap around). -/
theorem cross_orthogonal (v w : Vector3 I32) :
    (v.dot (v.cross w)).val = 0 ∧ (w.dot (v.cross w)).val = 0 := by
  have hz : ∀ a : I32, a = I32.wrap 0 → a.val = 0 := by
    intro a h
    rw [h]
    decide
  constructor <;> apply hz <;> apply I32.eq_of_cast <;>
    simp only [Vector3.dot, Vector3.cross, Scalar.add, Scalar.sub, Scalar.mul, I32.add, I32.sub,
      I32.mul, I32.wrap_val_cast, Int.cast_add, Int.cast_sub, Int.cast_mul, Int.cast_zero] <;>
    ring

/-- C2: `cross` is the right-handed cross product
`(y*oz - z*oy, z*ox - x*oz, x*oy - y*ox)` in the arithmetic of the scalar type;
for `int` each component is that integer expression reduced modulo `2^32`;
and `(1,0,0) x (0,1,0) = (0,0,1)` for `int` and for `double`. -/
theorem cross_formula :
    (∀ (T : Type) [Scalar T] (v o : Vector3 T),
      v.cross o =
        ⟨Scalar.sub (Scalar.mul v.y o.z) (Scalar.mul v.z o.y),
         Scalar.sub (Scalar.mul v.z o.x) (Scalar.mul v.x o.z),
         Scalar.sub (Scalar.mul v.x o.y) (Scalar.mul v.y o.x)⟩) ∧
    (∀ v o : Vector3 I32,
      v.cross o =
        ⟨I32.wrap (v.y.val * o.z.val - v.z.val * o.y.val),
         I32.wrap (v.z.val * o.x.val - v.x.val * o.z.val),
         I32.wrap (v.x.val * o.y.val - v.y.val * o.x.val)⟩) ∧
    (Vector3.cross (⟨I32.wrap 1, I32.wrap 0, I32.wrap 0⟩ : Vector3 I32)
        ⟨I32.wrap 0, I32.wrap 1, I32.wrap 0⟩ = ⟨I32.wrap 0, I32.wrap 0, I32.wrap 1⟩) ∧
    (Vector3.cross (⟨Fp.ofInt binary64 1, Fp.ofInt binary64 0, Fp.ofInt binary64 0⟩ : Vector3 F64)
        ⟨Fp.ofInt binary64 0, Fp.ofInt binary64 1, Fp.ofInt binary64 0⟩ =
      ⟨Fp.ofInt binary64 0, Fp.ofInt binary64 0, Fp.ofInt binary64 1⟩) := by
  refine ⟨fun _ _ _ _ => rfl, ?_, by decide, by decide!⟩
  intro v o
  have hc : ∀ a b c d : I32,
      I32.sub (I32.mul a b) (I32.mul c d) = I32.wrap (a.val * b.val - c.val * d.val) := by
    intro a b c d
    apply I32.eq_of_cast
    simp only [I32.sub, I32.mul, I32.wrap_val_cast, Int.cast_sub, Int.cast_mul]
  simp only [Vector3.cross, Scalar.sub, Scalar.mul, hc]

/-! ## Normalisation of the zero vector -/

/-- C3: zero-norm normalisation. For `N = 2, 3, 4`, the norm of the all-zero
vector compares equal to zero, so `normalize` takes the branch without a
division and returns the vector itself: for `int`, and for `float` and `double`
with every choice of sign of the zero components (the signs are kept). -/
theorem normalize_zero :
    ((Vector2.zero : Vector2 I32).normalize = some Vector2.zero ∧
      (Vector3.zero : Vector3 I32).normalize = some Vector3.zero ∧
      (Vector4.zero : Vector4 I32).normalize = some Vector4.zero) ∧
    (Fp.ne (Vector2.zero : Vector2 I32).norm (Fp.ofInt binary64 0) = false ∧
      Fp.ne (Vector3.zero : Vector3 I32).norm (Fp.ofInt binary64 0) = false ∧
      Fp.ne (Vector4.zero : Vector4 I32).norm (Fp.ofInt binary64 0) = false) ∧
    (∀ a b : Bool,
      Vector2.normalize (⟨Fp.fin a 0, Fp.fin b 0⟩ : Vector2 F32) = some ⟨Fp.fin a 0, Fp.fin b 0⟩ ∧
      Vector2.normalize (⟨Fp.fin a 0, Fp.fin b 0⟩ : Vector2 F64) = some ⟨Fp.fin a 0, Fp.fin b 0⟩ ∧
      Fp.ne (Vector2.norm (⟨Fp.fin a 0, Fp.fin b 0⟩ : Vector2 F32)) (Fp.ofInt binary64 0) = false ∧
      Fp.ne (Vector2.norm (⟨Fp.fin a 0, Fp.fin b 0⟩ : Vector2 F64)) (Fp.ofInt binary64 0) = false) ∧
    (∀ a b c : Bool,
      Vector3.normalize (⟨Fp.fin a 0, Fp.fin b 0, Fp.fin c 0⟩ : Vector3 F32) =
        some ⟨Fp.fin a 0, Fp.fin b 0, Fp.fin c 0⟩ ∧
      Vector3.normalize (⟨Fp.fin a 0, Fp.fin b 0, Fp.fin c 0⟩ : Vector3 F64) =
        some ⟨Fp.fin a 0, Fp.fin b 0, Fp.fin c 0⟩ ∧
      Fp.ne (Vector3.norm (⟨Fp.fin a 0, Fp.fin b 0, Fp.fin c 0⟩ : Vector3 F32))
        (Fp.ofInt binary64 0) = false ∧
      Fp.ne (Vector3.norm (⟨Fp.fin a 0, Fp.fin b 0, Fp.fin c 0⟩ : Vector3 F64))
        (Fp.ofInt binary64 0) = false) ∧
    (∀ a b c d : Bool,
      Vector4.normalize (⟨Fp.fin a 0, Fp.fin b 0, Fp.fin c 0, Fp.fin d 0⟩ : Vector4 F32) =
        some ⟨Fp.fin a 0, Fp.fin b 0, Fp.fin c 0, Fp.fin d 0⟩ ∧
      Vector4.normalize (⟨Fp.fin a 0, Fp.fin b 0, Fp.fin c 0, Fp.fin d 0⟩ : Vector4 F64) =
        some ⟨Fp.fin a 0, Fp.fin b 0, Fp.fin c 0, Fp.fin d 0⟩ ∧
      Fp.ne (Vector4.norm (⟨Fp.fin a 0, Fp.fin b 0, Fp.fin c 0, Fp.fin d 0⟩ : Vector4 F32))
        (Fp.ofInt binary64 0) = false ∧
      Fp.ne (Vector4.norm (⟨Fp.fin a 0, Fp.fin b 0, Fp.fin c 0, Fp.fin d 0⟩ : Vector4 F64))
        (Fp.ofInt binary64 0) = false) := by
  refine ⟨by decide!, by decide!, ?_, ?_, ?_⟩
  · intro a b
    cases a <;> cases b <;> decide!
  · intro a b c
    cases a <;> cases b <;> cases c <;> decide!
  · intro a b c d
    cases a <;> cases b <;> cases c <;> cases d <;> decide!

/-! ## Sign -/

/-- The `int` comparison `a >= 0` is the comparison of the values. -/
theorem I32.ge_zero (a : I32) : I32.ge a (I32.wrap 0) = decide (0 ≤ a.val) := rfl

/-- C6: sign boundary. For `N = 2, 3, 4`, each component of `v.sign()` is
`static_cast<T>(1)` when the component of `v` is `>= 0` and
`static_cast<T>(-1)` otherwise, for every scalar type; for `int` the value is
`1` when the component is at least `0` (so also at `0`) and `-1` below; and
for `float` and `double` the components `+0`, `-0` map to `1` and NaN to `-1`. -/
theorem sign_components :
    (∀ (T : Type) [Scalar T] (v : Vector2 T),
      v.sign.x = (if Scalar.ge v.x (Scalar.ofInt 0) then Scalar.ofInt 1 else Scalar.ofInt (-1)) ∧
      v.sign.y = (if Scalar.ge v.y (Scalar.ofInt 0) then Scalar.ofInt 1 else Scalar.ofInt (-1))) ∧
    (∀ (T : Type) [Scalar T] (v : Vector3 T),
      v.sign.x = (if Scalar.ge v.x (Scalar.ofInt 0) then Scalar.ofInt 1 else Scalar.ofInt (-1)) ∧
      v.sign.y = (if Scalar.ge v.y (Scalar.ofInt 0) then Scalar.ofInt 1 else Scalar.ofInt (-1)) ∧
      v.sign.z = (if Scalar.ge v.z (Scalar.ofInt 0) then Scalar.ofInt 1 else Scalar.ofInt (-1))) ∧
    (∀ (T : Type) [Scalar T] (v : Vector4 T),
      v.sign.x = (if Scalar.ge v.x (Scalar.ofInt 0) then Scalar.ofInt 1 else Scalar.ofInt (-1)) ∧
      v.sign.y = (if Scalar.ge v.y (Scalar.ofInt 0) then Scalar.ofInt 1 else Scalar.ofInt (-1)) ∧
      v.sign.z = (if Scalar.ge v.z (Scalar.ofInt 0) then Scalar.ofInt 1 else Scalar.ofInt (-1)) ∧
      v.sign.w = (if Scalar.ge v.w (Scalar.ofInt 0) then Scalar.ofInt 1 else Scalar.ofInt (-1))) ∧
    (∀ v : Vector2 I32, v.sign.x.val = (if 0 ≤ v.x.val then 1 else -1) ∧
      v.sign.y.val = (if 0 ≤ v.y.val then 1 else -1)) ∧
    (∀ v : Vector3 I32, v.sign.x.val = (if 0 ≤ v.x.val then 1 else -1) ∧
      v.sign.y.val = (if 0 ≤ v.y.val then 1 else -1) ∧
      v.sign.z.val = (if 0 ≤ v.z.val then 1 else -1)) ∧
    (∀ v : Vector4 I32, v.sign.x.val = (if 0 ≤ v.x.val then 1 else -1) ∧
      v.sign.y.val = (if 0 ≤ v.y.val then 1 else -1) ∧
      v.sign.z.val = (if 0 ≤ v.z.val then 1 else -1) ∧
      v.sign.w.val = (if 0 ≤ v.w.val then 1 else -1)) ∧
    (Vector4.sign (⟨Fp.fin false 0, Fp.fin true 0, Fp.nan, Fp.ofInt binary32 (-3)⟩ : Vector4 F32) =
      ⟨Fp.ofInt binary32 1, Fp.ofInt binary32 1, Fp.ofInt binary32 (-1), Fp.ofInt binary32 (-1)⟩) ∧
    (Vector4.sign (⟨Fp.fin false 0, Fp.fin true 0, Fp.nan, Fp.ofInt binary64 (-3)⟩ : Vector4 F64) =
      ⟨Fp.ofInt binary64 1, Fp.ofInt binary64 1, Fp.ofInt binary64 (-1), Fp.ofInt binary64 (-1)⟩) := by
  have h : ∀ a : I32,
      (if I32.ge a (I32.wrap 0) then I32.wrap 1 else I32.wrap (-1)).val =
        (if 0 ≤ a.val then 1 else -1) := by
    intro a
    rw [I32.ge_zero]
    by_cases h0 : 0 ≤ a.val
    · simp only [h0, decide_True, if_true]
      decide
    · simp only [h0, decide_False, if_false]
      decide
  refine ⟨fun _ _ _ => ⟨rfl, rfl⟩, fun _ _ _ => ⟨rfl, rfl, rfl⟩, fun _ _ _ => ⟨rfl, rfl, rfl, rfl⟩,
    fun v => ⟨h v.x, h v.y⟩, fun v => ⟨h v.x, h v.y, h v.z⟩,
    fun v => ⟨h v.x, h v.y, h v.z, h v.w⟩, by decide!, by decide!⟩

/-! ## Scalar multiplication on the left -/

/-- Rounding gives a finite number or an infinity, never NaN. -/
theorem Fp.round_ne_nan (F : Fmt) (neg : Bool) (num den : Nat) :
    Fp.round F neg num den ≠ Fp.nan := by
  unfold Fp.round
  simp only []
  split <;> exact fun h => Fp.noConfusion h

/-- The comparison `x == x` of a floating-point value with itself answers true
unless the value is NaN. -/
theorem Fp.eq_self_iff (F : Fmt) (x : Fp F) : Fp.eq x x = true ↔ x ≠ Fp.nan := by
  cases x <;> simp [Fp.eq]

/-- A floating-point product is NaN exactly when a factor is NaN or the factors
are a zero and an infinity. -/
theorem Fp.mul_eq_nan_iff (F : Fmt) (x y : Fp F) :
    Fp.mul x y = Fp.nan ↔
      x = Fp.nan ∨ y = Fp.nan ∨ (∃ s t, x = Fp.inf s ∧ y = Fp.fin t 0) ∨
        (∃ s t, x = Fp.fin s 0 ∧ y = Fp.inf t) := by
  cases x with
  | nan => simp [Fp.mul]
  | inf s =>
    cases y with
    | nan => simp [Fp.mul]
    | inf t => simp [Fp.mul]
    | fin t b => by_cases hb : b = 0 <;> simp [Fp.mul, hb]
  | fin s a =>
    cases y with
    | nan => simp [Fp.mul]
    | inf t => by_cases ha : a = 0 <;> simp [Fp.mul, ha]
    | fin t b => simp [Fp.mul, Fp.round_ne_nan]

/-- C7 fails for a floating vector with an infinite component and the scalar
zero: `0.0 * (inf, 0)` and `(inf, 0) * 0.0` are both `(NaN, 0)`, and
`operator==` answers false on them. -/
theorem smul_eq_nan_counterexample :
    Vector2.smul (Fp.fin false 0 : F64) ⟨Fp.inf false, Fp.fin false 0⟩ = ⟨Fp.nan, Fp.fin false 0⟩ ∧
    Vector2.muls (⟨Fp.inf false, Fp.fin false 0⟩ : Vector2 F64) (Fp.fin false 0) =
      ⟨Fp.nan, Fp.fin false 0⟩ ∧
    Vector2.eq (Vector2.smul (Fp.fin false 0 : F64) ⟨Fp.inf false, Fp.fin false 0⟩)
      (Vector2.muls ⟨Fp.inf false, Fp.fin false 0⟩ (Fp.fin false 0)) = false := by
  decide!

/-- C7, amended: commutativity of scalar multiplication. For `N = 2, 3, 4`,
every scalar type, every vector `v` and scalar `s`, `s * v` is the very vector
`v * s`. The comparison `s * v == v * s` answers true for every `int` vector,
and for a `float` or `double` vector exactly when no component of the product
is NaN; a component `c * s` is NaN exactly when `c` or `s` is NaN or one is a
zero and the other an infinity, so the comparison answers true whenever `s`
and the components of `v` are finite. -/
theorem smul_comm_muls :
    (∀ (T : Type) [Scalar T] (s : T) (v : Vector2 T), Vector2.smul s v = v.muls s) ∧
    (∀ (T : Type) [Scalar T] (s : T) (v : Vector3 T), Vector3.smul s v = v.muls s) ∧
    (∀ (T : Type) [Scalar T] (s : T) (v : Vector4 T), Vector4.smul s v = v.muls s) ∧
    (∀ (s : I32) (v : Vector2 I32), (Vector2.smul s v).eq (v.muls s) = true) ∧
    (∀ (s : I32) (v : Vector3 I32), (Vector3.smul s v).eq (v.muls s) = true) ∧
    (∀ (s : I32) (v : Vector4 I32), (Vector4.smul s v).eq (v.muls s) = true) ∧
    (∀ (s : F32) (v : Vector2 F32),
      (Vector2.smul s v).eq (v.muls s) = true ↔ Fp.mul v.x s ≠ Fp.nan ∧ Fp.mul v.y s ≠ Fp.nan) ∧
    (∀ (s : F64) (v : Vector2 F64),
      (Vector2.smul s v).eq (v.muls s) = true ↔ Fp.mul v.x s ≠ Fp.nan ∧ Fp.mul v.y s ≠ Fp.nan) ∧
    (∀ (s : F32) (v : Vector3 F32),
      (Vector3.smul s v).eq (v.muls s) = true ↔ Fp.mul v.x s ≠ Fp.nan ∧ Fp.mul v.y s ≠ Fp.nan ∧ Fp.mul v.z s ≠ Fp.nan) ∧
    (∀ (s : F64) (v : Vector3 F64),
      (Vector3.smul s v).eq (v.muls s) = true ↔ Fp.mul v.x s ≠ Fp.nan ∧ Fp.mul v.y s ≠ Fp.nan ∧ Fp.mul v.z s ≠ Fp.nan) ∧
    (∀ (s : F32) (v : Vector4 F32),
      (Vector4.smul s v).eq (v.muls s) = true ↔ Fp.mul v.x s ≠ Fp.nan ∧ Fp.mul v.y s ≠ Fp.nan ∧ Fp.mul v.z s ≠ Fp.nan ∧ Fp.mul v.w s ≠ Fp.nan) ∧
    (∀ (s : F64) (v : Vector4 F64),
      (Vector4.smul s v).eq (v.muls s) = true ↔ Fp.mul v.x s ≠ Fp.nan ∧ Fp.mul v.y s ≠ Fp.nan ∧ Fp.mul v.z s ≠ Fp.nan ∧ Fp.mul v.w s ≠ Fp.nan) ∧
    (∀ (F : Fmt) (c s : Fp F), Fp.mul c s = Fp.nan ↔
      c = Fp.nan ∨ s = Fp.nan ∨ (∃ a b, c = Fp.inf a ∧ s = Fp.fin b 0) ∨
        (∃ a b, c = Fp.fin a 0 ∧ s = Fp.inf b)) ∧
    (∀ (a b t : Bool) (k l j : Nat),
      Vector2.eq (Vector2.smul (Fp.fin t j : F32) ⟨Fp.fin a k, Fp.fin b l⟩)
        (Vector2.muls ⟨Fp.fin a k, Fp.fin b l⟩ (Fp.fin t j)) = true) ∧
    (∀ (a b t : Bool) (k l j : Nat),
      Vector2.eq (Vector2.smul (Fp.fin t j : F64) ⟨Fp.fin a k, Fp.fin b l⟩)
        (Vector2.muls ⟨Fp.fin a k, Fp.fin b l⟩ (Fp.fin t j)) = true) ∧
    (∀ (a b c t : Bool) (k l m j : Nat),
      Vector3.eq (Vector3.smul (Fp.fin t j : F32) ⟨Fp.fin a k, Fp.fin b l, Fp.fin c m⟩)
        (Vector3.muls ⟨Fp.fin a k, Fp.fin b l, Fp.fin c m⟩ (Fp.fin t j)) = true) ∧
    (∀ (a b c t : Bool) (k l m j : Nat),
      Vector3.eq (Vector3.smul (Fp.fin t j : F64) ⟨Fp.fin a k, Fp.fin b l, Fp.fin c m⟩)
        (Vector3.muls ⟨Fp.fin a k, Fp.fin b l, Fp.fin c m⟩ (Fp.fin t j)) = true) ∧
    (∀ (a b c d t : Bool) (k l m n j : Nat),
      Vector4.eq (Vector4.smul (Fp.fin t j : F32) ⟨Fp.fin a k, Fp.fin b l, Fp.fin c m, Fp.fin d n⟩)
        (Vector4.muls ⟨Fp.fin a k, Fp.fin b l, Fp.fin c m, Fp.fin d n⟩ (Fp.fin t j)) = true) ∧
    (∀ (a b c d t : Bool) (k l m n j : Nat),
      Vector4.eq (Vector4.smul (Fp.fin t j : F64) ⟨Fp.fin a k, Fp.fin b l, Fp.fin c m, Fp.fin d n⟩)
        (Vector4.muls ⟨Fp.fin a k, Fp.fin b l, Fp.fin c m, Fp.fin d n⟩ (Fp.fin t j)) = true) := by
  have h : ∀ a : I32, I32.eq a a = true := fun a => decide_eq_true rfl
  have hf : ∀ (F : Fmt) (s : Bool) (a : Nat) (t : Bool) (b : Nat),
      Fp.eq (Fp.mul (Fp.fin s a : Fp F) (Fp.fin t b)) (Fp.mul (Fp.fin s a) (Fp.fin t b)) = true :=
    fun F s a t b => (Fp.eq_self_iff F _).2 (by simp only [Fp.mul]; exact Fp.round_ne_nan F _ _ _)
  refine ⟨fun _ _ _ _ => rfl, fun _ _ _ _ => rfl, fun _ _ _ _ => rfl, ?_, ?_, ?_,
    ?_, ?_, ?_, ?_, ?_, ?_, Fp.mul_eq_nan_iff, ?_, ?_, ?_, ?_, ?_, ?_⟩ <;>
    intros <;>
    simp only [Vector2.eq, Vector3.eq, Vector4.eq, Vector2.smul, Vector3.smul, Vector4.smul,
      Vector2.muls, Vector3.muls, Vector4.muls, Scalar.eq, Scalar.mul, h, hf, Bool.and_self,
      Bool.and_eq_true, Fp.eq_self_iff, and_assoc]

/-! ## Additive inverse -/

/-- Reduction yields the integer itself exactly when the integer is an `int`. -/
theorem I32.wrap_val_iff (n : Int) :
    (I32.wrap n).val = n ↔ (-2147483648 ≤ n ∧ n ≤ 2147483647) := by
  constructor
  · intro h
    have h1 := (I32.wrap n).lo
    have h2 := (I32.wrap n).hi
    rw [h] at h1 h2
    exact ⟨h1, h2⟩
  · intro h
    exact I32.wrap_of_range h.1 h.2

/-- C9: dot product. For `N = 2, 3, 4`, `v.dot(o)` is the sum of the products
of corresponding components, added left to right in the arithmetic of the
scalar type itself; for `int` the result is the integer sum reduced modulo
`2^32`, hence the mathematical sum exactly when that sum is an `int` (so
whenever no intermediate overflows) and a wrapped value otherwise, as for
`(65536,0).dot((65536,0)) == 0`; `(1,2,3,4).dot((2,-1,0,1)) == 4` and
`(1,2,3).dot((4,5,6)) == 32`. -/
theorem dot_formula :
    (∀ (T : Type) [Scalar T] (v o : Vector2 T),
      v.dot o = Scalar.add (Scalar.mul v.x o.x) (Scalar.mul v.y o.y)) ∧
    (∀ (T : Type) [Scalar T] (v o : Vector3 T),
      v.dot o = Scalar.add (Scalar.add (Scalar.mul v.x o.x) (Scalar.mul v.y o.y)) (Scalar.mul v.z o.z)) ∧
    (∀ (T : Type) [Scalar T] (v o : Vector4 T),
      v.dot o = Scalar.add (Scalar.add (Scalar.add (Scalar.mul v.x o.x) (Scalar.mul v.y o.y)) (Scalar.mul v.z o.z)) (Scalar.mul v.w o.w)) ∧
    (∀ v o : Vector2 I32,
      v.dot o = I32.wrap (v.x.val * o.x.val + v.y.val * o.y.val) ∧
      ((v.dot o).val = v.x.val * o.x.val + v.y.val * o.y.val ↔
        (-2147483648 ≤ v.x.val * o.x.val + v.y.val * o.y.val ∧
          v.x.val * o.x.val + v.y.val * o.y.val ≤ 2147483647))) ∧
    (∀ v o : Vector3 I32,
      v.dot o = I32.wrap (v.x.val * o.x.val + v.y.val * o.y.val + v.z.val * o.z.val) ∧
      ((v.dot o).val = v.x.val * o.x.val + v.y.val * o.y.val + v.z.val * o.z.val ↔
        (-2147483648 ≤ v.x.val * o.x.val + v.y.val * o.y.val + v.z.val * o.z.val ∧
          v.x.val * o.x.val + v.y.val * o.y.val + v.z.val * o.z.val ≤ 2147483647))) ∧
    (∀ v o : Vector4 I32,
      v.dot o = I32.wrap (v.x.val * o.x.val + v.y.val * o.y.val + v.z.val * o.z.val + v.w.val * o.w.val) ∧
      ((v.dot o).val = v.x.val * o.x.val + v.y.val * o.y.val + v.z.val * o.z.val + v.w.val * o.w.val ↔
        (-2147483648 ≤ v.x.val * o.x.val + v.y.val * o.y.val + v.z.val * o.z.val + v.w.val * o.w.val ∧
          v.x.val * o.x.val + v.y.val * o.y.val + v.z.val * o.z.val + v.w.val * o.w.val ≤ 2147483647))) ∧
    (Vector4.dot (⟨I32.wrap 1, I32.wrap 2, I32.wrap 3, I32.wrap 4⟩ : Vector4 I32)
        ⟨I32.wrap 2, I32.wrap (-1), I32.wrap 0, I32.wrap 1⟩ = I32.wrap 4) ∧
    (Vector3.dot (⟨I32.wrap 1, I32.wrap 2, I32.wrap 3⟩ : Vector3 I32)
        ⟨I32.wrap 4, I32.wrap 5, I32.wrap 6⟩ = I32.wrap 32) ∧
    (Vector2.dot (⟨I32.wrap 65536, I32.wrap 0⟩ : Vector2 I32)
        ⟨I32.wrap 65536, I32.wrap 0⟩ = I32.wrap 0) := by
  have h2 : ∀ v o : Vector2 I32,
      v.dot o = I32.wrap (v.x.val * o.x.val + v.y.val * o.y.val) := by
    intro v o
    apply I32.eq_of_cast
    simp only [Vector2.dot, Scalar.add, Scalar.mul, I32.add, I32.mul, I32.wrap_val_cast,
      Int.cast_add, Int.cast_mul]
  have h3 : ∀ v o : Vector3 I32,
      v.dot o = I32.wrap (v.x.val * o.x.val + v.y.val * o.y.val + v.z.val * o.z.val) := by
    intro v o
    apply I32.eq_of_cast
    simp only [Vector3.dot, Scalar.add, Scalar.mul, I32.add, I32.mul, I32.wrap_val_cast,
      Int.cast_add, Int.cast_mul]
  have h4 : ∀ v o : Vector4 I32,
      v.dot o = I32.wrap (v.x.val * o.x.val + v.y.val * o.y.val + v.z.val * o.z.val +
        v.w.val * o.w.val) := by
    intro v o
    apply I32.eq_of_cast
    simp only [Vector4.dot, Scalar.add, Scalar.mul, I32.add, I32.mul, I32.wrap_val_cast,
      Int.cast_add, Int.cast_mul]
  refine ⟨fun _ _ _ _ => rfl, fun _ _ _ _ => rfl, fun _ _ _ _ => rfl, ?_, ?_, ?_,
    by decide, by decide, by decide⟩
  · intro v o
    refine ⟨h2 v o, ?_⟩
    rw [h2 v o]
    exact I32.wrap_val_iff _
  · intro v o
    refine ⟨h3 v o, ?_⟩
    rw [h3 v o]
    exact I32.wrap_val_iff _
  · intro v o
    refine ⟨h4 v o, ?_⟩
    rw [h4 v o]
    exact I32.wrap_val_iff _

/-! ## Exactness of rounding -/

theorem bitlenAux_le (fuel : Nat) : ∀ (n k : Nat), n < 2 ^ k → bitlenAux fuel n ≤ k := by
  induction fuel with
  | zero => intro n k _; simp [bitlenAux]
  | succ f ih =>
    intro n k h
    unfold bitlenAux
    by_cases h0 : n = 0
    · simp [h0]
    · simp only [h0, if_false]
      cases k with
      | zero => simp at h; omega
      | succ k =>
        have : n / 2 < 2 ^ k := by
          rw [pow_succ] at h
          omega
        have := ih (n / 2) k this
        omega

/-- A number below `2^k` has at most `k` binary digits. -/
theorem bitlen_le {n k : Nat} (h : n < 2 ^ k) : bitlen n ≤ k :=
  bitlenAux_le n n k h

/-- Rounding an exact multiple to an integer returns the quotient. -/
theorem rne_mul_self (q : Nat) {D : Nat} (hD : 0 < D) : rne (q * D) D = q := by
  unfold rne
  simp only [Nat.mul_div_cancel _ hD, Nat.mul_mod_left]
  simp [hD]

/-- An integer of at most `F.prec` bits, as a quotient, is not changed by rounding. -/
theorem Fp.round_exact (F : Fmt) (hF : F.prec ≤ F.emax + 1) (hE : 1 ≤ F.emax) (neg : Bool)
    (n d : Nat) (hn : n < 2 ^ F.prec) (hd : 0 < d) :
    Fp.round F neg (n * F.unit * d) d = Fp.fin neg (n * F.unit) := by
  have hUdef : F.unit = 2 ^ F.scale := by unfold Fmt.unit; rfl
  have hUpos : 0 < F.unit := by rw [hUdef]; positivity
  have hlt : n * F.unit < 2 ^ (F.prec + F.scale) := by
    rw [pow_add, ← hUdef]
    exact Nat.mul_lt_mul_of_lt_of_le hn (le_refl _) hUpos
  have hhuge : ¬ F.huge ≤ n * F.unit := by
    have : 2 ^ (F.prec + F.scale) ≤ F.huge := by
      unfold Fmt.huge
      apply Nat.pow_le_pow_right (by norm_num)
      unfold Fmt.scale
      omega
    omega
  have hb := bitlen_le hlt
  unfold Fp.round
  simp only [Nat.mul_div_cancel _ hd]
  obtain ⟨s, hsdef⟩ : ∃ s, s = bitlen (n * F.unit) - F.prec := ⟨_, rfl⟩
  rw [← hsdef]
  have hs : s ≤ F.scale := by omega
  have hU : F.unit = 2 ^ (F.scale - s) * 2 ^ s := by
    rw [← pow_add, hUdef]
    congr 1
    omega
  have hr : rne (n * F.unit * d) (d * 2 ^ s) = n * 2 ^ (F.scale - s) := by
    have e : n * F.unit * d = n * 2 ^ (F.scale - s) * (d * 2 ^ s) := by
      rw [hU]
      ring
    rw [e]
    exact rne_mul_self _ (by positivity)
  rw [hr]
  have hm : n * 2 ^ (F.scale - s) * 2 ^ s = n * F.unit := by
    rw [hU]
    ring
  rw [hm, if_neg hhuge]

/-- Conversion of an integer of at most `F.prec` bits is exact. -/
theorem Fp.ofInt_exact (F : Fmt) (hF : F.prec ≤ F.emax + 1) (hE : 1 ≤ F.emax) (n : Int)
    (hn : n.natAbs < 2 ^ F.prec) :
    Fp.ofInt F n = Fp.fin (decide (n < 0)) (n.natAbs * F.unit) := by
  have h := Fp.round_exact F hF hE (decide (n < 0)) n.natAbs 1 hn Nat.one_pos
  rw [Nat.mul_one] at h
  exact h

/-- The product of two integers is exact when it has at most `F.prec` bits. -/
theorem Fp.mul_exact (F : Fmt) (hF : F.prec ≤ F.emax + 1) (hE : 1 ≤ F.emax) (s t : Bool)
    (a b : Nat) (h : a * b < 2 ^ F.prec) :
    Fp.mul (Fp.fin s (a * F.unit) : Fp F) (Fp.fin t (b * F.unit)) =
      Fp.fin (xor s t) (a * b * F.unit) := by
  have hU : 0 < F.unit := by unfold Fmt.unit; positivity
  have e : a * F.unit * (b * F.unit) = a * b * F.unit * F.unit := by ring
  show Fp.round F (xor s t) (a * F.unit * (b * F.unit)) F.unit = _
  rw [e]
  exact Fp.round_exact F hF hE _ _ _ h hU

/-- The sum of two non-negative integers is exact when it has at most `F.prec` bits. -/
theorem Fp.add_exact (F : Fmt) (hF : F.prec ≤ F.emax + 1) (hE : 1 ≤ F.emax) (a b : Nat)
    (h : a + b < 2 ^ F.prec) :
    Fp.add (Fp.fin false (a * F.unit) : Fp F) (Fp.fin false (b * F.unit)) =
      Fp.fin false ((a + b) * F.unit) := by
  have hc : Fp.sval false (a * F.unit) + Fp.sval false (b * F.unit) =
      (((a + b) * F.unit : Nat) : Int) := by
    simp only [Fp.sval]
    push_cast
    ring
  unfold Fp.add
  simp only [hc]
  by_cases h0 : (((a + b) * F.unit : Nat) : Int) = 0
  · rw [if_pos h0]
    have : (a + b) * F.unit = 0 := by exact_mod_cast h0
    rw [this]
    rfl
  · rw [if_neg h0]
    have hneg : decide ((((a + b) * F.unit : Nat) : Int) < 0) = false := by
      apply decide_eq_false
      omega
    rw [hneg, Int.natAbs_ofNat]
    have h1 := Fp.round_exact F hF hE false (a + b) 1 h Nat.one_pos
    rw [Nat.mul_one] at h1
    exact h1

theorem sq_natAbs (x : Int) : x ^ 2 = ((x.natAbs * x.natAbs : Nat) : Int) := by
  rw [Int.natAbs_mul_self, sq]

/-- The square of an `int` component, computed in `double`, is exact below `2^53`. -/
theorem I32.toDouble_sq (a : I32) (h : a.val.natAbs * a.val.natAbs < 2 ^ 53) :
    Fp.mul (Scalar.toDouble a) (Scalar.toDouble a) =
      Fp.fin false (a.val.natAbs * a.val.natAbs * binary64.unit) := by
  have hn : a.val.natAbs < 2 ^ binary64.prec := by
    have := a.lo
    have := a.hi
    show a.val.natAbs < 2 ^ 53
    omega
  show Fp.mul (Fp.ofInt binary64 a.val) (Fp.ofInt binary64 a.val) = _
  rw [Fp.ofInt_exact binary64 (by decide) (by decide) a.val hn,
    Fp.mul_exact binary64 (by decide) (by decide) _ _ _ _ h, Bool.xor_self]

/-! ## Norm of an `int` vector -/

/-- C10 fails above `2^53`: for `Vector2i(94906267, 0)` the sum of squares is
`9007199515875289`, which no `double` holds; `norm_squared()` is the
neighbouring `double` `9007199515875288`. -/
theorem norm_squared_inexact_counterexample :
    Vector2.norm_squared (⟨I32.wrap 94906267, I32.wrap 0⟩ : Vector2 I32) =
      Fp.fin false (9007199515875288 * binary64.unit) ∧
    (94906267 : Int) ^ 2 + 0 ^ 2 = 9007199515875289 ∧
    Vector2.norm_squared (⟨I32.wrap 94906267, I32.wrap 0⟩ : Vector2 I32) ≠
      Fp.fin false (((94906267 : Int) ^ 2 + 0 ^ 2).toNat * binary64.unit) := by
  decide!

/-- C10, amended: for `N = 2, 3, 4` and every `int` vector whose sum of squares
is below `2^53`, `norm_squared()` is exactly the mathematical sum of the squares
of the components (the `double` of that value; no integer wrap-around), and
`norm()` is the `double` square root of that sum; `Vector2i(3,4)` has
`norm_squared` 25 and `norm` 5, and `Vector4i(1,2,2,4)` has `norm` 5. -/
theorem norm_squared_exact (v2 : Vector2 I32) (v3 : Vector3 I32) (v4 : Vector4 I32)
    (h2 : v2.x.val ^ 2 + v2.y.val ^ 2 < 2 ^ 53)
    (h3 : v3.x.val ^ 2 + v3.y.val ^ 2 + v3.z.val ^ 2 < 2 ^ 53)
    (h4 : v4.x.val ^ 2 + v4.y.val ^ 2 + v4.z.val ^ 2 + v4.w.val ^ 2 < 2 ^ 53) :
    (v2.norm_squared = Fp.fin false ((v2.x.val ^ 2 + v2.y.val ^ 2).toNat * binary64.unit) ∧
      v2.norm = Fp.sqrt (Fp.fin false ((v2.x.val ^ 2 + v2.y.val ^ 2).toNat * binary64.unit))) ∧
    (v3.norm_squared =
        Fp.fin false ((v3.x.val ^ 2 + v3.y.val ^ 2 + v3.z.val ^ 2).toNat * binary64.unit) ∧
      v3.norm = Fp.sqrt
        (Fp.fin false ((v3.x.val ^ 2 + v3.y.val ^ 2 + v3.z.val ^ 2).toNat * binary64.unit))) ∧
    (v4.norm_squared =
        Fp.fin false
          ((v4.x.val ^ 2 + v4.y.val ^ 2 + v4.z.val ^ 2 + v4.w.val ^ 2).toNat * binary64.unit) ∧
      v4.norm = Fp.sqrt
        (Fp.fin false
          ((v4.x.val ^ 2 + v4.y.val ^ 2 + v4.z.val ^ 2 + v4.w.val ^ 2).toNat * binary64.unit))) ∧
    (Vector2.norm_squared (⟨I32.wrap 3, I32.wrap 4⟩ : Vector2 I32) =
        Fp.fin false (25 * binary64.unit) ∧
      Vector2.norm (⟨I32.wrap 3, I32.wrap 4⟩ : Vector2 I32) = Fp.fin false (5 * binary64.unit) ∧
      Vector4.norm (⟨I32.wrap 1, I32.wrap 2, I32.wrap 2, I32.wrap 4⟩ : Vector4 I32) =
        Fp.fin false (5 * binary64.unit)) := by
  have hF : binary64.prec ≤ binary64.emax + 1 := by decide
  have hE : 1 ≤ binary64.emax := by decide
  have e2 : v2.norm_squared =
      Fp.fin false ((v2.x.val ^ 2 + v2.y.val ^ 2).toNat * binary64.unit) := by
    rw [sq_natAbs v2.x.val, sq_natAbs v2.y.val] at h2
    have h2n : v2.x.val.natAbs * v2.x.val.natAbs + v2.y.val.natAbs * v2.y.val.natAbs <
        2 ^ 53 := by exact_mod_cast h2
    rw [sq_natAbs v2.x.val, sq_natAbs v2.y.val, ← Int.natCast_add, Int.toNat_natCast]
    unfold Vector2.norm_squared
    rw [I32.toDouble_sq v2.x (by omega), I32.toDouble_sq v2.y (by omega),
      Fp.add_exact binary64 hF hE _ _ h2n]
  have e3 : v3.norm_squared =
      Fp.fin false ((v3.x.val ^ 2 + v3.y.val ^ 2 + v3.z.val ^ 2).toNat * binary64.unit) := by
    rw [sq_natAbs v3.x.val, sq_natAbs v3.y.val, sq_natAbs v3.z.val] at h3
    have h3n : v3.x.val.natAbs * v3.x.val.natAbs + v3.y.val.natAbs * v3.y.val.natAbs +
        v3.z.val.natAbs * v3.z.val.natAbs < 2 ^ 53 := by exact_mod_cast h3
    rw [sq_natAbs v3.x.val, sq_natAbs v3.y.val, sq_natAbs v3.z.val, ← Int.natCast_add,
      ← Int.natCast_add, Int.toNat_natCast]
    unfold Vector3.norm_squared
    rw [I32.toDouble_sq v3.x (by omega), I32.toDouble_sq v3.y (by omega),
      I32.toDouble_sq v3.z (by omega),
      Fp.add_exact binary64 hF hE _ _ (show _ < 2 ^ 53 by omega),
      Fp.add_exact binary64 hF hE _ _ h3n]
  have e4 : v4.norm_squared =
      Fp.fin false
        ((v4.x.val ^ 2 + v4.y.val ^ 2 + v4.z.val ^ 2 + v4.w.val ^ 2).toNat * binary64.unit) := by
    rw [sq_natAbs v4.x.val, sq_natAbs v4.y.val, sq_natAbs v4.z.val, sq_natAbs v4.w.val] at h4
    have h4n : v4.x.val.natAbs * v4.x.val.natAbs + v4.y.val.natAbs * v4.y.val.natAbs +
        v4.z.val.natAbs * v4.z.val.natAbs + v4.w.val.natAbs * v4.w.val.natAbs < 2 ^ 53 := by
      exact_mod_cast h4
    rw [sq_natAbs v4.x.val, sq_natAbs v4.y.val, sq_natAbs v4.z.val, sq_natAbs v4.w.val,
      ← Int.natCast_add, ← Int.natCast_add, ← Int.natCast_add, Int.toNat_natCast]
    unfold Vector4.norm_squared
    rw [I32.toDouble_sq v4.x (by omega), I32.toDouble_sq v4.y (by omega),
      I32.toDouble_sq v4.z (by omega), I32.toDouble_sq v4.w (by omega),
      Fp.add_exact binary64 hF hE _ _ (show _ < 2 ^ 53 by omega),
      Fp.add_exact binary64 hF hE _ _ (show _ < 2 ^ 53 by omega),
      Fp.add_exact binary64 hF hE _ _ h4n]
  refine ⟨⟨e2, ?_⟩, ⟨e3, ?_⟩, ⟨e4, ?_⟩, by decide!⟩
  · rw [← e2]; rfl
  · rw [← e3]; rfl
  · rw [← e4]; rfl

/-- The hypotheses of `norm_squared_exact` hold at `(3,4)`, `(3,4,0)`, `(1,2,2,4)`. -/
theorem norm_squared_exact_witness :
    ((I32.wrap 3).val ^ 2 + (I32.wrap 4).val ^ 2 < 2 ^ 53 ∧
      (I32.wrap 3).val ^ 2 + (I32.wrap 4).val ^ 2 + (I32.wrap 0).val ^ 2 < 2 ^ 53 ∧
      (I32.wrap 1).val ^ 2 + (I32.wrap 2).val ^ 2 + (I32.wrap 2).val ^ 2 +
        (I32.wrap 4).val ^ 2 < 2 ^ 53) ∧
    Vector2.norm_squared (⟨I32.wrap 3, I32.wrap 4⟩ : Vector2 I32) =
      Fp.fin false (((I32.wrap 3).val ^ 2 + (I32.wrap 4).val ^ 2).toNat * binary64.unit) ∧
    Vector3.norm_squared (⟨I32.wrap 3, I32.wrap 4, I32.wrap 0⟩ : Vector3 I32) =
      Fp.fin false
        (((I32.wrap 3).val ^ 2 + (I32.wrap 4).val ^ 2 + (I32.wrap 0).val ^ 2).toNat *
          binary64.unit) ∧
    Vector4.norm_squared (⟨I32.wrap 1, I32.wrap 2, I32.wrap 2, I32.wrap 4⟩ : Vector4 I32) =
      Fp.fin false
        (((I32.wrap 1).val ^ 2 + (I32.wrap 2).val ^ 2 + (I32.wrap 2).val ^ 2 +
          (I32.wrap 4).val ^ 2).toNat * binary64.unit) :=
  have h := norm_squared_exact ⟨I32.wrap 3, I32.wrap 4⟩ ⟨I32.wrap 3, I32.wrap 4, I32.wrap 0⟩
    ⟨I32.wrap 1, I32.wrap 2, I32.wrap 2, I32.wrap 4⟩ (by decide) (by decide) (by decide)
  ⟨⟨by decide, by decide, by decide⟩, h.1.1, h.2.1.1, h.2.2.1.1⟩

/-! ## Digits, integer square roots and bounds on rounding -/

theorem bitlenAux_spec (fuel : Nat) : ∀ n : Nat, n ≤ fuel →
    n < 2 ^ bitlenAux fuel n ∧ (n ≠ 0 → 2 ^ (bitlenAux fuel n - 1) ≤ n) := by
  induction fuel with
  | zero =>
    intro n h
    have : n = 0 := by omega
    subst this
    simp [bitlenAux]
  | succ f ih =>
    intro n h
    unfold bitlenAux
    by_cases h0 : n = 0
    · simp [h0]
    · simp only [h0, if_false]
      have ih1 := ih (n / 2) (by omega)
      constructor
      · rw [pow_succ]
        omega
      · intro _
        simp only [Nat.add_sub_cancel]
        by_cases h1 : n / 2 = 0
        · have hb : bitlenAux f (n / 2) = 0 := by
            rw [h1]
            cases f <;> simp [bitlenAux]
          rw [hb]
          simp
          omega
        · have h2 := ih1.2 h1
          have h3 : 0 < bitlenAux f (n / 2) := by
            rcases Nat.eq_zero_or_pos (bitlenAux f (n / 2)) with h4 | h4
            · rw [h4] at ih1
              simp at ih1
              omega
            · exact h4
          have h5 : 2 ^ bitlenAux f (n / 2) = 2 * 2 ^ (bitlenAux f (n / 2) - 1) := by
            rw [← pow_succ']
            congr 1
            omega
          omega

/-- Every number is below `2` to the number of its digits. -/
theorem lt_two_pow_bitlen (n : Nat) : n < 2 ^ bitlen n :=
  (bitlenAux_spec n n (le_refl n)).1

/-- A non-zero number is at least `2` to the number of its digits less one. -/
theorem two_pow_bitlen_le {n : Nat} (h : n ≠ 0) : 2 ^ (bitlen n - 1) ≤ n :=
  (bitlenAux_spec n n (le_refl n)).2 h

theorem isqrtAux_spec (fuel : Nat) : ∀ n : Nat, n ≤ fuel →
    isqrtAux fuel n * isqrtAux fuel n ≤ n ∧ n < (isqrtAux fuel n + 1) * (isqrtAux fuel n + 1) := by
  induction fuel with
  | zero =>
    intro n h
    have : n = 0 := by omega
    subst this
    simp [isqrtAux]
  | succ f ih =>
    intro n h
    unfold isqrtAux
    by_cases h0 : n = 0
    · simp [h0]
    · simp only [h0, if_false]
      obtain ⟨l, u⟩ := ih (n / 4) (by omega)
      generalize isqrtAux f (n / 4) = r at l u
      have hn : 4 * (n / 4) ≤ n ∧ n < 4 * (n / 4) + 4 := by omega
      by_cases hc : (2 * r + 1) * (2 * r + 1) ≤ n
      · rw [if_pos hc]
        constructor
        · exact hc
        · nlinarith
      · rw [if_neg hc]
        constructor
        · nlinarith
        · omega

/-- The square of the integer square root does not exceed the number. -/
theorem isqrt_sq_le (n : Nat) : isqrt n * isqrt n ≤ n :=
  (isqrtAux_spec n n (le_refl n)).1

/-- The number is below the square of the successor of its integer square root. -/
theorem lt_succ_isqrt_sq (n : Nat) : n < (isqrt n + 1) * (isqrt n + 1) :=
  (isqrtAux_spec n n (le_refl n)).2

/-- A number whose square is at most `n` is at most the integer square root of `n`. -/
theorem le_isqrt {c n : Nat} (h : c * c ≤ n) : c ≤ isqrt n := by
  have := lt_succ_isqrt_sq n
  by_contra hc
  have h1 : isqrt n + 1 ≤ c := by omega
  have := Nat.mul_le_mul h1 h1
  omega

/-- Rounding to an integer does not go below an integer lower bound. -/
theorem le_rne {n d c : Nat} (hd : 0 < d) (h : c * d ≤ n) : c ≤ rne n d := by
  have hq : c ≤ n / d := (Nat.le_div_iff_mul_le hd).2 h
  unfold rne
  simp only
  split_ifs <;> omega

/-- Rounding to an integer does not go above an integer upper bound. -/
theorem rne_le {n d c : Nat} (hd : 0 < d) (h : n ≤ c * d) : rne n d ≤ c := by
  have hq : n / d ≤ c := by
    apply Nat.div_le_of_le_mul
    rw [Nat.mul_comm]
    exact h
  have hdm := Nat.div_add_mod n d
  unfold rne
  simp only
  rcases Nat.lt_or_eq_of_le hq with h1 | h1
  · split_ifs <;> omega
  · have hr : n % d = 0 := by
      rw [h1] at hdm
      have : d * c = c * d := Nat.mul_comm _ _
      omega
    rw [hr, h1]
    simp [hd]

/-- Rounding keeps a value between two powers of two between them. -/
theorem Fp.round_bounds (F : Fmt) (hp : 1 ≤ F.prec) (neg : Bool) (num den a b : Nat)
    (hd : 0 < den) (hlo : 2 ^ a * den ≤ num) (hhi : num ≤ 2 ^ b * den) (hb : 2 ^ b < F.huge) :
    ∃ m, Fp.round F neg num den = Fp.fin neg m ∧ 2 ^ a ≤ m ∧ m ≤ 2 ^ b := by
  have hq1 : 2 ^ a ≤ num / den := (Nat.le_div_iff_mul_le hd).2 hlo
  have hq2 : num / den ≤ 2 ^ b := by
    apply Nat.div_le_of_le_mul
    rw [Nat.mul_comm]
    exact hhi
  have hq0 : num / den ≠ 0 := by
    have : 0 < 2 ^ a := by positivity
    omega
  have hbl : bitlen (num / den) ≤ b + 1 := by
    apply bitlen_le
    rw [pow_succ]
    omega
  have hlow := two_pow_bitlen_le hq0
  obtain ⟨s, hsdef⟩ : ∃ s, s = bitlen (num / den) - F.prec := ⟨_, rfl⟩
  have hsb : s ≤ b := by omega
  have hds : 0 < den * 2 ^ s := by positivity
  have hup : rne num (den * 2 ^ s) * 2 ^ s ≤ 2 ^ b := by
    have h1 : rne num (den * 2 ^ s) ≤ 2 ^ (b - s) := by
      apply rne_le hds
      have : 2 ^ (b - s) * (den * 2 ^ s) = 2 ^ b * den := by
        have : 2 ^ b = 2 ^ (b - s) * 2 ^ s := by
          rw [← pow_add]
          congr 1
          omega
        rw [this]
        ring
      rw [this]
      exact hhi
    calc rne num (den * 2 ^ s) * 2 ^ s ≤ 2 ^ (b - s) * 2 ^ s := Nat.mul_le_mul_right _ h1
      _ = 2 ^ b := by
        rw [← pow_add]
        congr 1
        omega
  have hdn : 2 ^ a ≤ rne num (den * 2 ^ s) * 2 ^ s := by
    by_cases hsa : s ≤ a
    · have h1 : 2 ^ (a - s) ≤ rne num (den * 2 ^ s) := by
        apply le_rne hds
        have : 2 ^ (a - s) * (den * 2 ^ s) = 2 ^ a * den := by
          have : 2 ^ a = 2 ^ (a - s) * 2 ^ s := by
            rw [← pow_add]
            congr 1
            omega
          rw [this]
          ring
        rw [this]
        exact hlo
      calc 2 ^ a = 2 ^ (a - s) * 2 ^ s := by
            rw [← pow_add]
            congr 1
            omega
        _ ≤ rne num (den * 2 ^ s) * 2 ^ s := Nat.mul_le_mul_right _ h1
    · have hs0 : s ≤ bitlen (num / den) - 1 := by omega
      have h2 : 2 ^ s ≤ num / den :=
        le_trans (Nat.pow_le_pow_right (by norm_num) hs0) hlow
      have h3 : 2 ^ s * den ≤ num := (Nat.le_div_iff_mul_le hd).1 h2
      have h1 : 1 ≤ rne num (den * 2 ^ s) := by
        apply le_rne hds
        rw [Nat.one_mul, Nat.mul_comm]
        exact h3
      have h4 : 2 ^ a ≤ 2 ^ s := Nat.pow_le_pow_right (by norm_num) (by omega)
      calc 2 ^ a ≤ 1 * 2 ^ s := by omega
        _ ≤ rne num (den * 2 ^ s) * 2 ^ s := Nat.mul_le_mul_right _ h1
  refine ⟨rne num (den * 2 ^ s) * 2 ^ s, ?_, hdn, hup⟩
  unfold Fp.round
  simp only
  rw [← hsdef, if_neg (by omega)]

theorem four_pow (s : Nat) : 4 ^ s = 2 ^ s * 2 ^ s := by
  rw [← Nat.mul_pow]

/-- The rounded square root of zero is zero. -/
theorem Fp.sqrtMag_zero (F : Fmt) : Fp.sqrtMag F 0 = 0 := by
  simp [Fp.sqrtMag, isqrt, isqrtAux, bitlen, bitlenAux]

/-- The rounded square root of a number that is at least one is at least one. -/
theorem Fp.le_sqrtMag (F : Fmt) (hp : 1 ≤ F.prec) (N : Nat) (h : F.unit * F.unit ≤ N) :
    F.unit ≤ Fp.sqrtMag F N := by
  have hUdef : F.unit = 2 ^ F.scale := by unfold Fmt.unit; rfl
  have hr0 : F.unit ≤ isqrt N := le_isqrt h
  have hUpos : 0 < F.unit := by rw [hUdef]; positivity
  obtain ⟨s, hsdef⟩ : ∃ s, s = bitlen (isqrt N) - F.prec := ⟨_, rfl⟩
  have hk : F.unit ≤ isqrt (N / 4 ^ s) * 2 ^ s := by
    by_cases hs : s ≤ F.scale
    · have hU2 : F.unit = 2 ^ (F.scale - s) * 2 ^ s := by
        rw [← pow_add, hUdef]
        congr 1
        omega
      have h1 : 2 ^ (F.scale - s) ≤ isqrt (N / 4 ^ s) := by
        apply le_isqrt
        apply (Nat.le_div_iff_mul_le (by positivity)).2
        have : 2 ^ (F.scale - s) * 2 ^ (F.scale - s) * 4 ^ s = F.unit * F.unit := by
          rw [four_pow]
          conv_rhs => rw [hU2]
          ring
        rw [this]
        exact h
      calc F.unit = 2 ^ (F.scale - s) * 2 ^ s := hU2
        _ ≤ isqrt (N / 4 ^ s) * 2 ^ s := Nat.mul_le_mul_right _ h1
    · have hne : isqrt N ≠ 0 := by omega
      have hlow := two_pow_bitlen_le hne
      have h2 : 2 ^ s ≤ isqrt N :=
        le_trans (Nat.pow_le_pow_right (by norm_num) (by omega)) hlow
      have h3 : 4 ^ s ≤ N := by
        rw [four_pow]
        exact le_trans (Nat.mul_le_mul h2 h2) (isqrt_sq_le N)
      have h1 : 1 ≤ isqrt (N / 4 ^ s) := by
        apply le_isqrt
        apply (Nat.le_div_iff_mul_le (by positivity)).2
        omega
      have h4 : F.unit ≤ 2 ^ s := by
        rw [hUdef]
        exact Nat.pow_le_pow_right (by norm_num) (by omega)
      calc F.unit ≤ 1 * 2 ^ s := by omega
        _ ≤ isqrt (N / 4 ^ s) * 2 ^ s := Nat.mul_le_mul_right _ h1
  have hk1 : isqrt (N / 4 ^ s) * 2 ^ s ≤ (isqrt (N / 4 ^ s) + 1) * 2 ^ s :=
    Nat.mul_le_mul_right _ (Nat.le_succ _)
  unfold Fp.sqrtMag
  simp only
  rw [← hsdef]
  split_ifs <;> omega

/-! ## The norm of an `int` vector is zero or at least one -/

/-- The square of an `int` component in `double` is `+0` or a finite number
that is at least one (and at most `2^62`). -/
theorem I32.toDouble_sq_shape (a : I32) :
    ∃ m, Fp.mul (Scalar.toDouble a) (Scalar.toDouble a) = (Fp.fin false m : F64) ∧
      (m = 0 ∨ binary64.unit ≤ m) ∧ m ≤ 2 ^ (62 + binary64.scale) := by
  have hUdef : binary64.unit = 2 ^ binary64.scale := by unfold Fmt.unit; rfl
  have hn : a.val.natAbs < 2 ^ binary64.prec := by
    have := a.lo
    have := a.hi
    show a.val.natAbs < 2 ^ 53
    omega
  have hn2 : a.val.natAbs ≤ 2 ^ 31 := by
    have := a.lo
    have := a.hi
    omega
  have e : Fp.mul (Scalar.toDouble a) (Scalar.toDouble a) =
      Fp.round binary64 false (a.val.natAbs * binary64.unit * (a.val.natAbs * binary64.unit))
        binary64.unit := by
    show Fp.mul (Fp.ofInt binary64 a.val) (Fp.ofInt binary64 a.val) = _
    rw [Fp.ofInt_exact binary64 (by decide) (by decide) a.val hn]
    show Fp.round binary64 (xor _ _) _ _ = _
    rw [Bool.xor_self]
  rw [e]
  by_cases h0 : a.val.natAbs = 0
  · refine ⟨0, ?_, Or.inl rfl, Nat.zero_le _⟩
    have hH : binary64.huge ≠ 0 := by
      unfold Fmt.huge
      positivity
    rw [h0]
    simp [Fp.round, bitlen, bitlenAux, rne, hH]
  · have hU : 0 < binary64.unit := by rw [hUdef]; positivity
    have h1 : 1 ≤ a.val.natAbs := by omega
    obtain ⟨m, hm, hlo, hhi⟩ := Fp.round_bounds binary64 (by decide) false
      (a.val.natAbs * binary64.unit * (a.val.natAbs * binary64.unit)) binary64.unit
      binary64.scale (62 + binary64.scale) hU
      (by
        rw [← hUdef]
        have := Nat.mul_le_mul h1 h1
        have h3 : a.val.natAbs * binary64.unit * (a.val.natAbs * binary64.unit) =
            a.val.natAbs * a.val.natAbs * (binary64.unit * binary64.unit) := by ring
        rw [h3]
        calc binary64.unit * binary64.unit = 1 * 1 * (binary64.unit * binary64.unit) := by ring
          _ ≤ a.val.natAbs * a.val.natAbs * (binary64.unit * binary64.unit) :=
            Nat.mul_le_mul_right _ this)
      (by
        rw [pow_add, ← hUdef]
        have := Nat.mul_le_mul hn2 hn2
        have h3 : a.val.natAbs * binary64.unit * (a.val.natAbs * binary64.unit) =
            a.val.natAbs * a.val.natAbs * (binary64.unit * binary64.unit) := by ring
        rw [h3]
        calc a.val.natAbs * a.val.natAbs * (binary64.unit * binary64.unit)
            ≤ 2 ^ 31 * 2 ^ 31 * (binary64.unit * binary64.unit) := Nat.mul_le_mul_right _ this
          _ = 2 ^ 62 * binary64.unit * binary64.unit := by ring)
      (by
        unfold Fmt.huge
        exact Nat.pow_lt_pow_right (by norm_num) (by decide))
    exact ⟨m, hm, Or.inr (hUdef ▸ hlo), hhi⟩

/-- The `double` sum of two numbers that are `+0` or at least one is again
`+0` or at least one. -/
theorem Fp.add_shape (B : Nat) (hB : B + 1 < 2 * binary64.emax + binary64.prec - 1)
    (m1 m2 : Nat) (h1 : m1 = 0 ∨ binary64.unit ≤ m1) (h2 : m2 = 0 ∨ binary64.unit ≤ m2)
    (b1 : m1 ≤ 2 ^ B) (b2 : m2 ≤ 2 ^ B) :
    ∃ m, Fp.add (Fp.fin false m1 : F64) (Fp.fin false m2) = Fp.fin false m ∧
      (m = 0 ∨ binary64.unit ≤ m) ∧ m ≤ 2 ^ (B + 1) := by
  have hUdef : binary64.unit = 2 ^ binary64.scale := by unfold Fmt.unit; rfl
  have hc : Fp.sval false m1 + Fp.sval false m2 = ((m1 + m2 : Nat) : Int) := by
    simp only [Fp.sval]
    push_cast
    rfl
  unfold Fp.add
  simp only [hc]
  by_cases h0 : ((m1 + m2 : Nat) : Int) = 0
  · rw [if_pos h0]
    exact ⟨0, rfl, Or.inl rfl, Nat.zero_le _⟩
  · rw [if_neg h0]
    have hneg : decide (((m1 + m2 : Nat) : Int) < 0) = false := by
      apply decide_eq_false
      omega
    rw [hneg, Int.natAbs_ofNat]
    have hU : binary64.unit ≤ m1 + m2 := by
      rcases h1 with h1 | h1
      · rcases h2 with h2 | h2
        · exfalso
          apply h0
          rw [h1, h2]
          rfl
        · omega
      · omega
    obtain ⟨m, hm, hlo, hhi⟩ := Fp.round_bounds binary64 (by decide) false (m1 + m2) 1
      binary64.scale (B + 1) Nat.one_pos
      (by rw [← hUdef]; omega)
      (by rw [pow_succ]; omega)
      (by
        unfold Fmt.huge
        exact Nat.pow_lt_pow_right (by norm_num) hB)
    exact ⟨m, hm, Or.inr (hUdef ▸ hlo), hhi⟩

/-- The square root of a `double` that is `+0` or at least one: if it does not
compare equal to zero, its truncation is at least `1`. -/
theorem Fp.sqrt_shape (m : Nat) (h : m = 0 ∨ binary64.unit ≤ m) (t : Int)
    (hn : Fp.ne (Fp.sqrt (Fp.fin false m : F64)) (Fp.ofInt binary64 0) = true)
    (ht : Fp.trunc (Fp.sqrt (Fp.fin false m : F64)) = some t) : 1 ≤ t := by
  have hUdef : binary64.unit = 2 ^ binary64.scale := by unfold Fmt.unit; rfl
  have hU : 0 < binary64.unit := by rw [hUdef]; positivity
  have hz : Fp.ofInt binary64 0 = (Fp.fin false 0 : F64) := by
    have := Fp.ofInt_exact binary64 (by decide) (by decide) 0 (by decide)
    simpa using this
  rw [hz] at hn
  simp only [Fp.sqrt, Bool.false_eq_true, if_false] at hn ht
  rcases h with h | h
  · exfalso
    rw [h, Nat.zero_mul, Fp.sqrtMag_zero] at hn
    simp [Fp.ne, Fp.eq] at hn
  · have h1 : binary64.unit ≤ Fp.sqrtMag binary64 (m * binary64.unit) :=
      Fp.le_sqrtMag binary64 (by decide) _ (Nat.mul_le_mul_right _ h)
    simp only [Fp.trunc, Fp.sval, Bool.false_eq_true, if_false, Option.some.injEq] at ht
    rw [← ht]
    have : 1 ≤ Fp.sqrtMag binary64 (m * binary64.unit) / binary64.unit :=
      (Nat.le_div_iff_mul_le hU).2 (by omega)
    exact_mod_cast this

/-- For an `int` vector of dimension 2, a norm that does not compare equal to
zero truncates to at least `1`. -/
theorem norm_trunc_pos2 (v : Vector2 I32) (t : Int)
    (hn : Fp.ne v.norm (Fp.ofInt binary64 0) = true) (ht : Fp.trunc v.norm = some t) :
    1 ≤ t := by
  obtain ⟨mx, ex, sx, bx⟩ := I32.toDouble_sq_shape v.x
  obtain ⟨my, ey, sy, by1⟩ := I32.toDouble_sq_shape v.y
  obtain ⟨m1, e1, s1, _⟩ := Fp.add_shape _ (by decide) mx my sx sy bx by1
  unfold Vector2.norm at hn ht
  rw [ex, ey, e1] at hn ht
  exact Fp.sqrt_shape m1 s1 t hn ht

/-- For an `int` vector of dimension 3, a norm that does not compare equal to
zero truncates to at least `1`. -/
theorem norm_trunc_pos3 (v : Vector3 I32) (t : Int)
    (hn : Fp.ne v.norm (Fp.ofInt binary64 0) = true) (ht : Fp.trunc v.norm = some t) :
    1 ≤ t := by
  obtain ⟨mx, ex, sx, bx⟩ := I32.toDouble_sq_shape v.x
  obtain ⟨my, ey, sy, by1⟩ := I32.toDouble_sq_shape v.y
  obtain ⟨mz, ez, sz, bz⟩ := I32.toDouble_sq_shape v.z
  obtain ⟨m1, e1, s1, b1⟩ := Fp.add_shape _ (by decide) mx my sx sy bx by1
  obtain ⟨m2, e2, s2, _⟩ := Fp.add_shape _ (by decide) m1 mz s1 sz b1
    (le_trans bz (Nat.pow_le_pow_right (by norm_num) (Nat.le_succ _)))
  unfold Vector3.norm at hn ht
  rw [ex, ey, ez, e1, e2] at hn ht
  exact Fp.sqrt_shape m2 s2 t hn ht

/-- For an `int` vector of dimension 4, a norm that does not compare equal to
zero truncates to at least `1`. -/
theorem norm_trunc_pos4 (v : Vector4 I32) (t : Int)
    (hn : Fp.ne v.norm (Fp.ofInt binary64 0) = true) (ht : Fp.trunc v.norm = some t) :
    1 ≤ t := by
  obtain ⟨mx, ex, sx, bx⟩ := I32.toDouble_sq_shape v.x
  obtain ⟨my, ey, sy, by1⟩ := I32.toDouble_sq_shape v.y
  obtain ⟨mz, ez, sz, bz⟩ := I32.toDouble_sq_shape v.z
  obtain ⟨mw, ew, sw, bw⟩ := I32.toDouble_sq_shape v.w
  obtain ⟨m1, e1, s1, b1⟩ := Fp.add_shape _ (by decide) mx my sx sy bx by1
  obtain ⟨m2, e2, s2, b2⟩ := Fp.add_shape _ (by decide) m1 mz s1 sz b1
    (le_trans bz (Nat.pow_le_pow_right (by norm_num) (Nat.le_succ _)))
  obtain ⟨m3, e3, s3, _⟩ := Fp.add_shape _ (by decide) m2 mw s2 sw b2
    (le_trans bw (Nat.pow_le_pow_right (by norm_num) (by omega)))
  unfold Vector4.norm at hn ht
  rw [ex, ey, ez, ew, e1, e2, e3] at hn ht
  exact Fp.sqrt_shape m3 s3 t hn ht

/-- An `int` quotient by a divisor that is at least `1` is an `int`. -/
theorem I32.tdiv_range (a : I32) (t : Int) (ht : 1 ≤ t) :
    -2147483648 ≤ Int.tdiv a.val t ∧ Int.tdiv a.val t ≤ 2147483647 := by
  have h1 := a.lo
  have h2 := a.hi
  have h3 : (Int.tdiv a.val t).natAbs ≤ a.val.natAbs := by
    rw [Int.natAbs_tdiv]
    exact Nat.div_le_self _ _
  rcases le_or_lt 0 a.val with h | h
  · have := Int.tdiv_nonneg h (by omega : (0 : Int) ≤ t)
    omega
  · have h4 : Int.tdiv a.val t = -(Int.tdiv (-a.val) t) := by
      rw [Int.neg_tdiv, neg_neg]
    have := Int.tdiv_nonneg (by omega : (0 : Int) ≤ -a.val) (by omega : (0 : Int) ≤ t)
    omega

/-- Division of an `int` by an `int` that is at least `1` has a result: the
quotient truncated toward zero. -/
theorem I32.div_pos (a d : I32) (h : 1 ≤ d.val) :
    ∃ r, I32.div a d = some r ∧ r.val = Int.tdiv a.val d.val := by
  refine ⟨I32.wrap (Int.tdiv a.val d.val), ?_, ?_⟩
  · unfold I32.div
    rw [if_neg (by omega), if_neg (by omega)]
  · have := I32.tdiv_range a d.val h
    exact I32.wrap_of_range this.1 this.2

/-! ## Normalisation of an `int` vector -/

/-- The truncation of a square root is not negative. -/
theorem Fp.trunc_sqrt_nonneg {F : Fmt} (x : Fp F) (t : Int)
    (h : Fp.trunc (Fp.sqrt x) = some t) : 0 ≤ t := by
  cases x with
  | nan => simp [Fp.sqrt, Fp.trunc] at h
  | inf s => cases s <;> simp [Fp.sqrt, Fp.trunc] at h
  | fin s a =>
    cases s
    · simp only [Fp.sqrt, Fp.trunc, Fp.sval, Bool.false_eq_true, if_false, Option.some.injEq] at h
      rw [← h]
      exact Int.natCast_nonneg _
    · by_cases h0 : a = 0
      · simp [Fp.sqrt, Fp.trunc, Fp.sval, h0] at h
        omega
      · simp [Fp.sqrt, Fp.trunc, h0] at h

/-- The cast `static_cast<int>(n)` of a norm whose truncation `t` is at most `2^31 - 1`. -/
theorem I32.ofDouble_sqrt (x : F64) (t : Int) (h : Fp.trunc (Fp.sqrt x) = some t)
    (hr : t ≤ 2147483647) :
    I32.ofDouble (Fp.sqrt x) = some (I32.wrap t) ∧ (I32.wrap t).val = t := by
  have h0 := Fp.trunc_sqrt_nonneg x t h
  have hv : (I32.wrap t).val = t := I32.wrap_of_range (by omega) hr
  refine ⟨?_, hv⟩
  unfold I32.ofDouble
  rw [h]
  simp only
  rw [dif_pos ⟨by omega, hr⟩]
  exact congrArg some (I32.ext_val hv.symm)

/-- C4 fails when the truncated norm is not an `int`: `Vector2i(-2147483648, 0)`
has the non-zero norm `2147483648`, whose cast to `int` has no value, so
`normalize()` yields no vector (quotient by `2147483648` would be `(-1, 0)`). -/
theorem normalize_int_counterexample :
    Fp.ne (Vector2.norm (⟨I32.wrap (-2147483648), I32.wrap 0⟩ : Vector2 I32))
      (Fp.ofInt binary64 0) = true ∧
    Fp.trunc (Vector2.norm (⟨I32.wrap (-2147483648), I32.wrap 0⟩ : Vector2 I32)) =
      some 2147483648 ∧
    Vector2.normalize (⟨I32.wrap (-2147483648), I32.wrap 0⟩ : Vector2 I32) = none := by
  decide!

/-- C4, amended: for `N = 2, 3, 4` and every `int` vector whose norm `n` does
not compare equal to zero and whose truncation toward zero `t` is at most
`2^31 - 1`: `t` is at least `1`, it is the value of `static_cast<int>(n)`, and
`normalize()` is the vector divided (`operator/`) by that `int`, which has a
result whose components are the quotients `x_i / t` truncated toward zero;
`(10,0)`, `(10,0,0)`, `(10,0,0,0)` normalize to `(1,0,...)`. -/
theorem normalize_int (v2 : Vector2 I32) (v3 : Vector3 I32) (v4 : Vector4 I32)
    (t2 t3 t4 : Int)
    (n2 : Fp.ne v2.norm (Fp.ofInt binary64 0) = true)
    (n3 : Fp.ne v3.norm (Fp.ofInt binary64 0) = true)
    (n4 : Fp.ne v4.norm (Fp.ofInt binary64 0) = true)
    (h2 : Fp.trunc v2.norm = some t2) (h3 : Fp.trunc v3.norm = some t3)
    (h4 : Fp.trunc v4.norm = some t4)
    (r2 : t2 ≤ 2147483647) (r3 : t3 ≤ 2147483647) (r4 : t4 ≤ 2147483647) :
    (1 ≤ t2 ∧ (I32.wrap t2).val = t2 ∧ v2.normalize = v2.divs (I32.wrap t2) ∧
      ∃ r, v2.normalize = some r ∧ r.x.val = Int.tdiv v2.x.val t2 ∧ r.y.val = Int.tdiv v2.y.val t2) ∧
    (1 ≤ t3 ∧ (I32.wrap t3).val = t3 ∧ v3.normalize = v3.divs (I32.wrap t3) ∧
      ∃ r, v3.normalize = some r ∧ r.x.val = Int.tdiv v3.x.val t3 ∧ r.y.val = Int.tdiv v3.y.val t3 ∧ r.z.val = Int.tdiv v3.z.val t3) ∧
    (1 ≤ t4 ∧ (I32.wrap t4).val = t4 ∧ v4.normalize = v4.divs (I32.wrap t4) ∧
      ∃ r, v4.normalize = some r ∧ r.x.val = Int.tdiv v4.x.val t4 ∧ r.y.val = Int.tdiv v4.y.val t4 ∧ r.z.val = Int.tdiv v4.z.val t4 ∧ r.w.val = Int.tdiv v4.w.val t4) ∧
    (Vector2.normalize (⟨I32.wrap 10, I32.wrap 0⟩ : Vector2 I32) =
        some ⟨I32.wrap 1, I32.wrap 0⟩ ∧
      Vector3.normalize (⟨I32.wrap 10, I32.wrap 0, I32.wrap 0⟩ : Vector3 I32) =
        some ⟨I32.wrap 1, I32.wrap 0, I32.wrap 0⟩ ∧
      Vector4.normalize (⟨I32.wrap 10, I32.wrap 0, I32.wrap 0, I32.wrap 0⟩ : Vector4 I32) =
        some ⟨I32.wrap 1, I32.wrap 0, I32.wrap 0, I32.wrap 0⟩) := by
  refine ⟨?_, ?_, ?_, by decide!⟩
  · have c := I32.ofDouble_sqrt _ t2 h2 r2
    have hpos := norm_trunc_pos2 v2 t2 n2 h2
    have hd : 1 ≤ (I32.wrap t2).val := by rw [c.2]; exact hpos
    have e : v2.normalize = v2.divs (I32.wrap t2) := by
      unfold Vector2.normalize
      simp only [n2, if_true]
      show (I32.ofDouble v2.norm).bind _ = _
      unfold Vector2.norm
      rw [c.1]
      rfl
    obtain ⟨rx, hx, vx⟩ := I32.div_pos v2.x (I32.wrap t2) hd
    obtain ⟨ry, hy, vy⟩ := I32.div_pos v2.y (I32.wrap t2) hd
    rw [c.2] at vx vy
    refine ⟨hpos, c.2, e, ⟨rx, ry⟩, ?_, vx, vy⟩
    rw [e]
    show (I32.div v2.x _).bind _ = _
    rw [hx]
    show (I32.div v2.y _).bind _ = _
    rw [hy]
    rfl
  · have c := I32.ofDouble_sqrt _ t3 h3 r3
    have hpos := norm_trunc_pos3 v3 t3 n3 h3
    have hd : 1 ≤ (I32.wrap t3).val := by rw [c.2]; exact hpos
    have e : v3.normalize = v3.divs (I32.wrap t3) := by
      unfold Vector3.normalize
      simp only [n3, if_true]
      show (I32.ofDouble v3.norm).bind _ = _
      unfold Vector3.norm
      rw [c.1]
      rfl
    obtain ⟨rx, hx, vx⟩ := I32.div_pos v3.x (I32.wrap t3) hd
    obtain ⟨ry, hy, vy⟩ := I32.div_pos v3.y (I32.wrap t3) hd
    obtain ⟨rz, hz, vz⟩ := I32.div_pos v3.z (I32.wrap t3) hd
    rw [c.2] at vx vy vz
    refine ⟨hpos, c.2, e, ⟨rx, ry, rz⟩, ?_, vx, vy, vz⟩
    rw [e]
    show (I32.div v3.x _).bind _ = _
    rw [hx]
    show (I32.div v3.y _).bind _ = _
    rw [hy]
    show (I32.div v3.z _).bind _ = _
    rw [hz]
    rfl
  · have c := I32.ofDouble_sqrt _ t4 h4 r4
    have hpos := norm_trunc_pos4 v4 t4 n4 h4
    have hd : 1 ≤ (I32.wrap t4).val := by rw [c.2]; exact hpos
    have e : v4.normalize = v4.divs (I32.wrap t4) := by
      unfold Vector4.normalize
      simp only [n4, if_true]
      show (I32.ofDouble v4.norm).bind _ = _
      unfold Vector4.norm
      rw [c.1]
      rfl
    obtain ⟨rx, hx, vx⟩ := I32.div_pos v4.x (I32.wrap t4) hd
    obtain ⟨ry, hy, vy⟩ := I32.div_pos v4.y (I32.wrap t4) hd
    obtain ⟨rz, hz, vz⟩ := I32.div_pos v4.z (I32.wrap t4) hd
    obtain ⟨rw, hw, vw⟩ := I32.div_pos v4.w (I32.wrap t4) hd
    rw [c.2] at vx vy vz vw
    refine ⟨hpos, c.2, e, ⟨rx, ry, rz, rw⟩, ?_, vx, vy, vz, vw⟩
    rw [e]
    show (I32.div v4.x _).bind _ = _
    rw [hx]
    show (I32.div v4.y _).bind _ = _
    rw [hy]
    show (I32.div v4.z _).bind _ = _
    rw [hz]
    show (I32.div v4.w _).bind _ = _
    rw [hw]
    rfl

/-- The hypotheses of `normalize_int` hold at `(3,4)`, `(10,0,0)`, `(1,2,2,4)`, where
the truncated norms are `5`, `10`, `5`. -/
theorem normalize_int_witness :
    (Fp.ne (Vector2.norm (⟨I32.wrap 3, I32.wrap 4⟩ : Vector2 I32)) (Fp.ofInt binary64 0) = true ∧
      Fp.trunc (Vector2.norm (⟨I32.wrap 3, I32.wrap 4⟩ : Vector2 I32)) = some 5) ∧
    (Vector2.normalize (⟨I32.wrap 3, I32.wrap 4⟩ : Vector2 I32) =
        Vector2.divs ⟨I32.wrap 3, I32.wrap 4⟩ (I32.wrap 5)) ∧
    (Vector3.normalize (⟨I32.wrap 10, I32.wrap 0, I32.wrap 0⟩ : Vector3 I32) =
        Vector3.divs ⟨I32.wrap 10, I32.wrap 0, I32.wrap 0⟩ (I32.wrap 10)) ∧
    (Vector4.normalize (⟨I32.wrap 1, I32.wrap 2, I32.wrap 2, I32.wrap 4⟩ : Vector4 I32) =
        Vector4.divs ⟨I32.wrap 1, I32.wrap 2, I32.wrap 2, I32.wrap 4⟩ (I32.wrap 5)) :=
  have h := normalize_int ⟨I32.wrap 3, I32.wrap 4⟩ ⟨I32.wrap 10, I32.wrap 0, I32.wrap 0⟩
    ⟨I32.wrap 1, I32.wrap 2, I32.wrap 2, I32.wrap 4⟩ 5 10 5
    (by decide!) (by decide!) (by decide!) (by decide!) (by decide!) (by decide!)
    (by decide) (by decide) (by decide)
  ⟨⟨by decide!, by decide!⟩, h.1.2.2.1, h.2.1.2.2.1, h.2.2.1.2.2.1⟩

/-! ## `length` and `normSquared` -/

/-- C11: norm/length equivalence. For `N = 2, 3, 4`, every scalar type and every
vector `v`, `v.length()` is the very value `v.norm()` and `v.normSquared()` is
the very value `v.norm_squared()`; for `Vector3i(3,4,0)` both `norm()` and
`length()` are `5` and both `norm_squared()` and `normSquared()` are `25`. -/
theorem length_eq_norm :
    (∀ (T : Type) [Scalar T] (v : Vector2 T),
      v.length = v.norm ∧ v.normSquared = v.norm_squared) ∧
    (∀ (T : Type) [Scalar T] (v : Vector3 T),
      v.length = v.norm ∧ v.normSquared = v.norm_squared) ∧
    (∀ (T : Type) [Scalar T] (v : Vector4 T),
      v.length = v.norm ∧ v.normSquared = v.norm_squared) ∧
    (Vector3.length (⟨I32.wrap 3, I32.wrap 4, I32.wrap 0⟩ : Vector3 I32) =
        Fp.fin false (5 * binary64.unit) ∧
      Vector3.norm (⟨I32.wrap 3, I32.wrap 4, I32.wrap 0⟩ : Vector3 I32) =
        Fp.fin false (5 * binary64.unit) ∧
      Vector3.normSquared (⟨I32.wrap 3, I32.wrap 4, I32.wrap 0⟩ : Vector3 I32) =
        Fp.fin false (25 * binary64.unit) ∧
      Vector3.norm_squared (⟨I32.wrap 3, I32.wrap 4, I32.wrap 0⟩ : Vector3 I32) =
        Fp.fin false (25 * binary64.unit)) := by
  refine ⟨fun _ _ _ => ⟨rfl, rfl⟩, fun _ _ _ => ⟨rfl, rfl⟩, fun _ _ _ => ⟨rfl, rfl⟩, by decide!⟩

/-! ## Component-wise `+`, `-`, `*` -/

/-- C15: for `N = 2, 3, 4` and each of `+`, `-`, `*`, the result of `v op o`
has `i`-th component `x_i op o_i` and the result of `v op s` has `i`-th component
`x_i op s`, in the arithmetic of the scalar type; for `int` that is the integer
result reduced modulo `2^32`. The `Vector4i` and `Vector4f` cases of the tests
are evaluated. -/
theorem binary_ops_componentwise :
    (∀ (T : Type) [Scalar T] (v o : Vector2 T) (s : T),
      v.add o = ⟨Scalar.add v.x o.x, Scalar.add v.y o.y⟩ ∧
      v.sub o = ⟨Scalar.sub v.x o.x, Scalar.sub v.y o.y⟩ ∧
      v.mul o = ⟨Scalar.mul v.x o.x, Scalar.mul v.y o.y⟩ ∧
      v.adds s = ⟨Scalar.add v.x s, Scalar.add v.y s⟩ ∧
      v.subs s = ⟨Scalar.sub v.x s, Scalar.sub v.y s⟩ ∧
      v.muls s = ⟨Scalar.mul v.x s, Scalar.mul v.y s⟩) ∧
    (∀ (T : Type) [Scalar T] (v o : Vector3 T) (s : T),
      v.add o = ⟨Scalar.add v.x o.x, Scalar.add v.y o.y, Scalar.add v.z o.z⟩ ∧
      v.sub o = ⟨Scalar.sub v.x o.x, Scalar.sub v.y o.y, Scalar.sub v.z o.z⟩ ∧
      v.mul o = ⟨Scalar.mul v.x o.x, Scalar.mul v.y o.y, Scalar.mul v.z o.z⟩ ∧
      v.adds s = ⟨Scalar.add v.x s, Scalar.add v.y s, Scalar.add v.z s⟩ ∧
      v.subs s = ⟨Scalar.sub v.x s, Scalar.sub v.y s, Scalar.sub v.z s⟩ ∧
      v.muls s = ⟨Scalar.mul v.x s, Scalar.mul v.y s, Scalar.mul v.z s⟩) ∧
    (∀ (T : Type) [Scalar T] (v o : Vector4 T) (s : T),
      v.add o = ⟨Scalar.add v.x o.x, Scalar.add v.y o.y, Scalar.add v.z o.z, Scalar.add v.w o.w⟩ ∧
      v.sub o = ⟨Scalar.sub v.x o.x, Scalar.sub v.y o.y, Scalar.sub v.z o.z, Scalar.sub v.w o.w⟩ ∧
      v.mul o = ⟨Scalar.mul v.x o.x, Scalar.mul v.y o.y, Scalar.mul v.z o.z, Scalar.mul v.w o.w⟩ ∧
      v.adds s = ⟨Scalar.add v.x s, Scalar.add v.y s, Scalar.add v.z s, Scalar.add v.w s⟩ ∧
      v.subs s = ⟨Scalar.sub v.x s, Scalar.sub v.y s, Scalar.sub v.z s, Scalar.sub v.w s⟩ ∧
      v.muls s = ⟨Scalar.mul v.x s, Scalar.mul v.y s, Scalar.mul v.z s, Scalar.mul v.w s⟩) ∧
    (∀ (v o : Vector2 I32) (s : I32),
      v.add o = ⟨I32.wrap (v.x.val + o.x.val), I32.wrap (v.y.val + o.y.val)⟩ ∧
      v.sub o = ⟨I32.wrap (v.x.val - o.x.val), I32.wrap (v.y.val - o.y.val)⟩ ∧
      v.mul o = ⟨I32.wrap (v.x.val * o.x.val), I32.wrap (v.y.val * o.y.val)⟩ ∧
      v.adds s = ⟨I32.wrap (v.x.val + s.val), I32.wrap (v.y.val + s.val)⟩ ∧
      v.subs s = ⟨I32.wrap (v.x.val - s.val), I32.wrap (v.y.val - s.val)⟩ ∧
      v.muls s = ⟨I32.wrap (v.x.val * s.val), I32.wrap (v.y.val * s.val)⟩) ∧
    (∀ (v o : Vector3 I32) (s : I32),
      v.add o = ⟨I32.wrap (v.x.val + o.x.val), I32.wrap (v.y.val + o.y.val), I32.wrap (v.z.val + o.z.val)⟩ ∧
      v.sub o = ⟨I32.wrap (v.x.val - o.x.val), I32.wrap (v.y.val - o.y.val), I32.wrap (v.z.val - o.z.val)⟩ ∧
      v.mul o = ⟨I32.wrap (v.x.val * o.x.val), I32.wrap (v.y.val * o.y.val), I32.wrap (v.z.val * o.z.val)⟩ ∧
      v.adds s = ⟨I32.wrap (v.x.val + s.val), I32.wrap (v.y.val + s.val), I32.wrap (v.z.val + s.val)⟩ ∧
      v.subs s = ⟨I32.wrap (v.x.val - s.val), I32.wrap (v.y.val - s.val), I32.wrap (v.z.val - s.val)⟩ ∧
      v.muls s = ⟨I32.wrap (v.x.val * s.val), I32.wrap (v.y.val * s.val), I32.wrap (v.z.val * s.val)⟩) ∧
    (∀ (v o : Vector4 I32) (s : I32),
      v.add o = ⟨I32.wrap (v.x.val + o.x.val), I32.wrap (v.y.val + o.y.val), I32.wrap (v.z.val + o.z.val), I32.wrap (v.w.val + o.w.val)⟩ ∧
      v.sub o = ⟨I32.wrap (v.x.val - o.x.val), I32.wrap (v.y.val - o.y.val), I32.wrap (v.z.val - o.z.val), I32.wrap (v.w.val - o.w.val)⟩ ∧
      v.mul o = ⟨I32.wrap (v.x.val * o.x.val), I32.wrap (v.y.val * o.y.val), I32.wrap (v.z.val * o.z.val), I32.wrap (v.w.val * o.w.val)⟩ ∧
      v.adds s = ⟨I32.wrap (v.x.val + s.val), I32.wrap (v.y.val + s.val), I32.wrap (v.z.val + s.val), I32.wrap (v.w.val + s.val)⟩ ∧
      v.subs s = ⟨I32.wrap (v.x.val - s.val), I32.wrap (v.y.val - s.val), I32.wrap (v.z.val - s.val), I32.wrap (v.w.val - s.val)⟩ ∧
      v.muls s = ⟨I32.wrap (v.x.val * s.val), I32.wrap (v.y.val * s.val), I32.wrap (v.z.val * s.val), I32.wrap (v.w.val * s.val)⟩) ∧
    (Vector4.add (⟨I32.wrap 2, I32.wrap (-3), I32.wrap 1, I32.wrap 5⟩ : Vector4 I32)
        ⟨I32.wrap (-4), I32.wrap 1, I32.wrap 2, I32.wrap (-1)⟩ =
        ⟨I32.wrap (-2), I32.wrap (-2), I32.wrap 3, I32.wrap 4⟩ ∧
      Vector4.sub (⟨I32.wrap 5, I32.wrap (-2), I32.wrap 8, I32.wrap 3⟩ : Vector4 I32)
        ⟨I32.wrap 3, I32.wrap 1, I32.wrap 2, I32.wrap (-1)⟩ =
        ⟨I32.wrap 2, I32.wrap (-3), I32.wrap 6, I32.wrap 4⟩ ∧
      Vector4.mul (⟨I32.wrap 2, I32.wrap (-3), I32.wrap 4, I32.wrap 1⟩ : Vector4 I32)
        ⟨I32.wrap 4, I32.wrap 5, I32.wrap (-2), I32.wrap 3⟩ =
        ⟨I32.wrap 8, I32.wrap (-15), I32.wrap (-8), I32.wrap 3⟩ ∧
      Vector4.adds (⟨I32.wrap (-2), I32.wrap 8, I32.wrap 3, I32.wrap (-1)⟩ : Vector4 I32)
        (I32.wrap 12) = ⟨I32.wrap 10, I32.wrap 20, I32.wrap 15, I32.wrap 11⟩ ∧
      Vector4.add
        (⟨Fp.round binary32 false (314 * binary32.unit) 100, Fp.round binary32 true (272 * binary32.unit) 10, Fp.round binary32 false (5 * binary32.unit) 10, Fp.round binary32 false (1 * binary32.unit) 1⟩ : Vector4 F32)
        ⟨Fp.round binary32 false (1 * binary32.unit) 100, Fp.round binary32 false (3 * binary32.unit) 1, Fp.round binary32 true (5 * binary32.unit) 10, Fp.round binary32 false (2 * binary32.unit) 1⟩ =
        ⟨Fp.round binary32 false (315 * binary32.unit) 100, Fp.round binary32 true (242 * binary32.unit) 10, Fp.fin false 0, Fp.round binary32 false (3 * binary32.unit) 1⟩) := by
  have ha : ∀ a b : I32, Scalar.add a b = I32.wrap (a.val + b.val) := fun _ _ => rfl
  have hs : ∀ a b : I32, Scalar.sub a b = I32.wrap (a.val - b.val) := fun _ _ => rfl
  have hm : ∀ a b : I32, Scalar.mul a b = I32.wrap (a.val * b.val) := fun _ _ => rfl
  refine ⟨fun _ _ _ _ _ => ⟨rfl, rfl, rfl, rfl, rfl, rfl⟩,
    fun _ _ _ _ _ => ⟨rfl, rfl, rfl, rfl, rfl, rfl⟩,
    fun _ _ _ _ _ => ⟨rfl, rfl, rfl, rfl, rfl, rfl⟩,
    fun _ _ _ => ⟨rfl, rfl, rfl, rfl, rfl, rfl⟩, fun _ _ _ => ⟨rfl, rfl, rfl, rfl, rfl, rfl⟩,
    fun _ _ _ => ⟨rfl, rfl, rfl, rfl, rfl, rfl⟩, by decide!⟩

/-! ## Compound assignment -/

/-- C16: for `N = 2, 3, 4`, every scalar type and each of `+=`, `-=`, `*=`, `/=`
with a vector or a scalar on the right, the receiver after `v op= r` is the
value of `v op r`; for `/=` the two fault on the same operands. The
`Vector3i` cases of the tests, `(2,-3,1) += (-4,1,5)` and `(-2,8,3) += 12`,
and `Vector2i(8,-6) /= (2,3)` are evaluated. -/
theorem compound_eq_binary :
    (∀ (T : Type) [Scalar T] (v o : Vector2 T) (s : T),
      v.addAssign o = v.add o ∧
      v.subAssign o = v.sub o ∧
      v.mulAssign o = v.mul o ∧
      v.divAssign o = v.div o ∧
      v.addsAssign s = v.adds s ∧
      v.subsAssign s = v.subs s ∧
      v.mulsAssign s = v.muls s ∧
      v.divsAssign s = v.divs s) ∧
    (∀ (T : Type) [Scalar T] (v o : Vector3 T) (s : T),
      v.addAssign o = v.add o ∧
      v.subAssign o = v.sub o ∧
      v.mulAssign o = v.mul o ∧
      v.divAssign o = v.div o ∧
      v.addsAssign s = v.adds s ∧
      v.subsAssign s = v.subs s ∧
      v.mulsAssign s = v.muls s ∧
      v.divsAssign s = v.divs s) ∧
    (∀ (T : Type) [Scalar T] (v o : Vector4 T) (s : T),
      v.addAssign o = v.add o ∧
      v.subAssign o = v.sub o ∧
      v.mulAssign o = v.mul o ∧
      v.divAssign o = v.div o ∧
      v.addsAssign s = v.adds s ∧
      v.subsAssign s = v.subs s ∧
      v.mulsAssign s = v.muls s ∧
      v.divsAssign s = v.divs s) ∧
    (Vector3.addAssign (⟨I32.wrap 2, I32.wrap (-3), I32.wrap 1⟩ : Vector3 I32)
        ⟨I32.wrap (-4), I32.wrap 1, I32.wrap 5⟩ = ⟨I32.wrap (-2), I32.wrap (-2), I32.wrap 6⟩ ∧
      Vector3.addsAssign (⟨I32.wrap (-2), I32.wrap 8, I32.wrap 3⟩ : Vector3 I32) (I32.wrap 12) =
        ⟨I32.wrap 10, I32.wrap 20, I32.wrap 15⟩ ∧
      Vector2.divAssign (⟨I32.wrap 8, I32.wrap (-6)⟩ : Vector2 I32) ⟨I32.wrap 2, I32.wrap 3⟩ =
        some ⟨I32.wrap 4, I32.wrap (-2)⟩ ∧
      Vector2.divAssign (⟨I32.wrap 8, I32.wrap (-6)⟩ : Vector2 I32) ⟨I32.wrap 2, I32.wrap 0⟩ =
        none) := by
  refine ⟨fun _ _ _ _ _ => ⟨rfl, rfl, rfl, rfl, rfl, rfl, rfl, rfl⟩,
    fun _ _ _ _ _ => ⟨rfl, rfl, rfl, rfl, rfl, rfl, rfl, rfl⟩,
    fun _ _ _ _ _ => ⟨rfl, rfl, rfl, rfl, rfl, rfl, rfl, rfl⟩, by decide⟩

/-- C17: each compound assignment returns the receiver itself. For
`N = 2, 3, 4`, every store `σ`, every object address `v` and all operands, the
chain `(v op= a) op= b` applies the second assignment to the object at `v`
again: afterwards the store holds `(v_old op a) op b` at `v`, every other object
is unchanged, and the reference returned is `v`; this holds for `+=`, `-=`,
`*=` and (when no division faults) `/=`, in vector and scalar form. On a store
holding `Vector4i(1,2,3,4)` at address `0`, `(v += (1,1,1,1)) += (2,2,2,2)`
leaves `(4,5,6,7)` there. -/
theorem compound_chain :
    (∀ (T : Type) [Scalar T] (σ : Nat → Vector2 T) (v : Nat) (a b : Vector2 T) (as bs : T),
      Vector2.opAddAssign (Vector2.opAddAssign σ v a).1 (Vector2.opAddAssign σ v a).2 b =
        (Function.update σ v (((σ v).add a).add b), v) ∧
      Vector2.opAddsAssign (Vector2.opAddsAssign σ v as).1 (Vector2.opAddsAssign σ v as).2 bs =
        (Function.update σ v (((σ v).adds as).adds bs), v) ∧
      Vector2.opSubAssign (Vector2.opSubAssign σ v a).1 (Vector2.opSubAssign σ v a).2 b =
        (Function.update σ v (((σ v).sub a).sub b), v) ∧
      Vector2.opSubsAssign (Vector2.opSubsAssign σ v as).1 (Vector2.opSubsAssign σ v as).2 bs =
        (Function.update σ v (((σ v).subs as).subs bs), v) ∧
      Vector2.opMulAssign (Vector2.opMulAssign σ v a).1 (Vector2.opMulAssign σ v a).2 b =
        (Function.update σ v (((σ v).mul a).mul b), v) ∧
      Vector2.opMulsAssign (Vector2.opMulsAssign σ v as).1 (Vector2.opMulsAssign σ v as).2 bs =
        (Function.update σ v (((σ v).muls as).muls bs), v) ∧
      (Vector2.opDivAssign σ v a).bind (fun r => Vector2.opDivAssign r.1 r.2 b) =
        (((σ v).div a).bind (fun w => w.div b)).map
          (fun w => (Function.update σ v w, v)) ∧
      (Vector2.opDivsAssign σ v as).bind (fun r => Vector2.opDivsAssign r.1 r.2 bs) =
        (((σ v).divs as).bind (fun w => w.divs bs)).map
          (fun w => (Function.update σ v w, v))) ∧
    (∀ (T : Type) [Scalar T] (σ : Nat → Vector3 T) (v : Nat) (a b : Vector3 T) (as bs : T),
      Vector3.opAddAssign (Vector3.opAddAssign σ v a).1 (Vector3.opAddAssign σ v a).2 b =
        (Function.update σ v (((σ v).add a).add b), v) ∧
      Vector3.opAddsAssign (Vector3.opAddsAssign σ v as).1 (Vector3.opAddsAssign σ v as).2 bs =
        (Function.update σ v (((σ v).adds as).adds bs), v) ∧
      Vector3.opSubAssign (Vector3.opSubAssign σ v a).1 (Vector3.opSubAssign σ v a).2 b =
        (Function.update σ v (((σ v).sub a).sub b), v) ∧
      Vector3.opSubsAssign (Vector3.opSubsAssign σ v as).1 (Vector3.opSubsAssign σ v as).2 bs =
        (Function.update σ v (((σ v).subs as).subs bs), v) ∧
      Vector3.opMulAssign (Vector3.opMulAssign σ v a).1 (Vector3.opMulAssign σ v a).2 b =
        (Function.update σ v (((σ v).mul a).mul b), v) ∧
      Vector3.opMulsAssign (Vector3.opMulsAssign σ v as).1 (Vector3.opMulsAssign σ v as).2 bs =
        (Function.update σ v (((σ v).muls as).muls bs), v) ∧
      (Vector3.opDivAssign σ v a).bind (fun r => Vector3.opDivAssign r.1 r.2 b) =
        (((σ v).div a).bind (fun w => w.div b)).map
          (fun w => (Function.update σ v w, v)) ∧
      (Vector3.opDivsAssign σ v as).bind (fun r => Vector3.opDivsAssign r.1 r.2 bs) =
        (((σ v).divs as).bind (fun w => w.divs bs)).map
          (fun w => (Function.update σ v w, v))) ∧
    (∀ (T : Type) [Scalar T] (σ : Nat → Vector4 T) (v : Nat) (a b : Vector4 T) (as bs : T),
      Vector4.opAddAssign (Vector4.opAddAssign σ v a).1 (Vector4.opAddAssign σ v a).2 b =
        (Function.update σ v (((σ v).add a).add b), v) ∧
      Vector4.opAddsAssign (Vector4.opAddsAssign σ v as).1 (Vector4.opAddsAssign σ v as).2 bs =
        (Function.update σ v (((σ v).adds as).adds bs), v) ∧
      Vector4.opSubAssign (Vector4.opSubAssign σ v a).1 (Vector4.opSubAssign σ v a).2 b =
        (Function.update σ v (((σ v).sub a).sub b), v) ∧
      Vector4.opSubsAssign (Vector4.opSubsAssign σ v as).1 (Vector4.opSubsAssign σ v as).2 bs =
        (Function.update σ v (((σ v).subs as).subs bs), v) ∧
      Vector4.opMulAssign (Vector4.opMulAssign σ v a).1 (Vector4.opMulAssign σ v a).2 b =
        (Function.update σ v (((σ v).mul a).mul b), v) ∧
      Vector4.opMulsAssign (Vector4.opMulsAssign σ v as).1 (Vector4.opMulsAssign σ v as).2 bs =
        (Function.update σ v (((σ v).muls as).muls bs), v) ∧
      (Vector4.opDivAssign σ v a).bind (fun r => Vector4.opDivAssign r.1 r.2 b) =
        (((σ v).div a).bind (fun w => w.div b)).map
          (fun w => (Function.update σ v w, v)) ∧
      (Vector4.opDivsAssign σ v as).bind (fun r => Vector4.opDivsAssign r.1 r.2 bs) =
        (((σ v).divs as).bind (fun w => w.divs bs)).map
          (fun w => (Function.update σ v w, v))) ∧
    ((Vector4.opAddAssign
        (Vector4.opAddAssign (fun _ => (⟨I32.wrap 1, I32.wrap 2, I32.wrap 3, I32.wrap 4⟩ :
          Vector4 I32)) 0 ⟨I32.wrap 1, I32.wrap 1, I32.wrap 1, I32.wrap 1⟩).1
        (Vector4.opAddAssign (fun _ => (⟨I32.wrap 1, I32.wrap 2, I32.wrap 3, I32.wrap 4⟩ :
          Vector4 I32)) 0 ⟨I32.wrap 1, I32.wrap 1, I32.wrap 1, I32.wrap 1⟩).2
        ⟨I32.wrap 2, I32.wrap 2, I32.wrap 2, I32.wrap 2⟩).1 0 =
      ⟨I32.wrap 4, I32.wrap 5, I32.wrap 6, I32.wrap 7⟩) := by
  have hu : ∀ (V : Type) (σ : Nat → V) (v : Nat) (x y : V),
      Function.update (Function.update σ v x) v y = Function.update σ v y :=
    fun _ σ v x y => Function.update_idem x y σ
  have hd : ∀ (V : Type) (σ : Nat → V) (v : Nat) (f g : V → Option V),
      (((f (σ v)).map fun w => (Function.update σ v w, v)).bind fun r =>
        (g (r.1 r.2)).map fun w => (Function.update r.1 r.2 w, r.2)) =
      ((f (σ v)).bind fun w => g w).map fun w => (Function.update σ v w, v) := by
    intro V σ v f g
    cases h : f (σ v) with
    | none => rfl
    | some w =>
      simp only [Option.map_some', Option.some_bind, Function.update_same]
      cases g w with
      | none => rfl
      | some u => simp only [Option.map_some', hu]
  refine ⟨?_, ?_, ?_, by decide⟩ <;> intro T _ σ v a b as bs <;>
    refine ⟨?_, ?_, ?_, ?_, ?_, ?_, ?_, ?_⟩
  all_goals first
    | (simp only [Vector2.opAddAssign, Vector2.opAddsAssign, Vector2.opSubAssign,
        Vector2.opSubsAssign, Vector2.opMulAssign, Vector2.opMulsAssign,
        Vector3.opAddAssign, Vector3.opAddsAssign, Vector3.opSubAssign,
        Vector3.opSubsAssign, Vector3.opMulAssign, Vector3.opMulsAssign,
        Vector4.opAddAssign, Vector4.opAddsAssign, Vector4.opSubAssign,
        Vector4.opSubsAssign, Vector4.opMulAssign, Vector4.opMulsAssign,
        Function.update_same, hu]; rfl)
    | exact hd _ σ v (fun w => Vector2.divAssign w a) (fun w => Vector2.divAssign w b)
    | exact hd _ σ v (fun w => Vector2.divsAssign w as) (fun w => Vector2.divsAssign w bs)
    | exact hd _ σ v (fun w => Vector3.divAssign w a) (fun w => Vector3.divAssign w b)
    | exact hd _ σ v (fun w => Vector3.divsAssign w as) (fun w => Vector3.divsAssign w bs)
    | exact hd _ σ v (fun w => Vector4.divAssign w a) (fun w => Vector4.divAssign w b)
    | exact hd _ σ v (fun w => Vector4.divsAssign w as) (fun w => Vector4.divsAssign w bs)

/-! ## Equality -/

/-- The `int` comparison `a == b` answers true exactly for equal values. -/
theorem I32.eq_iff (a b : I32) : I32.eq a b = true ↔ a = b := by
  unfold I32.eq
  rw [decide_eq_true_iff]
  exact ⟨I32.ext_val, fun h => by rw [h]⟩

/-- C18: equality is structural. For `N = 2, 3, 4` and every scalar type,
`a == b` answers true if and only if `==` of the scalar type answers true on
every pair of corresponding components; for `int` vectors that is the case
exactly when the two vectors are the same. With the `==` of `double`, `(+0, 1)`
equals `(-0, 1)` and `(NaN, 1)` does not equal itself. -/
theorem eq_componentwise :
    (∀ (T : Type) [Scalar T] (a b : Vector2 T),
      a.eq b = true ↔ Scalar.eq a.x b.x = true ∧ Scalar.eq a.y b.y = true) ∧
    (∀ (T : Type) [Scalar T] (a b : Vector3 T),
      a.eq b = true ↔ Scalar.eq a.x b.x = true ∧ Scalar.eq a.y b.y = true ∧ Scalar.eq a.z b.z = true) ∧
    (∀ (T : Type) [Scalar T] (a b : Vector4 T),
      a.eq b = true ↔ Scalar.eq a.x b.x = true ∧ Scalar.eq a.y b.y = true ∧ Scalar.eq a.z b.z = true ∧ Scalar.eq a.w b.w = true) ∧
    (∀ a b : Vector2 I32, a.eq b = true ↔ a = b) ∧
    (∀ a b : Vector3 I32, a.eq b = true ↔ a = b) ∧
    (∀ a b : Vector4 I32, a.eq b = true ↔ a = b) ∧
    (Vector2.eq (⟨Fp.fin false 0, Fp.ofInt binary64 1⟩ : Vector2 F64)
        ⟨Fp.fin true 0, Fp.ofInt binary64 1⟩ = true ∧
      Vector2.eq (⟨Fp.nan, Fp.ofInt binary64 1⟩ : Vector2 F64)
        ⟨Fp.nan, Fp.ofInt binary64 1⟩ = false) := by
  refine ⟨?_, ?_, ?_, ?_, ?_, ?_, by decide!⟩
  · intro T _ a b
    simp only [Vector2.eq, Bool.and_eq_true]
  · intro T _ a b
    simp only [Vector3.eq, Bool.and_eq_true, and_assoc]
  · intro T _ a b
    simp only [Vector4.eq, Bool.and_eq_true, and_assoc]
  · intro a b
    cases a
    cases b
    simp only [Vector2.eq, Bool.and_eq_true, Scalar.eq, I32.eq_iff, Vector2.mk.injEq]
  · intro a b
    cases a
    cases b
    simp only [Vector3.eq, Bool.and_eq_true, Scalar.eq, I32.eq_iff, Vector3.mk.injEq, and_assoc]
  · intro a b
    cases a
    cases b
    simp only [Vector4.eq, Bool.and_eq_true, Scalar.eq, I32.eq_iff, Vector4.mk.injEq, and_assoc]

/-! ## Default construction -/

/-- C19: for `N = 2, 3, 4` the default-constructed vector has every component
value-initialised, that is `T(0)`: the integer `0` for `int` and `+0` for
`float` and `double`; it compares equal to the vector constructed from zeros. -/
theorem default_is_zero :
    (∀ (T : Type) [Scalar T], (Vector2.zero : Vector2 T) = ⟨Scalar.ofInt 0, Scalar.ofInt 0⟩) ∧
    (∀ (T : Type) [Scalar T], (Vector3.zero : Vector3 T) = ⟨Scalar.ofInt 0, Scalar.ofInt 0, Scalar.ofInt 0⟩) ∧
    (∀ (T : Type) [Scalar T], (Vector4.zero : Vector4 T) = ⟨Scalar.ofInt 0, Scalar.ofInt 0, Scalar.ofInt 0, Scalar.ofInt 0⟩) ∧
    ((Vector2.zero : Vector2 I32).x.val = 0 ∧ (Vector2.zero : Vector2 I32).y.val = 0 ∧
      (Vector2.zero : Vector2 I32).eq ⟨I32.wrap 0, I32.wrap 0⟩ = true) ∧
    ((Vector3.zero : Vector3 I32).x.val = 0 ∧ (Vector3.zero : Vector3 I32).y.val = 0 ∧ (Vector3.zero : Vector3 I32).z.val = 0 ∧
      (Vector3.zero : Vector3 I32).eq ⟨I32.wrap 0, I32.wrap 0, I32.wrap 0⟩ = true) ∧
    ((Vector4.zero : Vector4 I32).x.val = 0 ∧ (Vector4.zero : Vector4 I32).y.val = 0 ∧ (Vector4.zero : Vector4 I32).z.val = 0 ∧ (Vector4.zero : Vector4 I32).w.val = 0 ∧
      (Vector4.zero : Vector4 I32).eq ⟨I32.wrap 0, I32.wrap 0, I32.wrap 0, I32.wrap 0⟩ = true) ∧
    ((Vector2.zero : Vector2 F32) = ⟨Fp.fin false 0, Fp.fin false 0⟩ ∧
      (Vector2.zero : Vector2 F32).eq ⟨Fp.ofInt binary32 0, Fp.ofInt binary32 0⟩ = true) ∧
    ((Vector2.zero : Vector2 F64) = ⟨Fp.fin false 0, Fp.fin false 0⟩ ∧
      (Vector2.zero : Vector2 F64).eq ⟨Fp.ofInt binary64 0, Fp.ofInt binary64 0⟩ = true) ∧
    ((Vector3.zero : Vector3 F32) = ⟨Fp.fin false 0, Fp.fin false 0, Fp.fin false 0⟩ ∧
      (Vector3.zero : Vector3 F32).eq ⟨Fp.ofInt binary32 0, Fp.ofInt binary32 0, Fp.ofInt binary32 0⟩ = true) ∧
    ((Vector3.zero : Vector3 F64) = ⟨Fp.fin false 0, Fp.fin false 0, Fp.fin false 0⟩ ∧
      (Vector3.zero : Vector3 F64).eq ⟨Fp.ofInt binary64 0, Fp.ofInt binary64 0, Fp.ofInt binary64 0⟩ = true) ∧
    ((Vector4.zero : Vector4 F32) = ⟨Fp.fin false 0, Fp.fin false 0, Fp.fin false 0, Fp.fin false 0⟩ ∧
      (Vector4.zero : Vector4 F32).eq ⟨Fp.ofInt binary32 0, Fp.ofInt binary32 0, Fp.ofInt binary32 0, Fp.ofInt binary32 0⟩ = true) ∧
    ((Vector4.zero : Vector4 F64) = ⟨Fp.fin false 0, Fp.fin false 0, Fp.fin false 0, Fp.fin false 0⟩ ∧
      (Vector4.zero : Vector4 F64).eq ⟨Fp.ofInt binary64 0, Fp.ofInt binary64 0, Fp.ofInt binary64 0, Fp.ofInt binary64 0⟩ = true) := by
  refine ⟨fun _ _ => rfl, fun _ _ => rfl, fun _ _ => rfl, by decide, by decide, by decide,
    by decide!, by decide!, by decide!, by decide!, by decide!, by decide!⟩

/-! ## Division of `int` -/

/-- The quotient of two `int` values, truncated toward zero, is an `int`
unless the divisor is zero or the operands are `-2^31` and `-1`. -/
theorem I32.tdiv_in_range (a b : I32) (hb : b.val ≠ 0)
    (h : ¬ (a.val = -2147483648 ∧ b.val = -1)) :
    -2147483648 ≤ Int.tdiv a.val b.val ∧ Int.tdiv a.val b.val ≤ 2147483647 := by
  have h1 := a.lo
  have h2 := a.hi
  have h3 : (Int.tdiv a.val b.val).natAbs = a.val.natAbs / b.val.natAbs := Int.natAbs_tdiv _ _
  by_cases hb1 : b.val = 1
  · rw [hb1, Int.tdiv_one]
    exact ⟨h1, h2⟩
  · by_cases hb2 : b.val = -1
    · have : Int.tdiv a.val b.val = -a.val := by
        rw [hb2, Int.tdiv_neg, Int.tdiv_one]
      rw [this]
      have : a.val ≠ -2147483648 := fun e => h ⟨e, hb2⟩
      omega
    · have h4 : 2 ≤ b.val.natAbs := by omega
      have h5 : a.val.natAbs / b.val.natAbs ≤ a.val.natAbs / 2 :=
        Nat.div_le_div_left h4 (by norm_num)
      have h6 : a.val.natAbs / 2 ≤ 1073741824 := by omega
      omega

/-- The `int` division faults exactly when the divisor is zero or the operands
are `-2^31` and `-1`; otherwise its result is the quotient truncated toward zero. -/
theorem I32.div_spec (a b : I32) :
    (I32.div a b = none ∧ (b.val = 0 ∨ (a.val = -2147483648 ∧ b.val = -1))) ∨
    (∃ r, I32.div a b = some r ∧ r.val = Int.tdiv a.val b.val ∧
      ¬ (b.val = 0 ∨ (a.val = -2147483648 ∧ b.val = -1))) := by
  unfold I32.div
  by_cases hb : b.val = 0
  · left
    rw [if_pos hb]
    exact ⟨rfl, Or.inl hb⟩
  · by_cases hm : a.val = -2147483648 ∧ b.val = -1
    · left
      rw [if_neg hb, if_pos hm]
      exact ⟨rfl, Or.inr hm⟩
    · right
      rw [if_neg hb, if_neg hm]
      have hr := I32.tdiv_in_range a b hb hm
      refine ⟨_, rfl, I32.wrap_of_range hr.1 hr.2, ?_⟩
      rintro (h | h)
      · exact hb h
      · exact hm h

/-- The `int` division faults exactly when the divisor is zero or the operands
are `-2^31` and `-1`. -/
theorem I32.div_eq_none_iff (a b : I32) :
    I32.div a b = none ↔ (b.val = 0 ∨ (a.val = -2147483648 ∧ b.val = -1)) := by
  rcases I32.div_spec a b with ⟨h, hb⟩ | ⟨r, h, _, hb⟩
  · rw [h]
    exact ⟨fun _ => hb, fun _ => rfl⟩
  · rw [h]
    exact ⟨fun e => (by cases e), fun e => absurd e hb⟩

/-- A result of the `int` division is the quotient truncated toward zero. -/
theorem I32.div_some_val (a b r : I32) (h : Scalar.div a b = some r) :
    r.val = Int.tdiv a.val b.val := by
  have h' : I32.div a b = some r := h
  rcases I32.div_spec a b with ⟨h1, _⟩ | ⟨r1, h1, e1, _⟩
  · rw [h1] at h'
    cases h'
  · rw [h1] at h'
    cases h'
    exact e1

/-- A fallible step followed by a step that always has a result. -/
theorem bind_some_eq_none {α β : Type} (a : Option α) (g : α → β) :
    (a.bind fun x => some (g x)) = none ↔ a = none := by
  cases a <;> simp

/-- A sequence of two fallible steps has no result exactly when one of them has none. -/
theorem bind_eq_none_or {α β : Type} (a : Option α) (P : Prop) (f : α → Option β)
    (hf : ∀ x, f x = none ↔ P) : a.bind f = none ↔ (a = none ∨ P) := by
  cases a with
  | none => simp
  | some x => simp [hf x]

/-- When `operator/` of `Vector2<int>` by a vector faults. -/
theorem div2_eq_none_iff (v o : Vector2 I32) :
    v.div o = none ↔
        (o.x.val = 0 ∨ (v.x.val = -2147483648 ∧ o.x.val = -1)) ∨
        (o.y.val = 0 ∨ (v.y.val = -2147483648 ∧ o.y.val = -1)) :=
  (bind_eq_none_or (I32.div v.x o.x) (I32.div v.y o.y = none) _ (fun _ => bind_some_eq_none (I32.div v.y o.y) _)).trans
    (or_congr (I32.div_eq_none_iff v.x o.x) (I32.div_eq_none_iff v.y o.y))

/-- The components of a quotient of `Vector2<int>` by a vector. -/
theorem div2_some_val (v o : Vector2 I32) (r : Vector2 I32) (hr : v.div o = some r) :
        r.x.val = Int.tdiv v.x.val o.x.val ∧
        r.y.val = Int.tdiv v.y.val o.y.val := by
  unfold Vector2.div at hr
  obtain ⟨a, ha, hr⟩ := Option.bind_eq_some.1 hr
  obtain ⟨b, hb, hr⟩ := Option.bind_eq_some.1 hr
  cases hr
  exact ⟨I32.div_some_val _ _ _ ha, I32.div_some_val _ _ _ hb⟩

/-- When `operator/` of `Vector3<int>` by a vector faults. -/
theorem div3_eq_none_iff (v o : Vector3 I32) :
    v.div o = none ↔
        (o.x.val = 0 ∨ (v.x.val = -2147483648 ∧ o.x.val = -1)) ∨
        (o.y.val = 0 ∨ (v.y.val = -2147483648 ∧ o.y.val = -1)) ∨
        (o.z.val = 0 ∨ (v.z.val = -2147483648 ∧ o.z.val = -1)) :=
  (bind_eq_none_or (I32.div v.x o.x) (I32.div v.y o.y = none ∨ I32.div v.z o.z = none) _ (fun _ => bind_eq_none_or (I32.div v.y o.y) (I32.div v.z o.z = none) _ (fun _ => bind_some_eq_none (I32.div v.z o.z) _))).trans
    (or_congr (I32.div_eq_none_iff v.x o.x) (or_congr (I32.div_eq_none_iff v.y o.y) (I32.div_eq_none_iff v.z o.z)))

/-- The components of a quotient of `Vector3<int>` by a vector. -/
theorem div3_some_val (v o : Vector3 I32) (r : Vector3 I32) (hr : v.div o = some r) :
        r.x.val = Int.tdiv v.x.val o.x.val ∧
        r.y.val = Int.tdiv v.y.val o.y.val ∧
        r.z.val = Int.tdiv v.z.val o.z.val := by
  unfold Vector3.div at hr
  obtain ⟨a, ha, hr⟩ := Option.bind_eq_some.1 hr
  obtain ⟨b, hb, hr⟩ := Option.bind_eq_some.1 hr
  obtain ⟨c, hc, hr⟩ := Option.bind_eq_some.1 hr
  cases hr
  exact ⟨I32.div_some_val _ _ _ ha, I32.div_some_val _ _ _ hb, I32.div_some_val _ _ _ hc⟩

/-- When `operator/` of `Vector4<int>` by a vector faults. -/
theorem div4_eq_none_iff (v o : Vector4 I32) :
    v.div o = none ↔
        (o.x.val = 0 ∨ (v.x.val = -2147483648 ∧ o.x.val = -1)) ∨
        (o.y.val = 0 ∨ (v.y.val = -2147483648 ∧ o.y.val = -1)) ∨
        (o.z.val = 0 ∨ (v.z.val = -2147483648 ∧ o.z.val = -1)) ∨
        (o.w.val = 0 ∨ (v.w.val = -2147483648 ∧ o.w.val = -1)) :=
  (bind_eq_none_or (I32.div v.x o.x) (I32.div v.y o.y = none ∨ I32.div v.z o.z = none ∨ I32.div v.w o.w = none) _ (fun _ => bind_eq_none_or (I32.div v.y o.y) (I32.div v.z o.z = none ∨ I32.div v.w o.w = none) _ (fun _ => bind_eq_none_or (I32.div v.z o.z) (I32.div v.w o.w = none) _ (fun _ => bind_some_eq_none (I32.div v.w o.w) _)))).trans
    (or_congr (I32.div_eq_none_iff v.x o.x) (or_congr (I32.div_eq_none_iff v.y o.y) (or_congr (I32.div_eq_none_iff v.z o.z) (I32.div_eq_none_iff v.w o.w))))

/-- The components of a quotient of `Vector4<int>` by a vector. -/
theorem div4_some_val (v o : Vector4 I32) (r : Vector4 I32) (hr : v.div o = some r) :
        r.x.val = Int.tdiv v.x.val o.x.val ∧
        r.y.val = Int.tdiv v.y.val o.y.val ∧
        r.z.val = Int.tdiv v.z.val o.z.val ∧
        r.w.val = Int.tdiv v.w.val o.w.val := by
  unfold Vector4.div at hr
  obtain ⟨a, ha, hr⟩ := Option.bind_eq_some.1 hr
  obtain ⟨b, hb, hr⟩ := Option.bind_eq_some.1 hr
  obtain ⟨c, hc, hr⟩ := Option.bind_eq_some.1 hr
  obtain ⟨d, hd, hr⟩ := Option.bind_eq_some.1 hr
  cases hr
  exact ⟨I32.div_some_val _ _ _ ha, I32.div_some_val _ _ _ hb, I32.div_some_val _ _ _ hc, I32.div_some_val _ _ _ hd⟩

/-- When `operator/` of `Vector2<int>` by a scalar faults. -/
theorem divs2_eq_none_iff (v : Vector2 I32) (s : I32) :
    v.divs s = none ↔
        (s.val = 0 ∨ (v.x.val = -2147483648 ∧ s.val = -1)) ∨
        (s.val = 0 ∨ (v.y.val = -2147483648 ∧ s.val = -1)) :=
  (bind_eq_none_or (I32.div v.x s) (I32.div v.y s = none) _ (fun _ => bind_some_eq_none (I32.div v.y s) _)).trans
    (or_congr (I32.div_eq_none_iff v.x s) (I32.div_eq_none_iff v.y s))

/-- The components of a quotient of `Vector2<int>` by a scalar. -/
theorem divs2_some_val (v : Vector2 I32) (s : I32) (r : Vector2 I32) (hr : v.divs s = some r) :
        r.x.val = Int.tdiv v.x.val s.val ∧
        r.y.val = Int.tdiv v.y.val s.val := by
  unfold Vector2.divs at hr
  obtain ⟨a, ha, hr⟩ := Option.bind_eq_some.1 hr
  obtain ⟨b, hb, hr⟩ := Option.bind_eq_some.1 hr
  cases hr
  exact ⟨I32.div_some_val _ _ _ ha, I32.div_some_val _ _ _ hb⟩

/-- When `operator/` of `Vector3<int>` by a scalar faults. -/
theorem divs3_eq_none_iff (v : Vector3 I32) (s : I32) :
    v.divs s = none ↔
        (s.val = 0 ∨ (v.x.val = -2147483648 ∧ s.val = -1)) ∨
        (s.val = 0 ∨ (v.y.val = -2147483648 ∧ s.val = -1)) ∨
        (s.val = 0 ∨ (v.z.val = -2147483648 ∧ s.val = -1)) :=
  (bind_eq_none_or (I32.div v.x s) (I32.div v.y s = none ∨ I32.div v.z s = none) _ (fun _ => bind_eq_none_or (I32.div v.y s) (I32.div v.z s = none) _ (fun _ => bind_some_eq_none (I32.div v.z s) _))).trans
    (or_congr (I32.div_eq_none_iff v.x s) (or_congr (I32.div_eq_none_iff v.y s) (I32.div_eq_none_iff v.z s)))

/-- The components of a quotient of `Vector3<int>` by a scalar. -/
theorem divs3_some_val (v : Vector3 I32) (s : I32) (r : Vector3 I32) (hr : v.divs s = some r) :
        r.x.val = Int.tdiv v.x.val s.val ∧
        r.y.val = Int.tdiv v.y.val s.val ∧
        r.z.val = Int.tdiv v.z.val s.val := by
  unfold Vector3.divs at hr
  obtain ⟨a, ha, hr⟩ := Option.bind_eq_some.1 hr
  obtain ⟨b, hb, hr⟩ := Option.bind_eq_some.1 hr
  obtain ⟨c, hc, hr⟩ := Option.bind_eq_some.1 hr
  cases hr
  exact ⟨I32.div_some_val _ _ _ ha, I32.div_some_val _ _ _ hb, I32.div_some_val _ _ _ hc⟩

/-- When `operator/` of `Vector4<int>` by a scalar faults. -/
theorem divs4_eq_none_iff (v : Vector4 I32) (s : I32) :
    v.divs s = none ↔
        (s.val = 0 ∨ (v.x.val = -2147483648 ∧ s.val = -1)) ∨
        (s.val = 0 ∨ (v.y.val = -2147483648 ∧ s.val = -1)) ∨
        (s.val = 0 ∨ (v.z.val = -2147483648 ∧ s.val = -1)) ∨
        (s.val = 0 ∨ (v.w.val = -2147483648 ∧ s.val = -1)) :=
  (bind_eq_none_or (I32.div v.x s) (I32.div v.y s = none ∨ I32.div v.z s = none ∨ I32.div v.w s = none) _ (fun _ => bind_eq_none_or (I32.div v.y s) (I32.div v.z s = none ∨ I32.div v.w s = none) _ (fun _ => bind_eq_none_or (I32.div v.z s) (I32.div v.w s = none) _ (fun _ => bind_some_eq_none (I32.div v.w s) _)))).trans
    (or_congr (I32.div_eq_none_iff v.x s) (or_congr (I32.div_eq_none_iff v.y s) (or_congr (I32.div_eq_none_iff v.z s) (I32.div_eq_none_iff v.w s))))

/-- The components of a quotient of `Vector4<int>` by a scalar. -/
theorem divs4_some_val (v : Vector4 I32) (s : I32) (r : Vector4 I32) (hr : v.divs s = some r) :
        r.x.val = Int.tdiv v.x.val s.val ∧
        r.y.val = Int.tdiv v.y.val s.val ∧
        r.z.val = Int.tdiv v.z.val s.val ∧
        r.w.val = Int.tdiv v.w.val s.val := by
  unfold Vector4.divs at hr
  obtain ⟨a, ha, hr⟩ := Option.bind_eq_some.1 hr
  obtain ⟨b, hb, hr⟩ := Option.bind_eq_some.1 hr
  obtain ⟨c, hc, hr⟩ := Option.bind_eq_some.1 hr
  obtain ⟨d, hd, hr⟩ := Option.bind_eq_some.1 hr
  cases hr
  exact ⟨I32.div_some_val _ _ _ ha, I32.div_some_val _ _ _ hb, I32.div_some_val _ _ _ hc, I32.div_some_val _ _ _ hd⟩

/-- C13 fails for the operands `-2^31` and `-1`: no component of the divisor
`(-1, 3)` is zero, yet `Vector2i(-2147483648, 6) / (-1, 3)` has no result (the
quotient `2147483648` is not an `int`; the division faults). -/
theorem div_int_min_counterexample :
    (I32.wrap (-1)).val ≠ 0 ∧ (I32.wrap 3).val ≠ 0 ∧
    Vector2.div (⟨I32.wrap (-2147483648), I32.wrap 6⟩ : Vector2 I32)
      ⟨I32.wrap (-1), I32.wrap 3⟩ = none ∧
    Vector2.divAssign (⟨I32.wrap (-2147483648), I32.wrap 6⟩ : Vector2 I32)
      ⟨I32.wrap (-1), I32.wrap 3⟩ = none := by
  decide

/-- C13, amended: for `int` vectors and `N = 2, 3, 4`, division is not guarded.
`v / o` and `v / s` fault exactly when, for some component, the divisor is zero
or the operands are `-2^31` and `-1`; otherwise the result has the components
`x_i / o_i` (`x_i / s`) truncated toward zero; `/=` behaves as `/`.
`(8,-6) / (2,3) == (4,-2)`. -/
theorem div_int_unguarded :
    (∀ (v o : Vector2 I32),
      (v.div o = none ↔
        (o.x.val = 0 ∨ (v.x.val = -2147483648 ∧ o.x.val = -1)) ∨
        (o.y.val = 0 ∨ (v.y.val = -2147483648 ∧ o.y.val = -1))) ∧
      (∀ r, v.div o = some r →
        r.x.val = Int.tdiv v.x.val o.x.val ∧
        r.y.val = Int.tdiv v.y.val o.y.val) ∧
      v.divAssign o = v.div o) ∧
    (∀ (v o : Vector3 I32),
      (v.div o = none ↔
        (o.x.val = 0 ∨ (v.x.val = -2147483648 ∧ o.x.val = -1)) ∨
        (o.y.val = 0 ∨ (v.y.val = -2147483648 ∧ o.y.val = -1)) ∨
        (o.z.val = 0 ∨ (v.z.val = -2147483648 ∧ o.z.val = -1))) ∧
      (∀ r, v.div o = some r →
        r.x.val = Int.tdiv v.x.val o.x.val ∧
        r.y.val = Int.tdiv v.y.val o.y.val ∧
        r.z.val = Int.tdiv v.z.val o.z.val) ∧
      v.divAssign o = v.div o) ∧
    (∀ (v o : Vector4 I32),
      (v.div o = none ↔
        (o.x.val = 0 ∨ (v.x.val = -2147483648 ∧ o.x.val = -1)) ∨
        (o.y.val = 0 ∨ (v.y.val = -2147483648 ∧ o.y.val = -1)) ∨
        (o.z.val = 0 ∨ (v.z.val = -2147483648 ∧ o.z.val = -1)) ∨
        (o.w.val = 0 ∨ (v.w.val = -2147483648 ∧ o.w.val = -1))) ∧
      (∀ r, v.div o = some r →
        r.x.val = Int.tdiv v.x.val o.x.val ∧
        r.y.val = Int.tdiv v.y.val o.y.val ∧
        r.z.val = Int.tdiv v.z.val o.z.val ∧
        r.w.val = Int.tdiv v.w.val o.w.val) ∧
      v.divAssign o = v.div o) ∧
    (∀ (v : Vector2 I32) (s : I32),
      (v.divs s = none ↔
        (s.val = 0 ∨ (v.x.val = -2147483648 ∧ s.val = -1)) ∨
        (s.val = 0 ∨ (v.y.val = -2147483648 ∧ s.val = -1))) ∧
      (∀ r, v.divs s = some r →
        r.x.val = Int.tdiv v.x.val s.val ∧
        r.y.val = Int.tdiv v.y.val s.val) ∧
      v.divsAssign s = v.divs s) ∧
    (∀ (v : Vector3 I32) (s : I32),
      (v.divs s = none ↔
        (s.val = 0 ∨ (v.x.val = -2147483648 ∧ s.val = -1)) ∨
        (s.val = 0 ∨ (v.y.val = -2147483648 ∧ s.val = -1)) ∨
        (s.val = 0 ∨ (v.z.val = -2147483648 ∧ s.val = -1))) ∧
      (∀ r, v.divs s = some r →
        r.x.val = Int.tdiv v.x.val s.val ∧
        r.y.val = Int.tdiv v.y.val s.val ∧
        r.z.val = Int.tdiv v.z.val s.val) ∧
      v.divsAssign s = v.divs s) ∧
    (∀ (v : Vector4 I32) (s : I32),
      (v.divs s = none ↔
        (s.val = 0 ∨ (v.x.val = -2147483648 ∧ s.val = -1)) ∨
        (s.val = 0 ∨ (v.y.val = -2147483648 ∧ s.val = -1)) ∨
        (s.val = 0 ∨ (v.z.val = -2147483648 ∧ s.val = -1)) ∨
        (s.val = 0 ∨ (v.w.val = -2147483648 ∧ s.val = -1))) ∧
      (∀ r, v.divs s = some r →
        r.x.val = Int.tdiv v.x.val s.val ∧
        r.y.val = Int.tdiv v.y.val s.val ∧
        r.z.val = Int.tdiv v.z.val s.val ∧
        r.w.val = Int.tdiv v.w.val s.val) ∧
      v.divsAssign s = v.divs s) ∧
    (Vector2.div (⟨I32.wrap 8, I32.wrap (-6)⟩ : Vector2 I32) ⟨I32.wrap 2, I32.wrap 3⟩ =
        some ⟨I32.wrap 4, I32.wrap (-2)⟩ ∧
      Vector2.div (⟨I32.wrap 8, I32.wrap (-6)⟩ : Vector2 I32) ⟨I32.wrap 2, I32.wrap 0⟩ = none ∧
      Vector2.divs (⟨I32.wrap 8, I32.wrap (-6)⟩ : Vector2 I32) (I32.wrap 0) = none) :=
  ⟨fun v o => ⟨div2_eq_none_iff v o, div2_some_val v o, rfl⟩,
    fun v o => ⟨div3_eq_none_iff v o, div3_some_val v o, rfl⟩,
    fun v o => ⟨div4_eq_none_iff v o, div4_some_val v o, rfl⟩,
    fun v s => ⟨divs2_eq_none_iff v s, divs2_some_val v s, rfl⟩,
    fun v s => ⟨divs3_eq_none_iff v s, divs3_some_val v s, rfl⟩,
    fun v s => ⟨divs4_eq_none_iff v s, divs4_some_val v s, rfl⟩,
    by decide⟩

/-- C14 fails for the scalar `-1` and a component `-2^31`: the scalar is not
zero, yet `Vector2i(-2147483648, 0) / -1` has no result (the quotient
`2147483648` is not an `int`; the division faults). -/
theorem divs_int_min_counterexample :
    (I32.wrap (-1)).val ≠ 0 ∧
    Vector2.divs (⟨I32.wrap (-2147483648), I32.wrap 0⟩ : Vector2 I32) (I32.wrap (-1)) = none := by
  decide

/-- C14, amended: for `N = 2, 3, 4`, every `int` vector `v` and every `int`
scalar `s` that is not zero and, when it is `-1`, meets no component equal to
`-2^31`: `v / s` has a result, whose components are `x_i / s` truncated toward
zero, and a component is exact (`(x_i / s) * s == x_i`) exactly when `s`
divides `x_i`. `(12,-4) / 4 == (3,-1)` and `(12,-4,8,16) / 4 == (3,-1,2,4)`. -/
theorem divs_int (v2 : Vector2 I32) (v3 : Vector3 I32) (v4 : Vector4 I32) (s : I32)
    (hs : s.val ≠ 0)
    (m2 : ¬ (s.val = -1 ∧ (v2.x.val = -2147483648 ∨ v2.y.val = -2147483648)))
    (m3 : ¬ (s.val = -1 ∧ (v3.x.val = -2147483648 ∨ v3.y.val = -2147483648 ∨ v3.z.val = -2147483648)))
    (m4 : ¬ (s.val = -1 ∧ (v4.x.val = -2147483648 ∨ v4.y.val = -2147483648 ∨ v4.z.val = -2147483648 ∨ v4.w.val = -2147483648))) :
    (∃ r, v2.divs s = some r ∧
        r.x.val = Int.tdiv v2.x.val s.val ∧ r.y.val = Int.tdiv v2.y.val s.val ∧
        (r.x.val * s.val = v2.x.val ↔ s.val ∣ v2.x.val) ∧
        (r.y.val * s.val = v2.y.val ↔ s.val ∣ v2.y.val)) ∧
    (∃ r, v3.divs s = some r ∧
        r.x.val = Int.tdiv v3.x.val s.val ∧ r.y.val = Int.tdiv v3.y.val s.val ∧ r.z.val = Int.tdiv v3.z.val s.val ∧
        (r.x.val * s.val = v3.x.val ↔ s.val ∣ v3.x.val) ∧
        (r.y.val * s.val = v3.y.val ↔ s.val ∣ v3.y.val) ∧
        (r.z.val * s.val = v3.z.val ↔ s.val ∣ v3.z.val)) ∧
    (∃ r, v4.divs s = some r ∧
        r.x.val = Int.tdiv v4.x.val s.val ∧ r.y.val = Int.tdiv v4.y.val s.val ∧ r.z.val = Int.tdiv v4.z.val s.val ∧ r.w.val = Int.tdiv v4.w.val s.val ∧
        (r.x.val * s.val = v4.x.val ↔ s.val ∣ v4.x.val) ∧
        (r.y.val * s.val = v4.y.val ↔ s.val ∣ v4.y.val) ∧
        (r.z.val * s.val = v4.z.val ↔ s.val ∣ v4.z.val) ∧
        (r.w.val * s.val = v4.w.val ↔ s.val ∣ v4.w.val)) ∧
    (Vector2.divs (⟨I32.wrap 12, I32.wrap (-4)⟩ : Vector2 I32) (I32.wrap 4) =
        some ⟨I32.wrap 3, I32.wrap (-1)⟩ ∧
      Vector4.divs (⟨I32.wrap 12, I32.wrap (-4), I32.wrap 8, I32.wrap 16⟩ : Vector4 I32)
        (I32.wrap 4) = some ⟨I32.wrap 3, I32.wrap (-1), I32.wrap 2, I32.wrap 4⟩) := by
  have hx : ∀ (q x : Int), q = Int.tdiv x s.val → (q * s.val = x ↔ s.val ∣ x) := by
    intro q x hq
    constructor
    · intro h
      exact Dvd.intro_left q h
    · intro h
      rw [hq]
      exact Int.tdiv_mul_cancel h
  refine ⟨?_, ?_, ?_, by decide⟩
  · have hn : v2.divs s ≠ none := by
      rw [Ne, divs2_eq_none_iff]
      intro hb
      apply m2
      rcases hb with (h | h) | (h | h) <;>
        first
        | exact absurd h hs
        | exact ⟨h.2, by simp [h.1]⟩
    obtain ⟨r, hr⟩ := Option.ne_none_iff_exists'.1 hn
    have hq := divs2_some_val v2 s r hr
    exact ⟨r, hr, hq.1, hq.2, hx _ _ hq.1, hx _ _ hq.2⟩
  · have hn : v3.divs s ≠ none := by
      rw [Ne, divs3_eq_none_iff]
      intro hb
      apply m3
      rcases hb with (h | h) | (h | h) | (h | h) <;>
        first
        | exact absurd h hs
        | exact ⟨h.2, by simp [h.1]⟩
    obtain ⟨r, hr⟩ := Option.ne_none_iff_exists'.1 hn
    have hq := divs3_some_val v3 s r hr
    exact ⟨r, hr, hq.1, hq.2.1, hq.2.2, hx _ _ hq.1, hx _ _ hq.2.1, hx _ _ hq.2.2⟩
  · have hn : v4.divs s ≠ none := by
      rw [Ne, divs4_eq_none_iff]
      intro hb
      apply m4
      rcases hb with (h | h) | (h | h) | (h | h) | (h | h) <;>
        first
        | exact absurd h hs
        | exact ⟨h.2, by simp [h.1]⟩
    obtain ⟨r, hr⟩ := Option.ne_none_iff_exists'.1 hn
    have hq := divs4_some_val v4 s r hr
    exact ⟨r, hr, hq.1, hq.2.1, hq.2.2.1, hq.2.2.2, hx _ _ hq.1, hx _ _ hq.2.1, hx _ _ hq.2.2.1, hx _ _ hq.2.2.2⟩

/-- The hypotheses of `divs_int` hold at `(12,-4)`, `(7,-7,1)`, `(12,-4,8,16)` and `s = 4`. -/
theorem divs_int_witness :
    (I32.wrap 4).val ≠ 0 ∧
    (∃ r, Vector2.divs (⟨I32.wrap 12, I32.wrap (-4)⟩ : Vector2 I32) (I32.wrap 4) = some r ∧
        r.x.val = Int.tdiv (I32.wrap 12).val (I32.wrap 4).val ∧
        r.y.val = Int.tdiv (I32.wrap (-4)).val (I32.wrap 4).val) ∧
    (∃ r, Vector3.divs (⟨I32.wrap 7, I32.wrap (-7), I32.wrap 1⟩ : Vector3 I32) (I32.wrap 4) =
        some r ∧ r.x.val = 1 ∧ r.y.val = -1 ∧ r.z.val = 0) :=
  have h := divs_int ⟨I32.wrap 12, I32.wrap (-4)⟩ ⟨I32.wrap 7, I32.wrap (-7), I32.wrap 1⟩
    ⟨I32.wrap 12, I32.wrap (-4), I32.wrap 8, I32.wrap 16⟩ (I32.wrap 4)
    (by decide) (by decide) (by decide) (by decide)
  ⟨by decide,
    h.1.elim fun r hr => ⟨r, hr.1, hr.2.1, hr.2.2.1⟩,
    h.2.1.elim fun r hr => ⟨r, hr.1, hr.2.1.trans (by decide), hr.2.2.1.trans (by decide),
      hr.2.2.2.1.trans (by decide)⟩⟩

/-! ## Integer powers -/

/-- The cast to `int` of the `double` of an integer in the range of `int`. -/
theorem I32.ofDouble_ofInt (m : Int) (h1 : -2147483648 ≤ m) (h2 : m ≤ 2147483647) :
    I32.ofDouble (Fp.ofInt binary64 m) = some (I32.wrap m) := by
  have hU : 0 < binary64.unit := by unfold Fmt.unit; positivity
  have hm : m.natAbs < 2 ^ binary64.prec := by
    show m.natAbs < 2 ^ 53
    omega
  rw [Fp.ofInt_exact binary64 (by decide) (by decide) m hm]
  have ht : Fp.trunc (Fp.fin (decide (m < 0)) (m.natAbs * binary64.unit) : F64) = some m := by
    simp only [Fp.trunc, Nat.mul_div_cancel _ hU, Fp.sval]
    by_cases h : m < 0
    · simp only [h, decide_True, if_true]
      congr 1
      omega
    · simp only [h, decide_False, Bool.false_eq_true, if_false]
      congr 1
      omega
  unfold I32.ofDouble
  rw [ht]
  simp only
  rw [dif_pos ⟨h1, h2⟩]
  exact congrArg some (I32.ext_val (I32.wrap_of_range h1 h2).symm)

/-- The sign of an integer power. -/
theorem pow_neg_sign (x : Int) (n : Nat) :
    decide (x ^ n < 0) = (decide (x < 0) && decide (n % 2 = 1)) := by
  rcases Nat.even_or_odd n with he | ho
  · have h1 : ¬ (n % 2 = 1) := by
      rw [Nat.even_iff] at he
      omega
    have h2 : ¬ (x ^ n < 0) := not_lt.2 (he.pow_nonneg x)
    simp [h1, h2]
  · have h1 : n % 2 = 1 := Nat.odd_iff.1 ho
    have h2 : x ^ n < 0 ↔ x < 0 := ho.pow_neg_iff
    simp [h1, h2]

/-- The library `Libm.integral` returns the exact power of an `int` base and a
non-negative `int` exponent whenever that power has at most 53 bits. -/
theorem Libm.integral_exact (x e : I32) (he : 0 ≤ e.val)
    (h : (x.val ^ e.val.toNat).natAbs < 2 ^ 53) :
    Libm.integral.pow (Fp.ofInt binary64 x.val) (Fp.ofInt binary64 e.val) =
      Fp.ofInt binary64 (x.val ^ e.val.toNat) := by
  have hU : 0 < binary64.unit := by unfold Fmt.unit; positivity
  have hF : binary64.prec ≤ binary64.emax + 1 := by decide
  have hE : 1 ≤ binary64.emax := by decide
  have hxr : x.val.natAbs < 2 ^ binary64.prec := by
    have := x.lo
    have := x.hi
    show x.val.natAbs < 2 ^ 53
    omega
  have her : e.val.natAbs < 2 ^ binary64.prec := by
    have := e.lo
    have := e.hi
    show e.val.natAbs < 2 ^ 53
    omega
  obtain ⟨n, hn⟩ : ∃ n : Nat, e.val = (n : Int) := ⟨e.val.toNat, (Int.toNat_of_nonneg he).symm⟩
  rw [hn, Int.toNat_natCast] at h ⊢
  rw [hn] at her
  rw [Fp.ofInt_exact binary64 hF hE x.val hxr, Fp.ofInt_exact binary64 hF hE (n : Int) her,
    Fp.ofInt_exact binary64 hF hE (x.val ^ n) h]
  have hneg : decide ((n : Int) < 0) = false := decide_eq_false (by omega)
  rw [hneg, Int.natAbs_ofNat]
  simp only [Libm.integral]
  unfold Fp.powIntegral
  simp only
  by_cases h0 : n = 0
  · subst h0
    simp [pow_zero]
  · have hne : n * binary64.unit ≠ 0 := Nat.mul_ne_zero h0 (Nat.pos_iff_ne_zero.1 hU)
    rw [if_neg hne, if_pos ⟨trivial, Nat.mul_mod_left _ _⟩, Nat.mul_div_cancel _ hU]
    unfold Fp.powNat
    rw [if_neg h0]
    simp only
    have e1 : (x.val.natAbs * binary64.unit) ^ n * binary64.unit =
        x.val.natAbs ^ n * binary64.unit * binary64.unit ^ n := by
      rw [Nat.mul_pow]
      ring
    rw [e1, Int.natAbs_pow] at *
    rw [Fp.round_exact binary64 hF hE _ _ _ h (by positivity), pow_neg_sign]

/-- C20: `pow`. For `N = 2, 3, 4` and every scalar type, `v.pow(e)` is the
vector of the components `static_cast<T>(std::pow(x_i, e))`; for `int` the
power is computed on the `double` values of `x_i` and `e` and cast to `int`.
With a `std::pow` that returns the exact power of an `int` base and a
non-negative `int` exponent whenever that power is an `int`: for every `int`
vector and non-negative exponent `e` whose powers `x_i^e` are `int`s,
`v.pow(e)` has the components `x_i^e`; `Vector2i(10,0).pow(2) == (100,0)` and
`Vector4i(2,3,1,4).pow(2) == (4,9,1,16)`. -/
theorem pow_int (L : Libm)
    (hL : ∀ x e : I32, 0 ≤ e.val → -2147483648 ≤ x.val ^ e.val.toNat →
      x.val ^ e.val.toNat ≤ 2147483647 →
      L.pow (Fp.ofInt binary64 x.val) (Fp.ofInt binary64 e.val) =
        Fp.ofInt binary64 (x.val ^ e.val.toNat))
    (v2 : Vector2 I32) (v3 : Vector3 I32) (v4 : Vector4 I32) (e : I32) (he : 0 ≤ e.val)
    (f2 : (-2147483648 ≤ v2.x.val ^ e.val.toNat ∧ v2.x.val ^ e.val.toNat ≤ 2147483647) ∧
      (-2147483648 ≤ v2.y.val ^ e.val.toNat ∧ v2.y.val ^ e.val.toNat ≤ 2147483647))
    (f3 : (-2147483648 ≤ v3.x.val ^ e.val.toNat ∧ v3.x.val ^ e.val.toNat ≤ 2147483647) ∧
      (-2147483648 ≤ v3.y.val ^ e.val.toNat ∧ v3.y.val ^ e.val.toNat ≤ 2147483647) ∧
      (-2147483648 ≤ v3.z.val ^ e.val.toNat ∧ v3.z.val ^ e.val.toNat ≤ 2147483647))
    (f4 : (-2147483648 ≤ v4.x.val ^ e.val.toNat ∧ v4.x.val ^ e.val.toNat ≤ 2147483647) ∧
      (-2147483648 ≤ v4.y.val ^ e.val.toNat ∧ v4.y.val ^ e.val.toNat ≤ 2147483647) ∧
      (-2147483648 ≤ v4.z.val ^ e.val.toNat ∧ v4.z.val ^ e.val.toNat ≤ 2147483647) ∧
      (-2147483648 ≤ v4.w.val ^ e.val.toNat ∧ v4.w.val ^ e.val.toNat ≤ 2147483647)) :
    (∀ (T : Type) [StdPow T] (v : Vector2 T) (exp : T),
      v.pow L exp = (StdPow.powCast L v.x exp).bind fun a => (StdPow.powCast L v.y exp).bind fun b => some ⟨a, b⟩) ∧
    (∀ (T : Type) [StdPow T] (v : Vector3 T) (exp : T),
      v.pow L exp = (StdPow.powCast L v.x exp).bind fun a => (StdPow.powCast L v.y exp).bind fun b => (StdPow.powCast L v.z exp).bind fun c => some ⟨a, b, c⟩) ∧
    (∀ (T : Type) [StdPow T] (v : Vector4 T) (exp : T),
      v.pow L exp = (StdPow.powCast L v.x exp).bind fun a => (StdPow.powCast L v.y exp).bind fun b => (StdPow.powCast L v.z exp).bind fun c => (StdPow.powCast L v.w exp).bind fun d => some ⟨a, b, c, d⟩) ∧
    (∀ x exp : I32, StdPow.powCast L x exp =
      I32.ofDouble (L.pow (Fp.ofInt binary64 x.val) (Fp.ofInt binary64 exp.val))) ∧
    (∃ r, v2.pow L e = some r ∧ r.x.val = v2.x.val ^ e.val.toNat ∧
        r.y.val = v2.y.val ^ e.val.toNat) ∧
    (∃ r, v3.pow L e = some r ∧ r.x.val = v3.x.val ^ e.val.toNat ∧
        r.y.val = v3.y.val ^ e.val.toNat ∧
        r.z.val = v3.z.val ^ e.val.toNat) ∧
    (∃ r, v4.pow L e = some r ∧ r.x.val = v4.x.val ^ e.val.toNat ∧
        r.y.val = v4.y.val ^ e.val.toNat ∧
        r.z.val = v4.z.val ^ e.val.toNat ∧
        r.w.val = v4.w.val ^ e.val.toNat) ∧
    (Vector2.pow L (⟨I32.wrap 10, I32.wrap 0⟩ : Vector2 I32) (I32.wrap 2) =
        some ⟨I32.wrap 100, I32.wrap 0⟩ ∧
      Vector4.pow L (⟨I32.wrap 2, I32.wrap 3, I32.wrap 1, I32.wrap 4⟩ : Vector4 I32)
        (I32.wrap 2) = some ⟨I32.wrap 4, I32.wrap 9, I32.wrap 1, I32.wrap 16⟩) := by
  have hc : ∀ x : I32, -2147483648 ≤ x.val ^ e.val.toNat → x.val ^ e.val.toNat ≤ 2147483647 →
      StdPow.powCast L x e = some (I32.wrap (x.val ^ e.val.toNat)) ∧
        (I32.wrap (x.val ^ e.val.toNat)).val = x.val ^ e.val.toNat := by
    intro x h1 h2
    refine ⟨?_, I32.wrap_of_range h1 h2⟩
    show I32.ofDouble (L.pow (Fp.ofInt binary64 x.val) (Fp.ofInt binary64 e.val)) = _
    rw [hL x e he h1 h2]
    exact I32.ofDouble_ofInt _ h1 h2
  have hk : ∀ x k y : I32, 0 ≤ k.val → -2147483648 ≤ x.val ^ k.val.toNat →
      x.val ^ k.val.toNat ≤ 2147483647 → I32.wrap (x.val ^ k.val.toNat) = y →
      StdPow.powCast L x k = some y := by
    intro x k y hk0 h1 h2 hy
    show I32.ofDouble (L.pow (Fp.ofInt binary64 x.val) (Fp.ofInt binary64 k.val)) = _
    rw [hL x k hk0 h1 h2, I32.ofDouble_ofInt _ h1 h2, hy]
  refine ⟨fun _ _ _ _ => rfl, fun _ _ _ _ => rfl, fun _ _ _ _ => rfl, fun _ _ => rfl,
    ?_, ?_, ?_, ?_, ?_⟩
  · have hx := hc v2.x f2.1.1 f2.1.2
    have hy := hc v2.y f2.2.1 f2.2.2
    refine ⟨⟨I32.wrap (v2.x.val ^ e.val.toNat), I32.wrap (v2.y.val ^ e.val.toNat)⟩, ?_, hx.2, hy.2⟩
    unfold Vector2.pow
    rw [hx.1, hy.1]
    rfl
  · have hx := hc v3.x f3.1.1 f3.1.2
    have hy := hc v3.y f3.2.1.1 f3.2.1.2
    have hz := hc v3.z f3.2.2.1 f3.2.2.2
    refine ⟨⟨I32.wrap (v3.x.val ^ e.val.toNat), I32.wrap (v3.y.val ^ e.val.toNat), I32.wrap (v3.z.val ^ e.val.toNat)⟩, ?_, hx.2, hy.2, hz.2⟩
    unfold Vector3.pow
    rw [hx.1, hy.1, hz.1]
    rfl
  · have hx := hc v4.x f4.1.1 f4.1.2
    have hy := hc v4.y f4.2.1.1 f4.2.1.2
    have hz := hc v4.z f4.2.2.1.1 f4.2.2.1.2
    have hw := hc v4.w f4.2.2.2.1 f4.2.2.2.2
    refine ⟨⟨I32.wrap (v4.x.val ^ e.val.toNat), I32.wrap (v4.y.val ^ e.val.toNat), I32.wrap (v4.z.val ^ e.val.toNat), I32.wrap (v4.w.val ^ e.val.toNat)⟩, ?_, hx.2, hy.2, hz.2, hw.2⟩
    unfold Vector4.pow
    rw [hx.1, hy.1, hz.1, hw.1]
    rfl
  · unfold Vector2.pow
    rw [hk (I32.wrap 10) (I32.wrap 2) (I32.wrap 100) (by decide) (by decide) (by decide)
        (by decide),
      hk (I32.wrap 0) (I32.wrap 2) (I32.wrap 0) (by decide) (by decide) (by decide) (by decide)]
    rfl
  · unfold Vector4.pow
    rw [hk (I32.wrap 2) (I32.wrap 2) (I32.wrap 4) (by decide) (by decide) (by decide) (by decide),
      hk (I32.wrap 3) (I32.wrap 2) (I32.wrap 9) (by decide) (by decide) (by decide) (by decide),
      hk (I32.wrap 1) (I32.wrap 2) (I32.wrap 1) (by decide) (by decide) (by decide) (by decide),
      hk (I32.wrap 4) (I32.wrap 2) (I32.wrap 16) (by decide) (by decide) (by decide)
        (by decide)]
    rfl

/-- The hypotheses of `pow_int` hold for the library `Libm.integral`, the vectors
`(10,0)`, `(2,3,1)`, `(2,3,1,4)` and the exponent `2`. -/
theorem pow_int_witness :
    Vector2.pow Libm.integral (⟨I32.wrap 10, I32.wrap 0⟩ : Vector2 I32) (I32.wrap 2) =
        some ⟨I32.wrap 100, I32.wrap 0⟩ ∧
      Vector4.pow Libm.integral (⟨I32.wrap 2, I32.wrap 3, I32.wrap 1, I32.wrap 4⟩ : Vector4 I32)
        (I32.wrap 2) = some ⟨I32.wrap 4, I32.wrap 9, I32.wrap 1, I32.wrap 16⟩ :=
  (pow_int Libm.integral
    (fun x e he h1 h2 => Libm.integral_exact x e he (by omega))
    ⟨I32.wrap 10, I32.wrap 0⟩ ⟨I32.wrap 2, I32.wrap 3, I32.wrap 1⟩
    ⟨I32.wrap 2, I32.wrap 3, I32.wrap 1, I32.wrap 4⟩ (I32.wrap 2) (by decide)
    (by decide) (by decide) (by decide)).2.2.2.2.2.2.2

/-! ## The norm squared and the square of the norm -/

/-- The largest finite magnitude is one step of the last binade below `huge`. -/
theorem Fmt.maxFinite_add (F : Fmt) (hE : 1 ≤ F.emax) :
    F.maxFinite + 2 ^ (2 * F.emax - 1) = F.huge := by
  unfold Fmt.maxFinite Fmt.huge
  have h1 : 1 ≤ 2 ^ F.prec := Nat.one_le_two_pow
  have h2 : 2 * F.emax + F.prec - 1 = F.prec + (2 * F.emax - 1) := by omega
  rw [h2, pow_add]
  have : (2 ^ F.prec - 1) * 2 ^ (2 * F.emax - 1) + 2 ^ (2 * F.emax - 1) =
      (2 ^ F.prec - 1 + 1) * 2 ^ (2 * F.emax - 1) := by ring
  rw [this, Nat.sub_add_cancel h1]

/-- Rounding yields an infinity or a finite magnitude that is at most the largest one. -/
theorem Fp.round_le_max (F : Fmt) (hp : 1 ≤ F.prec) (hE : 1 ≤ F.emax) (neg : Bool)
    (num den : Nat) (hd : 0 < den) :
    Fp.round F neg num den = Fp.inf neg ∨
      ∃ m, Fp.round F neg num den = Fp.fin neg m ∧ m ≤ F.maxFinite := by
  have hmax := Fmt.maxFinite_add F hE
  have hhuge : F.huge = 2 ^ (F.prec + (2 * F.emax - 1)) := by
    unfold Fmt.huge
    congr 1
    omega
  obtain ⟨s, hsdef⟩ : ∃ s, s = bitlen (num / den) - F.prec := ⟨_, rfl⟩
  obtain ⟨k, hkdef⟩ : ∃ k, k = rne num (den * 2 ^ s) := ⟨_, rfl⟩
  unfold Fp.round
  simp only
  rw [← hsdef, ← hkdef]
  by_cases hh : F.huge ≤ k * 2 ^ s
  · left
    rw [if_pos hh]
  · right
    rw [if_neg hh]
    refine ⟨_, rfl, ?_⟩
    have hlt : k * 2 ^ s < 2 ^ (F.prec + (2 * F.emax - 1)) := by
      rw [← hhuge]
      omega
    have hgoal : k * 2 ^ s + 2 ^ (2 * F.emax - 1) ≤ F.huge := by
      by_cases hs : s < 2 * F.emax - 1
      · have hk : k ≤ 2 ^ F.prec := by
          rw [hkdef]
          apply rne_le (by positivity)
          have h1 : num < (num / den + 1) * den := by
            have := Nat.div_add_mod num den
            have := Nat.mod_lt num hd
            nlinarith
          have h2 : num / den + 1 ≤ 2 ^ (F.prec + s) :=
            le_trans (lt_two_pow_bitlen (num / den))
              (Nat.pow_le_pow_right (by norm_num) (by omega))
          have h3 : (num / den + 1) * den ≤ 2 ^ (F.prec + s) * den :=
            Nat.mul_le_mul_right _ h2
          have h4 : 2 ^ F.prec * (den * 2 ^ s) = 2 ^ (F.prec + s) * den := by
            rw [pow_add]
            ring
          rw [h4]
          omega
        have h5 : k * 2 ^ s ≤ 2 ^ (F.prec + s) := by
          rw [pow_add]
          exact Nat.mul_le_mul_right _ hk
        have h6 : 2 ^ (F.prec + s) ≤ 2 ^ (F.prec + (2 * F.emax - 1) - 1) :=
          Nat.pow_le_pow_right (by norm_num) (by omega)
        have h7 : 2 ^ (2 * F.emax - 1) ≤ 2 ^ (F.prec + (2 * F.emax - 1) - 1) :=
          Nat.pow_le_pow_right (by norm_num) (by omega)
        have h8 : 2 ^ (F.prec + (2 * F.emax - 1)) =
            2 * 2 ^ (F.prec + (2 * F.emax - 1) - 1) := by
          rw [← pow_succ']
          congr 1
          omega
        rw [hhuge]
        omega
      · have h1 : 2 ^ (2 * F.emax - 1) ≤ 2 ^ s :=
          Nat.pow_le_pow_right (by norm_num) (by omega)
        by_cases hs2 : s ≤ F.prec + (2 * F.emax - 1)
        · have h3 : 2 ^ (F.prec + (2 * F.emax - 1)) =
              2 ^ (F.prec + (2 * F.emax - 1) - s) * 2 ^ s := by
            rw [← pow_add]
            congr 1
            omega
          have h2 : (k + 1) * 2 ^ s ≤ 2 ^ (F.prec + (2 * F.emax - 1)) := by
            rw [h3] at hlt ⊢
            have h4 : k < 2 ^ (F.prec + (2 * F.emax - 1) - s) :=
              Nat.lt_of_mul_lt_mul_right hlt
            exact Nat.mul_le_mul_right _ h4
          rw [hhuge]
          have : (k + 1) * 2 ^ s = k * 2 ^ s + 2 ^ s := by ring
          omega
        · have h3 : 2 ^ (F.prec + (2 * F.emax - 1)) < 2 ^ s :=
            Nat.pow_lt_pow_right (by norm_num) (by omega)
          have h4 : k = 0 := by
            by_contra hk0
            have : 1 * 2 ^ s ≤ k * 2 ^ s := Nat.mul_le_mul_right _ (by omega)
            omega
          have h5 : 2 ^ (2 * F.emax - 1) ≤ 2 ^ (F.prec + (2 * F.emax - 1)) :=
            Nat.pow_le_pow_right (by norm_num) (by omega)
          rw [h4, hhuge]
          omega
    omega

/-- A rounded non-negative quotient is `+inf` or finite, not negative and at
most the largest finite magnitude. -/
theorem Fp.round_isSquareSum (num den : Nat) (hd : 0 < den) :
    Fp.isSquareSum (Fp.round binary64 false num den) = true := by
  rcases Fp.round_le_max binary64 (by decide) (by decide) false num den hd with h | ⟨m, h, hm⟩
  · rw [h]
    rfl
  · rw [h]
    simp [Fp.isSquareSum, hm]

/-- The square of a `double` is NaN, `+inf` or a non-negative finite number. -/
theorem Fp.mul_self_isSquareSum (y : F64) : Fp.isSquareSum (Fp.mul y y) = true := by
  have hU : 0 < binary64.unit := by unfold Fmt.unit; positivity
  cases y with
  | nan => rfl
  | inf s => cases s <;> rfl
  | fin s m =>
    show Fp.isSquareSum (Fp.round binary64 (xor s s) (m * m) binary64.unit) = true
    rw [Bool.xor_self]
    exact Fp.round_isSquareSum _ _ hU

/-- The sum of two such values is again NaN, `+inf` or a non-negative finite number. -/
theorem Fp.add_isSquareSum (x y : F64) (hx : Fp.isSquareSum x = true)
    (hy : Fp.isSquareSum y = true) : Fp.isSquareSum (Fp.add x y) = true := by
  cases x with
  | nan => cases y <;> rfl
  | inf s =>
    cases s
    · cases y with
      | nan => rfl
      | inf t =>
        cases t
        · rfl
        · simp [Fp.isSquareSum] at hy
      | fin t b => rfl
    · simp [Fp.isSquareSum] at hx
  | fin s a =>
    cases s
    · cases y with
      | nan => rfl
      | inf t =>
        cases t
        · rfl
        · simp [Fp.isSquareSum] at hy
      | fin t b =>
        cases t
        · have hc : Fp.sval false a + Fp.sval false b = ((a + b : Nat) : Int) := by
            simp only [Fp.sval]
            push_cast
            rfl
          unfold Fp.add
          simp only [hc]
          by_cases h0 : ((a + b : Nat) : Int) = 0
          · rw [if_pos h0]
            simp [Fp.isSquareSum]
          · rw [if_neg h0]
            have hneg : decide (((a + b : Nat) : Int) < 0) = false := by
              apply decide_eq_false
              omega
            rw [hneg]
            exact Fp.round_isSquareSum _ _ Nat.one_pos
        · simp [Fp.isSquareSum] at hy
    · simp [Fp.isSquareSum] at hx

/-- The rounded square root in terms of its leading digits `k` and its
exponent `s`: it is `k * 2^s` or `(k + 1) * 2^s`, whichever is nearer to the
square root of `N`, where `k` has at most `F.prec` digits (exactly that many
when `s` is positive). -/
theorem Fp.sqrtMag_spec (F : Fmt) (hp : 1 ≤ F.prec) (N : Nat) :
    ∃ s k, s = bitlen (isqrt N) - F.prec ∧ k < 2 ^ F.prec ∧ (0 < s → 2 ^ (F.prec - 1) ≤ k) ∧
      ((Fp.sqrtMag F N = k * 2 ^ s ∧ k * k * 4 ^ s ≤ N ∧
          4 * N ≤ (2 * k + 1) * (2 * k + 1) * 4 ^ s) ∨
        (Fp.sqrtMag F N = (k + 1) * 2 ^ s ∧ (2 * k + 1) * (2 * k + 1) * 4 ^ s ≤ 4 * N ∧
          N < (k + 1) * (k + 1) * 4 ^ s)) := by
  obtain ⟨s, hsdef⟩ : ∃ s, s = bitlen (isqrt N) - F.prec := ⟨_, rfl⟩
  obtain ⟨k, hkdef⟩ : ∃ k, k = isqrt (N / 4 ^ s) := ⟨_, rfl⟩
  have h4 : 0 < 4 ^ s := by positivity
  have hlo : k * k * 4 ^ s ≤ N := by
    have h1 := isqrt_sq_le (N / 4 ^ s)
    rw [← hkdef] at h1
    exact le_trans (Nat.mul_le_mul_right _ h1) (Nat.div_mul_le_self N (4 ^ s))
  have hhi : N < (k + 1) * (k + 1) * 4 ^ s := by
    have h1 := lt_succ_isqrt_sq (N / 4 ^ s)
    rw [← hkdef] at h1
    exact (Nat.div_lt_iff_lt_mul h4).1 h1
  have hk1 : k < 2 ^ F.prec := by
    by_contra hc
    have hc' : 2 ^ F.prec ≤ k := by omega
    have h1 : isqrt N < 2 ^ (F.prec + s) :=
      lt_of_lt_of_le (lt_two_pow_bitlen _) (Nat.pow_le_pow_right (by norm_num) (by omega))
    have h2 : N < (isqrt N + 1) * (isqrt N + 1) := lt_succ_isqrt_sq N
    have h3 : (isqrt N + 1) * (isqrt N + 1) ≤ 2 ^ (F.prec + s) * 2 ^ (F.prec + s) :=
      Nat.mul_le_mul h1 h1
    have h5 : 2 ^ (F.prec + s) * 2 ^ (F.prec + s) = 2 ^ F.prec * 2 ^ F.prec * 4 ^ s := by
      rw [four_pow, pow_add]
      ring
    have h6 : 2 ^ F.prec * 2 ^ F.prec * 4 ^ s ≤ k * k * 4 ^ s :=
      Nat.mul_le_mul_right _ (Nat.mul_le_mul hc' hc')
    omega
  have hk2 : 0 < s → 2 ^ (F.prec - 1) ≤ k := by
    intro hs
    rw [hkdef]
    apply le_isqrt
    apply (Nat.le_div_iff_mul_le h4).2
    have hne : isqrt N ≠ 0 := by
      intro h0
      rw [h0] at hsdef
      have : bitlen 0 = 0 := rfl
      omega
    have h1 := two_pow_bitlen_le hne
    have h2 : 2 ^ (F.prec - 1) * 2 ^ s ≤ isqrt N := by
      rw [← pow_add]
      exact le_trans (Nat.pow_le_pow_right (by norm_num) (by omega)) h1
    have h3 := Nat.mul_le_mul h2 h2
    have h5 : 2 ^ (F.prec - 1) * 2 ^ (F.prec - 1) * 4 ^ s =
        2 ^ (F.prec - 1) * 2 ^ s * (2 ^ (F.prec - 1) * 2 ^ s) := by
      rw [four_pow]
      ring
    rw [h5]
    exact le_trans h3 (isqrt_sq_le N)
  refine ⟨s, k, hsdef, hk1, hk2, ?_⟩
  unfold Fp.sqrtMag
  simp only
  rw [← hsdef, ← hkdef]
  by_cases hA : 4 * N < (2 * k + 1) * (2 * k + 1) * 4 ^ s
  · rw [if_pos hA]
    exact Or.inl ⟨rfl, hlo, le_of_lt hA⟩
  · rw [if_neg hA]
    by_cases hB : (2 * k + 1) * (2 * k + 1) * 4 ^ s < 4 * N
    · rw [if_pos hB]
      exact Or.inr ⟨rfl, le_of_lt hB, hhi⟩
    · rw [if_neg hB]
      by_cases hev : k % 2 = 0
      · rw [if_pos hev]
        exact Or.inl ⟨rfl, hlo, by omega⟩
      · rw [if_neg hev]
        exact Or.inr ⟨rfl, by omega, hhi⟩

/-- Rounding to the nearest integer errs by at most one half. -/
theorem rne_err (n : Nat) {d : Nat} (hd : 0 < d) :
    2 * (rne n d * d) ≤ 2 * n + d ∧ 2 * n ≤ 2 * (rne n d * d) + d := by
  have h1 := Nat.div_add_mod n d
  have h2 := Nat.mod_lt n hd
  have h3 : (n / d + 1) * d = d * (n / d) + d := by ring
  have h4 : n / d * d = d * (n / d) := by ring
  unfold rne
  simp only
  split_ifs <;> omega

/-- A quotient that is at most the largest finite magnitude rounds to a finite
magnitude, with an error of at most half a unit in the last place. -/
theorem Fp.round_fin (neg : Bool) (num den : Nat) (hd : 0 < den)
    (h : num ≤ binary64.maxFinite * den) :
    ∃ t b, t = bitlen (num / den) - 53 ∧
      Fp.round binary64 neg num den = Fp.fin neg (b * 2 ^ t) ∧
      2 * (b * 2 ^ t * den) ≤ 2 * num + den * 2 ^ t ∧
      2 * num ≤ 2 * (b * 2 ^ t * den) + den * 2 ^ t := by
  have hmax := Fmt.maxFinite_add binary64 (by decide)
  have hmdef : binary64.maxFinite = (2 ^ 53 - 1) * 2 ^ 2045 := by
    unfold Fmt.maxFinite
    have e1 : binary64.prec = 53 := rfl
    have e2 : 2 * binary64.emax - 1 = 2045 := rfl
    rw [e1, e2]
  have hpos : 0 < 2 ^ (2 * binary64.emax - 1) := by positivity
  obtain ⟨t, htdef⟩ : ∃ t, t = bitlen (num / den) - 53 := ⟨_, rfl⟩
  have hds : 0 < den * 2 ^ t := by positivity
  obtain ⟨e1, e2⟩ := rne_err num hds
  have hq : num / den ≤ binary64.maxFinite := by
    apply Nat.div_le_of_le_mul
    rw [Nat.mul_comm]
    exact h
  have hq2 : num / den < 2 ^ 2098 := by
    have : binary64.maxFinite < 2 ^ 2098 := by
      rw [hmdef]
      have h1 : (2 ^ 53 - 1) * 2 ^ 2045 < 2 ^ 53 * 2 ^ 2045 :=
        Nat.mul_lt_mul_of_lt_of_le (by norm_num) (le_refl _) (by positivity)
      have e : 53 + 2045 = 2098 := rfl
      rw [← pow_add, e] at h1
      exact h1
    omega
  have ht : t ≤ 2045 := by
    have := bitlen_le hq2
    omega
  have hb : rne num (den * 2 ^ t) ≤ (2 ^ 53 - 1) * 2 ^ (2045 - t) := by
    apply rne_le hds
    have : (2 ^ 53 - 1) * 2 ^ (2045 - t) * (den * 2 ^ t) = binary64.maxFinite * den := by
      rw [hmdef]
      have : (2 : Nat) ^ 2045 = 2 ^ (2045 - t) * 2 ^ t := by
        have e : 2045 - t + t = 2045 := by omega
        rw [← pow_add, e]
      rw [this]
      ring
    rw [this]
    exact h
  have hfin : rne num (den * 2 ^ t) * 2 ^ t ≤ binary64.maxFinite := by
    have h1 := Nat.mul_le_mul_right (2 ^ t) hb
    have h2 : (2 ^ 53 - 1) * 2 ^ (2045 - t) * 2 ^ t = binary64.maxFinite := by
      have e : 2045 - t + t = 2045 := by omega
      rw [hmdef, Nat.mul_assoc, ← pow_add, e]
    rw [h2] at h1
    exact h1
  refine ⟨t, rne num (den * 2 ^ t), htdef, ?_, ?_, ?_⟩
  · unfold Fp.round
    simp only
    have h53 : binary64.prec = 53 := rfl
    rw [h53, ← htdef, if_neg (by omega)]
  · have : rne num (den * 2 ^ t) * 2 ^ t * den = rne num (den * 2 ^ t) * (den * 2 ^ t) := by
      ring
    rw [this]
    exact e1
  · have : rne num (den * 2 ^ t) * 2 ^ t * den = rne num (den * 2 ^ t) * (den * 2 ^ t) := by
      ring
    rw [this]
    exact e2

/-- The rounded square root `r` of a positive finite `double` of magnitude `a`:
`r * r` differs from `a` (both in units squared) by at most `X + Y / 4`, where
`X` and `Y` are at most `2^-52` and `2^-104` of `r * r`, and `r * r` does not
exceed the largest finite magnitude. -/
theorem Fp.sqrtMag_near (a N R : Nat) (ha1 : 1 ≤ a) (ha : a ≤ binary64.maxFinite)
    (hN : N = a * binary64.unit)
    (hR : R = Fp.sqrtMag binary64 N * Fp.sqrtMag binary64 N) :
    ∃ X Y : Nat, X * 2 ^ 52 ≤ R ∧ Y * 2 ^ 104 ≤ R ∧
      ((R ≤ N ∧ 4 * N ≤ 4 * R + 4 * X + Y) ∨ (N ≤ R ∧ 4 * R + Y ≤ 4 * N + 4 * X)) ∧
      R ≤ binary64.maxFinite * binary64.unit := by
  have hmdef : binary64.maxFinite = (2 ^ 53 - 1) * 2 ^ 2045 := by
    unfold Fmt.maxFinite
    have e1 : binary64.prec = 53 := rfl
    have e2 : 2 * binary64.emax - 1 = 2045 := rfl
    rw [e1, e2]
  have hU : binary64.unit = 2 ^ 1074 := by
    unfold Fmt.unit
    have e1 : binary64.scale = 1074 := rfl
    rw [e1]
  have hNmax : N ≤ binary64.maxFinite * binary64.unit := by
    rw [hN]
    exact Nat.mul_le_mul_right _ ha
  obtain ⟨s, k, hs, hk1, hk2, hbr⟩ := Fp.sqrtMag_spec binary64 (by decide) N
  have e53 : binary64.prec = 53 := rfl
  rw [e53] at hs hk1 hk2
  have e52 : 53 - 1 = 52 := rfl
  rw [e52] at hk2
  -- the exponent is positive
  have h537 : 2 ^ 537 * 2 ^ 537 ≤ N := by
    have e : 537 + 537 = 1074 := rfl
    rw [← pow_add, e, ← hU, hN]
    exact Nat.le_mul_of_pos_left _ ha1
  have hi1 : 2 ^ 537 ≤ isqrt N := le_isqrt h537
  have key : ∀ p : Nat, 2 ^ p ≤ isqrt N → p + 1 ≤ bitlen (isqrt N) := by
    intro p hp
    by_contra hc
    have h1 : isqrt N < 2 ^ bitlen (isqrt N) := lt_two_pow_bitlen _
    have h2 : 2 ^ bitlen (isqrt N) ≤ 2 ^ p :=
      Nat.pow_le_pow_right Nat.two_pos (by omega)
    omega
  have hb1 : 538 ≤ bitlen (isqrt N) := key 537 hi1
  have hspos : 0 < s := by omega
  have hk52 : 2 ^ 52 ≤ k := hk2 hspos
  -- the exponent is at most 1533
  have hlt : N < 2 ^ 1586 * 2 ^ 1586 := by
    have e : 1586 + 1586 = 2098 + 1074 := rfl
    rw [← pow_add, e, pow_add, ← hU]
    have h1 : binary64.maxFinite < 2 ^ 2098 := by
      rw [hmdef]
      have h2 : (2 ^ 53 - 1) * 2 ^ 2045 < 2 ^ 53 * 2 ^ 2045 :=
        Nat.mul_lt_mul_of_lt_of_le (by norm_num) (le_refl _) (by positivity)
      have e : 53 + 2045 = 2098 := rfl
      rw [← pow_add, e] at h2
      exact h2
    have hUpos : 0 < binary64.unit := by
      rw [hU]
      positivity
    calc N ≤ binary64.maxFinite * binary64.unit := hNmax
      _ < 2 ^ 2098 * binary64.unit := Nat.mul_lt_mul_of_pos_right h1 hUpos
  have hi2 : isqrt N < 2 ^ 1586 := by
    by_contra hc
    have h1 : 2 ^ 1586 ≤ isqrt N := by omega
    have h2 := Nat.mul_le_mul h1 h1
    have h3 := isqrt_sq_le N
    omega
  have hb2 : bitlen (isqrt N) ≤ 1586 := bitlen_le hi2
  have hs2 : s ≤ 1533 := by omega
  obtain ⟨e, he⟩ : ∃ e, e = 2 ^ s := ⟨_, rfl⟩
  have h4 : 4 ^ s = e * e := by rw [he, four_pow]
  rw [h4, ← he] at hbr
  have h104 : (2 : Nat) ^ 104 = 2 ^ 52 * 2 ^ 52 := by norm_num
  rcases hbr with ⟨hr, h1, h2⟩ | ⟨hr, h1, h2⟩
  · have hRe : R = k * k * (e * e) := by
      rw [hR, hr]
      ring
    refine ⟨k * (e * e), e * e, ?_, ?_, Or.inl ⟨?_, ?_⟩, ?_⟩
    · rw [hRe]
      have := Nat.mul_le_mul_left (k * (e * e)) hk52
      calc k * (e * e) * 2 ^ 52 = k * (e * e) * 2 ^ 52 := rfl
        _ ≤ k * (e * e) * k := this
        _ = k * k * (e * e) := by ring
    · rw [hRe, h104]
      have := Nat.mul_le_mul (Nat.mul_le_mul hk52 hk52) (le_refl (e * e))
      calc e * e * (2 ^ 52 * 2 ^ 52) = 2 ^ 52 * 2 ^ 52 * (e * e) := by ring
        _ ≤ k * k * (e * e) := this
    · rw [hRe]
      exact h1
    · have : (2 * k + 1) * (2 * k + 1) * (e * e) =
          4 * (k * k * (e * e)) + 4 * (k * (e * e)) + e * e := by ring
      rw [hRe, ← this]
      exact h2
    · rw [hRe]
      exact le_trans h1 hNmax
  · have hRe : R = (k + 1) * (k + 1) * (e * e) := by
      rw [hR, hr]
      ring
    have hk53 : 2 ^ 52 ≤ k + 1 := by omega
    refine ⟨(k + 1) * (e * e), e * e, ?_, ?_, Or.inr ⟨?_, ?_⟩, ?_⟩
    · rw [hRe]
      have := Nat.mul_le_mul_left ((k + 1) * (e * e)) hk53
      calc (k + 1) * (e * e) * 2 ^ 52 = (k + 1) * (e * e) * 2 ^ 52 := rfl
        _ ≤ (k + 1) * (e * e) * (k + 1) := this
        _ = (k + 1) * (k + 1) * (e * e) := by ring
    · rw [hRe, h104]
      have := Nat.mul_le_mul (Nat.mul_le_mul hk53 hk53) (le_refl (e * e))
      calc e * e * (2 ^ 52 * 2 ^ 52) = 2 ^ 52 * 2 ^ 52 * (e * e) := by ring
        _ ≤ (k + 1) * (k + 1) * (e * e) := this
    · rw [hRe]
      exact le_of_lt h2
    · have : 4 * ((k + 1) * (k + 1) * (e * e)) + e * e =
          (2 * k + 1) * (2 * k + 1) * (e * e) + 4 * ((k + 1) * (e * e)) := by ring
      rw [hRe, this]
      exact Nat.add_le_add_right h1 _
    · -- no overflow
      obtain ⟨c, hc⟩ : ∃ c : Nat, c = 2 ^ 1533 := ⟨_, rfl⟩
      have hcpos : 0 < c := by
        rw [hc]
        positivity
      have hec : e ≤ c :=
        le_of_eq_of_le he (le_of_le_of_eq (@Nat.pow_le_pow_right 2 Nat.two_pos s 1533 hs2) hc.symm)
      have hMU : binary64.maxFinite * binary64.unit = (2 ^ 53 - 1) * 2 ^ 53 * (c * c) := by
        have e1 : 2045 + 1074 = 53 + (1533 + 1533) := rfl
        rw [hmdef, hU, Nat.mul_assoc, ← pow_add, e1, pow_add, pow_add, ← hc]
        ring
      by_cases hcase : k + 1 ≤ 2 ^ 53 - 1
      · rw [hRe, hMU]
        have h3 : (k + 1) * (k + 1) ≤ (2 ^ 53 - 1) * 2 ^ 53 :=
          Nat.mul_le_mul hcase (by omega)
        exact Nat.mul_le_mul h3 (Nat.mul_le_mul hec hec)
      · have hk : k + 1 = 2 ^ 53 := by omega
        by_cases hs3 : s ≤ 1532
        · have hec2 : 2 * e ≤ c := by
            rw [he, hc]
            have e2 : 1533 = 1532 + 1 := rfl
            rw [e2, pow_succ, Nat.mul_comm]
            have h := @Nat.pow_le_pow_right 2 Nat.two_pos s 1532 hs3
            exact Nat.mul_le_mul_right 2 h
          rw [hRe, hMU, hk]
          have h3 : (2 * e) * (2 * e) ≤ c * c := Nat.mul_le_mul hec2 hec2
          have h5 : (2 : Nat) ^ 53 * 2 ^ 53 ≤ 4 * ((2 ^ 53 - 1) * 2 ^ 53) := by norm_num
          calc 2 ^ 53 * 2 ^ 53 * (e * e) ≤ 4 * ((2 ^ 53 - 1) * 2 ^ 53) * (e * e) :=
                Nat.mul_le_mul_right _ h5
            _ = (2 ^ 53 - 1) * 2 ^ 53 * ((2 * e) * (2 * e)) := by ring
            _ ≤ (2 ^ 53 - 1) * 2 ^ 53 * (c * c) := Nat.mul_le_mul_left _ h3
        · exfalso
          have hs4 : s = 1533 := by omega
          have hec3 : e = c := by rw [he, hc, hs4]
          have hk' : k = 2 ^ 53 - 1 := by omega
          rw [hec3, hk'] at h1
          have h6 : 4 * N ≤ 4 * ((2 ^ 53 - 1) * 2 ^ 53 * (c * c)) := by
            rw [← hMU]
            exact Nat.mul_le_mul_left 4 hNmax
          have h7 := le_trans h1 h6
          have h8 : 4 * ((2 ^ 53 - 1) * 2 ^ 53 * (c * c)) =
              4 * ((2 ^ 53 - 1) * 2 ^ 53) * (c * c) := by ring
          rw [h8] at h7
          have h9 := Nat.le_of_mul_le_mul_right h7 (Nat.mul_pos hcpos hcpos)
          norm_num at h9

/-- The error of the rounded square root and the error of the rounded product
add up to a relative error of at most `2^-50`. -/
theorem near_combine (N R B X Y W : Nat) (hX : X * 2 ^ 52 ≤ R) (hY : Y * 2 ^ 104 ≤ R)
    (hbr : (R ≤ N ∧ 4 * N ≤ 4 * R + 4 * X + Y) ∨ (N ≤ R ∧ 4 * R + Y ≤ 4 * N + 4 * X))
    (h1 : 2 * B ≤ 2 * R + W) (h2 : 2 * R ≤ 2 * B + W)
    (hW : W * 2 ^ 52 ≤ R ∨ W * 2 ^ 50 ≤ N) :
    B * 2 ^ 50 ≤ N * 2 ^ 50 + N ∧ N * 2 ^ 50 ≤ B * 2 ^ 50 + N := by
  norm_num at hX hY hW ⊢
  omega

/-- Below `2^50` units the two errors together stay below one unit. -/
theorem near_combine_small (N R B X Y U : Nat) (hX : X * 2 ^ 52 ≤ R) (hY : Y * 2 ^ 104 ≤ R)
    (hbr : (R ≤ N ∧ 4 * N ≤ 4 * R + 4 * X + Y) ∨ (N ≤ R ∧ 4 * R + Y ≤ 4 * N + 4 * X))
    (h1 : 2 * B ≤ 2 * R + U) (h2 : 2 * R ≤ 2 * B + U)
    (hU : 0 < U) (hN : N + U ≤ 2 ^ 50 * U) :
    B < N + U ∧ N < B + U := by
  norm_num at hX hY hN ⊢
  omega

/-- The square of the square root of a non-negative finite `double` is finite
and within a relative error of `2^-50` of the number. -/
theorem Fp.mul_sqrt_near (a : Nat) (ha : a ≤ binary64.maxFinite) :
    ∃ b, Fp.mul (Fp.sqrt (Fp.fin false a : F64)) (Fp.sqrt (Fp.fin false a : F64)) =
        Fp.fin false b ∧
      b * 2 ^ 50 ≤ a * 2 ^ 50 + a ∧ a * 2 ^ 50 ≤ b * 2 ^ 50 + a := by
  have hUpos : 0 < binary64.unit := by unfold Fmt.unit; positivity
  obtain ⟨r, hr⟩ : ∃ r, r = Fp.sqrtMag binary64 (a * binary64.unit) := ⟨_, rfl⟩
  have hmul : Fp.mul (Fp.sqrt (Fp.fin false a : F64)) (Fp.sqrt (Fp.fin false a : F64)) =
      Fp.round binary64 false (r * r) binary64.unit := by
    rw [hr]
    rfl
  rw [hmul]
  by_cases ha0 : a = 0
  · have hr0 : r = 0 := by rw [hr, ha0, Nat.zero_mul, Fp.sqrtMag_zero]
    have e : r * r = 0 * binary64.unit * binary64.unit := by simp [hr0]
    rw [e, Fp.round_exact binary64 (by decide) (by decide) false 0 binary64.unit
      (by positivity) hUpos]
    exact ⟨_, rfl, by simp [ha0]⟩
  · have ha1 : 1 ≤ a := by omega
    obtain ⟨X, Y, hX, hY, hbr, hmax⟩ :=
      Fp.sqrtMag_near a (a * binary64.unit) (r * r) ha1 ha rfl (by rw [hr])
    obtain ⟨t, b, ht, hround, e1, e2⟩ := Fp.round_fin false (r * r) binary64.unit hUpos hmax
    rw [hround]
    refine ⟨_, rfl, ?_⟩
    obtain ⟨m, hm⟩ : ∃ m, m = b * 2 ^ t := ⟨_, rfl⟩
    rw [← hm] at e1 e2 ⊢
    have cancel : m * binary64.unit * 2 ^ 50 ≤ a * binary64.unit * 2 ^ 50 + a * binary64.unit ∧
        a * binary64.unit * 2 ^ 50 ≤ m * binary64.unit * 2 ^ 50 + a * binary64.unit →
        m * 2 ^ 50 ≤ a * 2 ^ 50 + a ∧ a * 2 ^ 50 ≤ m * 2 ^ 50 + a := by
      rintro ⟨c1, c2⟩
      constructor
      · apply Nat.le_of_mul_le_mul_right _ hUpos
        calc m * 2 ^ 50 * binary64.unit = m * binary64.unit * 2 ^ 50 := by ring
          _ ≤ a * binary64.unit * 2 ^ 50 + a * binary64.unit := c1
          _ = (a * 2 ^ 50 + a) * binary64.unit := by ring
      · apply Nat.le_of_mul_le_mul_right _ hUpos
        calc a * 2 ^ 50 * binary64.unit = a * binary64.unit * 2 ^ 50 := by ring
          _ ≤ m * binary64.unit * 2 ^ 50 + a * binary64.unit := c2
          _ = (m * 2 ^ 50 + a) * binary64.unit := by ring
    by_cases ht0 : t = 0
    · rw [ht0, pow_zero, Nat.mul_one] at e1 e2
      by_cases hbig : 2 ^ 50 ≤ a
      · apply cancel
        refine near_combine _ _ _ X Y binary64.unit hX hY hbr e1 e2 (Or.inr ?_)
        rw [Nat.mul_comm a]
        exact Nat.mul_le_mul_left _ hbig
      · have hN : a * binary64.unit + binary64.unit ≤ 2 ^ 50 * binary64.unit := by
          have : a + 1 ≤ 2 ^ 50 := by omega
          calc a * binary64.unit + binary64.unit = (a + 1) * binary64.unit := by ring
            _ ≤ 2 ^ 50 * binary64.unit := Nat.mul_le_mul_right _ this
        obtain ⟨c1, c2⟩ := near_combine_small _ _ _ X Y binary64.unit hX hY hbr e1 e2 hUpos hN
        have d1 : m < a + 1 := by
          apply Nat.lt_of_mul_lt_mul_right (a := binary64.unit)
          calc m * binary64.unit < a * binary64.unit + binary64.unit := c1
            _ = (a + 1) * binary64.unit := by ring
        have d2 : a < m + 1 := by
          apply Nat.lt_of_mul_lt_mul_right (a := binary64.unit)
          calc a * binary64.unit < m * binary64.unit + binary64.unit := c2
            _ = (m + 1) * binary64.unit := by ring
        have : m = a := by omega
        rw [this]
        omega
    · apply cancel
      refine near_combine _ _ _ X Y (binary64.unit * 2 ^ t) hX hY hbr e1 e2 (Or.inl ?_)
      have hbl : bitlen (r * r / binary64.unit) = t + 53 := by omega
      have hne : r * r / binary64.unit ≠ 0 := by
        intro h0
        rw [h0] at hbl
        have : bitlen 0 = 0 := by simp [bitlen, bitlenAux]
        omega
      have h3 := two_pow_bitlen_le hne
      have e52 : bitlen (r * r / binary64.unit) - 1 = 52 + t := by omega
      rw [e52] at h3
      have h4 := Nat.mul_le_mul_right binary64.unit h3
      have h5 := Nat.div_mul_le_self (r * r) binary64.unit
      calc binary64.unit * 2 ^ t * 2 ^ 52 = 2 ^ (52 + t) * binary64.unit := by
            rw [pow_add]
            ring
        _ ≤ r * r / binary64.unit * binary64.unit := h4
        _ ≤ r * r := h5

/-- The square of the square root of a sum of squares: NaN for NaN, `+inf` for
`+inf`, and for a finite sum of magnitude `a` a finite non-negative number of
magnitude `b` with `|b - a| ≤ a / 2^50`; the real square root of the sum
squares to it exactly. -/
theorem Fp.sq_sqrt_cases (x : F64) (hx : Fp.isSquareSum x = true) :
    (x = Fp.nan ∧ Fp.mul (Fp.sqrt x) (Fp.sqrt x) = Fp.nan) ∨
    (x = Fp.inf false ∧ Fp.mul (Fp.sqrt x) (Fp.sqrt x) = Fp.inf false) ∨
    ∃ a b, x = Fp.fin false a ∧ Fp.mul (Fp.sqrt x) (Fp.sqrt x) = Fp.fin false b ∧
      b * 2 ^ 50 ≤ a * 2 ^ 50 + a ∧ a * 2 ^ 50 ≤ b * 2 ^ 50 + a ∧
      Real.sqrt ((a : ℝ) / (binary64.unit : ℝ)) ^ 2 = (a : ℝ) / (binary64.unit : ℝ) := by
  cases x with
  | nan => exact Or.inl ⟨rfl, rfl⟩
  | inf s =>
    cases s
    · exact Or.inr (Or.inl ⟨rfl, rfl⟩)
    · simp [Fp.isSquareSum] at hx
  | fin s a =>
    cases s
    · have ha : a ≤ binary64.maxFinite := by simpa [Fp.isSquareSum] using hx
      obtain ⟨b, hb, h1, h2⟩ := Fp.mul_sqrt_near a ha
      exact Or.inr (Or.inr ⟨a, b, rfl, hb, h1, h2, Real.sq_sqrt (by positivity)⟩)
    · simp [Fp.isSquareSum] at hx

/-- C12: norm-squared identity. For `N = 2, 3, 4`, every scalar type and every
vector `v`, the doubles `v.norm_squared()` and `v.norm() * v.norm()` are both
NaN, or both `+inf`, or both finite and non-negative, of magnitudes `a` and `b`
(in units of the smallest subnormal) with `|b - a| ≤ a / 2^50`, a relative
tolerance of `2^-50`; the real square root of the value of `norm_squared()`
squares to that value exactly. The tolerance is needed: for `Vector2d(1,1)`,
`norm_squared()` is `2` and `norm() * norm()` is `2 + 2^-51`, which `==` tells
apart; for `Vector2i(3,4)` both are `25`. -/
theorem norm_squared_eq_sq_norm :
    (∀ (T : Type) [Scalar T] (v : Vector2 T),
      (v.norm_squared = Fp.nan ∧ Fp.mul v.norm v.norm = Fp.nan) ∨
      (v.norm_squared = Fp.inf false ∧ Fp.mul v.norm v.norm = Fp.inf false) ∨
      ∃ a b, v.norm_squared = Fp.fin false a ∧ Fp.mul v.norm v.norm = Fp.fin false b ∧
        b * 2 ^ 50 ≤ a * 2 ^ 50 + a ∧ a * 2 ^ 50 ≤ b * 2 ^ 50 + a ∧
        Real.sqrt ((a : ℝ) / (binary64.unit : ℝ)) ^ 2 = (a : ℝ) / (binary64.unit : ℝ)) ∧
    (∀ (T : Type) [Scalar T] (v : Vector3 T),
      (v.norm_squared = Fp.nan ∧ Fp.mul v.norm v.norm = Fp.nan) ∨
      (v.norm_squared = Fp.inf false ∧ Fp.mul v.norm v.norm = Fp.inf false) ∨
      ∃ a b, v.norm_squared = Fp.fin false a ∧ Fp.mul v.norm v.norm = Fp.fin false b ∧
        b * 2 ^ 50 ≤ a * 2 ^ 50 + a ∧ a * 2 ^ 50 ≤ b * 2 ^ 50 + a ∧
        Real.sqrt ((a : ℝ) / (binary64.unit : ℝ)) ^ 2 = (a : ℝ) / (binary64.unit : ℝ)) ∧
    (∀ (T : Type) [Scalar T] (v : Vector4 T),
      (v.norm_squared = Fp.nan ∧ Fp.mul v.norm v.norm = Fp.nan) ∨
      (v.norm_squared = Fp.inf false ∧ Fp.mul v.norm v.norm = Fp.inf false) ∨
      ∃ a b, v.norm_squared = Fp.fin false a ∧ Fp.mul v.norm v.norm = Fp.fin false b ∧
        b * 2 ^ 50 ≤ a * 2 ^ 50 + a ∧ a * 2 ^ 50 ≤ b * 2 ^ 50 + a ∧
        Real.sqrt ((a : ℝ) / (binary64.unit : ℝ)) ^ 2 = (a : ℝ) / (binary64.unit : ℝ)) ∧
    (Vector2.norm_squared (⟨Fp.ofInt binary64 1, Fp.ofInt binary64 1⟩ : Vector2 F64) =
        Fp.fin false (2 * binary64.unit) ∧
      Fp.mul (Vector2.norm (⟨Fp.ofInt binary64 1, Fp.ofInt binary64 1⟩ : Vector2 F64))
          (Vector2.norm (⟨Fp.ofInt binary64 1, Fp.ofInt binary64 1⟩ : Vector2 F64)) =
        Fp.fin false (2 * binary64.unit + 2 ^ 1023) ∧
      Fp.eq (Vector2.norm_squared (⟨Fp.ofInt binary64 1, Fp.ofInt binary64 1⟩ : Vector2 F64))
        (Fp.mul (Vector2.norm (⟨Fp.ofInt binary64 1, Fp.ofInt binary64 1⟩ : Vector2 F64))
          (Vector2.norm (⟨Fp.ofInt binary64 1, Fp.ofInt binary64 1⟩ : Vector2 F64))) = false ∧
      Vector2.norm_squared (⟨I32.wrap 3, I32.wrap 4⟩ : Vector2 I32) =
        Fp.fin false (25 * binary64.unit) ∧
      Fp.mul (Vector2.norm (⟨I32.wrap 3, I32.wrap 4⟩ : Vector2 I32))
          (Vector2.norm (⟨I32.wrap 3, I32.wrap 4⟩ : Vector2 I32)) =
        Fp.fin false (25 * binary64.unit)) := by
  refine ⟨fun T _ v => ?_, fun T _ v => ?_, fun T _ v => ?_, by decide!⟩
  · exact Fp.sq_sqrt_cases _ (Fp.add_isSquareSum _ _ (Fp.mul_self_isSquareSum _)
      (Fp.mul_self_isSquareSum _))
  · exact Fp.sq_sqrt_cases _ (Fp.add_isSquareSum _ _ (Fp.add_isSquareSum _ _
      (Fp.mul_self_isSquareSum _) (Fp.mul_self_isSquareSum _)) (Fp.mul_self_isSquareSum _))
  · exact Fp.sq_sqrt_cases _ (Fp.add_isSquareSum _ _ (Fp.add_isSquareSum _ _
      (Fp.add_isSquareSum _ _ (Fp.mul_self_isSquareSum _) (Fp.mul_self_isSquareSum _))
      (Fp.mul_self_isSquareSum _)) (Fp.mul_self_isSquareSum _))

/-! ## Anti-commutativity of the cross product -/

/-- C30: the cross product is anti-commutative. For all `int` vectors `v`, `w`,
`v.cross(w)` is the vector `-(w.cross(v))` and `operator==` says so; and
`v.cross(v)` is the all-zero vector; every `*`, `-` and unary `-` is reduced
modulo `2^32`, so this holds also when products wrap around; for instance
`(1,0,0) x (0,1,0) = (0,0,1)` and `-((0,1,0) x (1,0,0)) = (0,0,1)`. -/
theorem cross_anticomm :
    (∀ v w : Vector3 I32, v.cross w = (w.cross v).neg ∧
      Vector3.eq (v.cross w) (w.cross v).neg = true) ∧
    (∀ v : Vector3 I32, v.cross v = Vector3.zero ∧
      Vector3.eq (v.cross v) Vector3.zero = true) ∧
    Vector3.cross (⟨I32.wrap 1, I32.wrap 0, I32.wrap 0⟩ : Vector3 I32)
      ⟨I32.wrap 0, I32.wrap 1, I32.wrap 0⟩ = ⟨I32.wrap 0, I32.wrap 0, I32.wrap 1⟩ ∧
    Vector3.neg (Vector3.cross (⟨I32.wrap 0, I32.wrap 1, I32.wrap 0⟩ : Vector3 I32)
      ⟨I32.wrap 1, I32.wrap 0, I32.wrap 0⟩) = ⟨I32.wrap 0, I32.wrap 0, I32.wrap 1⟩ := by
  have hself : ∀ u : Vector3 I32, Vector3.eq u u = true := by
    intro u
    simp [Vector3.eq, Scalar.eq, I32.eq]
  have h1 : ∀ v w : Vector3 I32, v.cross w = (w.cross v).neg := by
    intro v w
    simp only [Vector3.cross, Vector3.neg, Vector3.mk.injEq]
    refine ⟨?_, ?_, ?_⟩ <;> apply I32.eq_of_cast <;>
      simp only [Scalar.sub, Scalar.mul, Scalar.neg, I32.sub, I32.mul, I32.neg,
        I32.wrap_val_cast, Int.cast_sub, Int.cast_mul, Int.cast_neg] <;>
      ring
  have h2 : ∀ v : Vector3 I32, v.cross v = Vector3.zero := by
    intro v
    simp only [Vector3.cross, Vector3.zero, Vector3.mk.injEq]
    refine ⟨?_, ?_, ?_⟩ <;> apply I32.eq_of_cast <;>
      simp only [Scalar.sub, Scalar.mul, Scalar.ofInt, I32.sub, I32.mul,
        I32.wrap_val_cast, Int.cast_sub, Int.cast_mul, Int.cast_zero] <;>
      ring
  refine ⟨fun v w => ⟨h1 v w, ?_⟩, fun v => ⟨h2 v, ?_⟩, by decide, by decide⟩
  · rw [← h1 v w]
    exact hself _
  · rw [h2 v]
    exact hself _

/-! ## Lower bounds on the norm of an `int` vector -/

/-- Rounding does not go below a representable number that the exact value
is at least: if `P * 2^j` with `P < 2^prec` is at most `num / den`, it is at
most the rounded magnitude. -/
theorem Fp.le_round (F : Fmt) (hp : 1 ≤ F.prec) (neg : Bool) (num den P j m : Nat)
    (hd : 0 < den) (hP : P < 2 ^ F.prec) (h : P * 2 ^ j * den ≤ num)
    (hm : Fp.round F neg num den = Fp.fin neg m) : P * 2 ^ j ≤ m := by
  obtain ⟨s, hsdef⟩ : ∃ s, s = bitlen (num / den) - F.prec := ⟨_, rfl⟩
  have hds : 0 < den * 2 ^ s := by positivity
  have hm2 : m = rne num (den * 2 ^ s) * 2 ^ s := by
    unfold Fp.round at hm
    simp only at hm
    rw [← hsdef] at hm
    split_ifs at hm
    injection hm with _ h2
    exact h2.symm
  rw [hm2]
  by_cases hsj : s ≤ j
  · have e : (2 : Nat) ^ j = 2 ^ (j - s) * 2 ^ s := by
      rw [← pow_add]
      congr 1
      omega
    have h1 : P * 2 ^ (j - s) ≤ rne num (den * 2 ^ s) := by
      apply le_rne hds
      have : P * 2 ^ (j - s) * (den * 2 ^ s) = P * 2 ^ j * den := by
        rw [e]
        ring
      rw [this]
      exact h
    calc P * 2 ^ j = P * 2 ^ (j - s) * 2 ^ s := by
          rw [e]
          ring
      _ ≤ rne num (den * 2 ^ s) * 2 ^ s := Nat.mul_le_mul_right _ h1
  · have hs0 : 0 < s := by omega
    have hq0 : num / den ≠ 0 := by
      intro h0
      rw [h0] at hsdef
      have : bitlen 0 = 0 := by simp [bitlen, bitlenAux]
      omega
    have hlow := two_pow_bitlen_le hq0
    have e1 : bitlen (num / den) - 1 = F.prec - 1 + s := by omega
    rw [e1] at hlow
    have h3 : 2 ^ (F.prec - 1 + s) * den ≤ num := (Nat.le_div_iff_mul_le hd).1 hlow
    have h1 : 2 ^ (F.prec - 1) ≤ rne num (den * 2 ^ s) := by
      apply le_rne hds
      have : 2 ^ (F.prec - 1) * (den * 2 ^ s) = 2 ^ (F.prec - 1 + s) * den := by
        rw [pow_add]
        ring
      rw [this]
      exact h3
    have h4 : P * 2 ^ j ≤ 2 ^ F.prec * 2 ^ j := Nat.mul_le_mul_right _ (le_of_lt hP)
    have h5 : 2 ^ F.prec * 2 ^ j ≤ 2 ^ (F.prec - 1) * 2 ^ s := by
      rw [← pow_add, ← pow_add]
      exact Nat.pow_le_pow_right (by norm_num) (by omega)
    calc P * 2 ^ j ≤ 2 ^ F.prec * 2 ^ j := h4
      _ ≤ 2 ^ (F.prec - 1) * 2 ^ s := h5
      _ ≤ rne num (den * 2 ^ s) * 2 ^ s := Nat.mul_le_mul_right _ h1

/-- The rounded square root is at least a power of two whose square the
number is at least. -/
theorem Fp.two_pow_le_sqrtMag (F : Fmt) (hp : 1 ≤ F.prec) (N k : Nat)
    (h : 2 ^ k * 2 ^ k ≤ N) :
    2 ^ k ≤ Fp.sqrtMag F N := by
  have hr0 : 2 ^ k ≤ isqrt N := le_isqrt h
  have hpos : 0 < 2 ^ k := by positivity
  obtain ⟨s, hsdef⟩ : ∃ s, s = bitlen (isqrt N) - F.prec := ⟨_, rfl⟩
  have hk : 2 ^ k ≤ isqrt (N / 4 ^ s) * 2 ^ s := by
    by_cases hs : s ≤ k
    · have hU2 : 2 ^ k = 2 ^ (k - s) * 2 ^ s := by
        rw [← pow_add]
        congr 1
        omega
      have h1 : 2 ^ (k - s) ≤ isqrt (N / 4 ^ s) := by
        apply le_isqrt
        apply (Nat.le_div_iff_mul_le (by positivity)).2
        have : 2 ^ (k - s) * 2 ^ (k - s) * 4 ^ s = 2 ^ k * 2 ^ k := by
          rw [four_pow, hU2]
          ring
        rw [this]
        exact h
      calc 2 ^ k = 2 ^ (k - s) * 2 ^ s := hU2
        _ ≤ isqrt (N / 4 ^ s) * 2 ^ s := Nat.mul_le_mul_right _ h1
    · have hne : isqrt N ≠ 0 := by omega
      have hlow := two_pow_bitlen_le hne
      have h2 : 2 ^ s ≤ isqrt N :=
        le_trans (Nat.pow_le_pow_right (by norm_num) (by omega)) hlow
      have h3 : 4 ^ s ≤ N := by
        rw [four_pow]
        exact le_trans (Nat.mul_le_mul h2 h2) (isqrt_sq_le N)
      have h1 : 1 ≤ isqrt (N / 4 ^ s) := by
        apply le_isqrt
        apply (Nat.le_div_iff_mul_le (by positivity)).2
        omega
      have h4 : 2 ^ k ≤ 2 ^ s := Nat.pow_le_pow_right (by norm_num) (by omega)
      calc 2 ^ k ≤ 1 * 2 ^ s := by omega
        _ ≤ isqrt (N / 4 ^ s) * 2 ^ s := Nat.mul_le_mul_right _ h1
  have hk1 : isqrt (N / 4 ^ s) * 2 ^ s ≤ (isqrt (N / 4 ^ s) + 1) * 2 ^ s :=
    Nat.mul_le_mul_right _ (Nat.le_succ _)
  unfold Fp.sqrtMag
  simp only
  rw [← hsdef]
  split_ifs <;> omega

/-- The square of an `int` component in `double`: `+0` for zero, and at least
`4^j` when the component is at least `2^j` in absolute value. -/
theorem I32.toDouble_sq_lower (a : I32) (m : Nat)
    (hm : Fp.mul (Scalar.toDouble a) (Scalar.toDouble a) = (Fp.fin false m : F64)) :
    (a.val = 0 → m = 0) ∧
      ∀ j, 2 ^ j ≤ a.val.natAbs → 1 * 2 ^ (2 * j + binary64.scale) ≤ m := by
  have hUdef : binary64.unit = 2 ^ binary64.scale := by unfold Fmt.unit; rfl
  have hU : 0 < binary64.unit := by rw [hUdef]; positivity
  have hn : a.val.natAbs < 2 ^ binary64.prec := by
    have := a.lo
    have := a.hi
    show a.val.natAbs < 2 ^ 53
    omega
  have e : Fp.mul (Scalar.toDouble a) (Scalar.toDouble a) =
      Fp.round binary64 false (a.val.natAbs * binary64.unit * (a.val.natAbs * binary64.unit))
        binary64.unit := by
    show Fp.mul (Fp.ofInt binary64 a.val) (Fp.ofInt binary64 a.val) = _
    rw [Fp.ofInt_exact binary64 (by decide) (by decide) a.val hn]
    show Fp.round binary64 (xor _ _) _ _ = _
    rw [Bool.xor_self]
  rw [e] at hm
  constructor
  · intro h0
    have hH : binary64.huge ≠ 0 := by
      unfold Fmt.huge
      positivity
    rw [h0] at hm
    simp [Fp.round, bitlen, bitlenAux, rne, hH] at hm
    exact hm.symm
  · intro j hj
    refine Fp.le_round binary64 (by decide) false _ _ 1 _ m hU (by decide) ?_ hm
    have h2 := Nat.mul_le_mul hj hj
    have h3 : 1 * 2 ^ (2 * j + binary64.scale) * binary64.unit =
        2 ^ j * 2 ^ j * (binary64.unit * binary64.unit) := by
      rw [pow_add, ← hUdef, two_mul, pow_add]
      ring
    have h4 : a.val.natAbs * binary64.unit * (a.val.natAbs * binary64.unit) =
        a.val.natAbs * a.val.natAbs * (binary64.unit * binary64.unit) := by ring
    rw [h3, h4]
    exact Nat.mul_le_mul_right _ h2

/-- The `double` sum of two non-negative finite numbers: `+0` for two zeros,
and at least every representable number that the exact sum is at least. -/
theorem Fp.add_lower (m1 m2 m : Nat)
    (hm : Fp.add (Fp.fin false m1 : F64) (Fp.fin false m2) = Fp.fin false m) :
    (m1 = 0 → m2 = 0 → m = 0) ∧
      ∀ P j, P < 2 ^ 53 → P * 2 ^ j ≤ m1 + m2 → P * 2 ^ j ≤ m := by
  have hc : Fp.sval false m1 + Fp.sval false m2 = ((m1 + m2 : Nat) : Int) := by
    simp only [Fp.sval]
    push_cast
    rfl
  unfold Fp.add at hm
  simp only [hc] at hm
  by_cases h0 : ((m1 + m2 : Nat) : Int) = 0
  · rw [if_pos h0] at hm
    have hm0 : m = 0 := by
      injection hm with _ h2
      exact h2.symm
    have h00 : m1 + m2 = 0 := by exact_mod_cast h0
    refine ⟨fun _ _ => hm0, fun P j _ h => ?_⟩
    omega
  · rw [if_neg h0] at hm
    have hneg : decide (((m1 + m2 : Nat) : Int) < 0) = false := by
      apply decide_eq_false
      omega
    rw [hneg, Int.natAbs_ofNat] at hm
    refine ⟨fun h1 h2 => ?_, fun P j hP h => ?_⟩
    · exfalso
      apply h0
      rw [h1, h2]
      rfl
    · exact Fp.le_round binary64 (by decide) false _ 1 P j m Nat.one_pos hP
        (by rw [Nat.mul_one]; exact h) hm

/-- The `double` square root of a non-negative finite number: `+0` for zero,
and at least `2^j` when the number is at least `4^j`. -/
theorem Fp.sqrt_lower (M m : Nat)
    (hm : Fp.sqrt (Fp.fin false M : F64) = Fp.fin false m) :
    (M = 0 → m = 0) ∧
      ∀ j, 1 * 2 ^ (2 * j + binary64.scale) ≤ M → 2 ^ j * binary64.unit ≤ m := by
  have hUdef : binary64.unit = 2 ^ binary64.scale := by unfold Fmt.unit; rfl
  have hm2 : m = Fp.sqrtMag binary64 (M * binary64.unit) := by
    simp only [Fp.sqrt, Bool.false_eq_true, if_false] at hm
    injection hm with _ h2
    exact h2.symm
  rw [hm2]
  constructor
  · intro h0
    rw [h0, Nat.zero_mul, Fp.sqrtMag_zero]
  · intro j hj
    have h1 : 2 ^ (j + binary64.scale) ≤ Fp.sqrtMag binary64 (M * binary64.unit) := by
      apply Fp.two_pow_le_sqrtMag binary64 (by decide)
      have h2 := Nat.mul_le_mul_right binary64.unit hj
      have h3 : 2 ^ (j + binary64.scale) * 2 ^ (j + binary64.scale) =
          1 * 2 ^ (2 * j + binary64.scale) * binary64.unit := by
        have e : j + binary64.scale + (j + binary64.scale) =
            2 * j + binary64.scale + binary64.scale := by omega
        rw [hUdef, ← pow_add, Nat.one_mul, ← pow_add, e]
      rw [h3]
      exact h2
    rw [pow_add, ← hUdef] at h1
    exact h1

/-- The norm of an `int` vector of dimension 2 is finite and not negative; it
is `+0` when both components are zero, and at least `2^j` when a component is
at least `2^j` in absolute value. -/
theorem norm_lower2 (v : Vector2 I32) :
    ∃ m, v.norm = Fp.fin false m ∧ (v.x.val = 0 → v.y.val = 0 → m = 0) ∧
      ∀ j, (2 ^ j ≤ v.x.val.natAbs ∨ 2 ^ j ≤ v.y.val.natAbs) → 2 ^ j * binary64.unit ≤ m := by
  obtain ⟨mx, ex, sx, bx⟩ := I32.toDouble_sq_shape v.x
  obtain ⟨my, ey, sy, by1⟩ := I32.toDouble_sq_shape v.y
  obtain ⟨m1, e1, s1, _⟩ := Fp.add_shape _ (by decide) mx my sx sy bx by1
  obtain ⟨zx, lx⟩ := I32.toDouble_sq_lower v.x mx ex
  obtain ⟨zy, ly⟩ := I32.toDouble_sq_lower v.y my ey
  obtain ⟨z1, l1⟩ := Fp.add_lower mx my m1 e1
  have hs : Fp.sqrt (Fp.fin false m1 : F64) =
      Fp.fin false (Fp.sqrtMag binary64 (m1 * binary64.unit)) := by
    simp [Fp.sqrt]
  obtain ⟨z2, l2⟩ := Fp.sqrt_lower m1 _ hs
  have hn : v.norm = Fp.fin false (Fp.sqrtMag binary64 (m1 * binary64.unit)) := by
    unfold Vector2.norm
    rw [ex, ey, e1, hs]
  refine ⟨_, hn, fun hx hy => z2 (z1 (zx hx) (zy hy)), fun j hj => l2 j (l1 1 _ (by decide) ?_)⟩
  rcases hj with h | h
  · have := lx j h
    omega
  · have := ly j h
    omega

/-- The norm of an `int` vector of dimension 3 is finite and not negative; it
is `+0` when all components are zero, and at least `2^j` when a component is
at least `2^j` in absolute value. -/
theorem norm_lower3 (v : Vector3 I32) :
    ∃ m, v.norm = Fp.fin false m ∧ (v.x.val = 0 → v.y.val = 0 → v.z.val = 0 → m = 0) ∧
      ∀ j, (2 ^ j ≤ v.x.val.natAbs ∨ 2 ^ j ≤ v.y.val.natAbs ∨ 2 ^ j ≤ v.z.val.natAbs) →
        2 ^ j * binary64.unit ≤ m := by
  obtain ⟨mx, ex, sx, bx⟩ := I32.toDouble_sq_shape v.x
  obtain ⟨my, ey, sy, by1⟩ := I32.toDouble_sq_shape v.y
  obtain ⟨mz, ez, sz, bz⟩ := I32.toDouble_sq_shape v.z
  obtain ⟨m1, e1, s1, b1⟩ := Fp.add_shape _ (by decide) mx my sx sy bx by1
  obtain ⟨m2, e2, s2, _⟩ := Fp.add_shape _ (by decide) m1 mz s1 sz b1
    (le_trans bz (Nat.pow_le_pow_right (by norm_num) (Nat.le_succ _)))
  obtain ⟨zx, lx⟩ := I32.toDouble_sq_lower v.x mx ex
  obtain ⟨zy, ly⟩ := I32.toDouble_sq_lower v.y my ey
  obtain ⟨zz, lz⟩ := I32.toDouble_sq_lower v.z mz ez
  obtain ⟨z1, l1⟩ := Fp.add_lower mx my m1 e1
  obtain ⟨z2, l2⟩ := Fp.add_lower m1 mz m2 e2
  have hs : Fp.sqrt (Fp.fin false m2 : F64) =
      Fp.fin false (Fp.sqrtMag binary64 (m2 * binary64.unit)) := by
    simp [Fp.sqrt]
  obtain ⟨z3, l3⟩ := Fp.sqrt_lower m2 _ hs
  have hn : v.norm = Fp.fin false (Fp.sqrtMag binary64 (m2 * binary64.unit)) := by
    unfold Vector3.norm
    rw [ex, ey, ez, e1, e2, hs]
  refine ⟨_, hn, fun hx hy hz => z3 (z2 (z1 (zx hx) (zy hy)) (zz hz)),
    fun j hj => l3 j (l2 1 _ (by decide) ?_)⟩
  rcases hj with h | h | h
  · have := lx j h
    have := l1 1 (2 * j + binary64.scale) (by decide) (by omega)
    omega
  · have := ly j h
    have := l1 1 (2 * j + binary64.scale) (by decide) (by omega)
    omega
  · have := lz j h
    omega

/-- The norm of an `int` vector of dimension 4 is finite and not negative; it
is `+0` when all components are zero, at least `2^j` when a component is at
least `2^j` in absolute value, and at least `2^(j+1)` when all four are. -/
theorem norm_lower4 (v : Vector4 I32) :
    ∃ m, v.norm = Fp.fin false m ∧
      (v.x.val = 0 → v.y.val = 0 → v.z.val = 0 → v.w.val = 0 → m = 0) ∧
      (∀ j, (2 ^ j ≤ v.x.val.natAbs ∨ 2 ^ j ≤ v.y.val.natAbs ∨ 2 ^ j ≤ v.z.val.natAbs ∨
          2 ^ j ≤ v.w.val.natAbs) → 2 ^ j * binary64.unit ≤ m) ∧
      ∀ j, 2 ^ j ≤ v.x.val.natAbs → 2 ^ j ≤ v.y.val.natAbs → 2 ^ j ≤ v.z.val.natAbs →
        2 ^ j ≤ v.w.val.natAbs → 2 ^ (j + 1) * binary64.unit ≤ m := by
  obtain ⟨mx, ex, sx, bx⟩ := I32.toDouble_sq_shape v.x
  obtain ⟨my, ey, sy, by1⟩ := I32.toDouble_sq_shape v.y
  obtain ⟨mz, ez, sz, bz⟩ := I32.toDouble_sq_shape v.z
  obtain ⟨mw, ew, sw, bw⟩ := I32.toDouble_sq_shape v.w
  obtain ⟨m1, e1, s1, b1⟩ := Fp.add_shape _ (by decide) mx my sx sy bx by1
  obtain ⟨m2, e2, s2, b2⟩ := Fp.add_shape _ (by decide) m1 mz s1 sz b1
    (le_trans bz (Nat.pow_le_pow_right (by norm_num) (Nat.le_succ _)))
  obtain ⟨m3, e3, s3, _⟩ := Fp.add_shape _ (by decide) m2 mw s2 sw b2
    (le_trans bw (Nat.pow_le_pow_right (by norm_num) (by omega)))
  obtain ⟨zx, lx⟩ := I32.toDouble_sq_lower v.x mx ex
  obtain ⟨zy, ly⟩ := I32.toDouble_sq_lower v.y my ey
  obtain ⟨zz, lz⟩ := I32.toDouble_sq_lower v.z mz ez
  obtain ⟨zw, lw⟩ := I32.toDouble_sq_lower v.w mw ew
  obtain ⟨z1, l1⟩ := Fp.add_lower mx my m1 e1
  obtain ⟨z2, l2⟩ := Fp.add_lower m1 mz m2 e2
  obtain ⟨z3, l3⟩ := Fp.add_lower m2 mw m3 e3
  have hs : Fp.sqrt (Fp.fin false m3 : F64) =
      Fp.fin false (Fp.sqrtMag binary64 (m3 * binary64.unit)) := by
    simp [Fp.sqrt]
  obtain ⟨z4, l4⟩ := Fp.sqrt_lower m3 _ hs
  have hn : v.norm = Fp.fin false (Fp.sqrtMag binary64 (m3 * binary64.unit)) := by
    unfold Vector4.norm
    rw [ex, ey, ez, ew, e1, e2, e3, hs]
  refine ⟨_, hn, fun hx hy hz hw => z4 (z3 (z2 (z1 (zx hx) (zy hy)) (zz hz)) (zw hw)),
    fun j hj => l4 j (l3 1 _ (by decide) ?_), fun j hx hy hz hw => l4 (j + 1) ?_⟩
  · rcases hj with h | h | h | h
    · have := lx j h
      have := l1 1 (2 * j + binary64.scale) (by decide) (by omega)
      have := l2 1 (2 * j + binary64.scale) (by decide) (by omega)
      omega
    · have := ly j h
      have := l1 1 (2 * j + binary64.scale) (by decide) (by omega)
      have := l2 1 (2 * j + binary64.scale) (by decide) (by omega)
      omega
    · have := lz j h
      have := l2 1 (2 * j + binary64.scale) (by decide) (by omega)
      omega
    · have := lw j h
      omega
  · have hx1 := lx j hx
    have hy1 := ly j hy
    have hz1 := lz j hz
    have hw1 := lw j hw
    have h1 := l1 2 (2 * j + binary64.scale) (by decide) (by omega)
    have h2 := l2 3 (2 * j + binary64.scale) (by decide) (by omega)
    have h3 := l3 4 (2 * j + binary64.scale) (by decide) (by omega)
    have e : 2 * (j + 1) + binary64.scale = 2 * j + binary64.scale + 2 := by omega
    rw [e, pow_add]
    omega

/-! ## The branches of `normalize` on an `int` vector -/

/-- The `double` zero. -/
theorem Fp.ofInt_zero64 : Fp.ofInt binary64 0 = (Fp.fin false 0 : F64) := by
  have := Fp.ofInt_exact binary64 (by decide) (by decide) 0 (by decide)
  simpa using this

/-- The `double` one. -/
theorem Fp.ofInt_one64 : Fp.ofInt binary64 1 = (Fp.fin false binary64.unit : F64) := by
  have := Fp.ofInt_exact binary64 (by decide) (by decide) 1 (by decide)
  simpa using this

/-- A non-zero natural number lies between two consecutive powers of two. -/
theorem exists_pow_le (n : Nat) (h : n ≠ 0) : ∃ j, 2 ^ j ≤ n ∧ n < 2 ^ (j + 1) := by
  have h1 := two_pow_bitlen_le h
  have h2 := lt_two_pow_bitlen n
  have h3 : bitlen n ≠ 0 := by
    intro h0
    rw [h0] at h2
    omega
  refine ⟨bitlen n - 1, h1, ?_⟩
  have e : bitlen n - 1 + 1 = bitlen n := by omega
  rw [e]
  exact h2

/-- The cast `static_cast<int>(d)` of a non-negative finite `double`. -/
theorem I32.ofDouble_fin (m : Nat) :
    (((m / binary64.unit : Nat) : Int) ≤ 2147483647 →
      I32.ofDouble (Fp.fin false m) = some (I32.wrap ((m / binary64.unit : Nat) : Int)) ∧
      (I32.wrap ((m / binary64.unit : Nat) : Int)).val = ((m / binary64.unit : Nat) : Int)) ∧
    (2147483647 < ((m / binary64.unit : Nat) : Int) → I32.ofDouble (Fp.fin false m) = none) := by
  have ht : Fp.trunc (Fp.fin false m : F64) = some ((m / binary64.unit : Nat) : Int) := by
    simp [Fp.trunc, Fp.sval]
  have hnn : (0 : Int) ≤ ((m / binary64.unit : Nat) : Int) := Int.natCast_nonneg _
  constructor
  · intro hr
    have hv : (I32.wrap ((m / binary64.unit : Nat) : Int)).val =
        ((m / binary64.unit : Nat) : Int) := I32.wrap_of_range (by omega) hr
    refine ⟨?_, hv⟩
    unfold I32.ofDouble
    rw [ht]
    simp only
    rw [dif_pos ⟨by omega, hr⟩]
    exact congrArg some (I32.ext_val hv.symm)
  · intro hr
    unfold I32.ofDouble
    rw [ht]
    simp only
    rw [dif_neg (by omega)]

/-- The two branches of `normalize` on an `int` vector of dimension 2: either
all components are zero, the norm compares equal to zero and the vector is
returned; or the norm is at least one, its truncation `t` is at least every
power of two that a component reaches, and `normalize` is the division by
`t` when `t` is an `int` and has no result otherwise. -/
theorem normalize_cases2 (v : Vector2 I32) :
    ((v.x.val = 0 ∧ v.y.val = 0) ∧ Fp.ne v.norm (Fp.ofInt binary64 0) = false ∧
        v.normalize = some v) ∨
      ∃ t : Int, ¬ (v.x.val = 0 ∧ v.y.val = 0) ∧ Fp.ne v.norm (Fp.ofInt binary64 0) = true ∧
        Fp.ge v.norm (Fp.ofInt binary64 1) = true ∧
        Fp.trunc v.norm = some t ∧ 1 ≤ t ∧
        (∀ j, (2 ^ j ≤ v.x.val.natAbs ∨ 2 ^ j ≤ v.y.val.natAbs) → (2 : Int) ^ j ≤ t) ∧
        ((2147483647 < t ∧ (Scalar.ofDouble v.norm : Option I32) = none ∧ v.normalize = none) ∨
          (t ≤ 2147483647 ∧ (Scalar.ofDouble v.norm : Option I32) = some (I32.wrap t) ∧
            (I32.wrap t).val = t ∧
            ∃ r, v.normalize = some r ∧ v.divs (I32.wrap t) = some r ∧ r.x.val = Int.tdiv v.x.val t ∧ r.y.val = Int.tdiv v.y.val t)) := by
  have hU : 0 < binary64.unit := by unfold Fmt.unit; positivity
  obtain ⟨m, hn, hz, hl⟩ := norm_lower2 v
  by_cases h0 : v.x.val = 0 ∧ v.y.val = 0
  · left
    have hm : m = 0 := hz h0.1 h0.2
    have hne : Fp.ne v.norm (Fp.ofInt binary64 0) = false := by
      rw [hn, hm, Fp.ofInt_zero64]
      simp [Fp.ne, Fp.eq]
    refine ⟨h0, hne, ?_⟩
    unfold Vector2.normalize
    simp only [hne]
    rfl
  · right
    have hm1 : binary64.unit ≤ m := by
      have hex : v.x.val.natAbs ≠ 0 ∨ v.y.val.natAbs ≠ 0 := by
        by_contra hc
        apply h0
        omega
      have := hl 0 (by omega)
      omega
    have hq : 1 ≤ m / binary64.unit := (Nat.le_div_iff_mul_le hU).2 (by omega)
    have hne : Fp.ne v.norm (Fp.ofInt binary64 0) = true := by
      rw [hn, Fp.ofInt_zero64]
      have : m ≠ 0 := by omega
      simp [Fp.ne, Fp.eq, Fp.sval, this]
    have hge : Fp.ge v.norm (Fp.ofInt binary64 1) = true := by
      rw [hn, Fp.ofInt_one64]
      simp [Fp.ge, Fp.sval, hm1]
    have ht : Fp.trunc v.norm = some ((m / binary64.unit : Nat) : Int) := by
      rw [hn]
      simp [Fp.trunc, Fp.sval]
    have hpow : ∀ j, (2 ^ j ≤ v.x.val.natAbs ∨ 2 ^ j ≤ v.y.val.natAbs) →
        (2 : Int) ^ j ≤ ((m / binary64.unit : Nat) : Int) := by
      intro j hj
      have h1 := hl j hj
      have h2 : 2 ^ j ≤ m / binary64.unit := (Nat.le_div_iff_mul_le hU).2 h1
      exact_mod_cast h2
    have hq1 : (1 : Int) ≤ ((m / binary64.unit : Nat) : Int) := by exact_mod_cast hq
    obtain ⟨hin, hout⟩ := I32.ofDouble_fin m
    obtain ⟨t, htdef⟩ : ∃ t : Int, t = ((m / binary64.unit : Nat) : Int) := ⟨_, rfl⟩
    rw [← htdef] at hin hout ht hpow hq1
    refine ⟨t, h0, hne, hge, ht, hq1, hpow, ?_⟩
    · by_cases hr : t ≤ 2147483647
      · right
        obtain ⟨c1, c2⟩ := hin hr
        have hd : 1 ≤ (I32.wrap t).val := by
          rw [c2]
          exact hq1
        have e : v.normalize = v.divs (I32.wrap t) := by
          unfold Vector2.normalize
          simp only [hne, if_true]
          show (I32.ofDouble v.norm).bind _ = _
          rw [hn, c1]
          rfl
        obtain ⟨rx, hqx, vlx⟩ := I32.div_pos v.x (I32.wrap t) hd
        obtain ⟨ry, hqy, vly⟩ := I32.div_pos v.y (I32.wrap t) hd
        rw [c2] at vlx vly
        have hdiv : v.divs (I32.wrap t) =
            some ⟨rx, ry⟩ := by
          show (I32.div v.x _).bind _ = _
          rw [hqx]
          show (I32.div v.y _).bind _ = _
          rw [hqy]
          rfl
        refine ⟨hr, ?_, c2, ⟨rx, ry⟩, ?_, hdiv, vlx, vly⟩
        · show I32.ofDouble v.norm = _
          rw [hn, c1]
        · rw [e, hdiv]
      · left
        have hr2 : 2147483647 < t := by omega
        have c1 := hout hr2
        refine ⟨hr2, ?_, ?_⟩
        · show I32.ofDouble v.norm = _
          rw [hn, c1]
        · unfold Vector2.normalize
          simp only [hne, if_true]
          show (I32.ofDouble v.norm).bind _ = _
          rw [hn, c1]
          rfl

/-- The two branches of `normalize` on an `int` vector of dimension 3: either
all components are zero, the norm compares equal to zero and the vector is
returned; or the norm is at least one, its truncation `t` is at least every
power of two that a component reaches, and `normalize` is the division by
`t` when `t` is an `int` and has no result otherwise. -/
theorem normalize_cases3 (v : Vector3 I32) :
    ((v.x.val = 0 ∧ v.y.val = 0 ∧ v.z.val = 0) ∧ Fp.ne v.norm (Fp.ofInt binary64 0) = false ∧
        v.normalize = some v) ∨
      ∃ t : Int, ¬ (v.x.val = 0 ∧ v.y.val = 0 ∧ v.z.val = 0) ∧ Fp.ne v.norm (Fp.ofInt binary64 0) = true ∧
        Fp.ge v.norm (Fp.ofInt binary64 1) = true ∧
        Fp.trunc v.norm = some t ∧ 1 ≤ t ∧
        (∀ j, (2 ^ j ≤ v.x.val.natAbs ∨ 2 ^ j ≤ v.y.val.natAbs ∨ 2 ^ j ≤ v.z.val.natAbs) → (2 : Int) ^ j ≤ t) ∧
        ((2147483647 < t ∧ (Scalar.ofDouble v.norm : Option I32) = none ∧ v.normalize = none) ∨
          (t ≤ 2147483647 ∧ (Scalar.ofDouble v.norm : Option I32) = some (I32.wrap t) ∧
            (I32.wrap t).val = t ∧
            ∃ r, v.normalize = some r ∧ v.divs (I32.wrap t) = some r ∧ r.x.val = Int.tdiv v.x.val t ∧ r.y.val = Int.tdiv v.y.val t ∧ r.z.val = Int.tdiv v.z.val t)) := by
  have hU : 0 < binary64.unit := by unfold Fmt.unit; positivity
  obtain ⟨m, hn, hz, hl⟩ := norm_lower3 v
  by_cases h0 : v.x.val = 0 ∧ v.y.val = 0 ∧ v.z.val = 0
  · left
    have hm : m = 0 := hz h0.1 h0.2.1 h0.2.2
    have hne : Fp.ne v.norm (Fp.ofInt binary64 0) = false := by
      rw [hn, hm, Fp.ofInt_zero64]
      simp [Fp.ne, Fp.eq]
    refine ⟨h0, hne, ?_⟩
    unfold Vector3.normalize
    simp only [hne]
    rfl
  · right
    have hm1 : binary64.unit ≤ m := by
      have hex : v.x.val.natAbs ≠ 0 ∨ v.y.val.natAbs ≠ 0 ∨ v.z.val.natAbs ≠ 0 := by
        by_contra hc
        apply h0
        omega
      have := hl 0 (by omega)
      omega
    have hq : 1 ≤ m / binary64.unit := (Nat.le_div_iff_mul_le hU).2 (by omega)
    have hne : Fp.ne v.norm (Fp.ofInt binary64 0) = true := by
      rw [hn, Fp.ofInt_zero64]
      have : m ≠ 0 := by omega
      simp [Fp.ne, Fp.eq, Fp.sval, this]
    have hge : Fp.ge v.norm (Fp.ofInt binary64 1) = true := by
      rw [hn, Fp.ofInt_one64]
      simp [Fp.ge, Fp.sval, hm1]
    have ht : Fp.trunc v.norm = some ((m / binary64.unit : Nat) : Int) := by
      rw [hn]
      simp [Fp.trunc, Fp.sval]
    have hpow : ∀ j, (2 ^ j ≤ v.x.val.natAbs ∨ 2 ^ j ≤ v.y.val.natAbs ∨ 2 ^ j ≤ v.z.val.natAbs) →
        (2 : Int) ^ j ≤ ((m / binary64.unit : Nat) : Int) := by
      intro j hj
      have h1 := hl j hj
      have h2 : 2 ^ j ≤ m / binary64.unit := (Nat.le_div_iff_mul_le hU).2 h1
      exact_mod_cast h2
    have hq1 : (1 : Int) ≤ ((m / binary64.unit : Nat) : Int) := by exact_mod_cast hq
    obtain ⟨hin, hout⟩ := I32.ofDouble_fin m
    obtain ⟨t, htdef⟩ : ∃ t : Int, t = ((m / binary64.unit : Nat) : Int) := ⟨_, rfl⟩
    rw [← htdef] at hin hout ht hpow hq1
    refine ⟨t, h0, hne, hge, ht, hq1, hpow, ?_⟩
    · by_cases hr : t ≤ 2147483647
      · right
        obtain ⟨c1, c2⟩ := hin hr
        have hd : 1 ≤ (I32.wrap t).val := by
          rw [c2]
          exact hq1
        have e : v.normalize = v.divs (I32.wrap t) := by
          unfold Vector3.normalize
          simp only [hne, if_true]
          show (I32.ofDouble v.norm).bind _ = _
          rw [hn, c1]
          rfl
        obtain ⟨rx, hqx, vlx⟩ := I32.div_pos v.x (I32.wrap t) hd
        obtain ⟨ry, hqy, vly⟩ := I32.div_pos v.y (I32.wrap t) hd
        obtain ⟨rz, hqz, vlz⟩ := I32.div_pos v.z (I32.wrap t) hd
        rw [c2] at vlx vly vlz
        have hdiv : v.divs (I32.wrap t) =
            some ⟨rx, ry, rz⟩ := by
          show (I32.div v.x _).bind _ = _
          rw [hqx]
          show (I32.div v.y _).bind _ = _
          rw [hqy]
          show (I32.div v.z _).bind _ = _
          rw [hqz]
          rfl
        refine ⟨hr, ?_, c2, ⟨rx, ry, rz⟩, ?_, hdiv, vlx, vly, vlz⟩
        · show I32.ofDouble v.norm = _
          rw [hn, c1]
        · rw [e, hdiv]
      · left
        have hr2 : 2147483647 < t := by omega
        have c1 := hout hr2
        refine ⟨hr2, ?_, ?_⟩
        · show I32.ofDouble v.norm = _
          rw [hn, c1]
        · unfold Vector3.normalize
          simp only [hne, if_true]
          show (I32.ofDouble v.norm).bind _ = _
          rw [hn, c1]
          rfl

/-- The two branches of `normalize` on an `int` vector of dimension 4: either
all components are zero, the norm compares equal to zero and the vector is
returned; or the norm is at least one, its truncation `t` is at least every
power of two that a component reaches, and `normalize` is the division by
`t` when `t` is an `int` and has no result otherwise. -/
theorem normalize_cases4 (v : Vector4 I32) :
    ((v.x.val = 0 ∧ v.y.val = 0 ∧ v.z.val = 0 ∧ v.w.val = 0) ∧ Fp.ne v.norm (Fp.ofInt binary64 0) = false ∧
        v.normalize = some v) ∨
      ∃ t : Int, ¬ (v.x.val = 0 ∧ v.y.val = 0 ∧ v.z.val = 0 ∧ v.w.val = 0) ∧ Fp.ne v.norm (Fp.ofInt binary64 0) = true ∧
        Fp.ge v.norm (Fp.ofInt binary64 1) = true ∧
        Fp.trunc v.norm = some t ∧ 1 ≤ t ∧
        (∀ j, (2 ^ j ≤ v.x.val.natAbs ∨ 2 ^ j ≤ v.y.val.natAbs ∨ 2 ^ j ≤ v.z.val.natAbs ∨ 2 ^ j ≤ v.w.val.natAbs) → (2 : Int) ^ j ≤ t) ∧
        (∀ j, 2 ^ j ≤ v.x.val.natAbs → 2 ^ j ≤ v.y.val.natAbs → 2 ^ j ≤ v.z.val.natAbs → 2 ^ j ≤ v.w.val.natAbs → (2 : Int) ^ (j + 1) ≤ t) ∧
        ((2147483647 < t ∧ (Scalar.ofDouble v.norm : Option I32) = none ∧ v.normalize = none) ∨
          (t ≤ 2147483647 ∧ (Scalar.ofDouble v.norm : Option I32) = some (I32.wrap t) ∧
            (I32.wrap t).val = t ∧
            ∃ r, v.normalize = some r ∧ v.divs (I32.wrap t) = some r ∧ r.x.val = Int.tdiv v.x.val t ∧ r.y.val = Int.tdiv v.y.val t ∧ r.z.val = Int.tdiv v.z.val t ∧ r.w.val = Int.tdiv v.w.val t)) := by
  have hU : 0 < binary64.unit := by unfold Fmt.unit; positivity
  obtain ⟨m, hn, hz, hl, hl4⟩ := norm_lower4 v
  by_cases h0 : v.x.val = 0 ∧ v.y.val = 0 ∧ v.z.val = 0 ∧ v.w.val = 0
  · left
    have hm : m = 0 := hz h0.1 h0.2.1 h0.2.2.1 h0.2.2.2
    have hne : Fp.ne v.norm (Fp.ofInt binary64 0) = false := by
      rw [hn, hm, Fp.ofInt_zero64]
      simp [Fp.ne, Fp.eq]
    refine ⟨h0, hne, ?_⟩
    unfold Vector4.normalize
    simp only [hne]
    rfl
  · right
    have hm1 : binary64.unit ≤ m := by
      have hex : v.x.val.natAbs ≠ 0 ∨ v.y.val.natAbs ≠ 0 ∨ v.z.val.natAbs ≠ 0 ∨ v.w.val.natAbs ≠ 0 := by
        by_contra hc
        apply h0
        omega
      have := hl 0 (by omega)
      omega
    have hq : 1 ≤ m / binary64.unit := (Nat.le_div_iff_mul_le hU).2 (by omega)
    have hne : Fp.ne v.norm (Fp.ofInt binary64 0) = true := by
      rw [hn, Fp.ofInt_zero64]
      have : m ≠ 0 := by omega
      simp [Fp.ne, Fp.eq, Fp.sval, this]
    have hge : Fp.ge v.norm (Fp.ofInt binary64 1) = true := by
      rw [hn, Fp.ofInt_one64]
      simp [Fp.ge, Fp.sval, hm1]
    have ht : Fp.trunc v.norm = some ((m / binary64.unit : Nat) : Int) := by
      rw [hn]
      simp [Fp.trunc, Fp.sval]
    have hpow : ∀ j, (2 ^ j ≤ v.x.val.natAbs ∨ 2 ^ j ≤ v.y.val.natAbs ∨ 2 ^ j ≤ v.z.val.natAbs ∨ 2 ^ j ≤ v.w.val.natAbs) →
        (2 : Int) ^ j ≤ ((m / binary64.unit : Nat) : Int) := by
      intro j hj
      have h1 := hl j hj
      have h2 : 2 ^ j ≤ m / binary64.unit := (Nat.le_div_iff_mul_le hU).2 h1
      exact_mod_cast h2
    have hq1 : (1 : Int) ≤ ((m / binary64.unit : Nat) : Int) := by exact_mod_cast hq
    obtain ⟨hin, hout⟩ := I32.ofDouble_fin m
    have hpow4 : ∀ j, 2 ^ j ≤ v.x.val.natAbs → 2 ^ j ≤ v.y.val.natAbs →
        2 ^ j ≤ v.z.val.natAbs → 2 ^ j ≤ v.w.val.natAbs →
        (2 : Int) ^ (j + 1) ≤ ((m / binary64.unit : Nat) : Int) := by
      intro j hx hy hz1 hw
      have h1 := hl4 j hx hy hz1 hw
      have h2 : 2 ^ (j + 1) ≤ m / binary64.unit := (Nat.le_div_iff_mul_le hU).2 h1
      exact_mod_cast h2
    obtain ⟨t, htdef⟩ : ∃ t : Int, t = ((m / binary64.unit : Nat) : Int) := ⟨_, rfl⟩
    rw [← htdef] at hin hout ht hpow hq1 hpow4
    refine ⟨t, h0, hne, hge, ht, hq1, hpow, hpow4, ?_⟩
    · by_cases hr : t ≤ 2147483647
      · right
        obtain ⟨c1, c2⟩ := hin hr
        have hd : 1 ≤ (I32.wrap t).val := by
          rw [c2]
          exact hq1
        have e : v.normalize = v.divs (I32.wrap t) := by
          unfold Vector4.normalize
          simp only [hne, if_true]
          show (I32.ofDouble v.norm).bind _ = _
          rw [hn, c1]
          rfl
        obtain ⟨rx, hqx, vlx⟩ := I32.div_pos v.x (I32.wrap t) hd
        obtain ⟨ry, hqy, vly⟩ := I32.div_pos v.y (I32.wrap t) hd
        obtain ⟨rz, hqz, vlz⟩ := I32.div_pos v.z (I32.wrap t) hd
        obtain ⟨rw, hqw, vlw⟩ := I32.div_pos v.w (I32.wrap t) hd
        rw [c2] at vlx vly vlz vlw
        have hdiv : v.divs (I32.wrap t) =
            some ⟨rx, ry, rz, rw⟩ := by
          show (I32.div v.x _).bind _ = _
          rw [hqx]
          show (I32.div v.y _).bind _ = _
          rw [hqy]
          show (I32.div v.z _).bind _ = _
          rw [hqz]
          show (I32.div v.w _).bind _ = _
          rw [hqw]
          rfl
        refine ⟨hr, ?_, c2, ⟨rx, ry, rz, rw⟩, ?_, hdiv, vlx, vly, vlz, vlw⟩
        · show I32.ofDouble v.norm = _
          rw [hn, c1]
        · rw [e, hdiv]
      · left
        have hr2 : 2147483647 < t := by omega
        have c1 := hout hr2
        refine ⟨hr2, ?_, ?_⟩
        · show I32.ofDouble v.norm = _
          rw [hn, c1]
        · unfold Vector4.normalize
          simp only [hne, if_true]
          show (I32.ofDouble v.norm).bind _ = _
          rw [hn, c1]
          rfl

/-! ## Components of a normalised `int` vector -/

/-- A quotient by a divisor that is at least every power of two the dividend
reaches is `-1`, `0` or `1`. -/
theorem tdiv_unit (x t : Int) (ht : 1 ≤ t)
    (h : ∀ j, 2 ^ j ≤ x.natAbs → (2 : Int) ^ j ≤ t) :
    Int.tdiv x t = -1 ∨ Int.tdiv x t = 0 ∨ Int.tdiv x t = 1 := by
  by_cases hx : x.natAbs = 0
  · have : x = 0 := Int.natAbs_eq_zero.mp hx
    rw [this]
    simp
  · obtain ⟨j, h1, h2⟩ := exists_pow_le x.natAbs hx
    have h3 := h j h1
    have h4 : (x.natAbs : Int) < 2 ^ (j + 1) := by exact_mod_cast h2
    have h5 : x.natAbs < t.natAbs * 2 := by
      have e : (2 : Int) ^ (j + 1) = 2 ^ j * 2 := pow_succ 2 j
      have : (t.natAbs : Int) = t := Int.natAbs_of_nonneg (by omega)
      omega
    have h6 : (Int.tdiv x t).natAbs < 2 := by
      rw [Int.natAbs_tdiv]
      exact Nat.div_lt_of_lt_mul h5
    omega

/-- A quotient is zero unless the dividend reaches the divisor in absolute value. -/
theorem tdiv_ne_zero (x t : Int) (h : Int.tdiv x t ≠ 0) : t.natAbs ≤ x.natAbs := by
  by_contra hc
  apply h
  have h1 : (Int.tdiv x t).natAbs = 0 := by
    rw [Int.natAbs_tdiv]
    exact Nat.div_eq_of_lt (by omega)
  exact Int.natAbs_eq_zero.mp h1

/-- Division of an `int` by `1` returns it. -/
theorem I32.div_one (a : I32) : I32.div a (I32.wrap 1) = some a := by
  have h1 : (I32.wrap 1).val = 1 := by decide
  unfold I32.div
  rw [h1, if_neg (by decide), if_neg (by omega), Int.tdiv_one, I32.wrap_val]

/-- The square roots of `1`, `2` and `3` are not zero and truncate to `1`. -/
theorem Fp.sqrt_small (k : Nat) (h : k = 1 ∨ k = 2 ∨ k = 3) :
    Fp.ne (Fp.sqrt (Fp.fin false (k * binary64.unit) : F64)) (Fp.ofInt binary64 0) = true ∧
      I32.ofDouble (Fp.sqrt (Fp.fin false (k * binary64.unit) : F64)) = some (I32.wrap 1) := by
  rcases h with rfl | rfl | rfl <;> decide!

/-- The square of an `int` that is `-1`, `0` or `1`, in `double`. -/
theorem I32.toDouble_sq_unit (a : I32) (h : a.val = -1 ∨ a.val = 0 ∨ a.val = 1) :
    ∃ k, k ≤ 1 ∧ (k = 0 ↔ a.val = 0) ∧
      Fp.mul (Scalar.toDouble a) (Scalar.toDouble a) = (Fp.fin false (k * binary64.unit) : F64) := by
  refine ⟨a.val.natAbs * a.val.natAbs, ?_, ?_, I32.toDouble_sq a ?_⟩
  · rcases h with h | h | h <;> rw [h] <;> decide
  · rcases h with h | h | h <;> rw [h] <;> decide
  · rcases h with h | h | h <;> rw [h] <;> decide

/-- An `int` vector of dimension 2 with components among `-1`, `0`, `1`
is its own normalisation. -/
theorem normalize_unit2 (v : Vector2 I32)
    (ux : v.x.val = -1 ∨ v.x.val = 0 ∨ v.x.val = 1) (uy : v.y.val = -1 ∨ v.y.val = 0 ∨ v.y.val = 1) :
    v.normalize = some v := by
  obtain ⟨kx, bdx, zx, ex⟩ := I32.toDouble_sq_unit v.x ux
  obtain ⟨ky, bdy, zy, ey⟩ := I32.toDouble_sq_unit v.y uy
  have hn : v.norm = Fp.sqrt (Fp.fin false ((kx + ky) * binary64.unit) : F64) := by
    unfold Vector2.norm
    rw [ex, ey, Fp.add_exact binary64 (by decide) (by decide) (kx) ky
      (by show _ < 2 ^ 53; omega)]
  by_cases h0 : kx + ky = 0
  · have hne : Fp.ne v.norm (Fp.ofInt binary64 0) = false := by
      rw [hn, h0]
      decide!
    unfold Vector2.normalize
    simp only [hne]
    rfl
  · have hk : kx + ky = 1 ∨ kx + ky = 2 ∨ kx + ky = 3 := by
      omega
    obtain ⟨hne, hof⟩ := Fp.sqrt_small _ hk
    rw [← hn] at hne hof
    have hdiv : v.divs (I32.wrap 1) = some v := by
      show (I32.div v.x _).bind _ = _
      rw [I32.div_one]
      show (I32.div v.y _).bind _ = _
      rw [I32.div_one]
      rfl
    unfold Vector2.normalize
    simp only [hne, if_true]
    show (I32.ofDouble v.norm).bind _ = _
    rw [hof]
    exact hdiv

/-- An `int` vector of dimension 3 with components among `-1`, `0`, `1`
is its own normalisation. -/
theorem normalize_unit3 (v : Vector3 I32)
    (ux : v.x.val = -1 ∨ v.x.val = 0 ∨ v.x.val = 1) (uy : v.y.val = -1 ∨ v.y.val = 0 ∨ v.y.val = 1) (uz : v.z.val = -1 ∨ v.z.val = 0 ∨ v.z.val = 1) :
    v.normalize = some v := by
  obtain ⟨kx, bdx, zx, ex⟩ := I32.toDouble_sq_unit v.x ux
  obtain ⟨ky, bdy, zy, ey⟩ := I32.toDouble_sq_unit v.y uy
  obtain ⟨kz, bdz, zz, ez⟩ := I32.toDouble_sq_unit v.z uz
  have hn : v.norm = Fp.sqrt (Fp.fin false ((kx + ky + kz) * binary64.unit) : F64) := by
    unfold Vector3.norm
    rw [ex, ey, ez, Fp.add_exact binary64 (by decide) (by decide) (kx) ky
      (by show _ < 2 ^ 53; omega), Fp.add_exact binary64 (by decide) (by decide) (kx + ky) kz
      (by show _ < 2 ^ 53; omega)]
  by_cases h0 : kx + ky + kz = 0
  · have hne : Fp.ne v.norm (Fp.ofInt binary64 0) = false := by
      rw [hn, h0]
      decide!
    unfold Vector3.normalize
    simp only [hne]
    rfl
  · have hk : kx + ky + kz = 1 ∨ kx + ky + kz = 2 ∨ kx + ky + kz = 3 := by
      omega
    obtain ⟨hne, hof⟩ := Fp.sqrt_small _ hk
    rw [← hn] at hne hof
    have hdiv : v.divs (I32.wrap 1) = some v := by
      show (I32.div v.x _).bind _ = _
      rw [I32.div_one]
      show (I32.div v.y _).bind _ = _
      rw [I32.div_one]
      show (I32.div v.z _).bind _ = _
      rw [I32.div_one]
      rfl
    unfold Vector3.normalize
    simp only [hne, if_true]
    show (I32.ofDouble v.norm).bind _ = _
    rw [hof]
    exact hdiv

/-- An `int` vector of dimension 4 with components among `-1`, `0`, `1`, one of them `0`,
is its own normalisation. -/
theorem normalize_unit4 (v : Vector4 I32)
    (ux : v.x.val = -1 ∨ v.x.val = 0 ∨ v.x.val = 1) (uy : v.y.val = -1 ∨ v.y.val = 0 ∨ v.y.val = 1) (uz : v.z.val = -1 ∨ v.z.val = 0 ∨ v.z.val = 1) (uw : v.w.val = -1 ∨ v.w.val = 0 ∨ v.w.val = 1)
    (hnz : v.x.val = 0 ∨ v.y.val = 0 ∨ v.z.val = 0 ∨ v.w.val = 0) :
    v.normalize = some v := by
  obtain ⟨kx, bdx, zx, ex⟩ := I32.toDouble_sq_unit v.x ux
  obtain ⟨ky, bdy, zy, ey⟩ := I32.toDouble_sq_unit v.y uy
  obtain ⟨kz, bdz, zz, ez⟩ := I32.toDouble_sq_unit v.z uz
  obtain ⟨kw, bdw, zw, ew⟩ := I32.toDouble_sq_unit v.w uw
  have hn : v.norm = Fp.sqrt (Fp.fin false ((kx + ky + kz + kw) * binary64.unit) : F64) := by
    unfold Vector4.norm
    rw [ex, ey, ez, ew, Fp.add_exact binary64 (by decide) (by decide) (kx) ky
      (by show _ < 2 ^ 53; omega), Fp.add_exact binary64 (by decide) (by decide) (kx + ky) kz
      (by show _ < 2 ^ 53; omega), Fp.add_exact binary64 (by decide) (by decide) (kx + ky + kz) kw
      (by show _ < 2 ^ 53; omega)]
  by_cases h0 : kx + ky + kz + kw = 0
  · have hne : Fp.ne v.norm (Fp.ofInt binary64 0) = false := by
      rw [hn, h0]
      decide!
    unfold Vector4.normalize
    simp only [hne]
    rfl
  · have hk : kx + ky + kz + kw = 1 ∨ kx + ky + kz + kw = 2 ∨ kx + ky + kz + kw = 3 := by
      have h4 : kx = 0 ∨ ky = 0 ∨ kz = 0 ∨ kw = 0 := by
        rcases hnz with h | h | h | h
        · exact Or.inl (zx.2 h)
        · exact Or.inr (Or.inl (zy.2 h))
        · exact Or.inr (Or.inr (Or.inl (zz.2 h)))
        · exact Or.inr (Or.inr (Or.inr (zw.2 h)))
      omega
    obtain ⟨hne, hof⟩ := Fp.sqrt_small _ hk
    rw [← hn] at hne hof
    have hdiv : v.divs (I32.wrap 1) = some v := by
      show (I32.div v.x _).bind _ = _
      rw [I32.div_one]
      show (I32.div v.y _).bind _ = _
      rw [I32.div_one]
      show (I32.div v.z _).bind _ = _
      rw [I32.div_one]
      show (I32.div v.w _).bind _ = _
      rw [I32.div_one]
      rfl
    unfold Vector4.normalize
    simp only [hne, if_true]
    show (I32.ofDouble v.norm).bind _ = _
    rw [hof]
    exact hdiv

/-! ## The zero norm -/

/-- C29: for `N = 2, 3, 4` and every `int` vector `v`, `norm(v) == 0` holds if
and only if every component of `v` is zero; so `normalize()` returns the
vector unchanged when all components are zero, and otherwise takes the branch
that divides by `static_cast<int>(norm)`. For `(0,0)` the norm is `+0`; for
`(0,-1,0)` it is `1`. -/
theorem norm_zero_iff :
    (∀ v : Vector2 I32,
      (Fp.eq v.norm (Fp.ofInt binary64 0) = true ↔ v.x.val = 0 ∧ v.y.val = 0) ∧
      (v.x.val = 0 ∧ v.y.val = 0 → v.normalize = some v) ∧
      (¬ (v.x.val = 0 ∧ v.y.val = 0) →
        v.normalize = (Scalar.ofDouble v.norm).bind fun s => v.divs s)) ∧
    (∀ v : Vector3 I32,
      (Fp.eq v.norm (Fp.ofInt binary64 0) = true ↔ v.x.val = 0 ∧ v.y.val = 0 ∧ v.z.val = 0) ∧
      (v.x.val = 0 ∧ v.y.val = 0 ∧ v.z.val = 0 → v.normalize = some v) ∧
      (¬ (v.x.val = 0 ∧ v.y.val = 0 ∧ v.z.val = 0) →
        v.normalize = (Scalar.ofDouble v.norm).bind fun s => v.divs s)) ∧
    (∀ v : Vector4 I32,
      (Fp.eq v.norm (Fp.ofInt binary64 0) = true ↔ v.x.val = 0 ∧ v.y.val = 0 ∧ v.z.val = 0 ∧ v.w.val = 0) ∧
      (v.x.val = 0 ∧ v.y.val = 0 ∧ v.z.val = 0 ∧ v.w.val = 0 → v.normalize = some v) ∧
      (¬ (v.x.val = 0 ∧ v.y.val = 0 ∧ v.z.val = 0 ∧ v.w.val = 0) →
        v.normalize = (Scalar.ofDouble v.norm).bind fun s => v.divs s)) ∧
    (Vector2.norm (⟨I32.wrap 0, I32.wrap 0⟩ : Vector2 I32) = Fp.fin false 0 ∧
      Vector3.norm (⟨I32.wrap 0, I32.wrap (-1), I32.wrap 0⟩ : Vector3 I32) = Fp.fin false binary64.unit) := by
  refine ⟨fun v => ?_, fun v => ?_, fun v => ?_, by decide!⟩
  · rcases normalize_cases2 v with ⟨h0, hne, hnorm⟩ | ⟨t, h0, hne, _⟩
    · have heq : Fp.eq v.norm (Fp.ofInt binary64 0) = true := by
        simpa [Fp.ne] using hne
      exact ⟨⟨fun _ => h0, fun _ => heq⟩, fun _ => hnorm, fun h => absurd h0 h⟩
    · have heq : Fp.eq v.norm (Fp.ofInt binary64 0) = false := by
        simpa [Fp.ne] using hne
      refine ⟨⟨fun h => ?_, fun h => absurd h h0⟩, fun h => absurd h h0, fun _ => ?_⟩
      · rw [heq] at h
        exact absurd h (by decide)
      · unfold Vector2.normalize
        simp only [hne, if_true]
  · rcases normalize_cases3 v with ⟨h0, hne, hnorm⟩ | ⟨t, h0, hne, _⟩
    · have heq : Fp.eq v.norm (Fp.ofInt binary64 0) = true := by
        simpa [Fp.ne] using hne
      exact ⟨⟨fun _ => h0, fun _ => heq⟩, fun _ => hnorm, fun h => absurd h0 h⟩
    · have heq : Fp.eq v.norm (Fp.ofInt binary64 0) = false := by
        simpa [Fp.ne] using hne
      refine ⟨⟨fun h => ?_, fun h => absurd h h0⟩, fun h => absurd h h0, fun _ => ?_⟩
      · rw [heq] at h
        exact absurd h (by decide)
      · unfold Vector3.normalize
        simp only [hne, if_true]
  · rcases normalize_cases4 v with ⟨h0, hne, hnorm⟩ | ⟨t, h0, hne, _⟩
    · have heq : Fp.eq v.norm (Fp.ofInt binary64 0) = true := by
        simpa [Fp.ne] using hne
      exact ⟨⟨fun _ => h0, fun _ => heq⟩, fun _ => hnorm, fun h => absurd h0 h⟩
    · have heq : Fp.eq v.norm (Fp.ofInt binary64 0) = false := by
        simpa [Fp.ne] using hne
      refine ⟨⟨fun h => ?_, fun h => absurd h h0⟩, fun h => absurd h h0, fun _ => ?_⟩
      · rw [heq] at h
        exact absurd h (by decide)
      · unfold Vector4.normalize
        simp only [hne, if_true]

/-! ## The divisor of `normalize` -/

/-- C26 fails when the truncated norm is not an `int`: for
`Vector2i(2147483647, 2147483647)` the norm is not zero and truncates to
`3037000498`, which `static_cast<int>` cannot hold, so there is no divisor that
is at least `1` and `normalize()` yields no vector. -/
theorem normalize_divisor_counterexample :
    Fp.ne (Vector2.norm (⟨I32.wrap 2147483647, I32.wrap 2147483647⟩ : Vector2 I32))
      (Fp.ofInt binary64 0) = true ∧
    Fp.trunc (Vector2.norm (⟨I32.wrap 2147483647, I32.wrap 2147483647⟩ : Vector2 I32)) =
      some 3037000498 ∧
    (Scalar.ofDouble (Vector2.norm (⟨I32.wrap 2147483647, I32.wrap 2147483647⟩ : Vector2 I32)) :
      Option I32) = none ∧
    Vector2.normalize (⟨I32.wrap 2147483647, I32.wrap 2147483647⟩ : Vector2 I32) = none := by
  decide!

/-- C26, amended: for `N = 2, 3, 4` and every `int` vector `v` whose norm does
not compare equal to zero, the norm is at least `1` and its truncation `t`
toward zero is at least `1`; when `t` is at most `2^31 - 1` the divisor
`static_cast<int>(norm)` is `t`, the division by it has a result and that is
the result of `normalize()`; when `t` is larger the cast and `normalize()`
have no result. For `(3,4)` the divisor is `5` and the result `(0,0)`. -/
theorem normalize_divisor :
    (∀ v : Vector2 I32, Fp.ne v.norm (Fp.ofInt binary64 0) = true →
      Fp.ge v.norm (Fp.ofInt binary64 1) = true ∧
      ∃ t : Int, Fp.trunc v.norm = some t ∧ 1 ≤ t ∧
        (t ≤ 2147483647 → ∃ d r, (Scalar.ofDouble v.norm : Option I32) = some d ∧
          d.val = t ∧ 1 ≤ d.val ∧ v.divs d = some r ∧ v.normalize = some r) ∧
        (2147483647 < t →
          (Scalar.ofDouble v.norm : Option I32) = none ∧ v.normalize = none)) ∧
    (∀ v : Vector3 I32, Fp.ne v.norm (Fp.ofInt binary64 0) = true →
      Fp.ge v.norm (Fp.ofInt binary64 1) = true ∧
      ∃ t : Int, Fp.trunc v.norm = some t ∧ 1 ≤ t ∧
        (t ≤ 2147483647 → ∃ d r, (Scalar.ofDouble v.norm : Option I32) = some d ∧
          d.val = t ∧ 1 ≤ d.val ∧ v.divs d = some r ∧ v.normalize = some r) ∧
        (2147483647 < t →
          (Scalar.ofDouble v.norm : Option I32) = none ∧ v.normalize = none)) ∧
    (∀ v : Vector4 I32, Fp.ne v.norm (Fp.ofInt binary64 0) = true →
      Fp.ge v.norm (Fp.ofInt binary64 1) = true ∧
      ∃ t : Int, Fp.trunc v.norm = some t ∧ 1 ≤ t ∧
        (t ≤ 2147483647 → ∃ d r, (Scalar.ofDouble v.norm : Option I32) = some d ∧
          d.val = t ∧ 1 ≤ d.val ∧ v.divs d = some r ∧ v.normalize = some r) ∧
        (2147483647 < t →
          (Scalar.ofDouble v.norm : Option I32) = none ∧ v.normalize = none)) ∧
    (Fp.trunc (Vector2.norm (⟨I32.wrap 3, I32.wrap 4⟩ : Vector2 I32)) = some 5 ∧
      (Scalar.ofDouble (Vector2.norm (⟨I32.wrap 3, I32.wrap 4⟩ : Vector2 I32)) : Option I32) =
        some (I32.wrap 5) ∧
      Vector2.normalize (⟨I32.wrap 3, I32.wrap 4⟩ : Vector2 I32) = some ⟨I32.wrap 0, I32.wrap 0⟩) := by
  refine ⟨fun v hv => ?_, fun v hv => ?_, fun v hv => ?_, by decide!⟩
  · rcases normalize_cases2 v with ⟨_, hne, _⟩ | ⟨t, _, _, hge, ht, h1, _, hb⟩
    · rw [hne] at hv
      exact absurd hv (by decide)
    · refine ⟨hge, t, ht, h1, fun hr => ?_, fun hr => ?_⟩
      · rcases hb with ⟨hlt, _⟩ | ⟨_, hof, hval, r, hnorm, hdiv, _⟩
        · omega
        · exact ⟨I32.wrap t, r, hof, hval, by rw [hval]; exact h1, hdiv, hnorm⟩
      · rcases hb with ⟨_, hof, hnorm⟩ | ⟨hle, _⟩
        · exact ⟨hof, hnorm⟩
        · omega
  · rcases normalize_cases3 v with ⟨_, hne, _⟩ | ⟨t, _, _, hge, ht, h1, _, hb⟩
    · rw [hne] at hv
      exact absurd hv (by decide)
    · refine ⟨hge, t, ht, h1, fun hr => ?_, fun hr => ?_⟩
      · rcases hb with ⟨hlt, _⟩ | ⟨_, hof, hval, r, hnorm, hdiv, _⟩
        · omega
        · exact ⟨I32.wrap t, r, hof, hval, by rw [hval]; exact h1, hdiv, hnorm⟩
      · rcases hb with ⟨_, hof, hnorm⟩ | ⟨hle, _⟩
        · exact ⟨hof, hnorm⟩
        · omega
  · rcases normalize_cases4 v with ⟨_, hne, _⟩ | ⟨t, _, _, hge, ht, h1, _, _, hb⟩
    · rw [hne] at hv
      exact absurd hv (by decide)
    · refine ⟨hge, t, ht, h1, fun hr => ?_, fun hr => ?_⟩
      · rcases hb with ⟨hlt, _⟩ | ⟨_, hof, hval, r, hnorm, hdiv, _⟩
        · omega
        · exact ⟨I32.wrap t, r, hof, hval, by rw [hval]; exact h1, hdiv, hnorm⟩
      · rcases hb with ⟨_, hof, hnorm⟩ | ⟨hle, _⟩
        · exact ⟨hof, hnorm⟩
        · omega

/-! ## Components of a normalised `int` vector: the claims -/

/-- C27: for `N = 2, 3, 4` and every `int` vector `v` whose norm, truncated
toward zero, is at most `2^31 - 1` (the norm fits in `int`), `normalize()`
has a result and every component of it is `-1`, `0` or `1`; for instance
`(-7,1)` gives `(-1,0)`, `(10,0,0)` gives `(1,0,0)` and `(0,0,-7,1)` gives
`(0,0,-1,0)`. -/
theorem normalize_components :
    (∀ (v : Vector2 I32) (t : Int), Fp.trunc v.norm = some t → t ≤ 2147483647 →
      ∃ w, v.normalize = some w ∧
        (w.x.val = -1 ∨ w.x.val = 0 ∨ w.x.val = 1) ∧
        (w.y.val = -1 ∨ w.y.val = 0 ∨ w.y.val = 1)) ∧
    (∀ (v : Vector3 I32) (t : Int), Fp.trunc v.norm = some t → t ≤ 2147483647 →
      ∃ w, v.normalize = some w ∧
        (w.x.val = -1 ∨ w.x.val = 0 ∨ w.x.val = 1) ∧
        (w.y.val = -1 ∨ w.y.val = 0 ∨ w.y.val = 1) ∧
        (w.z.val = -1 ∨ w.z.val = 0 ∨ w.z.val = 1)) ∧
    (∀ (v : Vector4 I32) (t : Int), Fp.trunc v.norm = some t → t ≤ 2147483647 →
      ∃ w, v.normalize = some w ∧
        (w.x.val = -1 ∨ w.x.val = 0 ∨ w.x.val = 1) ∧
        (w.y.val = -1 ∨ w.y.val = 0 ∨ w.y.val = 1) ∧
        (w.z.val = -1 ∨ w.z.val = 0 ∨ w.z.val = 1) ∧
        (w.w.val = -1 ∨ w.w.val = 0 ∨ w.w.val = 1)) ∧
    (Vector2.normalize (⟨I32.wrap (-7), I32.wrap 1⟩ : Vector2 I32) =
        some ⟨I32.wrap (-1), I32.wrap 0⟩ ∧
      Vector3.normalize (⟨I32.wrap 10, I32.wrap 0, I32.wrap 0⟩ : Vector3 I32) =
        some ⟨I32.wrap 1, I32.wrap 0, I32.wrap 0⟩ ∧
      Vector4.normalize (⟨I32.wrap 0, I32.wrap 0, I32.wrap (-7), I32.wrap 1⟩ : Vector4 I32) =
        some ⟨I32.wrap 0, I32.wrap 0, I32.wrap (-1), I32.wrap 0⟩) := by
  refine ⟨fun v t ht hr => ?_, fun v t ht hr => ?_, fun v t ht hr => ?_, by decide!⟩
  · rcases normalize_cases2 v with ⟨h0, _, hnorm⟩ | ⟨t', _, _, _, ht', h1, hpow, hb⟩
    · exact ⟨v, hnorm, Or.inr (Or.inl h0.1), Or.inr (Or.inl h0.2)⟩
    · have e : t' = t := by
        rw [ht'] at ht
        exact Option.some.inj ht
      rw [e] at h1 hpow hb
      rcases hb with ⟨hlt, _⟩ | ⟨_, _, _, r, hnorm, _, vlx, vly⟩
      · omega
      · exact ⟨r, hnorm, by rw [vlx]; exact tdiv_unit _ _ h1 (fun j hj => hpow j (Or.inl hj)),
          by rw [vly]; exact tdiv_unit _ _ h1 (fun j hj => hpow j (Or.inr hj))⟩
  · rcases normalize_cases3 v with ⟨h0, _, hnorm⟩ | ⟨t', _, _, _, ht', h1, hpow, hb⟩
    · exact ⟨v, hnorm, Or.inr (Or.inl h0.1), Or.inr (Or.inl h0.2.1), Or.inr (Or.inl h0.2.2)⟩
    · have e : t' = t := by
        rw [ht'] at ht
        exact Option.some.inj ht
      rw [e] at h1 hpow hb
      rcases hb with ⟨hlt, _⟩ | ⟨_, _, _, r, hnorm, _, vlx, vly, vlz⟩
      · omega
      · exact ⟨r, hnorm, by rw [vlx]; exact tdiv_unit _ _ h1 (fun j hj => hpow j (Or.inl hj)),
          by rw [vly]; exact tdiv_unit _ _ h1 (fun j hj => hpow j (Or.inr (Or.inl hj))),
          by rw [vlz]; exact tdiv_unit _ _ h1 (fun j hj => hpow j (Or.inr (Or.inr hj)))⟩
  · rcases normalize_cases4 v with ⟨h0, _, hnorm⟩ | ⟨t', _, _, _, ht', h1, hpow, _, hb⟩
    · exact ⟨v, hnorm, Or.inr (Or.inl h0.1), Or.inr (Or.inl h0.2.1), Or.inr (Or.inl h0.2.2.1), Or.inr (Or.inl h0.2.2.2)⟩
    · have e : t' = t := by
        rw [ht'] at ht
        exact Option.some.inj ht
      rw [e] at h1 hpow hb
      rcases hb with ⟨hlt, _⟩ | ⟨_, _, _, r, hnorm, _, vlx, vly, vlz, vlw⟩
      · omega
      · exact ⟨r, hnorm, by rw [vlx]; exact tdiv_unit _ _ h1 (fun j hj => hpow j (Or.inl hj)),
          by rw [vly]; exact tdiv_unit _ _ h1 (fun j hj => hpow j (Or.inr (Or.inl hj))),
          by rw [vlz]; exact tdiv_unit _ _ h1 (fun j hj => hpow j (Or.inr (Or.inr (Or.inl hj)))),
          by rw [vlw]; exact tdiv_unit _ _ h1 (fun j hj => hpow j (Or.inr (Or.inr (Or.inr hj))))⟩

/-- C28: `normalize()` is idempotent on `int` vectors. For `N = 2, 3, 4` and
every `int` vector `v` whose norm, truncated toward zero, is at most
`2^31 - 1` (the norm fits in `int`), `v.normalize()` has a result `w`,
`w.normalize()` is `w` again, and `operator==` says so; for instance
`(-7,1)` gives `(-1,0)`, which is its own normalisation. -/
theorem normalize_idempotent :
    (∀ (v : Vector2 I32) (t : Int), Fp.trunc v.norm = some t → t ≤ 2147483647 →
      ∃ w, v.normalize = some w ∧ w.normalize = some w ∧
        v.normalize.bind Vector2.normalize = v.normalize ∧ Vector2.eq w w = true) ∧
    (∀ (v : Vector3 I32) (t : Int), Fp.trunc v.norm = some t → t ≤ 2147483647 →
      ∃ w, v.normalize = some w ∧ w.normalize = some w ∧
        v.normalize.bind Vector3.normalize = v.normalize ∧ Vector3.eq w w = true) ∧
    (∀ (v : Vector4 I32) (t : Int), Fp.trunc v.norm = some t → t ≤ 2147483647 →
      ∃ w, v.normalize = some w ∧ w.normalize = some w ∧
        v.normalize.bind Vector4.normalize = v.normalize ∧ Vector4.eq w w = true) ∧
    (Vector2.normalize (⟨I32.wrap (-7), I32.wrap 1⟩ : Vector2 I32) =
        some ⟨I32.wrap (-1), I32.wrap 0⟩ ∧
      Vector2.normalize (⟨I32.wrap (-1), I32.wrap 0⟩ : Vector2 I32) =
        some ⟨I32.wrap (-1), I32.wrap 0⟩) := by
  have hfix : ∀ {α : Type} (f : α → Option α) (o : Option α) (w : α), o = some w →
      f w = some w → o.bind f = o := by
    intro α f o w h1 h2
    rw [h1]
    exact h2
  refine ⟨fun v t ht hr => ?_, fun v t ht hr => ?_, fun v t ht hr => ?_, by decide!⟩
  · rcases normalize_cases2 v with ⟨h0, _, hnorm⟩ | ⟨t', _, _, _, ht', h1, hpow, hb⟩
    · exact ⟨v, hnorm, hnorm, hfix _ _ v hnorm hnorm, by simp [Vector2.eq, Scalar.eq, I32.eq]⟩
    · have e : t' = t := by
        rw [ht'] at ht
        exact Option.some.inj ht
      rw [e] at h1 hpow hb
      rcases hb with ⟨hlt, _⟩ | ⟨_, _, _, r, hnorm, _, vlx, vly⟩
      · omega
      · have ux : r.x.val = -1 ∨ r.x.val = 0 ∨ r.x.val = 1 := by
          rw [vlx]
          exact tdiv_unit _ _ h1 (fun j hj => hpow j (Or.inl hj))
        have uy : r.y.val = -1 ∨ r.y.val = 0 ∨ r.y.val = 1 := by
          rw [vly]
          exact tdiv_unit _ _ h1 (fun j hj => hpow j (Or.inr hj))
        have hw := normalize_unit2 r ux uy
        exact ⟨r, hnorm, hw, hfix _ _ r hnorm hw, by simp [Vector2.eq, Scalar.eq, I32.eq]⟩
  · rcases normalize_cases3 v with ⟨h0, _, hnorm⟩ | ⟨t', _, _, _, ht', h1, hpow, hb⟩
    · exact ⟨v, hnorm, hnorm, hfix _ _ v hnorm hnorm, by simp [Vector3.eq, Scalar.eq, I32.eq]⟩
    · have e : t' = t := by
        rw [ht'] at ht
        exact Option.some.inj ht
      rw [e] at h1 hpow hb
      rcases hb with ⟨hlt, _⟩ | ⟨_, _, _, r, hnorm, _, vlx, vly, vlz⟩
      · omega
      · have ux : r.x.val = -1 ∨ r.x.val = 0 ∨ r.x.val = 1 := by
          rw [vlx]
          exact tdiv_unit _ _ h1 (fun j hj => hpow j (Or.inl hj))
        have uy : r.y.val = -1 ∨ r.y.val = 0 ∨ r.y.val = 1 := by
          rw [vly]
          exact tdiv_unit _ _ h1 (fun j hj => hpow j (Or.inr (Or.inl hj)))
        have uz : r.z.val = -1 ∨ r.z.val = 0 ∨ r.z.val = 1 := by
          rw [vlz]
          exact tdiv_unit _ _ h1 (fun j hj => hpow j (Or.inr (Or.inr hj)))
        have hw := normalize_unit3 r ux uy uz
        exact ⟨r, hnorm, hw, hfix _ _ r hnorm hw, by simp [Vector3.eq, Scalar.eq, I32.eq]⟩
  · rcases normalize_cases4 v with ⟨h0, _, hnorm⟩ | ⟨t', _, _, _, ht', h1, hpow, hpow4, hb⟩
    · exact ⟨v, hnorm, hnorm, hfix _ _ v hnorm hnorm, by simp [Vector4.eq, Scalar.eq, I32.eq]⟩
    · have e : t' = t := by
        rw [ht'] at ht
        exact Option.some.inj ht
      rw [e] at h1 hpow hpow4 hb
      rcases hb with ⟨hlt, _⟩ | ⟨_, _, _, r, hnorm, _, vlx, vly, vlz, vlw⟩
      · omega
      · have ux : r.x.val = -1 ∨ r.x.val = 0 ∨ r.x.val = 1 := by
          rw [vlx]
          exact tdiv_unit _ _ h1 (fun j hj => hpow j (Or.inl hj))
        have uy : r.y.val = -1 ∨ r.y.val = 0 ∨ r.y.val = 1 := by
          rw [vly]
          exact tdiv_unit _ _ h1 (fun j hj => hpow j (Or.inr (Or.inl hj)))
        have uz : r.z.val = -1 ∨ r.z.val = 0 ∨ r.z.val = 1 := by
          rw [vlz]
          exact tdiv_unit _ _ h1 (fun j hj => hpow j (Or.inr (Or.inr (Or.inl hj))))
        have uw : r.w.val = -1 ∨ r.w.val = 0 ∨ r.w.val = 1 := by
          rw [vlw]
          exact tdiv_unit _ _ h1 (fun j hj => hpow j (Or.inr (Or.inr (Or.inr hj))))
        have hnz : r.x.val = 0 ∨ r.y.val = 0 ∨ r.z.val = 0 ∨ r.w.val = 0 := by
          by_contra hc
          simp only [not_or] at hc
          have ex : t.natAbs ≤ v.x.val.natAbs := tdiv_ne_zero _ _ (by rw [← vlx]; exact hc.1)
          have ey : t.natAbs ≤ v.y.val.natAbs := tdiv_ne_zero _ _ (by rw [← vly]; exact hc.2.1)
          have ez : t.natAbs ≤ v.z.val.natAbs := tdiv_ne_zero _ _ (by rw [← vlz]; exact hc.2.2.1)
          have ew : t.natAbs ≤ v.w.val.natAbs := tdiv_ne_zero _ _ (by rw [← vlw]; exact hc.2.2.2)
          obtain ⟨j, j1, j2⟩ := exists_pow_le t.natAbs (by omega)
          have h5 := hpow4 j (le_trans j1 ex) (le_trans j1 ey) (le_trans j1 ez)
            (le_trans j1 ew)
          have h6 : (t.natAbs : Int) < 2 ^ (j + 1) := by exact_mod_cast j2
          have h7 : (t.natAbs : Int) = t := Int.natAbs_of_nonneg (by omega)
          omega
        have hw := normalize_unit4 r ux uy uz uw hnz
        exact ⟨r, hnorm, hw, hfix _ _ r hnorm hw, by simp [Vector4.eq, Scalar.eq, I32.eq]⟩

/-! ## Conversion of a floating vector to an `int` vector -/

/-- The absolute value of a signed magnitude. -/
theorem Fp.natAbs_sval (s : Bool) (q : Nat) : (Fp.sval s q).natAbs = q := by
  cases s
  · simp only [Fp.sval, Bool.false_eq_true, if_false, Int.natAbs_ofNat]
  · simp only [Fp.sval, if_true, Int.natAbs_neg, Int.natAbs_ofNat]

/-- The cast of a finite floating datum to `int` when the truncated value is
an `int`: the magnitude is cut to whole units and the sign kept. -/
theorem I32.ofFp_fin (F : Fmt) (hU : 0 < F.unit) (s : Bool) (m : Nat)
    (h1 : -2147483648 ≤ Fp.sval s (m / F.unit)) (h2 : Fp.sval s (m / F.unit) ≤ 2147483647)
    (cast : Fp F → Option I32)
    (hc : ∀ d, cast d = match Fp.trunc d with
      | some n => if h : -2147483648 ≤ n ∧ n ≤ 2147483647 then some ⟨n, h.1, h.2⟩ else none
      | none => none) :
    ∃ r : I32, cast (Fp.fin s m) = some r ∧ r.val = Fp.sval s (m / F.unit) ∧
      r.val.natAbs * F.unit ≤ m ∧ m < (r.val.natAbs + 1) * F.unit ∧
      (r.val < 0 → s = true) ∧ (0 < r.val → s = false) := by
  have e1 : m / F.unit * F.unit ≤ m := Nat.div_mul_le_self m F.unit
  have e2 : m < (m / F.unit + 1) * F.unit := by
    have h3 := Nat.div_add_mod m F.unit
    have h4 := Nat.mod_lt m hU
    have h5 : (m / F.unit + 1) * F.unit = F.unit * (m / F.unit) + F.unit := by ring
    omega
  have ht : Fp.trunc (Fp.fin s m : Fp F) = some (Fp.sval s (m / F.unit)) := rfl
  generalize m / F.unit = q at h1 h2 e1 e2 ht
  have e := Fp.natAbs_sval s q
  refine ⟨⟨Fp.sval s q, h1, h2⟩, ?_, rfl, ?_, ?_, ?_, ?_⟩
  · rw [hc, ht]
    simp only
    rw [dif_pos ⟨h1, h2⟩]
  · show (Fp.sval s q).natAbs * F.unit ≤ m
    rw [e]
    exact e1
  · show m < ((Fp.sval s q).natAbs + 1) * F.unit
    rw [e]
    exact e2
  · intro h
    cases s
    · simp only [Fp.sval, Bool.false_eq_true, if_false] at h
      omega
    · rfl
  · intro h
    cases s
    · rfl
    · simp only [Fp.sval, if_true] at h
      omega

/-- The conversion of a vector of dimension 2 has the result `w` exactly when
every component converts to the component of `w` at the same place. -/
theorem convert2_iff {T K : Type} [Convert T K] (v : Vector2 T) (w : Vector2 K) :
    v.convert = some w ↔ Convert.conv v.x = some w.x ∧ Convert.conv v.y = some w.y := by
  obtain ⟨wx, wy⟩ := w
  unfold Vector2.convert
  constructor
  · intro h
    simp only [Option.bind_eq_some, Option.some.injEq, Vector2.mk.injEq] at h
    obtain ⟨ax, hx, ay, hy, qx, qy⟩ := h
    exact ⟨by rw [hx, qx], by rw [hy, qy]⟩
  · rintro ⟨hx, hy⟩
    rw [hx, hy]
    rfl

/-- The conversion of a vector of dimension 3 has the result `w` exactly when
every component converts to the component of `w` at the same place. -/
theorem convert3_iff {T K : Type} [Convert T K] (v : Vector3 T) (w : Vector3 K) :
    v.convert = some w ↔ Convert.conv v.x = some w.x ∧ Convert.conv v.y = some w.y ∧ Convert.conv v.z = some w.z := by
  obtain ⟨wx, wy, wz⟩ := w
  unfold Vector3.convert
  constructor
  · intro h
    simp only [Option.bind_eq_some, Option.some.injEq, Vector3.mk.injEq] at h
    obtain ⟨ax, hx, ay, hy, az, hz, qx, qy, qz⟩ := h
    exact ⟨by rw [hx, qx], by rw [hy, qy], by rw [hz, qz]⟩
  · rintro ⟨hx, hy, hz⟩
    rw [hx, hy, hz]
    rfl

/-- The conversion of a vector of dimension 4 has the result `w` exactly when
every component converts to the component of `w` at the same place. -/
theorem convert4_iff {T K : Type} [Convert T K] (v : Vector4 T) (w : Vector4 K) :
    v.convert = some w ↔ Convert.conv v.x = some w.x ∧ Convert.conv v.y = some w.y ∧ Convert.conv v.z = some w.z ∧ Convert.conv v.w = some w.w := by
  obtain ⟨wx, wy, wz, ww⟩ := w
  unfold Vector4.convert
  constructor
  · intro h
    simp only [Option.bind_eq_some, Option.some.injEq, Vector4.mk.injEq] at h
    obtain ⟨ax, hx, ay, hy, az, hz, aw, hw, qx, qy, qz, qw⟩ := h
    exact ⟨by rw [hx, qx], by rw [hy, qy], by rw [hz, qz], by rw [hw, qw]⟩
  · rintro ⟨hx, hy, hz, hw⟩
    rw [hx, hy, hz, hw]
    rfl

/-- C22: conversion of a floating vector to an `int` vector. For `N = 2, 3, 4`
the conversion has a result exactly when every component converts, and the
result holds the converted components in the same order; a finite `float` or
`double` component of magnitude `m` (in units of the smallest subnormal) and
sign `s` whose whole part is an `int` converts to that whole part with the
sign kept, which is truncation toward zero: `|r| <= |x| < |r| + 1`. The
vectors of the tests convert as stated: `1.1234567f -> 1`, `-1.1234567f -> -1`,
`2.5f -> 2`, `-0.75f -> 0`, and for `double` `3.5 -> 3`, `-1.25 -> -1`,
`-0.75 -> 0`. -/
theorem convert_float_to_int :
    (∀ (s : Bool) (m : Nat), -2147483648 ≤ Fp.sval s (m / binary32.unit) →
      Fp.sval s (m / binary32.unit) ≤ 2147483647 →
      ∃ r : I32, (Convert.conv (Fp.fin s m : F32) : Option I32) = some r ∧
        r.val = Fp.sval s (m / binary32.unit) ∧
        r.val.natAbs * binary32.unit ≤ m ∧ m < (r.val.natAbs + 1) * binary32.unit ∧
        (r.val < 0 → s = true) ∧ (0 < r.val → s = false)) ∧
    (∀ (s : Bool) (m : Nat), -2147483648 ≤ Fp.sval s (m / binary64.unit) →
      Fp.sval s (m / binary64.unit) ≤ 2147483647 →
      ∃ r : I32, (Convert.conv (Fp.fin s m : F64) : Option I32) = some r ∧
        r.val = Fp.sval s (m / binary64.unit) ∧
        r.val.natAbs * binary64.unit ≤ m ∧ m < (r.val.natAbs + 1) * binary64.unit ∧
        (r.val < 0 → s = true) ∧ (0 < r.val → s = false)) ∧
    (∀ (T K : Type) [Convert T K] (v : Vector2 T) (w : Vector2 K),
      v.convert = some w ↔ Convert.conv v.x = some w.x ∧ Convert.conv v.y = some w.y) ∧
    (∀ (T K : Type) [Convert T K] (v : Vector3 T) (w : Vector3 K),
      v.convert = some w ↔ Convert.conv v.x = some w.x ∧ Convert.conv v.y = some w.y ∧ Convert.conv v.z = some w.z) ∧
    (∀ (T K : Type) [Convert T K] (v : Vector4 T) (w : Vector4 K),
      v.convert = some w ↔ Convert.conv v.x = some w.x ∧ Convert.conv v.y = some w.y ∧ Convert.conv v.z = some w.z ∧ Convert.conv v.w = some w.w) ∧
    ((Vector2.convert (⟨Fp.lit binary32 11234567 7, Fp.neg (Fp.lit binary32 11234567 7)⟩ : Vector2 F32) :
          Option (Vector2 I32)) = some ⟨I32.wrap 1, I32.wrap (-1)⟩ ∧
      (Vector3.convert (⟨Fp.lit binary32 11234567 7, Fp.neg (Fp.lit binary32 11234567 7), Fp.lit binary32 25 1⟩ : Vector3 F32) :
          Option (Vector3 I32)) = some ⟨I32.wrap 1, I32.wrap (-1), I32.wrap 2⟩ ∧
      (Vector4.convert (⟨Fp.lit binary32 11234567 7, Fp.neg (Fp.lit binary32 11234567 7), Fp.lit binary32 25 1, Fp.neg (Fp.lit binary32 75 2)⟩ : Vector4 F32) :
          Option (Vector4 I32)) = some ⟨I32.wrap 1, I32.wrap (-1), I32.wrap 2, I32.wrap 0⟩ ∧
      (Vector2.convert (⟨Fp.lit binary64 11234567891234567 16, Fp.neg (Fp.lit binary64 11234567891234567 16)⟩ : Vector2 F64) :
          Option (Vector2 I32)) = some ⟨I32.wrap 1, I32.wrap (-1)⟩ ∧
      (Vector3.convert (⟨Fp.lit binary64 11234567891234567 16, Fp.neg (Fp.lit binary64 11234567891234567 16), Fp.neg (Fp.lit binary64 75 2)⟩ : Vector3 F64) :
          Option (Vector3 I32)) = some ⟨I32.wrap 1, I32.wrap (-1), I32.wrap 0⟩ ∧
      (Vector4.convert (⟨Fp.lit binary64 11234567891234567 16, Fp.neg (Fp.lit binary64 11234567891234567 16), Fp.lit binary64 35 1, Fp.neg (Fp.lit binary64 125 2)⟩ : Vector4 F64) :
          Option (Vector4 I32)) = some ⟨I32.wrap 1, I32.wrap (-1), I32.wrap 3, I32.wrap (-1)⟩) := by
  have hU32 : 0 < binary32.unit := by unfold Fmt.unit; positivity
  have hU64 : 0 < binary64.unit := by unfold Fmt.unit; positivity
  refine ⟨fun s m h1 h2 => ?_, fun s m h1 h2 => ?_, fun T K _ v w => convert2_iff v w,
    fun T K _ v w => convert3_iff v w, fun T K _ v w => convert4_iff v w, by decide!⟩
  · exact I32.ofFp_fin binary32 hU32 s m h1 h2 I32.ofFloat (fun d => rfl)
  · exact I32.ofFp_fin binary64 hU64 s m h1 h2 I32.ofDouble (fun d => rfl)

/-! ## Round trip of an `int` vector through `double` and `float` -/

/-- An `int` converts to the `double` of the same value, which converts back to it. -/
theorem I32.roundtrip64 (a : I32) :
    (Convert.conv a : Option F64) =
        some (Fp.fin (decide (a.val < 0)) (a.val.natAbs * binary64.unit)) ∧
      (Convert.conv (Fp.fin (decide (a.val < 0)) (a.val.natAbs * binary64.unit) : F64) :
        Option I32) = some a := by
  have hn : a.val.natAbs < 2 ^ binary64.prec := by
    have := a.lo
    have := a.hi
    show a.val.natAbs < 2 ^ 53
    omega
  have e := Fp.ofInt_exact binary64 (by decide) (by decide) a.val hn
  refine ⟨congrArg some e, ?_⟩
  rw [← e]
  show I32.ofDouble (Fp.ofInt binary64 a.val) = some a
  rw [I32.ofDouble_ofInt a.val a.lo a.hi, I32.wrap_val]

/-- An `int` of absolute value at most `2^24` converts to the `float` of the
same value, which converts back to it. -/
theorem I32.roundtrip32 (a : I32) (h : a.val.natAbs ≤ 16777216) :
    (Convert.conv a : Option F32) =
        some (Fp.fin (decide (a.val < 0)) (a.val.natAbs * binary32.unit)) ∧
      (Convert.conv (Fp.fin (decide (a.val < 0)) (a.val.natAbs * binary32.unit) : F32) :
        Option I32) = some a := by
  have hU : 0 < binary32.unit := by unfold Fmt.unit; positivity
  have e : Fp.ofInt binary32 a.val =
      Fp.fin (decide (a.val < 0)) (a.val.natAbs * binary32.unit) := by
    by_cases hlt : a.val.natAbs < 2 ^ binary32.prec
    · exact Fp.ofInt_exact binary32 (by decide) (by decide) a.val hlt
    · have h24 : a.val.natAbs = 16777216 := by
        have : ¬ a.val.natAbs < 2 ^ 24 := hlt
        omega
      have hv : a.val = 16777216 ∨ a.val = -16777216 := by omega
      rcases hv with hv | hv <;> rw [hv] <;> decide!
  refine ⟨congrArg some e, ?_⟩
  have ht : Fp.trunc (Fp.fin (decide (a.val < 0)) (a.val.natAbs * binary32.unit) : F32) =
      some a.val := by
    simp only [Fp.trunc, Nat.mul_div_cancel _ hU, Fp.sval]
    by_cases hneg : a.val < 0
    · simp only [hneg, decide_True, if_true]
      congr 1
      omega
    · simp only [hneg, decide_False, Bool.false_eq_true, if_false]
      congr 1
      omega
  show I32.ofFloat _ = some a
  unfold I32.ofFloat
  rw [ht]
  simp only
  rw [dif_pos ⟨a.lo, a.hi⟩]

/-- C23 fails for `float` above `2^24`: `Vector2i(16777217, 0)` converts to the
`float` vector `(16777216, 0)`, which does not keep the value of the first
component, and converting back gives `(16777216, 0)`, not the vector;
for `Vector2i(2147483647, 0)` the `float` is `2147483648` and the conversion
back has no result. -/
theorem roundtrip_float_counterexample :
    (Vector2.convert (⟨I32.wrap 16777217, I32.wrap 0⟩ : Vector2 I32) : Option (Vector2 F32)) =
      some ⟨Fp.fin false (16777216 * binary32.unit), Fp.fin false 0⟩ ∧
    ((Vector2.convert (⟨I32.wrap 16777217, I32.wrap 0⟩ : Vector2 I32) :
        Option (Vector2 F32)).bind fun w => (w.convert : Option (Vector2 I32))) =
      some ⟨I32.wrap 16777216, I32.wrap 0⟩ ∧
    ((Vector2.convert (⟨I32.wrap 16777217, I32.wrap 0⟩ : Vector2 I32) :
        Option (Vector2 F32)).bind fun w => (w.convert : Option (Vector2 I32))) ≠
      some ⟨I32.wrap 16777217, I32.wrap 0⟩ ∧
    (Vector2.convert (⟨I32.wrap 2147483647, I32.wrap 0⟩ : Vector2 I32) : Option (Vector2 F32)) =
      some ⟨Fp.fin false (2147483648 * binary32.unit), Fp.fin false 0⟩ ∧
    ((Vector2.convert (⟨I32.wrap 2147483647, I32.wrap 0⟩ : Vector2 I32) :
        Option (Vector2 F32)).bind fun w => (w.convert : Option (Vector2 I32))) = none := by
  decide!

/-- C23, amended: round trip. For `N = 2, 3, 4` and every `int` vector `v`,
the conversion to a `double` vector keeps the value of every component, in
the same order, and converting the result back gives `v`; the conversion to a
`float` vector does so when every component is at most `2^24 = 16777216` in
absolute value. `Vector2i(10,5)` converts to `(10.0f, 5.0f)` and to
`(10.0, 5.0)`, and `(10.0f, 5.0f)` converts back to `(10, 5)`. -/
theorem roundtrip_int :
    (∀ v : Vector2 I32, ∃ w : Vector2 F64, v.convert = some w ∧
        w.x = Fp.fin (decide (v.x.val < 0)) (v.x.val.natAbs * binary64.unit) ∧
        w.y = Fp.fin (decide (v.y.val < 0)) (v.y.val.natAbs * binary64.unit) ∧
        (w.convert : Option (Vector2 I32)) = some v) ∧
    (∀ v : Vector3 I32, ∃ w : Vector3 F64, v.convert = some w ∧
        w.x = Fp.fin (decide (v.x.val < 0)) (v.x.val.natAbs * binary64.unit) ∧
        w.y = Fp.fin (decide (v.y.val < 0)) (v.y.val.natAbs * binary64.unit) ∧
        w.z = Fp.fin (decide (v.z.val < 0)) (v.z.val.natAbs * binary64.unit) ∧
        (w.convert : Option (Vector3 I32)) = some v) ∧
    (∀ v : Vector4 I32, ∃ w : Vector4 F64, v.convert = some w ∧
        w.x = Fp.fin (decide (v.x.val < 0)) (v.x.val.natAbs * binary64.unit) ∧
        w.y = Fp.fin (decide (v.y.val < 0)) (v.y.val.natAbs * binary64.unit) ∧
        w.z = Fp.fin (decide (v.z.val < 0)) (v.z.val.natAbs * binary64.unit) ∧
        w.w = Fp.fin (decide (v.w.val < 0)) (v.w.val.natAbs * binary64.unit) ∧
        (w.convert : Option (Vector4 I32)) = some v) ∧
    (∀ v : Vector2 I32, (v.x.val.natAbs ≤ 16777216 ∧ v.y.val.natAbs ≤ 16777216) →
      ∃ w : Vector2 F32, v.convert = some w ∧
        w.x = Fp.fin (decide (v.x.val < 0)) (v.x.val.natAbs * binary32.unit) ∧
        w.y = Fp.fin (decide (v.y.val < 0)) (v.y.val.natAbs * binary32.unit) ∧
        (w.convert : Option (Vector2 I32)) = some v) ∧
    (∀ v : Vector3 I32, (v.x.val.natAbs ≤ 16777216 ∧ v.y.val.natAbs ≤ 16777216 ∧ v.z.val.natAbs ≤ 16777216) →
      ∃ w : Vector3 F32, v.convert = some w ∧
        w.x = Fp.fin (decide (v.x.val < 0)) (v.x.val.natAbs * binary32.unit) ∧
        w.y = Fp.fin (decide (v.y.val < 0)) (v.y.val.natAbs * binary32.unit) ∧
        w.z = Fp.fin (decide (v.z.val < 0)) (v.z.val.natAbs * binary32.unit) ∧
        (w.convert : Option (Vector3 I32)) = some v) ∧
    (∀ v : Vector4 I32, (v.x.val.natAbs ≤ 16777216 ∧ v.y.val.natAbs ≤ 16777216 ∧ v.z.val.natAbs ≤ 16777216 ∧ v.w.val.natAbs ≤ 16777216) →
      ∃ w : Vector4 F32, v.convert = some w ∧
        w.x = Fp.fin (decide (v.x.val < 0)) (v.x.val.natAbs * binary32.unit) ∧
        w.y = Fp.fin (decide (v.y.val < 0)) (v.y.val.natAbs * binary32.unit) ∧
        w.z = Fp.fin (decide (v.z.val < 0)) (v.z.val.natAbs * binary32.unit) ∧
        w.w = Fp.fin (decide (v.w.val < 0)) (v.w.val.natAbs * binary32.unit) ∧
        (w.convert : Option (Vector4 I32)) = some v) ∧
    ((Vector2.convert (⟨I32.wrap 10, I32.wrap 5⟩ : Vector2 I32) : Option (Vector2 F32)) =
        some ⟨Fp.lit binary32 100 1, Fp.lit binary32 50 1⟩ ∧
      (Vector2.convert (⟨I32.wrap 10, I32.wrap 5⟩ : Vector2 I32) : Option (Vector2 F64)) =
        some ⟨Fp.lit binary64 100 1, Fp.lit binary64 50 1⟩ ∧
      (Vector2.convert (⟨Fp.lit binary32 100 1, Fp.lit binary32 50 1⟩ : Vector2 F32) :
        Option (Vector2 I32)) = some ⟨I32.wrap 10, I32.wrap 5⟩) := by
  refine ⟨fun v => ?_, fun v => ?_, fun v => ?_, fun v h => ?_, fun v h => ?_, fun v h => ?_,
    by decide!⟩
  · obtain ⟨fx, gx⟩ := I32.roundtrip64 v.x
    obtain ⟨fy, gy⟩ := I32.roundtrip64 v.y
    refine ⟨⟨_, _⟩, ?_, rfl, rfl, ?_⟩
    · exact (convert2_iff v _).2 ⟨fx, fy⟩
    · exact (convert2_iff _ v).2 ⟨gx, gy⟩
  · obtain ⟨fx, gx⟩ := I32.roundtrip64 v.x
    obtain ⟨fy, gy⟩ := I32.roundtrip64 v.y
    obtain ⟨fz, gz⟩ := I32.roundtrip64 v.z
    refine ⟨⟨_, _, _⟩, ?_, rfl, rfl, rfl, ?_⟩
    · exact (convert3_iff v _).2 ⟨fx, fy, fz⟩
    · exact (convert3_iff _ v).2 ⟨gx, gy, gz⟩
  · obtain ⟨fx, gx⟩ := I32.roundtrip64 v.x
    obtain ⟨fy, gy⟩ := I32.roundtrip64 v.y
    obtain ⟨fz, gz⟩ := I32.roundtrip64 v.z
    obtain ⟨fw, gw⟩ := I32.roundtrip64 v.w
    refine ⟨⟨_, _, _, _⟩, ?_, rfl, rfl, rfl, rfl, ?_⟩
    · exact (convert4_iff v _).2 ⟨fx, fy, fz, fw⟩
    · exact (convert4_iff _ v).2 ⟨gx, gy, gz, gw⟩
  · obtain ⟨fx, gx⟩ := I32.roundtrip32 v.x h.1
    obtain ⟨fy, gy⟩ := I32.roundtrip32 v.y h.2
    refine ⟨⟨_, _⟩, ?_, rfl, rfl, ?_⟩
    · exact (convert2_iff v _).2 ⟨fx, fy⟩
    · exact (convert2_iff _ v).2 ⟨gx, gy⟩
  · obtain ⟨fx, gx⟩ := I32.roundtrip32 v.x h.1
    obtain ⟨fy, gy⟩ := I32.roundtrip32 v.y h.2.1
    obtain ⟨fz, gz⟩ := I32.roundtrip32 v.z h.2.2
    refine ⟨⟨_, _, _⟩, ?_, rfl, rfl, rfl, ?_⟩
    · exact (convert3_iff v _).2 ⟨fx, fy, fz⟩
    · exact (convert3_iff _ v).2 ⟨gx, gy, gz⟩
  · obtain ⟨fx, gx⟩ := I32.roundtrip32 v.x h.1
    obtain ⟨fy, gy⟩ := I32.roundtrip32 v.y h.2.1
    obtain ⟨fz, gz⟩ := I32.roundtrip32 v.z h.2.2.1
    obtain ⟨fw, gw⟩ := I32.roundtrip32 v.w h.2.2.2
    refine ⟨⟨_, _, _, _⟩, ?_, rfl, rfl, rfl, rfl, ?_⟩
    · exact (convert4_iff v _).2 ⟨fx, fy, fz, fw⟩
    · exact (convert4_iff _ v).2 ⟨gx, gy, gz, gw⟩

/-! ## `pow` with a fractional exponent on an `int` vector -/

/-- C21 fails: the exponent of `Vector2i::pow` is an `int`, so in
`Vector2i(4,9).pow(0.5)` the argument `0.5` becomes `0` and the result is
`(pow(4,0), pow(9,0)) = (1,1)`, not `(2,3)`, also with a library in which
`pow(4, 0.5)` is `2` and `pow(9, 0.5)` is `3`. -/
theorem pow_fractional_counterexample :
    Libm.withSqrt.pow (Fp.lit binary64 40 1) (Fp.lit binary64 5 1) = Fp.lit binary64 20 1 ∧
    Libm.withSqrt.pow (Fp.lit binary64 90 1) (Fp.lit binary64 5 1) = Fp.lit binary64 30 1 ∧
    (Scalar.ofDouble (Fp.lit binary64 5 1) : Option I32) = some (I32.wrap 0) ∧
    Vector2.powOfDouble Libm.withSqrt (⟨I32.wrap 4, I32.wrap 9⟩ : Vector2 I32)
      (Fp.lit binary64 5 1) = some ⟨I32.wrap 1, I32.wrap 1⟩ ∧
    Vector2.powOfDouble Libm.withSqrt (⟨I32.wrap 4, I32.wrap 9⟩ : Vector2 I32)
      (Fp.lit binary64 5 1) ≠ some ⟨I32.wrap 2, I32.wrap 3⟩ := by
  decide!

/-- The cast of a `double` to `int` when its truncation is an `int`. -/
theorem I32.ofDouble_trunc (e : F64) (n : Int) (h : Fp.trunc e = some n)
    (h1 : -2147483648 ≤ n) (h2 : n ≤ 2147483647) :
    I32.ofDouble e = some (I32.wrap n) := by
  unfold I32.ofDouble
  rw [h]
  simp only
  rw [dif_pos ⟨h1, h2⟩]
  exact congrArg some (I32.ext_val (I32.wrap_of_range h1 h2).symm)

/-- The `int` power with exponent `0` is `1` when `pow(x, 0)` is `1`. -/
theorem I32.powCast_zero (L : Libm)
    (hL : ∀ x : F64, L.pow x (Fp.fin false 0) = Fp.fin false binary64.unit) (x : I32) :
    StdPow.powCast L x (I32.wrap 0) = some (I32.wrap 1) := by
  show I32.ofDouble (L.pow (Fp.ofInt binary64 x.val) (Fp.ofInt binary64 (I32.wrap 0).val)) = _
  have e0 : (I32.wrap 0).val = 0 := by decide
  rw [e0, Fp.ofInt_zero64, hL, ← Fp.ofInt_one64]
  exact I32.ofDouble_ofInt 1 (by decide) (by decide)

/-- C21, amended: `pow` takes its exponent in the scalar type of the vector.
For `N = 2, 3, 4`, every `int` vector `v` and every `double` argument `e` whose
truncation toward zero `k` is an `int`, the call `v.pow(e)` is `v.pow(k)`: the
fraction of the exponent is dropped before `std::pow` runs. With a `std::pow`
for which `pow(x, 0)` is `1`, every argument with `|e| < 1` (such as `0.5`)
gives the vector of ones. -/
theorem pow_of_double_int (L : Libm)
    (hL : ∀ x : F64, L.pow x (Fp.fin false 0) = Fp.fin false binary64.unit) :
    (∀ (v : Vector2 I32) (e : F64) (k : Int), Fp.trunc e = some k → -2147483648 ≤ k →
      k ≤ 2147483647 → v.powOfDouble L e = v.pow L (I32.wrap k)) ∧
    (∀ (v : Vector3 I32) (e : F64) (k : Int), Fp.trunc e = some k → -2147483648 ≤ k →
      k ≤ 2147483647 → v.powOfDouble L e = v.pow L (I32.wrap k)) ∧
    (∀ (v : Vector4 I32) (e : F64) (k : Int), Fp.trunc e = some k → -2147483648 ≤ k →
      k ≤ 2147483647 → v.powOfDouble L e = v.pow L (I32.wrap k)) ∧
    (∀ (v : Vector2 I32) (s : Bool) (m : Nat), m < binary64.unit →
      v.powOfDouble L (Fp.fin s m) = some ⟨I32.wrap 1, I32.wrap 1⟩) ∧
    (∀ (v : Vector3 I32) (s : Bool) (m : Nat), m < binary64.unit →
      v.powOfDouble L (Fp.fin s m) = some ⟨I32.wrap 1, I32.wrap 1, I32.wrap 1⟩) ∧
    (∀ (v : Vector4 I32) (s : Bool) (m : Nat), m < binary64.unit →
      v.powOfDouble L (Fp.fin s m) = some ⟨I32.wrap 1, I32.wrap 1, I32.wrap 1, I32.wrap 1⟩) := by
  have hU : 0 < binary64.unit := by unfold Fmt.unit; positivity
  have gen2 : ∀ (v : Vector2 I32) (e : F64) (k : Int), Fp.trunc e = some k → -2147483648 ≤ k →
      k ≤ 2147483647 → v.powOfDouble L e = v.pow L (I32.wrap k) := by
    intro v e k h h1 h2
    show (I32.ofDouble e).bind _ = _
    rw [I32.ofDouble_trunc e k h h1 h2]
    rfl
  have gen3 : ∀ (v : Vector3 I32) (e : F64) (k : Int), Fp.trunc e = some k → -2147483648 ≤ k →
      k ≤ 2147483647 → v.powOfDouble L e = v.pow L (I32.wrap k) := by
    intro v e k h h1 h2
    show (I32.ofDouble e).bind _ = _
    rw [I32.ofDouble_trunc e k h h1 h2]
    rfl
  have gen4 : ∀ (v : Vector4 I32) (e : F64) (k : Int), Fp.trunc e = some k → -2147483648 ≤ k →
      k ≤ 2147483647 → v.powOfDouble L e = v.pow L (I32.wrap k) := by
    intro v e k h h1 h2
    show (I32.ofDouble e).bind _ = _
    rw [I32.ofDouble_trunc e k h h1 h2]
    rfl
  have ht : ∀ (s : Bool) (m : Nat), m < binary64.unit →
      Fp.trunc (Fp.fin s m : F64) = some 0 := by
    intro s m hm
    simp only [Fp.trunc, Nat.div_eq_of_lt hm]
    cases s <;> rfl
  refine ⟨gen2, gen3, gen4, fun v s m hm => ?_, fun v s m hm => ?_, fun v s m hm => ?_⟩
  · rw [gen2 v _ 0 (ht s m hm) (by decide) (by decide)]
    unfold Vector2.pow
    rw [I32.powCast_zero L hL, I32.powCast_zero L hL]
    rfl
  · rw [gen3 v _ 0 (ht s m hm) (by decide) (by decide)]
    unfold Vector3.pow
    rw [I32.powCast_zero L hL, I32.powCast_zero L hL, I32.powCast_zero L hL]
    rfl
  · rw [gen4 v _ 0 (ht s m hm) (by decide) (by decide)]
    unfold Vector4.pow
    rw [I32.powCast_zero L hL, I32.powCast_zero L hL, I32.powCast_zero L hL,
      I32.powCast_zero L hL]
    rfl

/-- The hypothesis of `pow_of_double_int` holds for the library `Libm.withSqrt`. -/
theorem pow_of_double_int_witness :
    (∀ x : F64, Libm.withSqrt.pow x (Fp.fin false 0) = Fp.fin false binary64.unit) ∧
    (∀ (v : Vector2 I32) (e : F64) (k : Int), Fp.trunc e = some k → -2147483648 ≤ k →
      k ≤ 2147483647 → v.powOfDouble Libm.withSqrt e = v.pow Libm.withSqrt (I32.wrap k)) ∧
    (∀ (v : Vector3 I32) (e : F64) (k : Int), Fp.trunc e = some k → -2147483648 ≤ k →
      k ≤ 2147483647 → v.powOfDouble Libm.withSqrt e = v.pow Libm.withSqrt (I32.wrap k)) ∧
    (∀ (v : Vector4 I32) (e : F64) (k : Int), Fp.trunc e = some k → -2147483648 ≤ k →
      k ≤ 2147483647 → v.powOfDouble Libm.withSqrt e = v.pow Libm.withSqrt (I32.wrap k)) ∧
    (∀ (v : Vector2 I32) (s : Bool) (m : Nat), m < binary64.unit →
      v.powOfDouble Libm.withSqrt (Fp.fin s m) = some ⟨I32.wrap 1, I32.wrap 1⟩) ∧
    (∀ (v : Vector3 I32) (s : Bool) (m : Nat), m < binary64.unit →
      v.powOfDouble Libm.withSqrt (Fp.fin s m) = some ⟨I32.wrap 1, I32.wrap 1, I32.wrap 1⟩) ∧
    (∀ (v : Vector4 I32) (s : Bool) (m : Nat), m < binary64.unit →
      v.powOfDouble Libm.withSqrt (Fp.fin s m) = some ⟨I32.wrap 1, I32.wrap 1, I32.wrap 1, I32.wrap 1⟩) :=
  have h : ∀ x : F64, Libm.withSqrt.pow x (Fp.fin false 0) = Fp.fin false binary64.unit := by
    intro x
    have hne : (Fp.fin false 0 : F64) ≠ Fp.fin false (binary64.unit / 2) := by decide!
    show Fp.powHalf x (Fp.fin false 0) = _
    unfold Fp.powHalf
    rw [if_neg hne]
    simp [Fp.powIntegral]
  ⟨h, pow_of_double_int Libm.withSqrt h⟩

/-! ## Stream output -/

/-- The character of a decimal digit is a digit and has the value of the digit. -/
theorem digitChar_value (d : Nat) (h : d < 10) :
    (Nat.digitChar d).toNat - 48 = d ∧ (Nat.digitChar d).isDigit = true := by
  interval_cases d <;> decide

/-- The digits are put in front of the digits found so far. -/
theorem toDigitsCore_append (fuel : Nat) : ∀ (n : Nat) (ds : List Char),
    Nat.toDigitsCore 10 fuel n ds = Nat.toDigitsCore 10 fuel n [] ++ ds := by
  induction fuel with
  | zero =>
    intro n ds
    simp [Nat.toDigitsCore]
  | succ fuel ih =>
    intro n ds
    simp only [Nat.toDigitsCore]
    split_ifs
    · simp
    · rw [ih (n / 10) (Nat.digitChar (n % 10) :: ds), ih (n / 10) [Nat.digitChar (n % 10)]]
      simp

/-- The digits written for `n` denote `n` and are decimal digits. -/
theorem decimalValue_toDigitsCore (fuel : Nat) : ∀ n : Nat, n < fuel →
    decimalValue (Nat.toDigitsCore 10 fuel n []) = n ∧
      ∀ c ∈ Nat.toDigitsCore 10 fuel n [], c.isDigit = true := by
  induction fuel with
  | zero =>
    intro n h
    omega
  | succ fuel ih =>
    intro n h
    obtain ⟨hv, hd⟩ := digitChar_value (n % 10) (Nat.mod_lt n (by decide))
    simp only [Nat.toDigitsCore]
    split_ifs with h0
    · constructor
      · simp only [decimalValue, List.foldl_cons, List.foldl_nil, hv]
        omega
      · intro c hc
        rw [List.mem_singleton] at hc
        rw [hc]
        exact hd
    · rw [toDigitsCore_append]
      obtain ⟨iv, id⟩ := ih (n / 10) (by omega)
      constructor
      · unfold decimalValue at iv ⊢
        rw [List.foldl_append, iv]
        simp only [List.foldl_cons, List.foldl_nil, hv]
        omega
      · intro c hc
        rw [List.mem_append, List.mem_singleton] at hc
        rcases hc with hc | hc
        · exact id c hc
        · rw [hc]
          exact hd

/-- The decimal text of a natural number denotes the number and consists of
decimal digits. -/
theorem decimalValue_repr (n : Nat) :
    decimalValue (Nat.repr n).data = n ∧ ∀ c ∈ (Nat.repr n).data, c.isDigit = true :=
  decimalValue_toDigitsCore (n + 1) n (Nat.lt_succ_self n)

/-- C24: layout of the formatted rendering. For every scalar type, every
stream (in its default state) and every vector, `operator<<` appends to the
stream exactly `Vector2(x=X, y=Y)`, `Vector3(x=X, y=Y, z=Z)` or
`Vector4(x=X, y=Y, z=Z, w=W)`, where `X`, `Y`, `Z`, `W` are the texts of the
components in declaration order, and nothing else. For an `int` component the
text is its decimal rendering: a minus sign when negative, then decimal
digits that denote the absolute value. `Vector2i(10,-5)` renders as
`Vector2(x=10, y=-5)` and `Vector4i(12,-4,8,-2147483648)` as
`Vector4(x=12, y=-4, z=8, w=-2147483648)`. -/
theorem output_layout :
    (∀ (T : Type) [Insert T] (os : Ostream) (v : Vector2 T),
      (Vector2.output os v).text = os.text ++ ("Vector2(x=" ++ (Insert.render v.x ++
        (", y=" ++ (Insert.render v.y ++ ")"))))) ∧
    (∀ (T : Type) [Insert T] (os : Ostream) (v : Vector3 T),
      (Vector3.output os v).text = os.text ++ ("Vector3(x=" ++ (Insert.render v.x ++
        (", y=" ++ (Insert.render v.y ++ (", z=" ++ (Insert.render v.z ++ ")"))))))) ∧
    (∀ (T : Type) [Insert T] (os : Ostream) (v : Vector4 T),
      (Vector4.output os v).text = os.text ++ ("Vector4(x=" ++ (Insert.render v.x ++
        (", y=" ++ (Insert.render v.y ++ (", z=" ++ (Insert.render v.z ++
        (", w=" ++ (Insert.render v.w ++ ")"))))))))) ∧
    (∀ a : I32, (Insert.render a : String) =
        (if a.val < 0 then "-" else "") ++ Nat.repr a.val.natAbs ∧
      decimalValue (Nat.repr a.val.natAbs).data = a.val.natAbs ∧
      ∀ c ∈ (Nat.repr a.val.natAbs).data, c.isDigit = true) ∧
    ((Vector2.output ⟨""⟩ (⟨I32.wrap 10, I32.wrap (-5)⟩ : Vector2 I32)).text =
        "Vector2(x=10, y=-5)" ∧
      (Vector3.output ⟨""⟩ (⟨I32.wrap 1, I32.wrap 0, I32.wrap (-3)⟩ : Vector3 I32)).text =
        "Vector3(x=1, y=0, z=-3)" ∧
      (Vector4.output ⟨""⟩
        (⟨I32.wrap 12, I32.wrap (-4), I32.wrap 8, I32.wrap (-2147483648)⟩ : Vector4 I32)).text =
        "Vector4(x=12, y=-4, z=8, w=-2147483648)") := by
  refine ⟨fun T _ os v => ?_, fun T _ os v => ?_, fun T _ os v => ?_, fun a => ⟨?_, ?_⟩,
    by decide⟩
  · simp only [Vector2.output, Ostream.putStr, Ostream.put, String.append_assoc]
  · simp only [Vector3.output, Ostream.putStr, Ostream.put, String.append_assoc]
  · simp only [Vector4.output, Ostream.putStr, Ostream.put, String.append_assoc]
  · show I32.render a = _
    unfold I32.render
    split_ifs
    · rfl
    · simp
  · exact decimalValue_repr a.val.natAbs

/-- C25: formatting literals. On a stream in its default state the `float`
vector `Vector2f(1.124f, 2.0f)` renders exactly as `Vector2(x=1.124, y=2)`
(the whole-valued component prints without a decimal point),
`Vector3f(1.124f, 2.0f, -1.45f)` as `Vector3(x=1.124, y=2, z=-1.45)` and
`Vector4f(1.124f, 2.0f, -1.45f, 0.0f)` as `Vector4(x=1.124, y=2, z=-1.45, w=0)`. -/
theorem output_float_literal :
    (Vector2.output ⟨""⟩
      (⟨Fp.lit binary32 1124 3, Fp.lit binary32 20 1⟩ : Vector2 F32)).text =
      "Vector2(x=1.124, y=2)" ∧
    (Vector3.output ⟨""⟩ (⟨Fp.lit binary32 1124 3, Fp.lit binary32 20 1,
      Fp.neg (Fp.lit binary32 145 2)⟩ : Vector3 F32)).text =
      "Vector3(x=1.124, y=2, z=-1.45)" ∧
    (Vector4.output ⟨""⟩ (⟨Fp.lit binary32 1124 3, Fp.lit binary32 20 1,
      Fp.neg (Fp.lit binary32 145 2), Fp.lit binary32 0 1⟩ : Vector4 F32)).text =
      "Vector4(x=1.124, y=2, z=-1.45, w=0)" ∧
    Fp.render (Fp.lit binary32 20 1) = "2" ∧
    Fp.render (Fp.lit binary32 1124 3) = "1.124" := by
  decide!

/-! ## Lagrange identity -/

/-- C31: Lagrange identity. For all `int` vectors `v`, `w` of dimension 3,
`v.cross(w).dot(v.cross(w)) + v.dot(w) * v.dot(w)` is
`v.dot(v) * w.dot(w)`, and `==` says so. Every `+`, `-`, `*` is reduced modulo
`2^32`: both sides are the residue of the exact integer
`(x^2 + y^2 + z^2) * (ox^2 + oy^2 + oz^2)`, so the identity holds in exact
integer arithmetic (when that integer is an `int` it is the value of both
sides) and also when intermediate results wrap around. For `(1,2,3)` and
`(4,5,6)` both sides are `1078`. -/
theorem lagrange_identity :
    (∀ v w : Vector3 I32,
      Scalar.add ((v.cross w).dot (v.cross w)) (Scalar.mul (v.dot w) (v.dot w)) =
        Scalar.mul (v.dot v) (w.dot w) ∧
      Scalar.eq (Scalar.add ((v.cross w).dot (v.cross w)) (Scalar.mul (v.dot w) (v.dot w)))
        (Scalar.mul (v.dot v) (w.dot w)) = true ∧
      Scalar.mul (v.dot v) (w.dot w) =
        I32.wrap ((v.x.val * v.x.val + v.y.val * v.y.val + v.z.val * v.z.val) *
          (w.x.val * w.x.val + w.y.val * w.y.val + w.z.val * w.z.val)) ∧
      ((-2147483648 ≤ (v.x.val * v.x.val + v.y.val * v.y.val + v.z.val * v.z.val) *
            (w.x.val * w.x.val + w.y.val * w.y.val + w.z.val * w.z.val) ∧
          (v.x.val * v.x.val + v.y.val * v.y.val + v.z.val * v.z.val) *
            (w.x.val * w.x.val + w.y.val * w.y.val + w.z.val * w.z.val) ≤ 2147483647) →
        (Scalar.add ((v.cross w).dot (v.cross w)) (Scalar.mul (v.dot w) (v.dot w))).val =
          (v.x.val * v.x.val + v.y.val * v.y.val + v.z.val * v.z.val) *
            (w.x.val * w.x.val + w.y.val * w.y.val + w.z.val * w.z.val))) ∧
    (Scalar.add
        ((Vector3.cross (⟨I32.wrap 1, I32.wrap 2, I32.wrap 3⟩ : Vector3 I32) ⟨I32.wrap 4, I32.wrap 5, I32.wrap 6⟩).dot
          (Vector3.cross (⟨I32.wrap 1, I32.wrap 2, I32.wrap 3⟩ : Vector3 I32) ⟨I32.wrap 4, I32.wrap 5, I32.wrap 6⟩))
        (Scalar.mul (Vector3.dot (⟨I32.wrap 1, I32.wrap 2, I32.wrap 3⟩ : Vector3 I32) ⟨I32.wrap 4, I32.wrap 5, I32.wrap 6⟩)
          (Vector3.dot (⟨I32.wrap 1, I32.wrap 2, I32.wrap 3⟩ : Vector3 I32) ⟨I32.wrap 4, I32.wrap 5, I32.wrap 6⟩)) = I32.wrap 1078 ∧
      Scalar.mul (Vector3.dot (⟨I32.wrap 1, I32.wrap 2, I32.wrap 3⟩ : Vector3 I32) ⟨I32.wrap 1, I32.wrap 2, I32.wrap 3⟩)
        (Vector3.dot (⟨I32.wrap 4, I32.wrap 5, I32.wrap 6⟩ : Vector3 I32) ⟨I32.wrap 4, I32.wrap 5, I32.wrap 6⟩) = I32.wrap 1078) := by
  have h1 : ∀ v w : Vector3 I32,
      Scalar.add ((v.cross w).dot (v.cross w)) (Scalar.mul (v.dot w) (v.dot w)) =
        Scalar.mul (v.dot v) (w.dot w) := by
    intro v w
    apply I32.eq_of_cast
    simp only [Vector3.dot, Vector3.cross, Scalar.add, Scalar.sub, Scalar.mul, I32.add, I32.sub, I32.mul,
      I32.wrap_val_cast, Int.cast_add, Int.cast_sub, Int.cast_mul]
    ring
  have h2 : ∀ v w : Vector3 I32, Scalar.mul (v.dot v) (w.dot w) =
      I32.wrap ((v.x.val * v.x.val + v.y.val * v.y.val + v.z.val * v.z.val) *
        (w.x.val * w.x.val + w.y.val * w.y.val + w.z.val * w.z.val)) := by
    intro v w
    apply I32.eq_of_cast
    simp only [Vector3.dot, Scalar.add, Scalar.sub, Scalar.mul, I32.add, I32.sub, I32.mul,
      I32.wrap_val_cast, Int.cast_add, Int.cast_sub, Int.cast_mul]
  refine ⟨fun v w => ⟨h1 v w, ?_, h2 v w, fun hr => ?_⟩, by decide⟩
  · rw [h1 v w]
    simp [Scalar.eq, I32.eq]
  · rw [h1 v w, h2 v w]
    exact I32.wrap_of_range hr.1 hr.2

/-! ## Symmetry of the dot product -/

/-- C33: the dot product is symmetric. For `N = 2, 3, 4` and all `int` vectors
`v`, `w`, `v.dot(w)` is `w.dot(v)` and `==` says so, with every `+` and `*`
reduced modulo `2^32` (so also when products wrap around); for instance
`(1,2,3,4).dot(2,-1,0,1)` and `(2,-1,0,1).dot(1,2,3,4)` are both `4`. -/
theorem dot_symm :
    (∀ v w : Vector2 I32, v.dot w = w.dot v ∧ Scalar.eq (v.dot w) (w.dot v) = true) ∧
    (∀ v w : Vector3 I32, v.dot w = w.dot v ∧ Scalar.eq (v.dot w) (w.dot v) = true) ∧
    (∀ v w : Vector4 I32, v.dot w = w.dot v ∧ Scalar.eq (v.dot w) (w.dot v) = true) ∧
    (Vector4.dot (⟨I32.wrap 1, I32.wrap 2, I32.wrap 3, I32.wrap 4⟩ : Vector4 I32)
        ⟨I32.wrap 2, I32.wrap (-1), I32.wrap 0, I32.wrap 1⟩ = I32.wrap 4 ∧
      Vector4.dot (⟨I32.wrap 2, I32.wrap (-1), I32.wrap 0, I32.wrap 1⟩ : Vector4 I32)
        ⟨I32.wrap 1, I32.wrap 2, I32.wrap 3, I32.wrap 4⟩ = I32.wrap 4) := by
  refine ⟨fun v w => ?_, fun v w => ?_, fun v w => ?_, by decide⟩
  · have h : v.dot w = w.dot v := by
      apply I32.eq_of_cast
      simp only [Vector2.dot, Scalar.add, Scalar.sub, Scalar.mul, I32.add, I32.sub, I32.mul,
      I32.wrap_val_cast, Int.cast_add, Int.cast_sub, Int.cast_mul]
      ring
    refine ⟨h, ?_⟩
    rw [h]
    simp [Scalar.eq, I32.eq]
  · have h : v.dot w = w.dot v := by
      apply I32.eq_of_cast
      simp only [Vector3.dot, Scalar.add, Scalar.sub, Scalar.mul, I32.add, I32.sub, I32.mul,
      I32.wrap_val_cast, Int.cast_add, Int.cast_sub, Int.cast_mul]
      ring
    refine ⟨h, ?_⟩
    rw [h]
    simp [Scalar.eq, I32.eq]
  · have h : v.dot w = w.dot v := by
      apply I32.eq_of_cast
      simp only [Vector4.dot, Scalar.add, Scalar.sub, Scalar.mul, I32.add, I32.sub, I32.mul,
      I32.wrap_val_cast, Int.cast_add, Int.cast_sub, Int.cast_mul]
      ring
    refine ⟨h, ?_⟩
    rw [h]
    simp [Scalar.eq, I32.eq]

/-! ## Multiplication and division by a scalar -/

/-- An `int` product that does not overflow, divided by the non-zero factor,
is the other factor. -/
theorem I32.mul_div_cancel (a s : I32) (hs : s.val ≠ 0)
    (h1 : -2147483648 ≤ a.val * s.val) (h2 : a.val * s.val ≤ 2147483647) :
    I32.div (I32.mul a s) s = some a := by
  have hv : (I32.mul a s).val = a.val * s.val := I32.wrap_of_range h1 h2
  have ha := a.hi
  unfold I32.div
  rw [if_neg hs, hv]
  have hc : ¬ (a.val * s.val = -2147483648 ∧ s.val = -1) := by
    rintro ⟨e1, e2⟩
    rw [e2] at e1
    omega
  rw [if_neg hc, Int.mul_tdiv_cancel _ hs, I32.wrap_val]

/-- C34: multiplication by a scalar followed by division by it. For
`N = 2, 3, 4`, every `int` vector `v` and every non-zero `int` `s` such that no
product `x_i * s` overflows, `(v * s) / s` has a result, it is `v`, and `==`
says so; `(3,-1) * 4` is `(12,-4)` and `(12,-4) / 4` is `(3,-1)`. -/
theorem muls_divs_cancel :
    (∀ (v : Vector2 I32) (s : I32), s.val ≠ 0 →
      ((-2147483648 ≤ v.x.val * s.val ∧ v.x.val * s.val ≤ 2147483647) ∧
        (-2147483648 ≤ v.y.val * s.val ∧ v.y.val * s.val ≤ 2147483647)) →
      (v.muls s).divs s = some v ∧
        ((v.muls s).divs s).map (fun r => Vector2.eq r v) = some true) ∧
    (∀ (v : Vector3 I32) (s : I32), s.val ≠ 0 →
      ((-2147483648 ≤ v.x.val * s.val ∧ v.x.val * s.val ≤ 2147483647) ∧
        (-2147483648 ≤ v.y.val * s.val ∧ v.y.val * s.val ≤ 2147483647) ∧
        (-2147483648 ≤ v.z.val * s.val ∧ v.z.val * s.val ≤ 2147483647)) →
      (v.muls s).divs s = some v ∧
        ((v.muls s).divs s).map (fun r => Vector3.eq r v) = some true) ∧
    (∀ (v : Vector4 I32) (s : I32), s.val ≠ 0 →
      ((-2147483648 ≤ v.x.val * s.val ∧ v.x.val * s.val ≤ 2147483647) ∧
        (-2147483648 ≤ v.y.val * s.val ∧ v.y.val * s.val ≤ 2147483647) ∧
        (-2147483648 ≤ v.z.val * s.val ∧ v.z.val * s.val ≤ 2147483647) ∧
        (-2147483648 ≤ v.w.val * s.val ∧ v.w.val * s.val ≤ 2147483647)) →
      (v.muls s).divs s = some v ∧
        ((v.muls s).divs s).map (fun r => Vector4.eq r v) = some true) ∧
    (Vector2.muls (⟨I32.wrap 3, I32.wrap (-1)⟩ : Vector2 I32) (I32.wrap 4) = ⟨I32.wrap 12, I32.wrap (-4)⟩ ∧
      Vector2.divs (⟨I32.wrap 12, I32.wrap (-4)⟩ : Vector2 I32) (I32.wrap 4) = some ⟨I32.wrap 3, I32.wrap (-1)⟩ ∧
      (Vector4.muls (⟨I32.wrap 3, I32.wrap (-1), I32.wrap 2, I32.wrap 4⟩ : Vector4 I32) (I32.wrap (-4))).divs
        (I32.wrap (-4)) = some ⟨I32.wrap 3, I32.wrap (-1), I32.wrap 2, I32.wrap 4⟩) := by
  refine ⟨fun v s hs hr => ?_, fun v s hs hr => ?_, fun v s hs hr => ?_, by decide⟩
  · have h : (v.muls s).divs s = some v := by
      show (I32.div (I32.mul v.x s) s).bind _ = _
      rw [I32.mul_div_cancel v.x s hs hr.1.1 hr.1.2]
      show (I32.div (I32.mul v.y s) s).bind _ = _
      rw [I32.mul_div_cancel v.y s hs hr.2.1 hr.2.2]
      rfl
    refine ⟨h, ?_⟩
    rw [h]
    simp [Vector2.eq, Scalar.eq, I32.eq]
  · have h : (v.muls s).divs s = some v := by
      show (I32.div (I32.mul v.x s) s).bind _ = _
      rw [I32.mul_div_cancel v.x s hs hr.1.1 hr.1.2]
      show (I32.div (I32.mul v.y s) s).bind _ = _
      rw [I32.mul_div_cancel v.y s hs hr.2.1.1 hr.2.1.2]
      show (I32.div (I32.mul v.z s) s).bind _ = _
      rw [I32.mul_div_cancel v.z s hs hr.2.2.1 hr.2.2.2]
      rfl
    refine ⟨h, ?_⟩
    rw [h]
    simp [Vector3.eq, Scalar.eq, I32.eq]
  · have h : (v.muls s).divs s = some v := by
      show (I32.div (I32.mul v.x s) s).bind _ = _
      rw [I32.mul_div_cancel v.x s hs hr.1.1 hr.1.2]
      show (I32.div (I32.mul v.y s) s).bind _ = _
      rw [I32.mul_div_cancel v.y s hs hr.2.1.1 hr.2.1.2]
      show (I32.div (I32.mul v.z s) s).bind _ = _
      rw [I32.mul_div_cancel v.z s hs hr.2.2.1.1 hr.2.2.1.2]
      show (I32.div (I32.mul v.w s) s).bind _ = _
      rw [I32.mul_div_cancel v.w s hs hr.2.2.2.1 hr.2.2.2.2]
      rfl
    refine ⟨h, ?_⟩
    rw [h]
    simp [Vector4.eq, Scalar.eq, I32.eq]

/-! ## The norm squared and the dot product -/

/-- The `double` of a natural number below `2^53`. -/
theorem Fp.ofInt_natCast (n : Nat) (h : n < 2 ^ 53) :
    Fp.ofInt binary64 (n : Int) = Fp.fin false (n * binary64.unit) := by
  have e := Fp.ofInt_exact binary64 (by decide) (by decide) (n : Int)
    (by rw [Int.natAbs_ofNat]; exact h)
  rw [e, Int.natAbs_ofNat]
  have : decide ((n : Int) < 0) = false := by
    apply decide_eq_false
    omega
  rw [this]

/-- C32: for `N = 2, 3, 4` and every `int` vector `v` whose sum of squares is
at most `2^31 - 1` (so that `v.dot(v)` does not overflow: every product and
partial sum is between `0` and that sum), `v.dot(v)` is the sum of squares
and `v.norm_squared()` is `v.dot(v)` converted to `double`. For `(3,4)` both
are `25`; for `(65536,0)`, where the product overflows, `norm_squared()` is
`2^32` and the wrapped `v.dot(v)` is `0`. -/
theorem norm_squared_eq_dot :
    (∀ v : Vector2 I32,
      v.x.val * v.x.val + v.y.val * v.y.val ≤ 2147483647 →
      v.norm_squared = Scalar.toDouble (v.dot v) ∧
        (v.dot v).val = v.x.val * v.x.val + v.y.val * v.y.val) ∧
    (∀ v : Vector3 I32,
      v.x.val * v.x.val + v.y.val * v.y.val + v.z.val * v.z.val ≤ 2147483647 →
      v.norm_squared = Scalar.toDouble (v.dot v) ∧
        (v.dot v).val = v.x.val * v.x.val + v.y.val * v.y.val + v.z.val * v.z.val) ∧
    (∀ v : Vector4 I32,
      v.x.val * v.x.val + v.y.val * v.y.val + v.z.val * v.z.val + v.w.val * v.w.val ≤ 2147483647 →
      v.norm_squared = Scalar.toDouble (v.dot v) ∧
        (v.dot v).val = v.x.val * v.x.val + v.y.val * v.y.val + v.z.val * v.z.val + v.w.val * v.w.val) ∧
    (Vector2.norm_squared (⟨I32.wrap 3, I32.wrap 4⟩ : Vector2 I32) = Fp.fin false (25 * binary64.unit) ∧
      Scalar.toDouble (Vector2.dot (⟨I32.wrap 3, I32.wrap 4⟩ : Vector2 I32) ⟨I32.wrap 3, I32.wrap 4⟩) =
        (Fp.fin false (25 * binary64.unit) : F64) ∧
      Vector2.norm_squared (⟨I32.wrap 65536, I32.wrap 0⟩ : Vector2 I32) =
        Fp.fin false (4294967296 * binary64.unit) ∧
      Scalar.toDouble (Vector2.dot (⟨I32.wrap 65536, I32.wrap 0⟩ : Vector2 I32) ⟨I32.wrap 65536, I32.wrap 0⟩) =
        (Fp.fin false 0 : F64)) := by
  have hF : binary64.prec ≤ binary64.emax + 1 := by decide
  have hE : 1 ≤ binary64.emax := by decide
  have hsq : ∀ a : Int, a * a = ((a.natAbs * a.natAbs : Nat) : Int) := by
    intro a
    rw [Int.natAbs_mul_self]
  refine ⟨fun v h => ?_, fun v h => ?_, fun v h => ?_, by decide!⟩
  · have hd : v.dot v = I32.wrap (v.x.val * v.x.val + v.y.val * v.y.val) := by
      apply I32.eq_of_cast
      simp only [Vector2.dot, Scalar.add, Scalar.sub, Scalar.mul, I32.add, I32.sub, I32.mul,
      I32.wrap_val_cast, Int.cast_add, Int.cast_sub, Int.cast_mul]
    have hn : ((v.x.val.natAbs * v.x.val.natAbs + v.y.val.natAbs * v.y.val.natAbs : Nat) : Int) =
        v.x.val * v.x.val + v.y.val * v.y.val := by
      rw [hsq v.x.val, hsq v.y.val]
      simp only [Nat.cast_add]
    have hb : v.x.val.natAbs * v.x.val.natAbs + v.y.val.natAbs * v.y.val.natAbs ≤ 2147483647 := by
      have : ((v.x.val.natAbs * v.x.val.natAbs + v.y.val.natAbs * v.y.val.natAbs : Nat) : Int) ≤
          2147483647 := by
        rw [hn]
        exact h
      exact_mod_cast this
    have hval : (v.dot v).val = v.x.val * v.x.val + v.y.val * v.y.val := by
      rw [hd]
      apply I32.wrap_of_range _ h
      rw [← hn]
      omega
    refine ⟨?_, hval⟩
    show _ = Fp.ofInt binary64 (v.dot v).val
    rw [hval, ← hn, Fp.ofInt_natCast _ (by omega)]
    unfold Vector2.norm_squared
    rw [I32.toDouble_sq v.x (by omega), I32.toDouble_sq v.y (by omega), Fp.add_exact binary64 hF hE (v.x.val.natAbs * v.x.val.natAbs)
        (v.y.val.natAbs * v.y.val.natAbs) (by show _ < 2 ^ 53; omega)]
  · have hd : v.dot v = I32.wrap (v.x.val * v.x.val + v.y.val * v.y.val + v.z.val * v.z.val) := by
      apply I32.eq_of_cast
      simp only [Vector3.dot, Scalar.add, Scalar.sub, Scalar.mul, I32.add, I32.sub, I32.mul,
      I32.wrap_val_cast, Int.cast_add, Int.cast_sub, Int.cast_mul]
    have hn : ((v.x.val.natAbs * v.x.val.natAbs + v.y.val.natAbs * v.y.val.natAbs + v.z.val.natAbs * v.z.val.natAbs : Nat) : Int) =
        v.x.val * v.x.val + v.y.val * v.y.val + v.z.val * v.z.val := by
      rw [hsq v.x.val, hsq v.y.val, hsq v.z.val]
      simp only [Nat.cast_add]
    have hb : v.x.val.natAbs * v.x.val.natAbs + v.y.val.natAbs * v.y.val.natAbs + v.z.val.natAbs * v.z.val.natAbs ≤ 2147483647 := by
      have : ((v.x.val.natAbs * v.x.val.natAbs + v.y.val.natAbs * v.y.val.natAbs + v.z.val.natAbs * v.z.val.natAbs : Nat) : Int) ≤
          2147483647 := by
        rw [hn]
        exact h
      exact_mod_cast this
    have hval : (v.dot v).val = v.x.val * v.x.val + v.y.val * v.y.val + v.z.val * v.z.val := by
      rw [hd]
      apply I32.wrap_of_range _ h
      rw [← hn]
      omega
    refine ⟨?_, hval⟩
    show _ = Fp.ofInt binary64 (v.dot v).val
    rw [hval, ← hn, Fp.ofInt_natCast _ (by omega)]
    unfold Vector3.norm_squared
    rw [I32.toDouble_sq v.x (by omega), I32.toDouble_sq v.y (by omega), I32.toDouble_sq v.z (by omega), Fp.add_exact binary64 hF hE (v.x.val.natAbs * v.x.val.natAbs)
        (v.y.val.natAbs * v.y.val.natAbs) (by show _ < 2 ^ 53; omega), Fp.add_exact binary64 hF hE (v.x.val.natAbs * v.x.val.natAbs + v.y.val.natAbs * v.y.val.natAbs)
        (v.z.val.natAbs * v.z.val.natAbs) (by show _ < 2 ^ 53; omega)]
  · have hd : v.dot v = I32.wrap (v.x.val * v.x.val + v.y.val * v.y.val + v.z.val * v.z.val + v.w.val * v.w.val) := by
      apply I32.eq_of_cast
      simp only [Vector4.dot, Scalar.add, Scalar.sub, Scalar.mul, I32.add, I32.sub, I32.mul,
      I32.wrap_val_cast, Int.cast_add, Int.cast_sub, Int.cast_mul]
    have hn : ((v.x.val.natAbs * v.x.val.natAbs + v.y.val.natAbs * v.y.val.natAbs + v.z.val.natAbs * v.z.val.natAbs + v.w.val.natAbs * v.w.val.natAbs : Nat) : Int) =
        v.x.val * v.x.val + v.y.val * v.y.val + v.z.val * v.z.val + v.w.val * v.w.val := by
      rw [hsq v.x.val, hsq v.y.val, hsq v.z.val, hsq v.w.val]
      simp only [Nat.cast_add]
    have hb : v.x.val.natAbs * v.x.val.natAbs + v.y.val.natAbs * v.y.val.natAbs + v.z.val.natAbs * v.z.val.natAbs + v.w.val.natAbs * v.w.val.natAbs ≤ 2147483647 := by
      have : ((v.x.val.natAbs * v.x.val.natAbs + v.y.val.natAbs * v.y.val.natAbs + v.z.val.natAbs * v.z.val.natAbs + v.w.val.natAbs * v.w.val.natAbs : Nat) : Int) ≤
          2147483647 := by
        rw [hn]
        exact h
      exact_mod_cast this
    have hval : (v.dot v).val = v.x.val * v.x.val + v.y.val * v.y.val + v.z.val * v.z.val + v.w.val * v.w.val := by
      rw [hd]
      apply I32.wrap_of_range _ h
      rw [← hn]
      omega
    refine ⟨?_, hval⟩
    show _ = Fp.ofInt binary64 (v.dot v).val
    rw [hval, ← hn, Fp.ofInt_natCast _ (by omega)]
    unfold Vector4.norm_squared
    rw [I32.toDouble_sq v.x (by omega), I32.toDouble_sq v.y (by omega), I32.toDouble_sq v.z (by omega), I32.toDouble_sq v.w (by omega), Fp.add_exact binary64 hF hE (v.x.val.natAbs * v.x.val.natAbs)
        (v.y.val.natAbs * v.y.val.natAbs) (by show _ < 2 ^ 53; omega), Fp.add_exact binary64 hF hE (v.x.val.natAbs * v.x.val.natAbs + v.y.val.natAbs * v.y.val.natAbs)
        (v.z.val.natAbs * v.z.val.natAbs) (by show _ < 2 ^ 53; omega), Fp.add_exact binary64 hF hE (v.x.val.natAbs * v.x.val.natAbs + v.y.val.natAbs * v.y.val.natAbs + v.z.val.natAbs * v.z.val.natAbs)
        (v.w.val.natAbs * v.w.val.natAbs) (by show _ < 2 ^ 53; omega)]

/-! ## Relative error of rounding -/

/-- A quotient between `2^a` and `2^b` in the normal range rounds to a finite
magnitude between the same powers of two, with a relative error of at most
`2^-prec`. -/
theorem Fp.round_rel (F : Fmt) (hp : 1 ≤ F.prec) (hE : 1 ≤ F.emax) (neg : Bool) (num den a b : Nat)
    (hd : 0 < den) (ha : F.prec - 1 ≤ a) (hlo : 2 ^ a * den ≤ num) (hhi : num ≤ 2 ^ b * den)
    (hb : b ≤ 2 * F.emax + F.prec - 2) :
    ∃ m, Fp.round F neg num den = Fp.fin neg m ∧ 2 ^ a ≤ m ∧ m ≤ 2 ^ b ∧
      2 ^ F.prec * (m * den) ≤ (2 ^ F.prec + 1) * num ∧
      (2 ^ F.prec - 1) * num ≤ 2 ^ F.prec * (m * den) := by
  have hhuge : 2 ^ b < F.huge := by
    unfold Fmt.huge
    exact Nat.pow_lt_pow_right (by norm_num) (by omega : b < 2 * F.emax + F.prec - 1)
  obtain ⟨m, hm, h1, h2⟩ := Fp.round_bounds F hp neg num den a b hd hlo hhi hhuge
  refine ⟨m, hm, h1, h2, ?_⟩
  obtain ⟨s, hsdef⟩ : ∃ s, s = bitlen (num / den) - F.prec := ⟨_, rfl⟩
  obtain ⟨K, hKdef⟩ : ∃ K, K = rne num (den * 2 ^ s) := ⟨_, rfl⟩
  have hmK : m = K * 2 ^ s := by
    unfold Fp.round at hm
    simp only at hm
    rw [← hsdef, ← hKdef] at hm
    by_cases hh : F.huge ≤ K * 2 ^ s
    · rw [if_pos hh] at hm
      exact Fp.noConfusion hm
    · rw [if_neg hh] at hm
      injection hm with _ h
      exact h.symm
  have hds : 0 < den * 2 ^ s := by positivity
  obtain ⟨e1, e2⟩ := rne_err num hds
  rw [← hKdef] at e1 e2
  obtain ⟨P, hPdef⟩ : ∃ P, P = 2 ^ (F.prec - 1) := ⟨_, rfl⟩
  have hP2 : 2 ^ F.prec = 2 * P := by
    rw [hPdef, ← pow_succ']
    congr 1
    omega
  have hq1 : 2 ^ a ≤ num / den := (Nat.le_div_iff_mul_le hd).2 hlo
  have hq0 : num / den ≠ 0 := by
    have : 0 < 2 ^ a := by positivity
    omega
  -- the rounding step is at most `2^-(prec-1)` of the quotient
  have hstep : P * (den * 2 ^ s) ≤ num := by
    have hsP : 2 ^ s * P ≤ num / den := by
      by_cases hs0 : s = 0
      · rw [hs0, pow_zero, one_mul, hPdef]
        exact le_trans (Nat.pow_le_pow_right (by norm_num) ha) hq1
      · have hlow := two_pow_bitlen_le hq0
        have : s + (F.prec - 1) = bitlen (num / den) - 1 := by omega
        rw [hPdef, ← pow_add, this]
        exact hlow
    calc P * (den * 2 ^ s) = 2 ^ s * P * den := by ring
      _ ≤ num / den * den := Nat.mul_le_mul_right _ hsP
      _ ≤ num := Nat.div_mul_le_self _ _
  have hmd : m * den = K * (den * 2 ^ s) := by rw [hmK]; ring
  rw [hmd, hP2]
  obtain ⟨E, hEdef⟩ : ∃ E, E = den * 2 ^ s := ⟨_, rfl⟩
  rw [← hEdef] at e1 e2 hstep ⊢
  obtain ⟨W, hWdef⟩ : ∃ W, W = K * E := ⟨_, rfl⟩
  rw [← hWdef] at e1 e2 ⊢
  have hP1 : 1 ≤ P := by rw [hPdef]; exact Nat.one_le_two_pow
  have t1 : P * (2 * num + E) = 2 * (P * num) + P * E := by ring
  have t2 : P * (2 * W) = 2 * (P * W) := by ring
  have t3 : P * (2 * W + E) = 2 * (P * W) + P * E := by ring
  have t4 : P * (2 * num) = 2 * (P * num) := by ring
  have t5 : 2 * P * W = 2 * (P * W) := by ring
  constructor
  · have h3 := Nat.mul_le_mul_left P e1
    have t6 : (2 * P + 1) * num = 2 * (P * num) + num := by ring
    rw [t1, t2] at h3
    rw [t5, t6]
    omega
  · have h3 := Nat.mul_le_mul_left P e2
    have t6 : (2 * P - 1) * num = 2 * (P * num) - num := by
      rw [Nat.sub_mul, one_mul, Nat.mul_assoc]
    rw [t4, t3] at h3
    rw [t5, t6]
    omega

/-- The relative error of rounding, as inequalities between rational numbers. -/
theorem Fp.round_relQ (F : Fmt) (hp : 1 ≤ F.prec) (hE : 1 ≤ F.emax) (neg : Bool)
    (num den a b : Nat) (hd : 0 < den) (ha : F.prec - 1 ≤ a) (hlo : 2 ^ a * den ≤ num)
    (hhi : num ≤ 2 ^ b * den) (hb : b ≤ 2 * F.emax + F.prec - 2) :
    ∃ m, Fp.round F neg num den = Fp.fin neg m ∧ 2 ^ a ≤ m ∧ m ≤ 2 ^ b ∧
      (1 - 1 / 2 ^ F.prec : ℚ) * num ≤ m * den ∧
      (m * den : ℚ) ≤ (1 + 1 / 2 ^ F.prec) * num := by
  obtain ⟨m, hm, h1, h2, h3, h4⟩ := Fp.round_rel F hp hE neg num den a b hd ha hlo hhi hb
  refine ⟨m, hm, h1, h2, ?_, ?_⟩
  · have h5 : (2 ^ F.prec - 1 : ℚ) * num ≤ 2 ^ F.prec * (m * den) := by
      have : (((2 ^ F.prec - 1) * num : ℕ) : ℚ) ≤ ((2 ^ F.prec * (m * den) : ℕ) : ℚ) :=
        Nat.cast_le.2 h4
      push_cast [Nat.cast_sub (Nat.one_le_two_pow : 1 ≤ 2 ^ F.prec)] at this
      exact this
    have ht : (0 : ℚ) < 2 ^ F.prec := by positivity
    have e : (2 : ℚ) ^ F.prec * ((1 - 1 / 2 ^ F.prec) * num) = (2 ^ F.prec - 1) * num := by
      field_simp
    exact le_of_mul_le_mul_left (by rw [e]; exact h5) ht
  · have h5 : (2 ^ F.prec : ℚ) * (m * den) ≤ (2 ^ F.prec + 1) * num := by
      have : ((2 ^ F.prec * (m * den) : ℕ) : ℚ) ≤ (((2 ^ F.prec + 1) * num : ℕ) : ℚ) :=
        Nat.cast_le.2 h3
      push_cast at this
      exact this
    have ht : (0 : ℚ) < 2 ^ F.prec := by positivity
    have e : (2 : ℚ) ^ F.prec * ((1 + 1 / 2 ^ F.prec) * num) = (2 ^ F.prec + 1) * num := by
      field_simp
    exact le_of_mul_le_mul_left (by rw [e]; exact h5) ht

/-- Rounding zero gives a zero of the same sign. -/
theorem Fp.round_zero (F : Fmt) (neg : Bool) (den : Nat) :
    Fp.round F neg 0 den = Fp.fin neg 0 := by
  have hh : 0 < F.huge := by unfold Fmt.huge; positivity
  have hb : bitlen 0 = 0 := by simp [bitlen, bitlenAux]
  unfold Fp.round
  simp only [Nat.zero_div, hb, Nat.zero_sub, pow_zero, mul_one]
  have hr : rne 0 den = 0 := by
    unfold rne
    simp
  rw [hr, if_neg (by omega)]

/-- The magnitude of the `double` one is `2^1074` units. -/
theorem Fmt.unit64 : binary64.unit = 2 ^ 1074 := by
  unfold Fmt.unit
  have e1 : binary64.scale = 1074 := rfl
  rw [e1]

/-- The magnitude of the `float` one is `2^149` units. -/
theorem Fmt.unit32 : binary32.unit = 2 ^ 149 := by
  unfold Fmt.unit
  have e1 : binary32.scale = 149 := rfl
  rw [e1]

/-- The square of a `double` that is a zero or has a magnitude between `2^lo`
and `2^hi` units, in the range where the square neither underflows nor
overflows: the product is finite and within `2^-53` of the exact square. -/
theorem Fp.sq_rel (s : Bool) (a lo hi : Nat) (hlo : 563 ≤ lo) (hhi : hi ≤ 1585)
    (ha : a = 0 ∨ (2 ^ lo ≤ a ∧ a ≤ 2 ^ hi)) :
    ∃ p, Fp.mul (Fp.fin s a : F64) (Fp.fin s a) = Fp.fin false p ∧
      (p = 0 ∨ (2 ^ (2 * lo - 1074) ≤ p ∧ p ≤ 2 ^ (2 * hi - 1074))) ∧ (a ≠ 0 → p ≠ 0) ∧
      (1 - 1 / 2 ^ 53 : ℚ) * (a * a) ≤ p * binary64.unit ∧
      (p * binary64.unit : ℚ) ≤ (1 + 1 / 2 ^ 53) * (a * a) := by
  have hU := Fmt.unit64
  simp only [Fp.mul, Bool.xor_self]
  rcases ha with ha | ⟨h1, h2⟩
  · refine ⟨0, ?_, Or.inl rfl, fun h => absurd ha h, ?_, ?_⟩
    · rw [ha]
      exact Fp.round_zero binary64 false _
    · rw [ha]; simp
    · rw [ha]; simp
  · have hlo2 : 2 ^ (2 * lo - 1074) * binary64.unit ≤ a * a := by
      have e : 2 * lo - 1074 + 1074 = lo + lo := by omega
      rw [hU, ← pow_add, e, pow_add]
      exact Nat.mul_le_mul h1 h1
    have hlh : lo ≤ hi := (Nat.pow_le_pow_iff_right (by norm_num)).1 (le_trans h1 h2)
    have hhi2 : a * a ≤ 2 ^ (2 * hi - 1074) * binary64.unit := by
      have e : 2 * hi - 1074 + 1074 = hi + hi := by omega
      rw [hU, ← pow_add, e, pow_add]
      exact Nat.mul_le_mul h2 h2
    have hUpos : 0 < binary64.unit := by rw [hU]; positivity
    have e53 : binary64.prec = 53 := rfl
    have e1023 : binary64.emax = 1023 := rfl
    obtain ⟨p, hp, b1, b2, r1, r2⟩ := Fp.round_relQ binary64 (by decide) (by decide) false
      (a * a) binary64.unit (2 * lo - 1074) (2 * hi - 1074) hUpos (by rw [e53]; omega) hlo2 hhi2
      (by rw [e53, e1023]; omega)
    rw [e53] at r1 r2
    push_cast at r1 r2
    refine ⟨p, hp, Or.inr ⟨b1, b2⟩, fun _ => ?_, r1, r2⟩
    have : 0 < 2 ^ (2 * lo - 1074) := by positivity
    omega

/-- The sum of two non-negative `double`s that are zeros or have magnitudes
between `2^lo` and `2^hi` units, in the normal range: the sum is finite and
within `2^-53` of the exact sum. -/
theorem Fp.add_rel (c d lo hi : Nat) (hlo : 52 ≤ lo) (hhi : hi ≤ 2096)
    (hc : c = 0 ∨ (2 ^ lo ≤ c ∧ c ≤ 2 ^ hi)) (hd : d = 0 ∨ (2 ^ lo ≤ d ∧ d ≤ 2 ^ hi)) :
    ∃ m, Fp.add (Fp.fin false c : F64) (Fp.fin false d) = Fp.fin false m ∧
      (m = 0 ∨ (2 ^ lo ≤ m ∧ m ≤ 2 ^ (hi + 1))) ∧ (c ≠ 0 ∨ d ≠ 0 → m ≠ 0) ∧
      (1 - 1 / 2 ^ 53 : ℚ) * (c + d) ≤ m ∧ (m : ℚ) ≤ (1 + 1 / 2 ^ 53) * (c + d) := by
  have hcd : Fp.sval false c + Fp.sval false d = ((c + d : Nat) : Int) := by
    simp only [Fp.sval]
    push_cast
    rfl
  unfold Fp.add
  simp only [hcd]
  by_cases h0 : ((c + d : Nat) : Int) = 0
  · rw [if_pos h0]
    have h00 : c + d = 0 := by exact_mod_cast h0
    have hc0 : c = 0 := by omega
    have hd0 : d = 0 := by omega
    refine ⟨0, rfl, Or.inl rfl, fun h => ?_, ?_, ?_⟩
    · omega
    · rw [hc0, hd0]; simp
    · rw [hc0, hd0]; simp
  · rw [if_neg h0]
    have hneg : decide (((c + d : Nat) : Int) < 0) = false := by
      apply decide_eq_false
      omega
    rw [hneg, Int.natAbs_ofNat]
    have hpos : 0 < 2 ^ lo := by positivity
    have hge : 2 ^ lo * 1 ≤ c + d := by
      have hne : c + d ≠ 0 := fun h => h0 (by exact_mod_cast h)
      rcases hc with hc | hc <;> rcases hd with hd | hd <;> omega
    have hle : c + d ≤ 2 ^ (hi + 1) * 1 := by
      have h2 : 0 < 2 ^ hi := by positivity
      rw [pow_succ]
      rcases hc with hc | hc <;> rcases hd with hd | hd <;> omega
    have e53 : binary64.prec = 53 := rfl
    have e1023 : binary64.emax = 1023 := rfl
    obtain ⟨m, hm, b1, b2, r1, r2⟩ := Fp.round_relQ binary64 (by decide) (by decide) false
      (c + d) 1 lo (hi + 1) Nat.one_pos (by rw [e53]; omega) hge hle
      (by rw [e53, e1023]; omega)
    rw [e53] at r1 r2
    push_cast at r1 r2
    rw [mul_one] at r1 r2
    exact ⟨m, hm, Or.inr ⟨b1, b2⟩, fun _ => by omega, r1, r2⟩

/-- A power of two up to `2^2097` is a finite `double` magnitude. -/
theorem Fmt.two_pow_le_max64 (b : Nat) (hb : b ≤ 2097) : 2 ^ b ≤ binary64.maxFinite := by
  have hmdef : binary64.maxFinite = (2 ^ 53 - 1) * 2 ^ 2045 := by
    unfold Fmt.maxFinite
    have e1 : binary64.prec = 53 := rfl
    have e2 : 2 * binary64.emax - 1 = 2045 := rfl
    rw [e1, e2]
  rw [hmdef]
  calc 2 ^ b ≤ 2 ^ 2097 := Nat.pow_le_pow_right (by norm_num) hb
    _ = 2 ^ 52 * 2 ^ 2045 := by rw [← pow_add]
    _ ≤ (2 ^ 53 - 1) * 2 ^ 2045 := Nat.mul_le_mul_right _ (by norm_num)

/-- The square root of a positive finite `double`: the square of the rounded
root is within `2^-52 + 2^-106` of the number. -/
theorem Fp.sqrt_rel (S hi : Nat) (hS1 : 1 ≤ S) (hS2 : S ≤ 2 ^ hi) (hhi : hi ≤ 2097) :
    ∃ n, Fp.sqrt (Fp.fin false S : F64) = Fp.fin false n ∧
      (1 - (1 / 2 ^ 52 + 1 / 2 ^ 106) : ℚ) * (n * n) ≤ S * binary64.unit ∧
      (S * binary64.unit : ℚ) ≤ (1 + (1 / 2 ^ 52 + 1 / 2 ^ 106)) * (n * n) := by
  obtain ⟨n, hn⟩ : ∃ n, n = Fp.sqrtMag binary64 (S * binary64.unit) := ⟨_, rfl⟩
  obtain ⟨X, Y, hX, hY, hc, _⟩ := Fp.sqrtMag_near S (S * binary64.unit) (n * n) hS1
    (le_trans hS2 (Fmt.two_pow_le_max64 hi hhi)) rfl (by rw [hn])
  refine ⟨n, ?_, ?_, ?_⟩
  · simp only [Fp.sqrt, Bool.false_eq_true, if_false]
    rw [hn]
  all_goals
    have hXq : (X : ℚ) * 2 ^ 52 ≤ n * n := by exact_mod_cast hX
    have hYq : (Y : ℚ) * 2 ^ 104 ≤ n * n := by exact_mod_cast hY
    have hX0 : (0 : ℚ) ≤ X := Nat.cast_nonneg _
    have hY0 : (0 : ℚ) ≤ Y := Nat.cast_nonneg _
    have hR0 : (0 : ℚ) ≤ n * n := by positivity
    rcases hc with ⟨c1, c2⟩ | ⟨c1, c2⟩
    · have c1q : (n * n : ℚ) ≤ S * binary64.unit := by exact_mod_cast c1
      have c2q : (4 : ℚ) * (S * binary64.unit) ≤ 4 * (n * n) + 4 * X + Y := by
        exact_mod_cast c2
      norm_num at hXq hYq ⊢
      linarith
    · have c1q : (S * binary64.unit : ℚ) ≤ n * n := by exact_mod_cast c1
      have c2q : (4 : ℚ) * (n * n) + Y ≤ 4 * (S * binary64.unit) + 4 * X := by
        exact_mod_cast c2
      norm_num at hXq hYq ⊢
      linarith

/-! ## Accumulation of relative errors -/

/-- One more rounded addition: when `X` is within `k` roundings of `B`, `Y`
within one rounding of `C`, and `Z` within one rounding of `X + Y`, then `Z` is
within `k + 1` roundings of `B + C`. -/
theorem rel_step (u X Y Z B C : ℚ) (k : ℕ) (hu0 : 0 ≤ u) (hu1 : u ≤ 1) (hk : 1 ≤ k)
    (hC : 0 ≤ C)
    (hX : (1 - u) ^ k * B ≤ X ∧ X ≤ (1 + u) ^ k * B)
    (hY : (1 - u) * C ≤ Y ∧ Y ≤ (1 + u) * C)
    (hZ : (1 - u) * (X + Y) ≤ Z ∧ Z ≤ (1 + u) * (X + Y)) :
    (1 - u) ^ (k + 1) * (B + C) ≤ Z ∧ Z ≤ (1 + u) ^ (k + 1) * (B + C) := by
  have h1 : (0 : ℚ) ≤ 1 - u := by linarith
  have h2 : (1 : ℚ) ≤ 1 + u := by linarith
  have h3 : (1 - u) ^ k ≤ 1 - u := by
    have := pow_le_pow_of_le_one h1 (by linarith : 1 - u ≤ 1) hk
    rwa [pow_one] at this
  have h4 : 1 + u ≤ (1 + u) ^ k := by
    have := pow_le_pow_right₀ h2 hk
    rwa [pow_one] at this
  constructor
  · calc (1 - u) ^ (k + 1) * (B + C) = (1 - u) * ((1 - u) ^ k * B + (1 - u) ^ k * C) := by ring
      _ ≤ (1 - u) * (X + Y) := by
        apply mul_le_mul_of_nonneg_left _ h1
        have := mul_le_mul_of_nonneg_right h3 hC
        linarith [hX.1, hY.1]
      _ ≤ Z := hZ.1
  · calc Z ≤ (1 + u) * (X + Y) := hZ.2
      _ ≤ (1 + u) * ((1 + u) ^ k * B + (1 + u) ^ k * C) := by
        apply mul_le_mul_of_nonneg_left _ (by linarith)
        have := mul_le_mul_of_nonneg_right h4 hC
        linarith [hX.2, hY.2]
      _ = (1 + u) ^ (k + 1) * (B + C) := by ring

/-- Fewer roundings are within more roundings. -/
theorem rel_weaken (u X B : ℚ) (k l : ℕ) (hu0 : 0 ≤ u) (hu1 : u ≤ 1) (hkl : k ≤ l) (hB : 0 ≤ B)
    (hX : (1 - u) ^ k * B ≤ X ∧ X ≤ (1 + u) ^ k * B) :
    (1 - u) ^ l * B ≤ X ∧ X ≤ (1 + u) ^ l * B := by
  have h1 : (0 : ℚ) ≤ 1 - u := by linarith
  have h2 : (1 : ℚ) ≤ 1 + u := by linarith
  have h3 : (1 - u) ^ l ≤ (1 - u) ^ k := pow_le_pow_of_le_one h1 (by linarith) hkl
  have h4 : (1 + u) ^ k ≤ (1 + u) ^ l := pow_le_pow_right₀ h2 hkl
  exact ⟨le_trans (mul_le_mul_of_nonneg_right h3 hB) hX.1,
    le_trans hX.2 (mul_le_mul_of_nonneg_right h4 hB)⟩

/-- Bounds on a rounded root from bounds on the sum of squares: when the sum
`A` is between `L^2` and `4 * H^2`, the root is between `L / 2` and `4 * H`. -/
theorem root_bounds (n A L H : ℚ) (hn : 0 ≤ n) (hL : 0 ≤ L) (hH : 0 ≤ H)
    (hA1 : L * L ≤ A) (hA2 : A ≤ 4 * (H * H))
    (h1 : (1 - (1 / 2 ^ 52 + 1 / 2 ^ 106)) * (n * n) ≤ (1 + 1 / 2 ^ 53) ^ 4 * A)
    (h2 : (1 - 1 / 2 ^ 53) ^ 4 * A ≤ (1 + (1 / 2 ^ 52 + 1 / 2 ^ 106)) * (n * n)) :
    L ≤ 2 * n ∧ n ≤ 4 * H := by
  constructor
  · have h3 : L * L ≤ (2 * n) * (2 * n) := by
      have c : (1 + (1 / 2 ^ 52 + 1 / 2 ^ 106) : ℚ) ≤ 4 * (1 - 1 / 2 ^ 53) ^ 4 := by norm_num
      have h4 : (1 - 1 / 2 ^ 53 : ℚ) ^ 4 * (L * L) ≤ (1 - 1 / 2 ^ 53) ^ 4 * A :=
        mul_le_mul_of_nonneg_left hA1 (by norm_num)
      have h5 : (1 + (1 / 2 ^ 52 + 1 / 2 ^ 106) : ℚ) * (n * n) ≤
          4 * (1 - 1 / 2 ^ 53) ^ 4 * (n * n) :=
        mul_le_mul_of_nonneg_right c (by positivity)
      have h6 : (1 - 1 / 2 ^ 53 : ℚ) ^ 4 * (L * L) ≤ (1 - 1 / 2 ^ 53) ^ 4 * ((2 * n) * (2 * n)) := by
        calc (1 - 1 / 2 ^ 53 : ℚ) ^ 4 * (L * L) ≤ (1 + (1 / 2 ^ 52 + 1 / 2 ^ 106)) * (n * n) :=
            le_trans h4 h2
          _ ≤ 4 * (1 - 1 / 2 ^ 53) ^ 4 * (n * n) := h5
          _ = (1 - 1 / 2 ^ 53) ^ 4 * ((2 * n) * (2 * n)) := by ring
      exact le_of_mul_le_mul_left h6 (by norm_num)
    exact (mul_self_le_mul_self_iff hL (by positivity)).2 h3
  · have h3 : n * n ≤ (4 * H) * (4 * H) := by
      have c : (4 * (1 + 1 / 2 ^ 53) ^ 4 : ℚ) ≤ 16 * (1 - (1 / 2 ^ 52 + 1 / 2 ^ 106)) := by
        norm_num
      have h4 : (1 + 1 / 2 ^ 53 : ℚ) ^ 4 * A ≤ (1 + 1 / 2 ^ 53) ^ 4 * (4 * (H * H)) :=
        mul_le_mul_of_nonneg_left hA2 (by norm_num)
      have h5 : (4 * (1 + 1 / 2 ^ 53) ^ 4 : ℚ) * (H * H) ≤
          16 * (1 - (1 / 2 ^ 52 + 1 / 2 ^ 106)) * (H * H) :=
        mul_le_mul_of_nonneg_right c (by positivity)
      have h6 : (1 - (1 / 2 ^ 52 + 1 / 2 ^ 106) : ℚ) * (n * n) ≤
          (1 - (1 / 2 ^ 52 + 1 / 2 ^ 106)) * ((4 * H) * (4 * H)) := by
        calc (1 - (1 / 2 ^ 52 + 1 / 2 ^ 106) : ℚ) * (n * n) ≤ (1 + 1 / 2 ^ 53) ^ 4 * A := h1
          _ ≤ (1 + 1 / 2 ^ 53) ^ 4 * (4 * (H * H)) := h4
          _ = 4 * (1 + 1 / 2 ^ 53) ^ 4 * (H * H) := by ring
          _ ≤ 16 * (1 - (1 / 2 ^ 52 + 1 / 2 ^ 106)) * (H * H) := h5
          _ = (1 - (1 / 2 ^ 52 + 1 / 2 ^ 106)) * ((4 * H) * (4 * H)) := by ring
      exact le_of_mul_le_mul_left h6 (by norm_num)
    exact (mul_self_le_mul_self_iff hn (by positivity)).2 h3

/-- A rounded sum, scaled by the unit. -/
theorem scale_rel (u c d m U : ℚ) (hU : 0 ≤ U)
    (h1 : (1 - u) * (c + d) ≤ m) (h2 : m ≤ (1 + u) * (c + d)) :
    (1 - u) * (c * U + d * U) ≤ m * U ∧ m * U ≤ (1 + u) * (c * U + d * U) := by
  have e1 : (1 - u) * (c * U + d * U) = (1 - u) * (c + d) * U := by ring
  have e2 : (1 + u) * (c * U + d * U) = (1 + u) * (c + d) * U := by ring
  rw [e1, e2]
  exact ⟨mul_le_mul_of_nonneg_right h1 hU, mul_le_mul_of_nonneg_right h2 hU⟩

/-- The square of a magnitude that is zero or between `2^lo` and `2^hi`. -/
theorem band_cast (a lo hi : Nat) (h : a = 0 ∨ (2 ^ lo ≤ a ∧ a ≤ 2 ^ hi)) :
    (a * a : ℚ) ≤ 2 ^ hi * 2 ^ hi ∧ (a ≠ 0 → (2 ^ lo * 2 ^ lo : ℚ) ≤ a * a) := by
  rcases h with h | ⟨h1, h2⟩
  · refine ⟨?_, fun h0 => absurd h h0⟩
    rw [h]
    simp only [Nat.cast_zero, mul_zero]
    positivity
  · have c1 : (2 ^ lo : ℚ) ≤ a := by exact_mod_cast h1
    have c2 : (a : ℚ) ≤ 2 ^ hi := by exact_mod_cast h2
    exact ⟨mul_le_mul c2 c2 (by positivity) (by positivity),
      fun _ => mul_le_mul c1 c1 (by positivity) (by positivity)⟩


/-- The norm of 2 `double`s that are zeros or have magnitudes between `2^lo`
and `2^hi` units, not all zero, in the range where no square underflows or
overflows: the root is finite, between `2^(lo-1)` and `2^(hi+2)`, and its
square is within four roundings and the error of the root of the exact sum of
squares. -/
theorem norm_rel2 (s1 s2 : Bool) (a1 a2 lo hi : Nat)
    (hlo : 563 ≤ lo) (hhi : hi ≤ 1584)
    (h1 : a1 = 0 ∨ (2 ^ lo ≤ a1 ∧ a1 ≤ 2 ^ hi)) (h2 : a2 = 0 ∨ (2 ^ lo ≤ a2 ∧ a2 ≤ 2 ^ hi))
    (hne : a1 ≠ 0 ∨ a2 ≠ 0) :
    ∃ n, Fp.sqrt (Fp.add (Fp.mul (Fp.fin s1 a1 : F64) (Fp.fin s1 a1)) (Fp.mul (Fp.fin s2 a2) (Fp.fin s2 a2))) = Fp.fin false n ∧
      2 ^ (lo - 1) ≤ n ∧ n ≤ 2 ^ (hi + 2) ∧
      (1 - (1 / 2 ^ 52 + 1 / 2 ^ 106) : ℚ) * (n * n) ≤ (1 + 1 / 2 ^ 53) ^ 4 * (a1 * a1 + a2 * a2) ∧
      (1 - 1 / 2 ^ 53 : ℚ) ^ 4 * (a1 * a1 + a2 * a2) ≤ (1 + (1 / 2 ^ 52 + 1 / 2 ^ 106)) * (n * n) := by
  obtain ⟨p1, e1, z1, nz1, l1, u1⟩ := Fp.sq_rel s1 a1 lo hi hlo (by omega) h1
  obtain ⟨p2, e2, z2, nz2, l2, u2⟩ := Fp.sq_rel s2 a2 lo hi hlo (by omega) h2
  rw [e1, e2]
  have hp2 : (2 : Nat) ^ (2 * hi - 1074) ≤ 2 ^ (2 * hi - 1074 + 1) :=
    Nat.pow_le_pow_right (by norm_num) (by omega)
  have hp3 : (2 : Nat) ^ (2 * hi - 1074) ≤ 2 ^ (2 * hi - 1074 + 1 + 1) :=
    Nat.pow_le_pow_right (by norm_num) (by omega)
  obtain ⟨t2, f2, y2, ny2, ll2, uu2⟩ := Fp.add_rel p1 p2 (2 * lo - 1074) (2 * hi - 1074)
    (by omega) (by omega) z1 z2
  rw [f2]
  have hpne : p1 ≠ 0 ∨ p2 ≠ 0 := by
    rcases hne with h | h
    · exact Or.inl (nz1 h)
    · exact Or.inr (nz2 h)
  have ht0 : t2 ≠ 0 := ny2 hpne
  have htb : 2 ^ (2 * lo - 1074) ≤ t2 ∧ t2 ≤ 2 ^ (2 * hi - 1074 + 1) := by
    rcases y2 with h | h
    · exact absurd h ht0
    · exact h
  obtain ⟨n, hn, r1, r2⟩ := Fp.sqrt_rel t2 (2 * hi - 1074 + 1)
    (le_trans Nat.one_le_two_pow htb.1) htb.2 (by omega)
  refine ⟨n, hn, ?_⟩
  have hUn : 0 < binary64.unit := by rw [Fmt.unit64]; positivity
  have hU0 : (0 : ℚ) ≤ binary64.unit := Nat.cast_nonneg _
  generalize (binary64.unit : ℚ) = U at *
  have hu0 : (0 : ℚ) ≤ 1 / 2 ^ 53 := by norm_num
  have hu1 : (1 / 2 ^ 53 : ℚ) ≤ 1 := by norm_num
  have hs1 : (0 : ℚ) ≤ a1 * a1 := mul_self_nonneg _
  have hs2 : (0 : ℚ) ≤ a2 * a2 := mul_self_nonneg _
  have hS1 : (0 : ℚ) ≤ a1 * a1 := hs1
  have hS2 : (0 : ℚ) ≤ a1 * a1 + a2 * a2 := add_nonneg hS1 hs2
  have q1 : (1 - 1 / 2 ^ 53 : ℚ) ^ 1 * (a1 * a1) ≤ p1 * U ∧
      (p1 * U : ℚ) ≤ (1 + 1 / 2 ^ 53) ^ 1 * (a1 * a1) := by
    rw [pow_one, pow_one]
    exact ⟨l1, u1⟩
  have q2 := rel_step (1 / 2 ^ 53) (p1 * U) (p2 * U)
    (t2 * U) (a1 * a1) (a2 * a2) 1 hu0 hu1 (by norm_num)
    hs2 q1 ⟨l2, u2⟩
    (scale_rel (1 / 2 ^ 53) p1 p2 t2 U hU0 ll2 uu2)
  have qq := rel_weaken (1 / 2 ^ 53) (t2 * U) (a1 * a1 + a2 * a2) (1 + 1) 4 hu0 hu1
    (by norm_num) hS2 q2
  have g1 := le_trans r1 qq.2
  have g2 := le_trans qq.1 r2
  obtain ⟨c1, d1⟩ := band_cast a1 lo hi h1
  obtain ⟨c2, d2⟩ := band_cast a2 lo hi h2
  have hA1 : (2 ^ lo * 2 ^ lo : ℚ) ≤ a1 * a1 + a2 * a2 := by
    rcases hne with h | h
    · linarith only [d1 h, hs2]
    · linarith only [d2 h, hs1]
  have hA2 : (a1 * a1 + a2 * a2 : ℚ) ≤ 4 * (2 ^ hi * 2 ^ hi) := by
    have : (0 : ℚ) ≤ 2 ^ hi * 2 ^ hi := mul_self_nonneg _
    linarith only [this, c1, c2]
  obtain ⟨b1, b2⟩ := root_bounds n (a1 * a1 + a2 * a2) (2 ^ lo) (2 ^ hi) (Nat.cast_nonneg _)
    (pow_nonneg (by norm_num) _) (pow_nonneg (by norm_num) _) hA1 hA2 g1 g2
  refine ⟨?_, ?_, g1, g2⟩
  · have b3 : 2 ^ lo ≤ 2 * n := by exact_mod_cast b1
    have e : lo = lo - 1 + 1 := by omega
    rw [e, pow_succ] at b3
    omega
  · have b3 : n ≤ 4 * 2 ^ hi := by exact_mod_cast b2
    have e : (2 : Nat) ^ (hi + 2) = 4 * 2 ^ hi := by rw [pow_add]; ring
    rw [e]
    exact b3

/-- The norm of 3 `double`s that are zeros or have magnitudes between `2^lo`
and `2^hi` units, not all zero, in the range where no square underflows or
overflows: the root is finite, between `2^(lo-1)` and `2^(hi+2)`, and its
square is within four roundings and the error of the root of the exact sum of
squares. -/
theorem norm_rel3 (s1 s2 s3 : Bool) (a1 a2 a3 lo hi : Nat)
    (hlo : 563 ≤ lo) (hhi : hi ≤ 1584)
    (h1 : a1 = 0 ∨ (2 ^ lo ≤ a1 ∧ a1 ≤ 2 ^ hi)) (h2 : a2 = 0 ∨ (2 ^ lo ≤ a2 ∧ a2 ≤ 2 ^ hi)) (h3 : a3 = 0 ∨ (2 ^ lo ≤ a3 ∧ a3 ≤ 2 ^ hi))
    (hne : a1 ≠ 0 ∨ a2 ≠ 0 ∨ a3 ≠ 0) :
    ∃ n, Fp.sqrt (Fp.add (Fp.add (Fp.mul (Fp.fin s1 a1 : F64) (Fp.fin s1 a1)) (Fp.mul (Fp.fin s2 a2) (Fp.fin s2 a2))) (Fp.mul (Fp.fin s3 a3) (Fp.fin s3 a3))) = Fp.fin false n ∧
      2 ^ (lo - 1) ≤ n ∧ n ≤ 2 ^ (hi + 2) ∧
      (1 - (1 / 2 ^ 52 + 1 / 2 ^ 106) : ℚ) * (n * n) ≤ (1 + 1 / 2 ^ 53) ^ 4 * (a1 * a1 + a2 * a2 + a3 * a3) ∧
      (1 - 1 / 2 ^ 53 : ℚ) ^ 4 * (a1 * a1 + a2 * a2 + a3 * a3) ≤ (1 + (1 / 2 ^ 52 + 1 / 2 ^ 106)) * (n * n) := by
  obtain ⟨p1, e1, z1, nz1, l1, u1⟩ := Fp.sq_rel s1 a1 lo hi hlo (by omega) h1
  obtain ⟨p2, e2, z2, nz2, l2, u2⟩ := Fp.sq_rel s2 a2 lo hi hlo (by omega) h2
  obtain ⟨p3, e3, z3, nz3, l3, u3⟩ := Fp.sq_rel s3 a3 lo hi hlo (by omega) h3
  rw [e1, e2, e3]
  have hp2 : (2 : Nat) ^ (2 * hi - 1074) ≤ 2 ^ (2 * hi - 1074 + 1) :=
    Nat.pow_le_pow_right (by norm_num) (by omega)
  have hp3 : (2 : Nat) ^ (2 * hi - 1074) ≤ 2 ^ (2 * hi - 1074 + 1 + 1) :=
    Nat.pow_le_pow_right (by norm_num) (by omega)
  obtain ⟨t2, f2, y2, ny2, ll2, uu2⟩ := Fp.add_rel p1 p2 (2 * lo - 1074) (2 * hi - 1074)
    (by omega) (by omega) z1 z2
  rw [f2]
  obtain ⟨t3, f3, y3, ny3, ll3, uu3⟩ := Fp.add_rel t2 p3 (2 * lo - 1074) (2 * hi - 1074 + 1)
    (by omega) (by omega) y2 (z3.imp_right fun h => ⟨h.1, le_trans h.2 hp2⟩)
  rw [f3]
  have hpne : p1 ≠ 0 ∨ p2 ≠ 0 ∨ p3 ≠ 0 := by
    rcases hne with h | h | h
    · exact Or.inl (nz1 h)
    · exact Or.inr (Or.inl (nz2 h))
    · exact Or.inr (Or.inr (nz3 h))
  have ht0 : t3 ≠ 0 := by
    rcases hpne with h | h | h
    · exact ny3 (Or.inl (ny2 (Or.inl h)))
    · exact ny3 (Or.inl (ny2 (Or.inr h)))
    · exact ny3 (Or.inr h)
  have htb : 2 ^ (2 * lo - 1074) ≤ t3 ∧ t3 ≤ 2 ^ (2 * hi - 1074 + 1 + 1) := by
    rcases y3 with h | h
    · exact absurd h ht0
    · exact h
  obtain ⟨n, hn, r1, r2⟩ := Fp.sqrt_rel t3 (2 * hi - 1074 + 1 + 1)
    (le_trans Nat.one_le_two_pow htb.1) htb.2 (by omega)
  refine ⟨n, hn, ?_⟩
  have hUn : 0 < binary64.unit := by rw [Fmt.unit64]; positivity
  have hU0 : (0 : ℚ) ≤ binary64.unit := Nat.cast_nonneg _
  generalize (binary64.unit : ℚ) = U at *
  have hu0 : (0 : ℚ) ≤ 1 / 2 ^ 53 := by norm_num
  have hu1 : (1 / 2 ^ 53 : ℚ) ≤ 1 := by norm_num
  have hs1 : (0 : ℚ) ≤ a1 * a1 := mul_self_nonneg _
  have hs2 : (0 : ℚ) ≤ a2 * a2 := mul_self_nonneg _
  have hs3 : (0 : ℚ) ≤ a3 * a3 := mul_self_nonneg _
  have hS1 : (0 : ℚ) ≤ a1 * a1 := hs1
  have hS2 : (0 : ℚ) ≤ a1 * a1 + a2 * a2 := add_nonneg hS1 hs2
  have hS3 : (0 : ℚ) ≤ a1 * a1 + a2 * a2 + a3 * a3 := add_nonneg hS2 hs3
  have q1 : (1 - 1 / 2 ^ 53 : ℚ) ^ 1 * (a1 * a1) ≤ p1 * U ∧
      (p1 * U : ℚ) ≤ (1 + 1 / 2 ^ 53) ^ 1 * (a1 * a1) := by
    rw [pow_one, pow_one]
    exact ⟨l1, u1⟩
  have q2 := rel_step (1 / 2 ^ 53) (p1 * U) (p2 * U)
    (t2 * U) (a1 * a1) (a2 * a2) 1 hu0 hu1 (by norm_num)
    hs2 q1 ⟨l2, u2⟩
    (scale_rel (1 / 2 ^ 53) p1 p2 t2 U hU0 ll2 uu2)
  have q3 := rel_step (1 / 2 ^ 53) (t2 * U) (p3 * U)
    (t3 * U) (a1 * a1 + a2 * a2) (a3 * a3) 2 hu0 hu1 (by norm_num)
    hs3 q2 ⟨l3, u3⟩
    (scale_rel (1 / 2 ^ 53) t2 p3 t3 U hU0 ll3 uu3)
  have qq := rel_weaken (1 / 2 ^ 53) (t3 * U) (a1 * a1 + a2 * a2 + a3 * a3) (2 + 1) 4 hu0 hu1
    (by norm_num) hS3 q3
  have g1 := le_trans r1 qq.2
  have g2 := le_trans qq.1 r2
  obtain ⟨c1, d1⟩ := band_cast a1 lo hi h1
  obtain ⟨c2, d2⟩ := band_cast a2 lo hi h2
  obtain ⟨c3, d3⟩ := band_cast a3 lo hi h3
  have hA1 : (2 ^ lo * 2 ^ lo : ℚ) ≤ a1 * a1 + a2 * a2 + a3 * a3 := by
    rcases hne with h | h | h
    · linarith only [d1 h, hs2, hs3]
    · linarith only [d2 h, hs1, hs3]
    · linarith only [d3 h, hs1, hs2]
  have hA2 : (a1 * a1 + a2 * a2 + a3 * a3 : ℚ) ≤ 4 * (2 ^ hi * 2 ^ hi) := by
    have : (0 : ℚ) ≤ 2 ^ hi * 2 ^ hi := mul_self_nonneg _
    linarith only [this, c1, c2, c3]
  obtain ⟨b1, b2⟩ := root_bounds n (a1 * a1 + a2 * a2 + a3 * a3) (2 ^ lo) (2 ^ hi) (Nat.cast_nonneg _)
    (pow_nonneg (by norm_num) _) (pow_nonneg (by norm_num) _) hA1 hA2 g1 g2
  refine ⟨?_, ?_, g1, g2⟩
  · have b3 : 2 ^ lo ≤ 2 * n := by exact_mod_cast b1
    have e : lo = lo - 1 + 1 := by omega
    rw [e, pow_succ] at b3
    omega
  · have b3 : n ≤ 4 * 2 ^ hi := by exact_mod_cast b2
    have e : (2 : Nat) ^ (hi + 2) = 4 * 2 ^ hi := by rw [pow_add]; ring
    rw [e]
    exact b3

/-- The norm of 4 `double`s that are zeros or have magnitudes between `2^lo`
and `2^hi` units, not all zero, in the range where no square underflows or
overflows: the root is finite, between `2^(lo-1)` and `2^(hi+2)`, and its
square is within four roundings and the error of the root of the exact sum of
squares. -/
theorem norm_rel4 (s1 s2 s3 s4 : Bool) (a1 a2 a3 a4 lo hi : Nat)
    (hlo : 563 ≤ lo) (hhi : hi ≤ 1584)
    (h1 : a1 = 0 ∨ (2 ^ lo ≤ a1 ∧ a1 ≤ 2 ^ hi)) (h2 : a2 = 0 ∨ (2 ^ lo ≤ a2 ∧ a2 ≤ 2 ^ hi)) (h3 : a3 = 0 ∨ (2 ^ lo ≤ a3 ∧ a3 ≤ 2 ^ hi)) (h4 : a4 = 0 ∨ (2 ^ lo ≤ a4 ∧ a4 ≤ 2 ^ hi))
    (hne : a1 ≠ 0 ∨ a2 ≠ 0 ∨ a3 ≠ 0 ∨ a4 ≠ 0) :
    ∃ n, Fp.sqrt (Fp.add (Fp.add (Fp.add (Fp.mul (Fp.fin s1 a1 : F64) (Fp.fin s1 a1)) (Fp.mul (Fp.fin s2 a2) (Fp.fin s2 a2))) (Fp.mul (Fp.fin s3 a3) (Fp.fin s3 a3))) (Fp.mul (Fp.fin s4 a4) (Fp.fin s4 a4))) = Fp.fin false n ∧
      2 ^ (lo - 1) ≤ n ∧ n ≤ 2 ^ (hi + 2) ∧
      (1 - (1 / 2 ^ 52 + 1 / 2 ^ 106) : ℚ) * (n * n) ≤ (1 + 1 / 2 ^ 53) ^ 4 * (a1 * a1 + a2 * a2 + a3 * a3 + a4 * a4) ∧
      (1 - 1 / 2 ^ 53 : ℚ) ^ 4 * (a1 * a1 + a2 * a2 + a3 * a3 + a4 * a4) ≤ (1 + (1 / 2 ^ 52 + 1 / 2 ^ 106)) * (n * n) := by
  obtain ⟨p1, e1, z1, nz1, l1, u1⟩ := Fp.sq_rel s1 a1 lo hi hlo (by omega) h1
  obtain ⟨p2, e2, z2, nz2, l2, u2⟩ := Fp.sq_rel s2 a2 lo hi hlo (by omega) h2
  obtain ⟨p3, e3, z3, nz3, l3, u3⟩ := Fp.sq_rel s3 a3 lo hi hlo (by omega) h3
  obtain ⟨p4, e4, z4, nz4, l4, u4⟩ := Fp.sq_rel s4 a4 lo hi hlo (by omega) h4
  rw [e1, e2, e3, e4]
  have hp2 : (2 : Nat) ^ (2 * hi - 1074) ≤ 2 ^ (2 * hi - 1074 + 1) :=
    Nat.pow_le_pow_right (by norm_num) (by omega)
  have hp3 : (2 : Nat) ^ (2 * hi - 1074) ≤ 2 ^ (2 * hi - 1074 + 1 + 1) :=
    Nat.pow_le_pow_right (by norm_num) (by omega)
  obtain ⟨t2, f2, y2, ny2, ll2, uu2⟩ := Fp.add_rel p1 p2 (2 * lo - 1074) (2 * hi - 1074)
    (by omega) (by omega) z1 z2
  rw [f2]
  obtain ⟨t3, f3, y3, ny3, ll3, uu3⟩ := Fp.add_rel t2 p3 (2 * lo - 1074) (2 * hi - 1074 + 1)
    (by omega) (by omega) y2 (z3.imp_right fun h => ⟨h.1, le_trans h.2 hp2⟩)
  rw [f3]
  obtain ⟨t4, f4, y4, ny4, ll4, uu4⟩ := Fp.add_rel t3 p4 (2 * lo - 1074)
    (2 * hi - 1074 + 1 + 1) (by omega) (by omega) y3
    (z4.imp_right fun h => ⟨h.1, le_trans h.2 hp3⟩)
  rw [f4]
  have hpne : p1 ≠ 0 ∨ p2 ≠ 0 ∨ p3 ≠ 0 ∨ p4 ≠ 0 := by
    rcases hne with h | h | h | h
    · exact Or.inl (nz1 h)
    · exact Or.inr (Or.inl (nz2 h))
    · exact Or.inr (Or.inr (Or.inl (nz3 h)))
    · exact Or.inr (Or.inr (Or.inr (nz4 h)))
  have ht0 : t4 ≠ 0 := by
    rcases hpne with h | h | h | h
    · exact ny4 (Or.inl (ny3 (Or.inl (ny2 (Or.inl h)))))
    · exact ny4 (Or.inl (ny3 (Or.inl (ny2 (Or.inr h)))))
    · exact ny4 (Or.inl (ny3 (Or.inr h)))
    · exact ny4 (Or.inr h)
  have htb : 2 ^ (2 * lo - 1074) ≤ t4 ∧ t4 ≤ 2 ^ (2 * hi - 1074 + 1 + 1 + 1) := by
    rcases y4 with h | h
    · exact absurd h ht0
    · exact h
  obtain ⟨n, hn, r1, r2⟩ := Fp.sqrt_rel t4 (2 * hi - 1074 + 1 + 1 + 1)
    (le_trans Nat.one_le_two_pow htb.1) htb.2 (by omega)
  refine ⟨n, hn, ?_⟩
  have hUn : 0 < binary64.unit := by rw [Fmt.unit64]; positivity
  have hU0 : (0 : ℚ) ≤ binary64.unit := Nat.cast_nonneg _
  generalize (binary64.unit : ℚ) = U at *
  have hu0 : (0 : ℚ) ≤ 1 / 2 ^ 53 := by norm_num
  have hu1 : (1 / 2 ^ 53 : ℚ) ≤ 1 := by norm_num
  have hs1 : (0 : ℚ) ≤ a1 * a1 := mul_self_nonneg _
  have hs2 : (0 : ℚ) ≤ a2 * a2 := mul_self_nonneg _
  have hs3 : (0 : ℚ) ≤ a3 * a3 := mul_self_nonneg _
  have hs4 : (0 : ℚ) ≤ a4 * a4 := mul_self_nonneg _
  have hS1 : (0 : ℚ) ≤ a1 * a1 := hs1
  have hS2 : (0 : ℚ) ≤ a1 * a1 + a2 * a2 := add_nonneg hS1 hs2
  have hS3 : (0 : ℚ) ≤ a1 * a1 + a2 * a2 + a3 * a3 := add_nonneg hS2 hs3
  have hS4 : (0 : ℚ) ≤ a1 * a1 + a2 * a2 + a3 * a3 + a4 * a4 := add_nonneg hS3 hs4
  have q1 : (1 - 1 / 2 ^ 53 : ℚ) ^ 1 * (a1 * a1) ≤ p1 * U ∧
      (p1 * U : ℚ) ≤ (1 + 1 / 2 ^ 53) ^ 1 * (a1 * a1) := by
    rw [pow_one, pow_one]
    exact ⟨l1, u1⟩
  have q2 := rel_step (1 / 2 ^ 53) (p1 * U) (p2 * U)
    (t2 * U) (a1 * a1) (a2 * a2) 1 hu0 hu1 (by norm_num)
    hs2 q1 ⟨l2, u2⟩
    (scale_rel (1 / 2 ^ 53) p1 p2 t2 U hU0 ll2 uu2)
  have q3 := rel_step (1 / 2 ^ 53) (t2 * U) (p3 * U)
    (t3 * U) (a1 * a1 + a2 * a2) (a3 * a3) 2 hu0 hu1 (by norm_num)
    hs3 q2 ⟨l3, u3⟩
    (scale_rel (1 / 2 ^ 53) t2 p3 t3 U hU0 ll3 uu3)
  have q4 := rel_step (1 / 2 ^ 53) (t3 * U) (p4 * U)
    (t4 * U) (a1 * a1 + a2 * a2 + a3 * a3) (a4 * a4) 3 hu0 hu1 (by norm_num)
    hs4 q3 ⟨l4, u4⟩
    (scale_rel (1 / 2 ^ 53) t3 p4 t4 U hU0 ll4 uu4)
  have qq := rel_weaken (1 / 2 ^ 53) (t4 * U) (a1 * a1 + a2 * a2 + a3 * a3 + a4 * a4) (3 + 1) 4 hu0 hu1
    (by norm_num) hS4 q4
  have g1 := le_trans r1 qq.2
  have g2 := le_trans qq.1 r2
  obtain ⟨c1, d1⟩ := band_cast a1 lo hi h1
  obtain ⟨c2, d2⟩ := band_cast a2 lo hi h2
  obtain ⟨c3, d3⟩ := band_cast a3 lo hi h3
  obtain ⟨c4, d4⟩ := band_cast a4 lo hi h4
  have hA1 : (2 ^ lo * 2 ^ lo : ℚ) ≤ a1 * a1 + a2 * a2 + a3 * a3 + a4 * a4 := by
    rcases hne with h | h | h | h
    · linarith only [d1 h, hs2, hs3, hs4]
    · linarith only [d2 h, hs1, hs3, hs4]
    · linarith only [d3 h, hs1, hs2, hs4]
    · linarith only [d4 h, hs1, hs2, hs3]
  have hA2 : (a1 * a1 + a2 * a2 + a3 * a3 + a4 * a4 : ℚ) ≤ 4 * (2 ^ hi * 2 ^ hi) := by
    have : (0 : ℚ) ≤ 2 ^ hi * 2 ^ hi := mul_self_nonneg _
    linarith only [this, c1, c2, c3, c4]
  obtain ⟨b1, b2⟩ := root_bounds n (a1 * a1 + a2 * a2 + a3 * a3 + a4 * a4) (2 ^ lo) (2 ^ hi) (Nat.cast_nonneg _)
    (pow_nonneg (by norm_num) _) (pow_nonneg (by norm_num) _) hA1 hA2 g1 g2
  refine ⟨?_, ?_, g1, g2⟩
  · have b3 : 2 ^ lo ≤ 2 * n := by exact_mod_cast b1
    have e : lo = lo - 1 + 1 := by omega
    rw [e, pow_succ] at b3
    omega
  · have b3 : n ≤ 4 * 2 ^ hi := by exact_mod_cast b2
    have e : (2 : Nat) ^ (hi + 2) = 4 * 2 ^ hi := by rw [pow_add]; ring
    rw [e]
    exact b3

/-- The rounded quotient of a magnitude `a` (a zero, or between `2^alo` and
`2^ahi` units) by a magnitude `n` between `2^nlo` and `2^nhi`, in the range
where the quotient neither underflows nor overflows: it is finite and within
`2^-prec` of the exact quotient. -/
theorem Fp.quot_rel (F : Fmt) (hp : 1 ≤ F.prec) (hE : 1 ≤ F.emax) (s : Bool)
    (a n alo ahi nlo nhi sc : Nat)
    (ha : a = 0 ∨ (2 ^ alo ≤ a ∧ a ≤ 2 ^ ahi)) (hn1 : 2 ^ nlo ≤ n) (hn2 : n ≤ 2 ^ nhi)
    (h1 : nhi + F.prec - 1 ≤ alo + sc) (h2 : ahi + sc ≤ nlo + (2 * F.emax + F.prec - 2))
    (h3 : nlo ≤ ahi + sc) :
    ∃ q, Fp.round F s (a * 2 ^ sc) n = Fp.fin s q ∧
      (q = 0 ∨ (2 ^ (alo + sc - nhi) ≤ q ∧ q ≤ 2 ^ (ahi + sc - nlo))) ∧ (q = 0 ↔ a = 0) ∧
      (1 - 1 / 2 ^ F.prec : ℚ) * (a * 2 ^ sc) ≤ q * n ∧
      (q * n : ℚ) ≤ (1 + 1 / 2 ^ F.prec) * (a * 2 ^ sc) := by
  have hnpos : 0 < n := lt_of_lt_of_le (by positivity) hn1
  rcases ha with ha | ⟨a1, a2⟩
  · refine ⟨0, ?_, Or.inl rfl, ⟨fun _ => ha, fun _ => rfl⟩, ?_, ?_⟩
    · rw [ha, Nat.zero_mul]
      exact Fp.round_zero F s n
    · rw [ha]; simp
    · rw [ha]; simp
  · have hlo : 2 ^ (alo + sc - nhi) * n ≤ a * 2 ^ sc := by
      calc 2 ^ (alo + sc - nhi) * n ≤ 2 ^ (alo + sc - nhi) * 2 ^ nhi :=
            Nat.mul_le_mul_left _ hn2
        _ = 2 ^ alo * 2 ^ sc := by
            rw [← pow_add, ← pow_add]
            congr 1
            omega
        _ ≤ a * 2 ^ sc := Nat.mul_le_mul_right _ a1
    have hhi : a * 2 ^ sc ≤ 2 ^ (ahi + sc - nlo) * n := by
      calc a * 2 ^ sc ≤ 2 ^ ahi * 2 ^ sc := Nat.mul_le_mul_right _ a2
        _ = 2 ^ (ahi + sc - nlo) * 2 ^ nlo := by
            rw [← pow_add, ← pow_add]
            congr 1
            omega
        _ ≤ 2 ^ (ahi + sc - nlo) * n := Nat.mul_le_mul_left _ hn1
    obtain ⟨q, hq, b1, b2, r1, r2⟩ := Fp.round_relQ F hp hE s (a * 2 ^ sc) n
      (alo + sc - nhi) (ahi + sc - nlo) hnpos (by omega) hlo hhi (by omega)
    push_cast at r1 r2
    have hq0 : 0 < 2 ^ (alo + sc - nhi) := by positivity
    have ha0 : 0 < 2 ^ alo := by positivity
    exact ⟨q, hq, Or.inr ⟨b1, b2⟩, ⟨fun h => by omega, fun h => by omega⟩, r1, r2⟩

/-- The squares of two products that are within given factors of each other. -/
theorem link_sq (P Q x y : ℚ) (hP : 0 ≤ P) (hx : 0 ≤ x) (h : P * x ≤ Q * y) :
    P * P * (x * x) ≤ Q * Q * (y * y) := by
  have h0 : 0 ≤ P * x := mul_nonneg hP hx
  have := mul_le_mul h h h0 (le_trans h0 h)
  calc P * P * (x * x) = P * x * (P * x) := by ring
    _ ≤ Q * y * (Q * y) := this
    _ = Q * Q * (y * y) := by ring

/-- The norm of the normalised vector from the relative errors of the two
norms and of the quotients: with `n` the norm of `v`, `m` the norm of the
result, `A` and `B` the exact sums of squares of the components of `v` and of
the result, the errors accumulate to at most `d`. -/
theorem unit_norm_bound (e cl ch Pl Ql Pu Qu d n m A B U : ℚ)
    (he0 : 0 ≤ e) (he : e < 1) (hcl : 0 < cl) (hch : 0 < ch) (hPu : 0 < Pu) (hQl : 0 < Ql)
    (hPl : 0 ≤ Pl) (hQu : 0 ≤ Qu) (hd0 : 0 ≤ d) (hd1 : d ≤ 1)
    (hn : 0 < n) (hm : 0 ≤ m) (hU : 0 ≤ U)
    (v1 : (1 - e) * (n * n) ≤ ch * A) (v2 : cl * A ≤ (1 + e) * (n * n))
    (w1 : (1 - e) * (m * m) ≤ ch * B) (w2 : cl * B ≤ (1 + e) * (m * m))
    (k1 : Pl * (U * U * A) ≤ Ql * (B * (n * n)))
    (k2 : Pu * (B * (n * n)) ≤ Qu * (U * U * A))
    (c1 : ch * Qu * (1 + e) ≤ (1 - e) * cl * Pu * ((1 + d) * (1 + d)))
    (c2 : (1 + e) * ch * Ql * ((1 - d) * (1 - d)) ≤ cl * Pl * (1 - e)) :
    (1 - d) * U ≤ m ∧ m ≤ (1 + d) * U := by
  have hnn : 0 < n * n := mul_pos hn hn
  have hUU : 0 ≤ U * U := mul_self_nonneg U
  have he1 : 0 < 1 - e := by linarith only [he]
  constructor
  · -- lower bound
    have s1 : ch * Ql * ((1 + e) * (m * m)) * (n * n) ≥ ch * Ql * (cl * B) * (n * n) :=
      mul_le_mul_of_nonneg_right (mul_le_mul_of_nonneg_left w2
        (mul_nonneg hch.le hQl.le)) hnn.le
    have s2 : ch * cl * (Ql * (B * (n * n))) ≥ ch * cl * (Pl * (U * U * A)) :=
      mul_le_mul_of_nonneg_left k1 (mul_nonneg hch.le hcl.le)
    have s3 : cl * Pl * (U * U) * (ch * A) ≥ cl * Pl * (U * U) * ((1 - e) * (n * n)) :=
      mul_le_mul_of_nonneg_left v1 (mul_nonneg (mul_nonneg hcl.le hPl) hUU)
    have s4 : cl * Pl * (1 - e) * (U * U * (n * n)) ≥
        (1 + e) * ch * Ql * ((1 - d) * (1 - d)) * (U * U * (n * n)) :=
      mul_le_mul_of_nonneg_right c2 (mul_nonneg hUU hnn.le)
    have s5 : (1 + e) * ch * Ql * (((1 - d) * U) * ((1 - d) * U)) * (n * n) ≤
        (1 + e) * ch * Ql * (m * m) * (n * n) := by
      have t1 : ch * Ql * ((1 + e) * (m * m)) * (n * n) = (1 + e) * ch * Ql * (m * m) * (n * n) := by
        ring
      have t2 : ch * Ql * (cl * B) * (n * n) = ch * cl * (Ql * (B * (n * n))) := by ring
      have t3 : ch * cl * (Pl * (U * U * A)) = cl * Pl * (U * U) * (ch * A) := by ring
      have t4 : cl * Pl * (U * U) * ((1 - e) * (n * n)) = cl * Pl * (1 - e) * (U * U * (n * n)) := by
        ring
      have t5 : (1 + e) * ch * Ql * ((1 - d) * (1 - d)) * (U * U * (n * n)) =
          (1 + e) * ch * Ql * (((1 - d) * U) * ((1 - d) * U)) * (n * n) := by ring
      linarith only [s1, s2, s3, s4, t1, t2, t3, t4, t5]
    have hpos : 0 < (1 + e) * ch * Ql :=
      mul_pos (mul_pos (by linarith only [he0]) hch) hQl
    have s6 : ((1 - d) * U) * ((1 - d) * U) ≤ m * m := by
      have := le_of_mul_le_mul_right s5 hnn
      exact le_of_mul_le_mul_left this hpos
    exact (mul_self_le_mul_self_iff (mul_nonneg (by linarith only [hd1]) hU) hm).2 s6
  · -- upper bound
    have s1 : cl * Pu * ((1 - e) * (m * m)) * (n * n) ≤ cl * Pu * (ch * B) * (n * n) :=
      mul_le_mul_of_nonneg_right (mul_le_mul_of_nonneg_left w1
        (mul_nonneg hcl.le hPu.le)) hnn.le
    have s2 : cl * ch * (Pu * (B * (n * n))) ≤ cl * ch * (Qu * (U * U * A)) :=
      mul_le_mul_of_nonneg_left k2 (mul_nonneg hcl.le hch.le)
    have s3 : ch * Qu * (U * U) * (cl * A) ≤ ch * Qu * (U * U) * ((1 + e) * (n * n)) :=
      mul_le_mul_of_nonneg_left v2 (mul_nonneg (mul_nonneg hch.le hQu) hUU)
    have s4 : ch * Qu * (1 + e) * (U * U * (n * n)) ≤
        (1 - e) * cl * Pu * ((1 + d) * (1 + d)) * (U * U * (n * n)) :=
      mul_le_mul_of_nonneg_right c1 (mul_nonneg hUU hnn.le)
    have s5 : (1 - e) * cl * Pu * (m * m) * (n * n) ≤
        (1 - e) * cl * Pu * (((1 + d) * U) * ((1 + d) * U)) * (n * n) := by
      have t1 : cl * Pu * ((1 - e) * (m * m)) * (n * n) = (1 - e) * cl * Pu * (m * m) * (n * n) := by
        ring
      have t2 : cl * Pu * (ch * B) * (n * n) = cl * ch * (Pu * (B * (n * n))) := by ring
      have t3 : cl * ch * (Qu * (U * U * A)) = ch * Qu * (U * U) * (cl * A) := by ring
      have t4 : ch * Qu * (U * U) * ((1 + e) * (n * n)) = ch * Qu * (1 + e) * (U * U * (n * n)) := by
        ring
      have t5 : (1 - e) * cl * Pu * ((1 + d) * (1 + d)) * (U * U * (n * n)) =
          (1 - e) * cl * Pu * (((1 + d) * U) * ((1 + d) * U)) * (n * n) := by ring
      linarith only [s1, s2, s3, s4, t1, t2, t3, t4, t5]
    have hpos : 0 < (1 - e) * cl * Pu := mul_pos (mul_pos he1 hcl) hPu
    have s6 : m * m ≤ ((1 + d) * U) * ((1 + d) * U) := by
      have := le_of_mul_le_mul_right s5 hnn
      exact le_of_mul_le_mul_left this hpos
    exact (mul_self_le_mul_self_iff hm (mul_nonneg (by linarith only [hd0]) hU)).2 s6

/-! ## The norm of a normalised floating vector -/

/-- A `double` in the band of `2^-250` to `2^250`, in units. -/
theorem Fp.inBand64 (x : F64) (h : Fp.inBand 250 x = true) :
    ∃ s a, x = Fp.fin s a ∧ (a = 0 ∨ (2 ^ 824 ≤ a ∧ a ≤ 2 ^ 1324)) := by
  cases x with
  | nan => exact absurd h (by simp [Fp.inBand])
  | inf s => exact absurd h (by simp [Fp.inBand])
  | fin s a =>
    refine ⟨s, a, rfl, ?_⟩
    simp only [Fp.inBand, Bool.or_eq_true, Bool.and_eq_true, decide_eq_true_eq] at h
    rcases h with h | ⟨h1, h2⟩
    · exact Or.inl h
    · right
      rw [Fmt.unit64] at h1 h2
      constructor
      · have e : (2 : Nat) ^ 1074 = 2 ^ 824 * 2 ^ 250 := by rw [← pow_add]
        rw [e] at h1
        exact Nat.le_of_mul_le_mul_right h1 (by positivity)
      · have e : (2 : Nat) ^ 1074 * 2 ^ 250 = 2 ^ 1324 := by rw [← pow_add]
        rw [e] at h2
        exact h2

/-- A `float` in the band of `2^-60` to `2^60`, in units. -/
theorem Fp.inBand32 (x : F32) (h : Fp.inBand 60 x = true) :
    ∃ s a, x = Fp.fin s a ∧ (a = 0 ∨ (2 ^ 89 ≤ a ∧ a ≤ 2 ^ 209)) := by
  cases x with
  | nan => exact absurd h (by simp [Fp.inBand])
  | inf s => exact absurd h (by simp [Fp.inBand])
  | fin s a =>
    refine ⟨s, a, rfl, ?_⟩
    simp only [Fp.inBand, Bool.or_eq_true, Bool.and_eq_true, decide_eq_true_eq] at h
    rcases h with h | ⟨h1, h2⟩
    · exact Or.inl h
    · right
      rw [Fmt.unit32] at h1 h2
      constructor
      · have e : (2 : Nat) ^ 149 = 2 ^ 89 * 2 ^ 60 := by rw [← pow_add]
        rw [e] at h1
        exact Nat.le_of_mul_le_mul_right h1 (by positivity)
      · have e : (2 : Nat) ^ 149 * 2 ^ 60 = 2 ^ 209 := by rw [← pow_add]
        rw [e] at h2
        exact h2

/-- Division of a finite `double` by a positive finite one, in the range where
the quotient neither underflows nor overflows. -/
theorem Fp.div_rel64 (s : Bool) (a n alo ahi nlo nhi : Nat)
    (ha : a = 0 ∨ (2 ^ alo ≤ a ∧ a ≤ 2 ^ ahi)) (hn1 : 2 ^ nlo ≤ n) (hn2 : n ≤ 2 ^ nhi)
    (h1 : nhi + 52 ≤ alo + 1074) (h2 : ahi + 1074 ≤ nlo + 2097) (h3 : nlo ≤ ahi + 1074) :
    ∃ q, Fp.div (Fp.fin s a : F64) (Fp.fin false n) = Fp.fin s q ∧
      (q = 0 ∨ (2 ^ (alo + 1074 - nhi) ≤ q ∧ q ≤ 2 ^ (ahi + 1074 - nlo))) ∧ (q = 0 ↔ a = 0) ∧
      (1 - 1 / 2 ^ 53 : ℚ) * (a * 2 ^ 1074) ≤ q * n ∧
      (q * n : ℚ) ≤ (1 + 1 / 2 ^ 53) * (a * 2 ^ 1074) := by
  have hn0 : n ≠ 0 := by
    have : 0 < 2 ^ nlo := by positivity
    omega
  have e53 : binary64.prec = 53 := rfl
  have e1023 : binary64.emax = 1023 := rfl
  obtain ⟨q, hq, hz, hnz, r1, r2⟩ := Fp.quot_rel binary64 (by decide) (by decide) s a n alo ahi
    nlo nhi 1074 ha hn1 hn2 (by rw [e53]; omega) (by rw [e53, e1023]; omega) h3
  rw [e53] at r1 r2
  refine ⟨q, ?_, hz, hnz, r1, r2⟩
  simp only [Fp.div, hn0, if_false, Bool.xor_false, Fmt.unit64]
  exact hq

/-- Division of a finite `float` by a positive finite one, in the range where
the quotient neither underflows nor overflows. -/
theorem Fp.div_rel32 (s : Bool) (a n alo ahi nlo nhi : Nat)
    (ha : a = 0 ∨ (2 ^ alo ≤ a ∧ a ≤ 2 ^ ahi)) (hn1 : 2 ^ nlo ≤ n) (hn2 : n ≤ 2 ^ nhi)
    (h1 : nhi + 23 ≤ alo + 149) (h2 : ahi + 149 ≤ nlo + 276) (h3 : nlo ≤ ahi + 149) :
    ∃ q, Fp.div (Fp.fin s a : F32) (Fp.fin false n) = Fp.fin s q ∧
      (q = 0 ∨ (2 ^ (alo + 149 - nhi) ≤ q ∧ q ≤ 2 ^ (ahi + 149 - nlo))) ∧ (q = 0 ↔ a = 0) ∧
      (1 - 1 / 2 ^ 24 : ℚ) * (a * 2 ^ 149) ≤ q * n ∧
      (q * n : ℚ) ≤ (1 + 1 / 2 ^ 24) * (a * 2 ^ 149) := by
  have hn0 : n ≠ 0 := by
    have : 0 < 2 ^ nlo := by positivity
    omega
  have e24 : binary32.prec = 24 := rfl
  have e127 : binary32.emax = 127 := rfl
  obtain ⟨q, hq, hz, hnz, r1, r2⟩ := Fp.quot_rel binary32 (by decide) (by decide) s a n alo ahi
    nlo nhi 149 ha hn1 hn2 (by rw [e24]; omega) (by rw [e24, e127]; omega) h3
  rw [e24] at r1 r2
  refine ⟨q, ?_, hz, hnz, r1, r2⟩
  simp only [Fp.div, hn0, if_false, Bool.xor_false, Fmt.unit32]
  exact hq

/-- Conversion of a finite `float` to `double`: finite, and within `2^-53` of
the value (it is exact for a `float` datum). -/
theorem Fp.cvt_rel64 (s : Bool) (a alo ahi : Nat)
    (ha : a = 0 ∨ (2 ^ alo ≤ a ∧ a ≤ 2 ^ ahi)) (h2 : ahi ≤ 1172) :
    ∃ c, Fp.cvt binary64 (Fp.fin s a : F32) = Fp.fin s c ∧
      (c = 0 ∨ (2 ^ (alo + 1074 - 149) ≤ c ∧ c ≤ 2 ^ (ahi + 1074 - 149))) ∧ (c = 0 ↔ a = 0) ∧
      (1 - 1 / 2 ^ 53 : ℚ) * (a * 2 ^ 1074) ≤ c * 2 ^ 149 ∧
      (c * 2 ^ 149 : ℚ) ≤ (1 + 1 / 2 ^ 53) * (a * 2 ^ 1074) := by
  have e53 : binary64.prec = 53 := rfl
  have e1023 : binary64.emax = 1023 := rfl
  obtain ⟨q, hq, hz, hnz, r1, r2⟩ := Fp.quot_rel binary64 (by decide) (by decide) s a (2 ^ 149)
    alo ahi 149 149 1074 ha (le_refl _) (le_refl _) (by rw [e53]; omega)
    (by rw [e53, e1023]; omega) (by omega)
  rw [e53] at r1 r2
  rw [Nat.cast_pow, Nat.cast_ofNat] at r1 r2
  refine ⟨q, ?_, hz, hnz, r1, r2⟩
  simp only [Fp.cvt, Fmt.unit64, Fmt.unit32]
  exact hq

/-- Conversion of a positive finite `double` to `float`, in the range where
the result neither underflows nor overflows: finite and within `2^-24`. -/
theorem Fp.cvt_rel32 (n nlo nhi : Nat) (hn1 : 2 ^ nlo ≤ n) (hn2 : n ≤ 2 ^ nhi)
    (h1 : 948 ≤ nlo) (h2 : nhi ≤ 1201) :
    ∃ c, Fp.cvt binary32 (Fp.fin false n : F64) = Fp.fin false c ∧
      2 ^ (nlo + 149 - 1074) ≤ c ∧ c ≤ 2 ^ (nhi + 149 - 1074) ∧
      (1 - 1 / 2 ^ 24 : ℚ) * (n * 2 ^ 149) ≤ c * 2 ^ 1074 ∧
      (c * 2 ^ 1074 : ℚ) ≤ (1 + 1 / 2 ^ 24) * (n * 2 ^ 149) := by
  have e24 : binary32.prec = 24 := rfl
  have e127 : binary32.emax = 127 := rfl
  have hn0 : n ≠ 0 := by
    have : 0 < 2 ^ nlo := by positivity
    omega
  have hlh : nlo ≤ nhi := (Nat.pow_le_pow_iff_right (by norm_num)).1 (le_trans hn1 hn2)
  obtain ⟨q, hq, hz, hnz, r1, r2⟩ := Fp.quot_rel binary32 (by decide) (by decide) false n
    (2 ^ 1074) nlo nhi 1074 1074 149 (Or.inr ⟨hn1, hn2⟩) (le_refl _) (le_refl _)
    (by rw [e24]; omega) (by rw [e24, e127]; omega) (by omega)
  rw [e24] at r1 r2
  rw [Nat.cast_pow, Nat.cast_ofNat] at r1 r2
  have hq0 : q ≠ 0 := fun h => hn0 (hnz.1 h)
  have hb : 2 ^ (nlo + 149 - 1074) ≤ q ∧ q ≤ 2 ^ (nhi + 149 - 1074) := by
    rcases hz with h | h
    · exact absurd h hq0
    · exact h
  refine ⟨q, ?_, hb.1, hb.2, r1, r2⟩
  simp only [Fp.cvt, Fmt.unit64, Fmt.unit32]
  exact hq

/-- The relative error of a `float` quotient seen through `double`: with `c`
and `b` the `double` magnitudes of a component `a` and of its quotient `q` by
the `float` norm `f`, and `n` the `double` norm (`U` and `V` are the units of
`double` and `float`). -/
theorem link32 (u w a c n f q b U V : ℚ) (hu0 : 0 ≤ u) (hu1 : u ≤ 1) (hw0 : 0 ≤ w)
    (hw1 : w ≤ 1) (hU : 0 < U) (hV : 0 < V) (hf : 0 ≤ f) (hb : 0 ≤ b)
    (i1 : (1 - u) * (a * U) ≤ c * V) (i2 : c * V ≤ (1 + u) * (a * U))
    (j1 : (1 - w) * (n * V) ≤ f * U) (j2 : f * U ≤ (1 + w) * (n * V))
    (k1 : (1 - w) * (a * V) ≤ q * f) (k2 : q * f ≤ (1 + w) * (a * V))
    (l1 : (1 - u) * (q * U) ≤ b * V) (l2 : b * V ≤ (1 + u) * (q * U)) :
    (1 - u) * (1 - w) * (c * U) ≤ (1 + u) * (1 + w) * (b * n) ∧
      (1 - u) * (1 - w) * (b * n) ≤ (1 + u) * (1 + w) * (c * U) := by
  have h1u : 0 ≤ 1 - u := by linarith only [hu1]
  have h1w : 0 ≤ 1 - w := by linarith only [hw1]
  have h2u : 0 ≤ 1 + u := by linarith only [hu0]
  have h2w : 0 ≤ 1 + w := by linarith only [hw0]
  have hT : 0 < V * V * U := mul_pos (mul_pos hV hV) hU
  constructor
  · have s1 : (1 - u) * (1 - w) * (U * U * V) * (c * V) ≤
        (1 - u) * (1 - w) * (U * U * V) * ((1 + u) * (a * U)) :=
      mul_le_mul_of_nonneg_left i2 (by positivity)
    have s2 : (1 - u) * (1 + u) * (U * U * U) * ((1 - w) * (a * V)) ≤
        (1 - u) * (1 + u) * (U * U * U) * (q * f) :=
      mul_le_mul_of_nonneg_left k1 (by positivity)
    have s3 : (1 + u) * U * (f * U) * ((1 - u) * (q * U)) ≤ (1 + u) * U * (f * U) * (b * V) :=
      mul_le_mul_of_nonneg_left l1 (by positivity)
    have s4 : (1 + u) * U * (b * V) * (f * U) ≤ (1 + u) * U * (b * V) * ((1 + w) * (n * V)) :=
      mul_le_mul_of_nonneg_left j2 (by positivity)
    have t1 : (1 - u) * (1 - w) * (U * U * V) * ((1 + u) * (a * U)) =
        (1 - u) * (1 + u) * (U * U * U) * ((1 - w) * (a * V)) := by ring
    have t2 : (1 - u) * (1 + u) * (U * U * U) * (q * f) =
        (1 + u) * U * (f * U) * ((1 - u) * (q * U)) := by ring
    have t3 : (1 + u) * U * (f * U) * (b * V) = (1 + u) * U * (b * V) * (f * U) := by ring
    have t4 : (1 - u) * (1 - w) * (U * U * V) * (c * V) =
        (1 - u) * (1 - w) * (c * U) * (V * V * U) := by ring
    have t5 : (1 + u) * U * (b * V) * ((1 + w) * (n * V)) =
        (1 + u) * (1 + w) * (b * n) * (V * V * U) := by ring
    exact le_of_mul_le_mul_right (by linarith only [s1, s2, s3, s4, t1, t2, t3, t4, t5]) hT
  · have s1 : (1 - u) * (b * V) * U * ((1 - w) * (n * V)) ≤ (1 - u) * (b * V) * U * (f * U) :=
      mul_le_mul_of_nonneg_left j1 (by positivity)
    have s2 : (1 - u) * (f * U) * U * (b * V) ≤ (1 - u) * (f * U) * U * ((1 + u) * (q * U)) :=
      mul_le_mul_of_nonneg_left l2 (by positivity)
    have s3 : (1 - u) * (1 + u) * (U * U * U) * (q * f) ≤
        (1 - u) * (1 + u) * (U * U * U) * ((1 + w) * (a * V)) :=
      mul_le_mul_of_nonneg_left k2 (by positivity)
    have s4 : (1 + u) * (1 + w) * (U * U * V) * ((1 - u) * (a * U)) ≤
        (1 + u) * (1 + w) * (U * U * V) * (c * V) :=
      mul_le_mul_of_nonneg_left i1 (by positivity)
    have t1 : (1 - u) * (b * V) * U * (f * U) = (1 - u) * (f * U) * U * (b * V) := by ring
    have t2 : (1 - u) * (f * U) * U * ((1 + u) * (q * U)) =
        (1 - u) * (1 + u) * (U * U * U) * (q * f) := by ring
    have t3 : (1 - u) * (1 + u) * (U * U * U) * ((1 + w) * (a * V)) =
        (1 + u) * (1 + w) * (U * U * V) * ((1 - u) * (a * U)) := by ring
    have t4 : (1 - u) * (b * V) * U * ((1 - w) * (n * V)) =
        (1 - u) * (1 - w) * (b * n) * (V * V * U) := by ring
    have t5 : (1 + u) * (1 + w) * (U * U * V) * (c * V) =
        (1 + u) * (1 + w) * (c * U) * (V * V * U) := by ring
    exact le_of_mul_le_mul_right (by linarith only [s1, s2, s3, s4, t1, t2, t3, t4, t5]) hT

/-- The square of a `double` zero is `+0`. -/
theorem Fp.mul_zero_self (s : Bool) : Fp.mul (Fp.fin s 0 : F64) (Fp.fin s 0) = Fp.fin false 0 := by
  simp only [Fp.mul, Bool.xor_self, Nat.mul_zero]
  exact Fp.round_zero binary64 false _

/-- The sum of two `double`s `+0` is `+0`. -/
theorem Fp.add_zero_zero : Fp.add (Fp.fin false 0 : F64) (Fp.fin false 0) = Fp.fin false 0 := by
  simp [Fp.add, Fp.sval]

/-- The square root of the `double` `+0` is `+0`. -/
theorem Fp.sqrt_zero : Fp.sqrt (Fp.fin false 0 : F64) = Fp.fin false 0 := by
  simp [Fp.sqrt, Fp.sqrtMag_zero]

/-- The comparison `n != 0` of a non-negative finite `double`. -/
theorem Fp.ne_zero_iff (n : Nat) :
    Fp.ne (Fp.fin false n : F64) (Fp.ofInt binary64 0) = true ↔ n ≠ 0 := by
  rw [Fp.ofInt_zero64]
  simp [Fp.ne, Fp.eq, Fp.sval]

/-- The norm of a `Vector2<double>`, by its expression. -/
theorem norm_def2d (x1 x2 : F64) :
    Vector2.norm (⟨x1, x2⟩ : Vector2 F64) = Fp.sqrt (Fp.add (Fp.mul x1 x1) (Fp.mul x2 x2)) := rfl

/-- The norm of a `Vector2<float>`, by its expression. -/
theorem norm_def2f (x1 x2 : F32) :
    Vector2.norm (⟨x1, x2⟩ : Vector2 F32) = Fp.sqrt (Fp.add (Fp.mul (Fp.cvt binary64 x1) (Fp.cvt binary64 x1)) (Fp.mul (Fp.cvt binary64 x2) (Fp.cvt binary64 x2))) := rfl

/-- The member `normalize` of a `Vector2<double>`, by its expression. -/
theorem normalize_def2d (x1 x2 : F64) :
    Vector2.normalize (⟨x1, x2⟩ : Vector2 F64) =
      if Fp.ne (Vector2.norm (⟨x1, x2⟩ : Vector2 F64)) (Fp.ofInt binary64 0) then
        some ⟨Fp.div x1 (Vector2.norm (⟨x1, x2⟩ : Vector2 F64)), Fp.div x2 (Vector2.norm (⟨x1, x2⟩ : Vector2 F64))⟩
      else some ⟨x1, x2⟩ := rfl

/-- The member `normalize` of a `Vector2<float>`, by its expression. -/
theorem normalize_def2f (x1 x2 : F32) :
    Vector2.normalize (⟨x1, x2⟩ : Vector2 F32) =
      if Fp.ne (Vector2.norm (⟨x1, x2⟩ : Vector2 F32)) (Fp.ofInt binary64 0) then
        some ⟨Fp.div x1 (Fp.cvt binary32 (Vector2.norm (⟨x1, x2⟩ : Vector2 F32))), Fp.div x2 (Fp.cvt binary32 (Vector2.norm (⟨x1, x2⟩ : Vector2 F32)))⟩
      else some ⟨x1, x2⟩ := rfl

/-- The sums of squares of 2 components and of their quotients by the norm. -/
theorem link_norm2 (Pl Ql Pu Qu U n a1 a2 b1 b2 : ℚ)
    (hPl : 0 ≤ Pl) (hPu : 0 ≤ Pu) (hU : 0 ≤ U) (hn : 0 ≤ n)
    (ha1 : 0 ≤ a1) (ha2 : 0 ≤ a2)
    (hb1 : 0 ≤ b1) (hb2 : 0 ≤ b2)
    (lo1 : Pl * (a1 * U) ≤ Ql * (b1 * n)) (lo2 : Pl * (a2 * U) ≤ Ql * (b2 * n))
    (up1 : Pu * (b1 * n) ≤ Qu * (a1 * U)) (up2 : Pu * (b2 * n) ≤ Qu * (a2 * U)) :
    Pl * Pl * (U * U * (a1 * a1 + a2 * a2)) ≤ Ql * Ql * ((b1 * b1 + b2 * b2) * (n * n)) ∧
      Pu * Pu * ((b1 * b1 + b2 * b2) * (n * n)) ≤ Qu * Qu * (U * U * (a1 * a1 + a2 * a2)) := by
  have k1 := link_sq Pl Ql (a1 * U) (b1 * n) hPl (mul_nonneg ha1 hU) lo1
  have m1 := link_sq Pu Qu (b1 * n) (a1 * U) hPu (mul_nonneg hb1 hn) up1
  have k2 := link_sq Pl Ql (a2 * U) (b2 * n) hPl (mul_nonneg ha2 hU) lo2
  have m2 := link_sq Pu Qu (b2 * n) (a2 * U) hPu (mul_nonneg hb2 hn) up2
  constructor
  · have t1 : Pl * Pl * (U * U * (a1 * a1 + a2 * a2)) =
        Pl * Pl * (a1 * U * (a1 * U)) + Pl * Pl * (a2 * U * (a2 * U)) := by ring
    have t2 : Ql * Ql * ((b1 * b1 + b2 * b2) * (n * n)) =
        Ql * Ql * (b1 * n * (b1 * n)) + Ql * Ql * (b2 * n * (b2 * n)) := by ring
    linarith only [t1, t2, k1, k2]
  · have t1 : Pu * Pu * ((b1 * b1 + b2 * b2) * (n * n)) =
        Pu * Pu * (b1 * n * (b1 * n)) + Pu * Pu * (b2 * n * (b2 * n)) := by ring
    have t2 : Qu * Qu * (U * U * (a1 * a1 + a2 * a2)) =
        Qu * Qu * (a1 * U * (a1 * U)) + Qu * Qu * (a2 * U * (a2 * U)) := by ring
    linarith only [t1, t2, m1, m2]

/-- The norm of 2 `double` zeros is `+0`. -/
theorem norm_zeros2 (s1 s2 : Bool) :
    Fp.sqrt (Fp.add (Fp.mul (Fp.fin s1 0 : F64) (Fp.fin s1 0)) (Fp.mul (Fp.fin s2 0 : F64) (Fp.fin s2 0))) = Fp.fin false 0 := by
  simp only [Fp.mul_zero_self, Fp.add_zero_zero, Fp.sqrt_zero]

/-- The norm of a normalised `Vector2<double>` whose components are zeros or
have magnitudes from `2^-250` to `2^250`, and whose norm is not zero: the
normalised vector exists and its norm is within `2^-50` of one. -/
theorem normalize_norm2d (v : Vector2 F64)
    (hx : Fp.inBand 250 v.x = true) (hy : Fp.inBand 250 v.y = true)
    (hn : Fp.ne v.norm (Fp.ofInt binary64 0) = true) :
    ∃ w m, v.normalize = some w ∧ w.norm = Fp.fin false m ∧
      m * 2 ^ 50 ≤ binary64.unit * 2 ^ 50 + binary64.unit ∧
      binary64.unit * 2 ^ 50 ≤ m * 2 ^ 50 + binary64.unit := by
  obtain ⟨x1, x2⟩ := v
  obtain ⟨s1, a1, rfl, h1⟩ := Fp.inBand64 x1 hx
  obtain ⟨s2, a2, rfl, h2⟩ := Fp.inBand64 x2 hy
  rw [norm_def2d] at hn
  have hne : a1 ≠ 0 ∨ a2 ≠ 0 := by
    by_contra hcon
    simp only [not_or, not_not] at hcon
    obtain ⟨r1, r2⟩ := hcon
    rw [r1, r2, norm_zeros2] at hn
    exact absurd rfl ((Fp.ne_zero_iff 0).1 hn)
  obtain ⟨n, hnorm, nb1, nb2, g1, g2⟩ := norm_rel2 s1 s2 a1 a2 824 1324
    (by norm_num) (by norm_num) h1 h2 hne
  have nb1b : 2 ^ 823 ≤ n := nb1
  have nb2b : n ≤ 2 ^ 1326 := nb2
  rw [hnorm] at hn
  obtain ⟨q1, hq1, zq1, iq1, lq1, uq1⟩ := Fp.div_rel64 s1 a1 n 824 1324 823 1326 h1
    nb1b nb2b (by norm_num) (by norm_num) (by norm_num)
  have zq1b : q1 = 0 ∨ (2 ^ 572 ≤ q1 ∧ q1 ≤ 2 ^ 1575) := zq1
  obtain ⟨q2, hq2, zq2, iq2, lq2, uq2⟩ := Fp.div_rel64 s2 a2 n 824 1324 823 1326 h2
    nb1b nb2b (by norm_num) (by norm_num) (by norm_num)
  have zq2b : q2 = 0 ∨ (2 ^ 572 ≤ q2 ∧ q2 ≤ 2 ^ 1575) := zq2
  have hw : Vector2.normalize (⟨Fp.fin s1 a1, Fp.fin s2 a2⟩ : Vector2 F64) =
      some ⟨Fp.fin s1 q1, Fp.fin s2 q2⟩ := by
    rw [normalize_def2d, norm_def2d, hnorm, if_pos hn, hq1, hq2]
  have hqne : q1 ≠ 0 ∨ q2 ≠ 0 := by
    rcases hne with h | h
    · exact Or.inl (fun h0 => h (iq1.1 h0))
    · exact Or.inr ((fun h0 => h (iq2.1 h0)))
  obtain ⟨m, hm, _, _, w1, w2⟩ := norm_rel2 s1 s2 q1 q2 572 1575
    (by norm_num) (by norm_num) zq1b zq2b hqne
  refine ⟨⟨Fp.fin s1 q1, Fp.fin s2 q2⟩, m, hw, ?_, ?_⟩
  · rw [norm_def2d]
    exact hm
  · have hnpos : (0 : ℚ) < n := by
      have h0 : 0 < n := lt_of_lt_of_le (by positivity) nb1b
      exact_mod_cast h0
    have hU0 : (0 : ℚ) < 2 ^ 1074 := pow_pos (by norm_num) _
    generalize hUdef : (2 : ℚ) ^ 1074 = U at lq1 uq1 lq2 uq2 hU0
    have lo1 : (1 - 1 / 2 ^ 53 : ℚ) * (a1 * U) ≤ 1 * (q1 * n) := by
      rw [one_mul]
      exact lq1
    have up1 : (1 : ℚ) * (q1 * n) ≤ (1 + 1 / 2 ^ 53) * (a1 * U) := by
      rw [one_mul]
      exact uq1
    have lo2 : (1 - 1 / 2 ^ 53 : ℚ) * (a2 * U) ≤ 1 * (q2 * n) := by
      rw [one_mul]
      exact lq2
    have up2 : (1 : ℚ) * (q2 * n) ≤ (1 + 1 / 2 ^ 53) * (a2 * U) := by
      rw [one_mul]
      exact uq2
    obtain ⟨k1, k2⟩ := link_norm2 (1 - 1 / 2 ^ 53) 1 1 (1 + 1 / 2 ^ 53) U n a1 a2 q1 q2
      (by norm_num) (by norm_num) hU0.le hnpos.le (Nat.cast_nonneg _) (Nat.cast_nonneg _) (Nat.cast_nonneg _) (Nat.cast_nonneg _)
      lo1 lo2 up1 up2
    obtain ⟨f1, f2⟩ := unit_norm_bound (1 / 2 ^ 52 + 1 / 2 ^ 106) ((1 - 1 / 2 ^ 53) ^ 4) ((1 + 1 / 2 ^ 53) ^ 4)
      ((1 - 1 / 2 ^ 53) * (1 - 1 / 2 ^ 53)) (1 * 1) (1 * 1) ((1 + 1 / 2 ^ 53) * (1 + 1 / 2 ^ 53)) (1 / 2 ^ 50) n m
      (a1 * a1 + a2 * a2) (q1 * q1 + q2 * q2) U
      (by norm_num) (by norm_num) (by norm_num) (by norm_num) (by norm_num) (by norm_num)
      (by norm_num) (by norm_num) (by norm_num) (by norm_num) hnpos (Nat.cast_nonneg _) hU0.le
      g1 g2 w1 w2 k1 k2 (by norm_num) (by norm_num)
    rw [Fmt.unit64]
    constructor
    · have h : (m : ℚ) * 2 ^ 50 ≤ 2 ^ 1074 * 2 ^ 50 + 2 ^ 1074 := by
        rw [hUdef]
        linarith only [f2]
      exact_mod_cast h
    · have h : (2 : ℚ) ^ 1074 * 2 ^ 50 ≤ m * 2 ^ 50 + 2 ^ 1074 := by
        rw [hUdef]
        linarith only [f1]
      exact_mod_cast h

/-- The norm of a normalised `Vector2<float>` whose components are zeros or
have magnitudes from `2^-60` to `2^60`, and whose norm is not zero: the
normalised vector exists and its norm is within `2^-22` of one. -/
theorem normalize_norm2f (v : Vector2 F32)
    (hx : Fp.inBand 60 v.x = true) (hy : Fp.inBand 60 v.y = true)
    (hn : Fp.ne v.norm (Fp.ofInt binary64 0) = true) :
    ∃ w m, v.normalize = some w ∧ w.norm = Fp.fin false m ∧
      m * 2 ^ 22 ≤ binary64.unit * 2 ^ 22 + binary64.unit ∧
      binary64.unit * 2 ^ 22 ≤ m * 2 ^ 22 + binary64.unit := by
  obtain ⟨x1, x2⟩ := v
  obtain ⟨s1, a1, rfl, h1⟩ := Fp.inBand32 x1 hx
  obtain ⟨s2, a2, rfl, h2⟩ := Fp.inBand32 x2 hy
  rw [norm_def2f] at hn
  obtain ⟨c1, hc1, zc1, ic1, lc1, uc1⟩ := Fp.cvt_rel64 s1 a1 89 209 h1 (by norm_num)
  have zc1b : c1 = 0 ∨ (2 ^ 1014 ≤ c1 ∧ c1 ≤ 2 ^ 1134) := zc1
  obtain ⟨c2, hc2, zc2, ic2, lc2, uc2⟩ := Fp.cvt_rel64 s2 a2 89 209 h2 (by norm_num)
  have zc2b : c2 = 0 ∨ (2 ^ 1014 ≤ c2 ∧ c2 ≤ 2 ^ 1134) := zc2
  rw [hc1, hc2] at hn
  have hne : c1 ≠ 0 ∨ c2 ≠ 0 := by
    by_contra hcon
    simp only [not_or, not_not] at hcon
    obtain ⟨r1, r2⟩ := hcon
    rw [r1, r2, norm_zeros2] at hn
    exact absurd rfl ((Fp.ne_zero_iff 0).1 hn)
  obtain ⟨n, hnorm, nb1, nb2, g1, g2⟩ := norm_rel2 s1 s2 c1 c2 1014 1134
    (by norm_num) (by norm_num) zc1b zc2b hne
  have nb1b : 2 ^ 1013 ≤ n := nb1
  have nb2b : n ≤ 2 ^ 1136 := nb2
  rw [hnorm] at hn
  obtain ⟨nf, hnf, fb1, fb2, lf, uf⟩ := Fp.cvt_rel32 n 1013 1136 nb1b nb2b
    (by norm_num) (by norm_num)
  have fb1b : 2 ^ 88 ≤ nf := fb1
  have fb2b : nf ≤ 2 ^ 211 := fb2
  obtain ⟨q1, hq1, zq1, iq1, lq1, uq1⟩ := Fp.div_rel32 s1 a1 nf 89 209 88 211 h1
    fb1b fb2b (by norm_num) (by norm_num) (by norm_num)
  have zq1b : q1 = 0 ∨ (2 ^ 27 ≤ q1 ∧ q1 ≤ 2 ^ 270) := zq1
  obtain ⟨b1, hb1, zb1, ib1, lb1, ub1⟩ := Fp.cvt_rel64 s1 q1 27 270 zq1b (by norm_num)
  have zb1b : b1 = 0 ∨ (2 ^ 952 ≤ b1 ∧ b1 ≤ 2 ^ 1195) := zb1
  obtain ⟨q2, hq2, zq2, iq2, lq2, uq2⟩ := Fp.div_rel32 s2 a2 nf 89 209 88 211 h2
    fb1b fb2b (by norm_num) (by norm_num) (by norm_num)
  have zq2b : q2 = 0 ∨ (2 ^ 27 ≤ q2 ∧ q2 ≤ 2 ^ 270) := zq2
  obtain ⟨b2, hb2, zb2, ib2, lb2, ub2⟩ := Fp.cvt_rel64 s2 q2 27 270 zq2b (by norm_num)
  have zb2b : b2 = 0 ∨ (2 ^ 952 ≤ b2 ∧ b2 ≤ 2 ^ 1195) := zb2
  have hw : Vector2.normalize (⟨Fp.fin s1 a1, Fp.fin s2 a2⟩ : Vector2 F32) =
      some ⟨Fp.fin s1 q1, Fp.fin s2 q2⟩ := by
    rw [normalize_def2f, norm_def2f, hc1, hc2, hnorm, if_pos hn, hnf, hq1, hq2]
  have hqne : b1 ≠ 0 ∨ b2 ≠ 0 := by
    rcases hne with h | h
    · exact Or.inl (fun h0 => h (ic1.2 (iq1.1 (ib1.1 h0))))
    · exact Or.inr ((fun h0 => h (ic2.2 (iq2.1 (ib2.1 h0)))))
  obtain ⟨m, hm, _, _, w1, w2⟩ := norm_rel2 s1 s2 b1 b2 952 1195
    (by norm_num) (by norm_num) zb1b zb2b hqne
  refine ⟨⟨Fp.fin s1 q1, Fp.fin s2 q2⟩, m, hw, ?_, ?_⟩
  · rw [norm_def2f, hb1, hb2]
    exact hm
  · have hnpos : (0 : ℚ) < n := by
      have h0 : 0 < n := lt_of_lt_of_le (by positivity) nb1b
      exact_mod_cast h0
    have hU0 : (0 : ℚ) < 2 ^ 1074 := pow_pos (by norm_num) _
    have hV0 : (0 : ℚ) < 2 ^ 149 := pow_pos (by norm_num) _
    generalize hVdef : (2 : ℚ) ^ 149 = V at lc1 uc1 lq1 uq1 lb1 ub1 lc2 uc2 lq2 uq2 lb2 ub2 lf uf hU0 hV0
    generalize hUdef : (2 : ℚ) ^ 1074 = U at lc1 uc1 lq1 uq1 lb1 ub1 lc2 uc2 lq2 uq2 lb2 ub2 lf uf hU0 hV0
    obtain ⟨lo1, up1⟩ := link32 (1 / 2 ^ 53) (1 / 2 ^ 24) a1 c1 n nf q1 b1 U V
      (by norm_num) (by norm_num) (by norm_num) (by norm_num) hU0 hV0 (Nat.cast_nonneg _)
      (Nat.cast_nonneg _) lc1 uc1 lf uf lq1 uq1 lb1 ub1
    obtain ⟨lo2, up2⟩ := link32 (1 / 2 ^ 53) (1 / 2 ^ 24) a2 c2 n nf q2 b2 U V
      (by norm_num) (by norm_num) (by norm_num) (by norm_num) hU0 hV0 (Nat.cast_nonneg _)
      (Nat.cast_nonneg _) lc2 uc2 lf uf lq2 uq2 lb2 ub2
    obtain ⟨k1, k2⟩ := link_norm2 ((1 - 1 / 2 ^ 53) * (1 - 1 / 2 ^ 24)) ((1 + 1 / 2 ^ 53) * (1 + 1 / 2 ^ 24)) ((1 - 1 / 2 ^ 53) * (1 - 1 / 2 ^ 24)) ((1 + 1 / 2 ^ 53) * (1 + 1 / 2 ^ 24)) U n c1 c2 b1 b2
      (by norm_num) (by norm_num) hU0.le hnpos.le (Nat.cast_nonneg _) (Nat.cast_nonneg _) (Nat.cast_nonneg _) (Nat.cast_nonneg _)
      lo1 lo2 up1 up2
    obtain ⟨f1, f2⟩ := unit_norm_bound (1 / 2 ^ 52 + 1 / 2 ^ 106) ((1 - 1 / 2 ^ 53) ^ 4) ((1 + 1 / 2 ^ 53) ^ 4)
      (((1 - 1 / 2 ^ 53) * (1 - 1 / 2 ^ 24)) * ((1 - 1 / 2 ^ 53) * (1 - 1 / 2 ^ 24))) (((1 + 1 / 2 ^ 53) * (1 + 1 / 2 ^ 24)) * ((1 + 1 / 2 ^ 53) * (1 + 1 / 2 ^ 24))) (((1 - 1 / 2 ^ 53) * (1 - 1 / 2 ^ 24)) * ((1 - 1 / 2 ^ 53) * (1 - 1 / 2 ^ 24))) (((1 + 1 / 2 ^ 53) * (1 + 1 / 2 ^ 24)) * ((1 + 1 / 2 ^ 53) * (1 + 1 / 2 ^ 24))) (1 / 2 ^ 22) n m
      (c1 * c1 + c2 * c2) (b1 * b1 + b2 * b2) U
      (by norm_num) (by norm_num) (by norm_num) (by norm_num) (by norm_num) (by norm_num)
      (by norm_num) (by norm_num) (by norm_num) (by norm_num) hnpos (Nat.cast_nonneg _) hU0.le
      g1 g2 w1 w2 k1 k2 (by norm_num) (by norm_num)
    rw [Fmt.unit64]
    constructor
    · have h : (m : ℚ) * 2 ^ 22 ≤ 2 ^ 1074 * 2 ^ 22 + 2 ^ 1074 := by
        rw [hUdef]
        linarith only [f2]
      exact_mod_cast h
    · have h : (2 : ℚ) ^ 1074 * 2 ^ 22 ≤ m * 2 ^ 22 + 2 ^ 1074 := by
        rw [hUdef]
        linarith only [f1]
      exact_mod_cast h

/-- The norm of a `Vector3<double>`, by its expression. -/
theorem norm_def3d (x1 x2 x3 : F64) :
    Vector3.norm (⟨x1, x2, x3⟩ : Vector3 F64) = Fp.sqrt (Fp.add (Fp.add (Fp.mul x1 x1) (Fp.mul x2 x2)) (Fp.mul x3 x3)) := rfl

/-- The norm of a `Vector3<float>`, by its expression. -/
theorem norm_def3f (x1 x2 x3 : F32) :
    Vector3.norm (⟨x1, x2, x3⟩ : Vector3 F32) = Fp.sqrt (Fp.add (Fp.add (Fp.mul (Fp.cvt binary64 x1) (Fp.cvt binary64 x1)) (Fp.mul (Fp.cvt binary64 x2) (Fp.cvt binary64 x2))) (Fp.mul (Fp.cvt binary64 x3) (Fp.cvt binary64 x3))) := rfl

/-- The member `normalize` of a `Vector3<double>`, by its expression. -/
theorem normalize_def3d (x1 x2 x3 : F64) :
    Vector3.normalize (⟨x1, x2, x3⟩ : Vector3 F64) =
      if Fp.ne (Vector3.norm (⟨x1, x2, x3⟩ : Vector3 F64)) (Fp.ofInt binary64 0) then
        some ⟨Fp.div x1 (Vector3.norm (⟨x1, x2, x3⟩ : Vector3 F64)), Fp.div x2 (Vector3.norm (⟨x1, x2, x3⟩ : Vector3 F64)), Fp.div x3 (Vector3.norm (⟨x1, x2, x3⟩ : Vector3 F64))⟩
      else some ⟨x1, x2, x3⟩ := rfl

/-- The member `normalize` of a `Vector3<float>`, by its expression. -/
theorem normalize_def3f (x1 x2 x3 : F32) :
    Vector3.normalize (⟨x1, x2, x3⟩ : Vector3 F32) =
      if Fp.ne (Vector3.norm (⟨x1, x2, x3⟩ : Vector3 F32)) (Fp.ofInt binary64 0) then
        some ⟨Fp.div x1 (Fp.cvt binary32 (Vector3.norm (⟨x1, x2, x3⟩ : Vector3 F32))), Fp.div x2 (Fp.cvt binary32 (Vector3.norm (⟨x1, x2, x3⟩ : Vector3 F32))), Fp.div x3 (Fp.cvt binary32 (Vector3.norm (⟨x1, x2, x3⟩ : Vector3 F32)))⟩
      else some ⟨x1, x2, x3⟩ := rfl

/-- The sums of squares of 3 components and of their quotients by the norm. -/
theorem link_norm3 (Pl Ql Pu Qu U n a1 a2 a3 b1 b2 b3 : ℚ)
    (hPl : 0 ≤ Pl) (hPu : 0 ≤ Pu) (hU : 0 ≤ U) (hn : 0 ≤ n)
    (ha1 : 0 ≤ a1) (ha2 : 0 ≤ a2) (ha3 : 0 ≤ a3)
    (hb1 : 0 ≤ b1) (hb2 : 0 ≤ b2) (hb3 : 0 ≤ b3)
    (lo1 : Pl * (a1 * U) ≤ Ql * (b1 * n)) (lo2 : Pl * (a2 * U) ≤ Ql * (b2 * n)) (lo3 : Pl * (a3 * U) ≤ Ql * (b3 * n))
    (up1 : Pu * (b1 * n) ≤ Qu * (a1 * U)) (up2 : Pu * (b2 * n) ≤ Qu * (a2 * U)) (up3 : Pu * (b3 * n) ≤ Qu * (a3 * U)) :
    Pl * Pl * (U * U * (a1 * a1 + a2 * a2 + a3 * a3)) ≤ Ql * Ql * ((b1 * b1 + b2 * b2 + b3 * b3) * (n * n)) ∧
      Pu * Pu * ((b1 * b1 + b2 * b2 + b3 * b3) * (n * n)) ≤ Qu * Qu * (U * U * (a1 * a1 + a2 * a2 + a3 * a3)) := by
  have k1 := link_sq Pl Ql (a1 * U) (b1 * n) hPl (mul_nonneg ha1 hU) lo1
  have m1 := link_sq Pu Qu (b1 * n) (a1 * U) hPu (mul_nonneg hb1 hn) up1
  have k2 := link_sq Pl Ql (a2 * U) (b2 * n) hPl (mul_nonneg ha2 hU) lo2
  have m2 := link_sq Pu Qu (b2 * n) (a2 * U) hPu (mul_nonneg hb2 hn) up2
  have k3 := link_sq Pl Ql (a3 * U) (b3 * n) hPl (mul_nonneg ha3 hU) lo3
  have m3 := link_sq Pu Qu (b3 * n) (a3 * U) hPu (mul_nonneg hb3 hn) up3
  constructor
  · have t1 : Pl * Pl * (U * U * (a1 * a1 + a2 * a2 + a3 * a3)) =
        Pl * Pl * (a1 * U * (a1 * U)) + Pl * Pl * (a2 * U * (a2 * U)) + Pl * Pl * (a3 * U * (a3 * U)) := by ring
    have t2 : Ql * Ql * ((b1 * b1 + b2 * b2 + b3 * b3) * (n * n)) =
        Ql * Ql * (b1 * n * (b1 * n)) + Ql * Ql * (b2 * n * (b2 * n)) + Ql * Ql * (b3 * n * (b3 * n)) := by ring
    linarith only [t1, t2, k1, k2, k3]
  · have t1 : Pu * Pu * ((b1 * b1 + b2 * b2 + b3 * b3) * (n * n)) =
        Pu * Pu * (b1 * n * (b1 * n)) + Pu * Pu * (b2 * n * (b2 * n)) + Pu * Pu * (b3 * n * (b3 * n)) := by ring
    have t2 : Qu * Qu * (U * U * (a1 * a1 + a2 * a2 + a3 * a3)) =
        Qu * Qu * (a1 * U * (a1 * U)) + Qu * Qu * (a2 * U * (a2 * U)) + Qu * Qu * (a3 * U * (a3 * U)) := by ring
    linarith only [t1, t2, m1, m2, m3]

/-- The norm of 3 `double` zeros is `+0`. -/
theorem norm_zeros3 (s1 s2 s3 : Bool) :
    Fp.sqrt (Fp.add (Fp.add (Fp.mul (Fp.fin s1 0 : F64) (Fp.fin s1 0)) (Fp.mul (Fp.fin s2 0 : F64) (Fp.fin s2 0))) (Fp.mul (Fp.fin s3 0 : F64) (Fp.fin s3 0))) = Fp.fin false 0 := by
  simp only [Fp.mul_zero_self, Fp.add_zero_zero, Fp.sqrt_zero]

/-- The norm of a normalised `Vector3<double>` whose components are zeros or
have magnitudes from `2^-250` to `2^250`, and whose norm is not zero: the
normalised vector exists and its norm is within `2^-50` of one. -/
theorem normalize_norm3d (v : Vector3 F64)
    (hx : Fp.inBand 250 v.x = true) (hy : Fp.inBand 250 v.y = true)
    (hz : Fp.inBand 250 v.z = true)
    (hn : Fp.ne v.norm (Fp.ofInt binary64 0) = true) :
    ∃ w m, v.normalize = some w ∧ w.norm = Fp.fin false m ∧
      m * 2 ^ 50 ≤ binary64.unit * 2 ^ 50 + binary64.unit ∧
      binary64.unit * 2 ^ 50 ≤ m * 2 ^ 50 + binary64.unit := by
  obtain ⟨x1, x2, x3⟩ := v
  obtain ⟨s1, a1, rfl, h1⟩ := Fp.inBand64 x1 hx
  obtain ⟨s2, a2, rfl, h2⟩ := Fp.inBand64 x2 hy
  obtain ⟨s3, a3, rfl, h3⟩ := Fp.inBand64 x3 hz
  rw [norm_def3d] at hn
  have hne : a1 ≠ 0 ∨ a2 ≠ 0 ∨ a3 ≠ 0 := by
    by_contra hcon
    simp only [not_or, not_not] at hcon
    obtain ⟨r1, r2, r3⟩ := hcon
    rw [r1, r2, r3, norm_zeros3] at hn
    exact absurd rfl ((Fp.ne_zero_iff 0).1 hn)
  obtain ⟨n, hnorm, nb1, nb2, g1, g2⟩ := norm_rel3 s1 s2 s3 a1 a2 a3 824 1324
    (by norm_num) (by norm_num) h1 h2 h3 hne
  have nb1b : 2 ^ 823 ≤ n := nb1
  have nb2b : n ≤ 2 ^ 1326 := nb2
  rw [hnorm] at hn
  obtain ⟨q1, hq1, zq1, iq1, lq1, uq1⟩ := Fp.div_rel64 s1 a1 n 824 1324 823 1326 h1
    nb1b nb2b (by norm_num) (by norm_num) (by norm_num)
  have zq1b : q1 = 0 ∨ (2 ^ 572 ≤ q1 ∧ q1 ≤ 2 ^ 1575) := zq1
  obtain ⟨q2, hq2, zq2, iq2, lq2, uq2⟩ := Fp.div_rel64 s2 a2 n 824 1324 823 1326 h2
    nb1b nb2b (by norm_num) (by norm_num) (by norm_num)
  have zq2b : q2 = 0 ∨ (2 ^ 572 ≤ q2 ∧ q2 ≤ 2 ^ 1575) := zq2
  obtain ⟨q3, hq3, zq3, iq3, lq3, uq3⟩ := Fp.div_rel64 s3 a3 n 824 1324 823 1326 h3
    nb1b nb2b (by norm_num) (by norm_num) (by norm_num)
  have zq3b : q3 = 0 ∨ (2 ^ 572 ≤ q3 ∧ q3 ≤ 2 ^ 1575) := zq3
  have hw : Vector3.normalize (⟨Fp.fin s1 a1, Fp.fin s2 a2, Fp.fin s3 a3⟩ : Vector3 F64) =
      some ⟨Fp.fin s1 q1, Fp.fin s2 q2, Fp.fin s3 q3⟩ := by
    rw [normalize_def3d, norm_def3d, hnorm, if_pos hn, hq1, hq2, hq3]
  have hqne : q1 ≠ 0 ∨ q2 ≠ 0 ∨ q3 ≠ 0 := by
    rcases hne with h | h | h
    · exact Or.inl (fun h0 => h (iq1.1 h0))
    · exact Or.inr (Or.inl (fun h0 => h (iq2.1 h0)))
    · exact Or.inr (Or.inr ((fun h0 => h (iq3.1 h0))))
  obtain ⟨m, hm, _, _, w1, w2⟩ := norm_rel3 s1 s2 s3 q1 q2 q3 572 1575
    (by norm_num) (by norm_num) zq1b zq2b zq3b hqne
  refine ⟨⟨Fp.fin s1 q1, Fp.fin s2 q2, Fp.fin s3 q3⟩, m, hw, ?_, ?_⟩
  · rw [norm_def3d]
    exact hm
  · have hnpos : (0 : ℚ) < n := by
      have h0 : 0 < n := lt_of_lt_of_le (by positivity) nb1b
      exact_mod_cast h0
    have hU0 : (0 : ℚ) < 2 ^ 1074 := pow_pos (by norm_num) _
    generalize hUdef : (2 : ℚ) ^ 1074 = U at lq1 uq1 lq2 uq2 lq3 uq3 hU0
    have lo1 : (1 - 1 / 2 ^ 53 : ℚ) * (a1 * U) ≤ 1 * (q1 * n) := by
      rw [one_mul]
      exact lq1
    have up1 : (1 : ℚ) * (q1 * n) ≤ (1 + 1 / 2 ^ 53) * (a1 * U) := by
      rw [one_mul]
      exact uq1
    have lo2 : (1 - 1 / 2 ^ 53 : ℚ) * (a2 * U) ≤ 1 * (q2 * n) := by
      rw [one_mul]
      exact lq2
    have up2 : (1 : ℚ) * (q2 * n) ≤ (1 + 1 / 2 ^ 53) * (a2 * U) := by
      rw [one_mul]
      exact uq2
    have lo3 : (1 - 1 / 2 ^ 53 : ℚ) * (a3 * U) ≤ 1 * (q3 * n) := by
      rw [one_mul]
      exact lq3
    have up3 : (1 : ℚ) * (q3 * n) ≤ (1 + 1 / 2 ^ 53) * (a3 * U) := by
      rw [one_mul]
      exact uq3
    obtain ⟨k1, k2⟩ := link_norm3 (1 - 1 / 2 ^ 53) 1 1 (1 + 1 / 2 ^ 53) U n a1 a2 a3 q1 q2 q3
      (by norm_num) (by norm_num) hU0.le hnpos.le (Nat.cast_nonneg _) (Nat.cast_nonneg _) (Nat.cast_nonneg _) (Nat.cast_nonneg _) (Nat.cast_nonneg _) (Nat.cast_nonneg _)
      lo1 lo2 lo3 up1 up2 up3
    obtain ⟨f1, f2⟩ := unit_norm_bound (1 / 2 ^ 52 + 1 / 2 ^ 106) ((1 - 1 / 2 ^ 53) ^ 4) ((1 + 1 / 2 ^ 53) ^ 4)
      ((1 - 1 / 2 ^ 53) * (1 - 1 / 2 ^ 53)) (1 * 1) (1 * 1) ((1 + 1 / 2 ^ 53) * (1 + 1 / 2 ^ 53)) (1 / 2 ^ 50) n m
      (a1 * a1 + a2 * a2 + a3 * a3) (q1 * q1 + q2 * q2 + q3 * q3) U
      (by norm_num) (by norm_num) (by norm_num) (by norm_num) (by norm_num) (by norm_num)
      (by norm_num) (by norm_num) (by norm_num) (by norm_num) hnpos (Nat.cast_nonneg _) hU0.le
      g1 g2 w1 w2 k1 k2 (by norm_num) (by norm_num)
    rw [Fmt.unit64]
    constructor
    · have h : (m : ℚ) * 2 ^ 50 ≤ 2 ^ 1074 * 2 ^ 50 + 2 ^ 1074 := by
        rw [hUdef]
        linarith only [f2]
      exact_mod_cast h
    · have h : (2 : ℚ) ^ 1074 * 2 ^ 50 ≤ m * 2 ^ 50 + 2 ^ 1074 := by
        rw [hUdef]
        linarith only [f1]
      exact_mod_cast h

/-- The norm of a normalised `Vector3<float>` whose components are zeros or
have magnitudes from `2^-60` to `2^60`, and whose norm is not zero: the
normalised vector exists and its norm is within `2^-22` of one. -/
theorem normalize_norm3f (v : Vector3 F32)
    (hx : Fp.inBand 60 v.x = true) (hy : Fp.inBand 60 v.y = true)
    (hz : Fp.inBand 60 v.z = true)
    (hn : Fp.ne v.norm (Fp.ofInt binary64 0) = true) :
    ∃ w m, v.normalize = some w ∧ w.norm = Fp.fin false m ∧
      m * 2 ^ 22 ≤ binary64.unit * 2 ^ 22 + binary64.unit ∧
      binary64.unit * 2 ^ 22 ≤ m * 2 ^ 22 + binary64.unit := by
  obtain ⟨x1, x2, x3⟩ := v
  obtain ⟨s1, a1, rfl, h1⟩ := Fp.inBand32 x1 hx
  obtain ⟨s2, a2, rfl, h2⟩ := Fp.inBand32 x2 hy
  obtain ⟨s3, a3, rfl, h3⟩ := Fp.inBand32 x3 hz
  rw [norm_def3f] at hn
  obtain ⟨c1, hc1, zc1, ic1, lc1, uc1⟩ := Fp.cvt_rel64 s1 a1 89 209 h1 (by norm_num)
  have zc1b : c1 = 0 ∨ (2 ^ 1014 ≤ c1 ∧ c1 ≤ 2 ^ 1134) := zc1
  obtain ⟨c2, hc2, zc2, ic2, lc2, uc2⟩ := Fp.cvt_rel64 s2 a2 89 209 h2 (by norm_num)
  have zc2b : c2 = 0 ∨ (2 ^ 1014 ≤ c2 ∧ c2 ≤ 2 ^ 1134) := zc2
  obtain ⟨c3, hc3, zc3, ic3, lc3, uc3⟩ := Fp.cvt_rel64 s3 a3 89 209 h3 (by norm_num)
  have zc3b : c3 = 0 ∨ (2 ^ 1014 ≤ c3 ∧ c3 ≤ 2 ^ 1134) := zc3
  rw [hc1, hc2, hc3] at hn
  have hne : c1 ≠ 0 ∨ c2 ≠ 0 ∨ c3 ≠ 0 := by
    by_contra hcon
    simp only [not_or, not_not] at hcon
    obtain ⟨r1, r2, r3⟩ := hcon
    rw [r1, r2, r3, norm_zeros3] at hn
    exact absurd rfl ((Fp.ne_zero_iff 0).1 hn)
  obtain ⟨n, hnorm, nb1, nb2, g1, g2⟩ := norm_rel3 s1 s2 s3 c1 c2 c3 1014 1134
    (by norm_num) (by norm_num) zc1b zc2b zc3b hne
  have nb1b : 2 ^ 1013 ≤ n := nb1
  have nb2b : n ≤ 2 ^ 1136 := nb2
  rw [hnorm] at hn
  obtain ⟨nf, hnf, fb1, fb2, lf, uf⟩ := Fp.cvt_rel32 n 1013 1136 nb1b nb2b
    (by norm_num) (by norm_num)
  have fb1b : 2 ^ 88 ≤ nf := fb1
  have fb2b : nf ≤ 2 ^ 211 := fb2
  obtain ⟨q1, hq1, zq1, iq1, lq1, uq1⟩ := Fp.div_rel32 s1 a1 nf 89 209 88 211 h1
    fb1b fb2b (by norm_num) (by norm_num) (by norm_num)
  have zq1b : q1 = 0 ∨ (2 ^ 27 ≤ q1 ∧ q1 ≤ 2 ^ 270) := zq1
  obtain ⟨b1, hb1, zb1, ib1, lb1, ub1⟩ := Fp.cvt_rel64 s1 q1 27 270 zq1b (by norm_num)
  have zb1b : b1 = 0 ∨ (2 ^ 952 ≤ b1 ∧ b1 ≤ 2 ^ 1195) := zb1
  obtain ⟨q2, hq2, zq2, iq2, lq2, uq2⟩ := Fp.div_rel32 s2 a2 nf 89 209 88 211 h2
    fb1b fb2b (by norm_num) (by norm_num) (by norm_num)
  have zq2b : q2 = 0 ∨ (2 ^ 27 ≤ q2 ∧ q2 ≤ 2 ^ 270) := zq2
  obtain ⟨b2, hb2, zb2, ib2, lb2, ub2⟩ := Fp.cvt_rel64 s2 q2 27 270 zq2b (by norm_num)
  have zb2b : b2 = 0 ∨ (2 ^ 952 ≤ b2 ∧ b2 ≤ 2 ^ 1195) := zb2
  obtain ⟨q3, hq3, zq3, iq3, lq3, uq3⟩ := Fp.div_rel32 s3 a3 nf 89 209 88 211 h3
    fb1b fb2b (by norm_num) (by norm_num) (by norm_num)
  have zq3b : q3 = 0 ∨ (2 ^ 27 ≤ q3 ∧ q3 ≤ 2 ^ 270) := zq3
  obtain ⟨b3, hb3, zb3, ib3, lb3, ub3⟩ := Fp.cvt_rel64 s3 q3 27 270 zq3b (by norm_num)
  have zb3b : b3 = 0 ∨ (2 ^ 952 ≤ b3 ∧ b3 ≤ 2 ^ 1195) := zb3
  have hw : Vector3.normalize (⟨Fp.fin s1 a1, Fp.fin s2 a2, Fp.fin s3 a3⟩ : Vector3 F32) =
      some ⟨Fp.fin s1 q1, Fp.fin s2 q2, Fp.fin s3 q3⟩ := by
    rw [normalize_def3f, norm_def3f, hc1, hc2, hc3, hnorm, if_pos hn, hnf, hq1, hq2, hq3]
  have hqne : b1 ≠ 0 ∨ b2 ≠ 0 ∨ b3 ≠ 0 := by
    rcases hne with h | h | h
    · exact Or.inl (fun h0 => h (ic1.2 (iq1.1 (ib1.1 h0))))
    · exact Or.inr (Or.inl (fun h0 => h (ic2.2 (iq2.1 (ib2.1 h0)))))
    · exact Or.inr (Or.inr ((fun h0 => h (ic3.2 (iq3.1 (ib3.1 h0))))))
  obtain ⟨m, hm, _, _, w1, w2⟩ := norm_rel3 s1 s2 s3 b1 b2 b3 952 1195
    (by norm_num) (by norm_num) zb1b zb2b zb3b hqne
  refine ⟨⟨Fp.fin s1 q1, Fp.fin s2 q2, Fp.fin s3 q3⟩, m, hw, ?_, ?_⟩
  · rw [norm_def3f, hb1, hb2, hb3]
    exact hm
  · have hnpos : (0 : ℚ) < n := by
      have h0 : 0 < n := lt_of_lt_of_le (by positivity) nb1b
      exact_mod_cast h0
    have hU0 : (0 : ℚ) < 2 ^ 1074 := pow_pos (by norm_num) _
    have hV0 : (0 : ℚ) < 2 ^ 149 := pow_pos (by norm_num) _
    generalize hVdef : (2 : ℚ) ^ 149 = V at lc1 uc1 lq1 uq1 lb1 ub1 lc2 uc2 lq2 uq2 lb2 ub2 lc3 uc3 lq3 uq3 lb3 ub3 lf uf hU0 hV0
    generalize hUdef : (2 : ℚ) ^ 1074 = U at lc1 uc1 lq1 uq1 lb1 ub1 lc2 uc2 lq2 uq2 lb2 ub2 lc3 uc3 lq3 uq3 lb3 ub3 lf uf hU0 hV0
    obtain ⟨lo1, up1⟩ := link32 (1 / 2 ^ 53) (1 / 2 ^ 24) a1 c1 n nf q1 b1 U V
      (by norm_num) (by norm_num) (by norm_num) (by norm_num) hU0 hV0 (Nat.cast_nonneg _)
      (Nat.cast_nonneg _) lc1 uc1 lf uf lq1 uq1 lb1 ub1
    obtain ⟨lo2, up2⟩ := link32 (1 / 2 ^ 53) (1 / 2 ^ 24) a2 c2 n nf q2 b2 U V
      (by norm_num) (by norm_num) (by norm_num) (by norm_num) hU0 hV0 (Nat.cast_nonneg _)
      (Nat.cast_nonneg _) lc2 uc2 lf uf lq2 uq2 lb2 ub2
    obtain ⟨lo3, up3⟩ := link32 (1 / 2 ^ 53) (1 / 2 ^ 24) a3 c3 n nf q3 b3 U V
      (by norm_num) (by norm_num) (by norm_num) (by norm_num) hU0 hV0 (Nat.cast_nonneg _)
      (Nat.cast_nonneg _) lc3 uc3 lf uf lq3 uq3 lb3 ub3
    obtain ⟨k1, k2⟩ := link_norm3 ((1 - 1 / 2 ^ 53) * (1 - 1 / 2 ^ 24)) ((1 + 1 / 2 ^ 53) * (1 + 1 / 2 ^ 24)) ((1 - 1 / 2 ^ 53) * (1 - 1 / 2 ^ 24)) ((1 + 1 / 2 ^ 53) * (1 + 1 / 2 ^ 24)) U n c1 c2 c3 b1 b2 b3
      (by norm_num) (by norm_num) hU0.le hnpos.le (Nat.cast_nonneg _) (Nat.cast_nonneg _) (Nat.cast_nonneg _) (Nat.cast_nonneg _) (Nat.cast_nonneg _) (Nat.cast_nonneg _)
      lo1 lo2 lo3 up1 up2 up3
    obtain ⟨f1, f2⟩ := unit_norm_bound (1 / 2 ^ 52 + 1 / 2 ^ 106) ((1 - 1 / 2 ^ 53) ^ 4) ((1 + 1 / 2 ^ 53) ^ 4)
      (((1 - 1 / 2 ^ 53) * (1 - 1 / 2 ^ 24)) * ((1 - 1 / 2 ^ 53) * (1 - 1 / 2 ^ 24))) (((1 + 1 / 2 ^ 53) * (1 + 1 / 2 ^ 24)) * ((1 + 1 / 2 ^ 53) * (1 + 1 / 2 ^ 24))) (((1 - 1 / 2 ^ 53) * (1 - 1 / 2 ^ 24)) * ((1 - 1 / 2 ^ 53) * (1 - 1 / 2 ^ 24))) (((1 + 1 / 2 ^ 53) * (1 + 1 / 2 ^ 24)) * ((1 + 1 / 2 ^ 53) * (1 + 1 / 2 ^ 24))) (1 / 2 ^ 22) n m
      (c1 * c1 + c2 * c2 + c3 * c3) (b1 * b1 + b2 * b2 + b3 * b3) U
      (by norm_num) (by norm_num) (by norm_num) (by norm_num) (by norm_num) (by norm_num)
      (by norm_num) (by norm_num) (by norm_num) (by norm_num) hnpos (Nat.cast_nonneg _) hU0.le
      g1 g2 w1 w2 k1 k2 (by norm_num) (by norm_num)
    rw [Fmt.unit64]
    constructor
    · have h : (m : ℚ) * 2 ^ 22 ≤ 2 ^ 1074 * 2 ^ 22 + 2 ^ 1074 := by
        rw [hUdef]
        linarith only [f2]
      exact_mod_cast h
    · have h : (2 : ℚ) ^ 1074 * 2 ^ 22 ≤ m * 2 ^ 22 + 2 ^ 1074 := by
        rw [hUdef]
        linarith only [f1]
      exact_mod_cast h

/-- The norm of a `Vector4<double>`, by its expression. -/
theorem norm_def4d (x1 x2 x3 x4 : F64) :
    Vector4.norm (⟨x1, x2, x3, x4⟩ : Vector4 F64) = Fp.sqrt (Fp.add (Fp.add (Fp.add (Fp.mul x1 x1) (Fp.mul x2 x2)) (Fp.mul x3 x3)) (Fp.mul x4 x4)) := rfl

/-- The norm of a `Vector4<float>`, by its expression. -/
theorem norm_def4f (x1 x2 x3 x4 : F32) :
    Vector4.norm (⟨x1, x2, x3, x4⟩ : Vector4 F32) = Fp.sqrt (Fp.add (Fp.add (Fp.add (Fp.mul (Fp.cvt binary64 x1) (Fp.cvt binary64 x1)) (Fp.mul (Fp.cvt binary64 x2) (Fp.cvt binary64 x2))) (Fp.mul (Fp.cvt binary64 x3) (Fp.cvt binary64 x3))) (Fp.mul (Fp.cvt binary64 x4) (Fp.cvt binary64 x4))) := rfl

/-- The member `normalize` of a `Vector4<double>`, by its expression. -/
theorem normalize_def4d (x1 x2 x3 x4 : F64) :
    Vector4.normalize (⟨x1, x2, x3, x4⟩ : Vector4 F64) =
      if Fp.ne (Vector4.norm (⟨x1, x2, x3, x4⟩ : Vector4 F64)) (Fp.ofInt binary64 0) then
        some ⟨Fp.div x1 (Vector4.norm (⟨x1, x2, x3, x4⟩ : Vector4 F64)), Fp.div x2 (Vector4.norm (⟨x1, x2, x3, x4⟩ : Vector4 F64)), Fp.div x3 (Vector4.norm (⟨x1, x2, x3, x4⟩ : Vector4 F64)), Fp.div x4 (Vector4.norm (⟨x1, x2, x3, x4⟩ : Vector4 F64))⟩
      else some ⟨x1, x2, x3, x4⟩ := rfl

/-- The member `normalize` of a `Vector4<float>`, by its expression. -/
theorem normalize_def4f (x1 x2 x3 x4 : F32) :
    Vector4.normalize (⟨x1, x2, x3, x4⟩ : Vector4 F32) =
      if Fp.ne (Vector4.norm (⟨x1, x2, x3, x4⟩ : Vector4 F32)) (Fp.ofInt binary64 0) then
        some ⟨Fp.div x1 (Fp.cvt binary32 (Vector4.norm (⟨x1, x2, x3, x4⟩ : Vector4 F32))), Fp.div x2 (Fp.cvt binary32 (Vector4.norm (⟨x1, x2, x3, x4⟩ : Vector4 F32))), Fp.div x3 (Fp.cvt binary32 (Vector4.norm (⟨x1, x2, x3, x4⟩ : Vector4 F32))), Fp.div x4 (Fp.cvt binary32 (Vector4.norm (⟨x1, x2, x3, x4⟩ : Vector4 F32)))⟩
      else some ⟨x1, x2, x3, x4⟩ := rfl

/-- The sums of squares of 4 components and of their quotients by the norm. -/
theorem link_norm4 (Pl Ql Pu Qu U n a1 a2 a3 a4 b1 b2 b3 b4 : ℚ)
    (hPl : 0 ≤ Pl) (hPu : 0 ≤ Pu) (hU : 0 ≤ U) (hn : 0 ≤ n)
    (ha1 : 0 ≤ a1) (ha2 : 0 ≤ a2) (ha3 : 0 ≤ a3) (ha4 : 0 ≤ a4)
    (hb1 : 0 ≤ b1) (hb2 : 0 ≤ b2) (hb3 : 0 ≤ b3) (hb4 : 0 ≤ b4)
    (lo1 : Pl * (a1 * U) ≤ Ql * (b1 * n)) (lo2 : Pl * (a2 * U) ≤ Ql * (b2 * n)) (lo3 : Pl * (a3 * U) ≤ Ql * (b3 * n)) (lo4 : Pl * (a4 * U) ≤ Ql * (b4 * n))
    (up1 : Pu * (b1 * n) ≤ Qu * (a1 * U)) (up2 : Pu * (b2 * n) ≤ Qu * (a2 * U)) (up3 : Pu * (b3 * n) ≤ Qu * (a3 * U)) (up4 : Pu * (b4 * n) ≤ Qu * (a4 * U)) :
    Pl * Pl * (U * U * (a1 * a1 + a2 * a2 + a3 * a3 + a4 * a4)) ≤ Ql * Ql * ((b1 * b1 + b2 * b2 + b3 * b3 + b4 * b4) * (n * n)) ∧
      Pu * Pu * ((b1 * b1 + b2 * b2 + b3 * b3 + b4 * b4) * (n * n)) ≤ Qu * Qu * (U * U * (a1 * a1 + a2 * a2 + a3 * a3 + a4 * a4)) := by
  have k1 := link_sq Pl Ql (a1 * U) (b1 * n) hPl (mul_nonneg ha1 hU) lo1
  have m1 := link_sq Pu Qu (b1 * n) (a1 * U) hPu (mul_nonneg hb1 hn) up1
  have k2 := link_sq Pl Ql (a2 * U) (b2 * n) hPl (mul_nonneg ha2 hU) lo2
  have m2 := link_sq Pu Qu (b2 * n) (a2 * U) hPu (mul_nonneg hb2 hn) up2
  have k3 := link_sq Pl Ql (a3 * U) (b3 * n) hPl (mul_nonneg ha3 hU) lo3
  have m3 := link_sq Pu Qu (b3 * n) (a3 * U) hPu (mul_nonneg hb3 hn) up3
  have k4 := link_sq Pl Ql (a4 * U) (b4 * n) hPl (mul_nonneg ha4 hU) lo4
  have m4 := link_sq Pu Qu (b4 * n) (a4 * U) hPu (mul_nonneg hb4 hn) up4
  constructor
  · have t1 : Pl * Pl * (U * U * (a1 * a1 + a2 * a2 + a3 * a3 + a4 * a4)) =
        Pl * Pl * (a1 * U * (a1 * U)) + Pl * Pl * (a2 * U * (a2 * U)) + Pl * Pl * (a3 * U * (a3 * U)) + Pl * Pl * (a4 * U * (a4 * U)) := by ring
    have t2 : Ql * Ql * ((b1 * b1 + b2 * b2 + b3 * b3 + b4 * b4) * (n * n)) =
        Ql * Ql * (b1 * n * (b1 * n)) + Ql * Ql * (b2 * n * (b2 * n)) + Ql * Ql * (b3 * n * (b3 * n)) + Ql * Ql * (b4 * n * (b4 * n)) := by ring
    linarith only [t1, t2, k1, k2, k3, k4]
  · have t1 : Pu * Pu * ((b1 * b1 + b2 * b2 + b3 * b3 + b4 * b4) * (n * n)) =
        Pu * Pu * (b1 * n * (b1 * n)) + Pu * Pu * (b2 * n * (b2 * n)) + Pu * Pu * (b3 * n * (b3 * n)) + Pu * Pu * (b4 * n * (b4 * n)) := by ring
    have t2 : Qu * Qu * (U * U * (a1 * a1 + a2 * a2 + a3 * a3 + a4 * a4)) =
        Qu * Qu * (a1 * U * (a1 * U)) + Qu * Qu * (a2 * U * (a2 * U)) + Qu * Qu * (a3 * U * (a3 * U)) + Qu * Qu * (a4 * U * (a4 * U)) := by ring
    linarith only [t1, t2, m1, m2, m3, m4]

/-- The norm of 4 `double` zeros is `+0`. -/
theorem norm_zeros4 (s1 s2 s3 s4 : Bool) :
    Fp.sqrt (Fp.add (Fp.add (Fp.add (Fp.mul (Fp.fin s1 0 : F64) (Fp.fin s1 0)) (Fp.mul (Fp.fin s2 0 : F64) (Fp.fin s2 0))) (Fp.mul (Fp.fin s3 0 : F64) (Fp.fin s3 0))) (Fp.mul (Fp.fin s4 0 : F64) (Fp.fin s4 0))) = Fp.fin false 0 := by
  simp only [Fp.mul_zero_self, Fp.add_zero_zero, Fp.sqrt_zero]

/-- The norm of a normalised `Vector4<double>` whose components are zeros or
have magnitudes from `2^-250` to `2^250`, and whose norm is not zero: the
normalised vector exists and its norm is within `2^-50` of one. -/
theorem normalize_norm4d (v : Vector4 F64)
    (hx : Fp.inBand 250 v.x = true) (hy : Fp.inBand 250 v.y = true)
    (hz : Fp.inBand 250 v.z = true) (hw : Fp.inBand 250 v.w = true)
    (hn : Fp.ne v.norm (Fp.ofInt binary64 0) = true) :
    ∃ w m, v.normalize = some w ∧ w.norm = Fp.fin false m ∧
      m * 2 ^ 50 ≤ binary64.unit * 2 ^ 50 + binary64.unit ∧
      binary64.unit * 2 ^ 50 ≤ m * 2 ^ 50 + binary64.unit := by
  obtain ⟨x1, x2, x3, x4⟩ := v
  obtain ⟨s1, a1, rfl, h1⟩ := Fp.inBand64 x1 hx
  obtain ⟨s2, a2, rfl, h2⟩ := Fp.inBand64 x2 hy
  obtain ⟨s3, a3, rfl, h3⟩ := Fp.inBand64 x3 hz
  obtain ⟨s4, a4, rfl, h4⟩ := Fp.inBand64 x4 hw
  rw [norm_def4d] at hn
  have hne : a1 ≠ 0 ∨ a2 ≠ 0 ∨ a3 ≠ 0 ∨ a4 ≠ 0 := by
    by_contra hcon
    simp only [not_or, not_not] at hcon
    obtain ⟨r1, r2, r3, r4⟩ := hcon
    rw [r1, r2, r3, r4, norm_zeros4] at hn
    exact absurd rfl ((Fp.ne_zero_iff 0).1 hn)
  obtain ⟨n, hnorm, nb1, nb2, g1, g2⟩ := norm_rel4 s1 s2 s3 s4 a1 a2 a3 a4 824 1324
    (by norm_num) (by norm_num) h1 h2 h3 h4 hne
  have nb1b : 2 ^ 823 ≤ n := nb1
  have nb2b : n ≤ 2 ^ 1326 := nb2
  rw [hnorm] at hn
  obtain ⟨q1, hq1, zq1, iq1, lq1, uq1⟩ := Fp.div_rel64 s1 a1 n 824 1324 823 1326 h1
    nb1b nb2b (by norm_num) (by norm_num) (by norm_num)
  have zq1b : q1 = 0 ∨ (2 ^ 572 ≤ q1 ∧ q1 ≤ 2 ^ 1575) := zq1
  obtain ⟨q2, hq2, zq2, iq2, lq2, uq2⟩ := Fp.div_rel64 s2 a2 n 824 1324 823 1326 h2
    nb1b nb2b (by norm_num) (by norm_num) (by norm_num)
  have zq2b : q2 = 0 ∨ (2 ^ 572 ≤ q2 ∧ q2 ≤ 2 ^ 1575) := zq2
  obtain ⟨q3, hq3, zq3, iq3, lq3, uq3⟩ := Fp.div_rel64 s3 a3 n 824 1324 823 1326 h3
    nb1b nb2b (by norm_num) (by norm_num) (by norm_num)
  have zq3b : q3 = 0 ∨ (2 ^ 572 ≤ q3 ∧ q3 ≤ 2 ^ 1575) := zq3
  obtain ⟨q4, hq4, zq4, iq4, lq4, uq4⟩ := Fp.div_rel64 s4 a4 n 824 1324 823 1326 h4
    nb1b nb2b (by norm_num) (by norm_num) (by norm_num)
  have zq4b : q4 = 0 ∨ (2 ^ 572 ≤ q4 ∧ q4 ≤ 2 ^ 1575) := zq4
  have hw : Vector4.normalize (⟨Fp.fin s1 a1, Fp.fin s2 a2, Fp.fin s3 a3, Fp.fin s4 a4⟩ : Vector4 F64) =
      some ⟨Fp.fin s1 q1, Fp.fin s2 q2, Fp.fin s3 q3, Fp.fin s4 q4⟩ := by
    rw [normalize_def4d, norm_def4d, hnorm, if_pos hn, hq1, hq2, hq3, hq4]
  have hqne : q1 ≠ 0 ∨ q2 ≠ 0 ∨ q3 ≠ 0 ∨ q4 ≠ 0 := by
    rcases hne with h | h | h | h
    · exact Or.inl (fun h0 => h (iq1.1 h0))
    · exact Or.inr (Or.inl (fun h0 => h (iq2.1 h0)))
    · exact Or.inr (Or.inr (Or.inl (fun h0 => h (iq3.1 h0))))
    · exact Or.inr (Or.inr (Or.inr ((fun h0 => h (iq4.1 h0)))))
  obtain ⟨m, hm, _, _, w1, w2⟩ := norm_rel4 s1 s2 s3 s4 q1 q2 q3 q4 572 1575
    (by norm_num) (by norm_num) zq1b zq2b zq3b zq4b hqne
  refine ⟨⟨Fp.fin s1 q1, Fp.fin s2 q2, Fp.fin s3 q3, Fp.fin s4 q4⟩, m, hw, ?_, ?_⟩
  · rw [norm_def4d]
    exact hm
  · have hnpos : (0 : ℚ) < n := by
      have h0 : 0 < n := lt_of_lt_of_le (by positivity) nb1b
      exact_mod_cast h0
    have hU0 : (0 : ℚ) < 2 ^ 1074 := pow_pos (by norm_num) _
    generalize hUdef : (2 : ℚ) ^ 1074 = U at lq1 uq1 lq2 uq2 lq3 uq3 lq4 uq4 hU0
    have lo1 : (1 - 1 / 2 ^ 53 : ℚ) * (a1 * U) ≤ 1 * (q1 * n) := by
      rw [one_mul]
      exact lq1
    have up1 : (1 : ℚ) * (q1 * n) ≤ (1 + 1 / 2 ^ 53) * (a1 * U) := by
      rw [one_mul]
      exact uq1
    have lo2 : (1 - 1 / 2 ^ 53 : ℚ) * (a2 * U) ≤ 1 * (q2 * n) := by
      rw [one_mul]
      exact lq2
    have up2 : (1 : ℚ) * (q2 * n) ≤ (1 + 1 / 2 ^ 53) * (a2 * U) := by
      rw [one_mul]
      exact uq2
    have lo3 : (1 - 1 / 2 ^ 53 : ℚ) * (a3 * U) ≤ 1 * (q3 * n) := by
      rw [one_mul]
      exact lq3
    have up3 : (1 : ℚ) * (q3 * n) ≤ (1 + 1 / 2 ^ 53) * (a3 * U) := by
      rw [one_mul]
      exact uq3
    have lo4 : (1 - 1 / 2 ^ 53 : ℚ) * (a4 * U) ≤ 1 * (q4 * n) := by
      rw [one_mul]
      exact lq4
    have up4 : (1 : ℚ) * (q4 * n) ≤ (1 + 1 / 2 ^ 53) * (a4 * U) := by
      rw [one_mul]
      exact uq4
    obtain ⟨k1, k2⟩ := link_norm4 (1 - 1 / 2 ^ 53) 1 1 (1 + 1 / 2 ^ 53) U n a1 a2 a3 a4 q1 q2 q3 q4
      (by norm_num) (by norm_num) hU0.le hnpos.le (Nat.cast_nonneg _) (Nat.cast_nonneg _) (Nat.cast_nonneg _) (Nat.cast_nonneg _) (Nat.cast_nonneg _) (Nat.cast_nonneg _) (Nat.cast_nonneg _) (Nat.cast_nonneg _)
      lo1 lo2 lo3 lo4 up1 up2 up3 up4
    obtain ⟨f1, f2⟩ := unit_norm_bound (1 / 2 ^ 52 + 1 / 2 ^ 106) ((1 - 1 / 2 ^ 53) ^ 4) ((1 + 1 / 2 ^ 53) ^ 4)
      ((1 - 1 / 2 ^ 53) * (1 - 1 / 2 ^ 53)) (1 * 1) (1 * 1) ((1 + 1 / 2 ^ 53) * (1 + 1 / 2 ^ 53)) (1 / 2 ^ 50) n m
      (a1 * a1 + a2 * a2 + a3 * a3 + a4 * a4) (q1 * q1 + q2 * q2 + q3 * q3 + q4 * q4) U
      (by norm_num) (by norm_num) (by norm_num) (by norm_num) (by norm_num) (by norm_num)
      (by norm_num) (by norm_num) (by norm_num) (by norm_num) hnpos (Nat.cast_nonneg _) hU0.le
      g1 g2 w1 w2 k1 k2 (by norm_num) (by norm_num)
    rw [Fmt.unit64]
    constructor
    · have h : (m : ℚ) * 2 ^ 50 ≤ 2 ^ 1074 * 2 ^ 50 + 2 ^ 1074 := by
        rw [hUdef]
        linarith only [f2]
      exact_mod_cast h
    · have h : (2 : ℚ) ^ 1074 * 2 ^ 50 ≤ m * 2 ^ 50 + 2 ^ 1074 := by
        rw [hUdef]
        linarith only [f1]
      exact_mod_cast h

/-- The norm of a normalised `Vector4<float>` whose components are zeros or
have magnitudes from `2^-60` to `2^60`, and whose norm is not zero: the
normalised vector exists and its norm is within `2^-22` of one. -/
theorem normalize_norm4f (v : Vector4 F32)
    (hx : Fp.inBand 60 v.x = true) (hy : Fp.inBand 60 v.y = true)
    (hz : Fp.inBand 60 v.z = true) (hw : Fp.inBand 60 v.w = true)
    (hn : Fp.ne v.norm (Fp.ofInt binary64 0) = true) :
    ∃ w m, v.normalize = some w ∧ w.norm = Fp.fin false m ∧
      m * 2 ^ 22 ≤ binary64.unit * 2 ^ 22 + binary64.unit ∧
      binary64.unit * 2 ^ 22 ≤ m * 2 ^ 22 + binary64.unit := by
  obtain ⟨x1, x2, x3, x4⟩ := v
  obtain ⟨s1, a1, rfl, h1⟩ := Fp.inBand32 x1 hx
  obtain ⟨s2, a2, rfl, h2⟩ := Fp.inBand32 x2 hy
  obtain ⟨s3, a3, rfl, h3⟩ := Fp.inBand32 x3 hz
  obtain ⟨s4, a4, rfl, h4⟩ := Fp.inBand32 x4 hw
  rw [norm_def4f] at hn
  obtain ⟨c1, hc1, zc1, ic1, lc1, uc1⟩ := Fp.cvt_rel64 s1 a1 89 209 h1 (by norm_num)
  have zc1b : c1 = 0 ∨ (2 ^ 1014 ≤ c1 ∧ c1 ≤ 2 ^ 1134) := zc1
  obtain ⟨c2, hc2, zc2, ic2, lc2, uc2⟩ := Fp.cvt_rel64 s2 a2 89 209 h2 (by norm_num)
  have zc2b : c2 = 0 ∨ (2 ^ 1014 ≤ c2 ∧ c2 ≤ 2 ^ 1134) := zc2
  obtain ⟨c3, hc3, zc3, ic3, lc3, uc3⟩ := Fp.cvt_rel64 s3 a3 89 209 h3 (by norm_num)
  have zc3b : c3 = 0 ∨ (2 ^ 1014 ≤ c3 ∧ c3 ≤ 2 ^ 1134) := zc3
  obtain ⟨c4, hc4, zc4, ic4, lc4, uc4⟩ := Fp.cvt_rel64 s4 a4 89 209 h4 (by norm_num)
  have zc4b : c4 = 0 ∨ (2 ^ 1014 ≤ c4 ∧ c4 ≤ 2 ^ 1134) := zc4
  rw [hc1, hc2, hc3, hc4] at hn
  have hne : c1 ≠ 0 ∨ c2 ≠ 0 ∨ c3 ≠ 0 ∨ c4 ≠ 0 := by
    by_contra hcon
    simp only [not_or, not_not] at hcon
    obtain ⟨r1, r2, r3, r4⟩ := hcon
    rw [r1, r2, r3, r4, norm_zeros4] at hn
    exact absurd rfl ((Fp.ne_zero_iff 0).1 hn)
  obtain ⟨n, hnorm, nb1, nb2, g1, g2⟩ := norm_rel4 s1 s2 s3 s4 c1 c2 c3 c4 1014 1134
    (by norm_num) (by norm_num) zc1b zc2b zc3b zc4b hne
  have nb1b : 2 ^ 1013 ≤ n := nb1
  have nb2b : n ≤ 2 ^ 1136 := nb2
  rw [hnorm] at hn
  obtain ⟨nf, hnf, fb1, fb2, lf, uf⟩ := Fp.cvt_rel32 n 1013 1136 nb1b nb2b
    (by norm_num) (by norm_num)
  have fb1b : 2 ^ 88 ≤ nf := fb1
  have fb2b : nf ≤ 2 ^ 211 := fb2
  obtain ⟨q1, hq1, zq1, iq1, lq1, uq1⟩ := Fp.div_rel32 s1 a1 nf 89 209 88 211 h1
    fb1b fb2b (by norm_num) (by norm_num) (by norm_num)
  have zq1b : q1 = 0 ∨ (2 ^ 27 ≤ q1 ∧ q1 ≤ 2 ^ 270) := zq1
  obtain ⟨b1, hb1, zb1, ib1, lb1, ub1⟩ := Fp.cvt_rel64 s1 q1 27 270 zq1b (by norm_num)
  have zb1b : b1 = 0 ∨ (2 ^ 952 ≤ b1 ∧ b1 ≤ 2 ^ 1195) := zb1
  obtain ⟨q2, hq2, zq2, iq2, lq2, uq2⟩ := Fp.div_rel32 s2 a2 nf 89 209 88 211 h2
    fb1b fb2b (by norm_num) (by norm_num) (by norm_num)
  have zq2b : q2 = 0 ∨ (2 ^ 27 ≤ q2 ∧ q2 ≤ 2 ^ 270) := zq2
  obtain ⟨b2, hb2, zb2, ib2, lb2, ub2⟩ := Fp.cvt_rel64 s2 q2 27 270 zq2b (by norm_num)
  have zb2b : b2 = 0 ∨ (2 ^ 952 ≤ b2 ∧ b2 ≤ 2 ^ 1195) := zb2
  obtain ⟨q3, hq3, zq3, iq3, lq3, uq3⟩ := Fp.div_rel32 s3 a3 nf 89 209 88 211 h3
    fb1b fb2b (by norm_num) (by norm_num) (by norm_num)
  have zq3b : q3 = 0 ∨ (2 ^ 27 ≤ q3 ∧ q3 ≤ 2 ^ 270) := zq3
  obtain ⟨b3, hb3, zb3, ib3, lb3, ub3⟩ := Fp.cvt_rel64 s3 q3 27 270 zq3b (by norm_num)
  have zb3b : b3 = 0 ∨ (2 ^ 952 ≤ b3 ∧ b3 ≤ 2 ^ 1195) := zb3
  obtain ⟨q4, hq4, zq4, iq4, lq4, uq4⟩ := Fp.div_rel32 s4 a4 nf 89 209 88 211 h4
    fb1b fb2b (by norm_num) (by norm_num) (by norm_num)
  have zq4b : q4 = 0 ∨ (2 ^ 27 ≤ q4 ∧ q4 ≤ 2 ^ 270) := zq4
  obtain ⟨b4, hb4, zb4, ib4, lb4, ub4⟩ := Fp.cvt_rel64 s4 q4 27 270 zq4b (by norm_num)
  have zb4b : b4 = 0 ∨ (2 ^ 952 ≤ b4 ∧ b4 ≤ 2 ^ 1195) := zb4
  have hw : Vector4.normalize (⟨Fp.fin s1 a1, Fp.fin s2 a2, Fp.fin s3 a3, Fp.fin s4 a4⟩ : Vector4 F32) =
      some ⟨Fp.fin s1 q1, Fp.fin s2 q2, Fp.fin s3 q3, Fp.fin s4 q4⟩ := by
    rw [normalize_def4f, norm_def4f, hc1, hc2, hc3, hc4, hnorm, if_pos hn, hnf, hq1, hq2, hq3, hq4]
  have hqne : b1 ≠ 0 ∨ b2 ≠ 0 ∨ b3 ≠ 0 ∨ b4 ≠ 0 := by
    rcases hne with h | h | h | h
    · exact Or.inl (fun h0 => h (ic1.2 (iq1.1 (ib1.1 h0))))
    · exact Or.inr (Or.inl (fun h0 => h (ic2.2 (iq2.1 (ib2.1 h0)))))
    · exact Or.inr (Or.inr (Or.inl (fun h0 => h (ic3.2 (iq3.1 (ib3.1 h0))))))
    · exact Or.inr (Or.inr (Or.inr ((fun h0 => h (ic4.2 (iq4.1 (ib4.1 h0)))))))
  obtain ⟨m, hm, _, _, w1, w2⟩ := norm_rel4 s1 s2 s3 s4 b1 b2 b3 b4 952 1195
    (by norm_num) (by norm_num) zb1b zb2b zb3b zb4b hqne
  refine ⟨⟨Fp.fin s1 q1, Fp.fin s2 q2, Fp.fin s3 q3, Fp.fin s4 q4⟩, m, hw, ?_, ?_⟩
  · rw [norm_def4f, hb1, hb2, hb3, hb4]
    exact hm
  · have hnpos : (0 : ℚ) < n := by
      have h0 : 0 < n := lt_of_lt_of_le (by positivity) nb1b
      exact_mod_cast h0
    have hU0 : (0 : ℚ) < 2 ^ 1074 := pow_pos (by norm_num) _
    have hV0 : (0 : ℚ) < 2 ^ 149 := pow_pos (by norm_num) _
    generalize hVdef : (2 : ℚ) ^ 149 = V at lc1 uc1 lq1 uq1 lb1 ub1 lc2 uc2 lq2 uq2 lb2 ub2 lc3 uc3 lq3 uq3 lb3 ub3 lc4 uc4 lq4 uq4 lb4 ub4 lf uf hU0 hV0
    generalize hUdef : (2 : ℚ) ^ 1074 = U at lc1 uc1 lq1 uq1 lb1 ub1 lc2 uc2 lq2 uq2 lb2 ub2 lc3 uc3 lq3 uq3 lb3 ub3 lc4 uc4 lq4 uq4 lb4 ub4 lf uf hU0 hV0
    obtain ⟨lo1, up1⟩ := link32 (1 / 2 ^ 53) (1 / 2 ^ 24) a1 c1 n nf q1 b1 U V
      (by norm_num) (by norm_num) (by norm_num) (by norm_num) hU0 hV0 (Nat.cast_nonneg _)
      (Nat.cast_nonneg _) lc1 uc1 lf uf lq1 uq1 lb1 ub1
    obtain ⟨lo2, up2⟩ := link32 (1 / 2 ^ 53) (1 / 2 ^ 24) a2 c2 n nf q2 b2 U V
      (by norm_num) (by norm_num) (by norm_num) (by norm_num) hU0 hV0 (Nat.cast_nonneg _)
      (Nat.cast_nonneg _) lc2 uc2 lf uf lq2 uq2 lb2 ub2
    obtain ⟨lo3, up3⟩ := link32 (1 / 2 ^ 53) (1 / 2 ^ 24) a3 c3 n nf q3 b3 U V
      (by norm_num) (by norm_num) (by norm_num) (by norm_num) hU0 hV0 (Nat.cast_nonneg _)
      (Nat.cast_nonneg _) lc3 uc3 lf uf lq3 uq3 lb3 ub3
    obtain ⟨lo4, up4⟩ := link32 (1 / 2 ^ 53) (1 / 2 ^ 24) a4 c4 n nf q4 b4 U V
      (by norm_num) (by norm_num) (by norm_num) (by norm_num) hU0 hV0 (Nat.cast_nonneg _)
      (Nat.cast_nonneg _) lc4 uc4 lf uf lq4 uq4 lb4 ub4
    obtain ⟨k1, k2⟩ := link_norm4 ((1 - 1 / 2 ^ 53) * (1 - 1 / 2 ^ 24)) ((1 + 1 / 2 ^ 53) * (1 + 1 / 2 ^ 24)) ((1 - 1 / 2 ^ 53) * (1 - 1 / 2 ^ 24)) ((1 + 1 / 2 ^ 53) * (1 + 1 / 2 ^ 24)) U n c1 c2 c3 c4 b1 b2 b3 b4
      (by norm_num) (by norm_num) hU0.le hnpos.le (Nat.cast_nonneg _) (Nat.cast_nonneg _) (Nat.cast_nonneg _) (Nat.cast_nonneg _) (Nat.cast_nonneg _) (Nat.cast_nonneg _) (Nat.cast_nonneg _) (Nat.cast_nonneg _)
      lo1 lo2 lo3 lo4 up1 up2 up3 up4
    obtain ⟨f1, f2⟩ := unit_norm_bound (1 / 2 ^ 52 + 1 / 2 ^ 106) ((1 - 1 / 2 ^ 53) ^ 4) ((1 + 1 / 2 ^ 53) ^ 4)
      (((1 - 1 / 2 ^ 53) * (1 - 1 / 2 ^ 24)) * ((1 - 1 / 2 ^ 53) * (1 - 1 / 2 ^ 24))) (((1 + 1 / 2 ^ 53) * (1 + 1 / 2 ^ 24)) * ((1 + 1 / 2 ^ 53) * (1 + 1 / 2 ^ 24))) (((1 - 1 / 2 ^ 53) * (1 - 1 / 2 ^ 24)) * ((1 - 1 / 2 ^ 53) * (1 - 1 / 2 ^ 24))) (((1 + 1 / 2 ^ 53) * (1 + 1 / 2 ^ 24)) * ((1 + 1 / 2 ^ 53) * (1 + 1 / 2 ^ 24))) (1 / 2 ^ 22) n m
      (c1 * c1 + c2 * c2 + c3 * c3 + c4 * c4) (b1 * b1 + b2 * b2 + b3 * b3 + b4 * b4) U
      (by norm_num) (by norm_num) (by norm_num) (by norm_num) (by norm_num) (by norm_num)
      (by norm_num) (by norm_num) (by norm_num) (by norm_num) hnpos (Nat.cast_nonneg _) hU0.le
      g1 g2 w1 w2 k1 k2 (by norm_num) (by norm_num)
    rw [Fmt.unit64]
    constructor
    · have h : (m : ℚ) * 2 ^ 22 ≤ 2 ^ 1074 * 2 ^ 22 + 2 ^ 1074 := by
        rw [hUdef]
        linarith only [f2]
      exact_mod_cast h
    · have h : (2 : ℚ) ^ 1074 * 2 ^ 22 ≤ m * 2 ^ 22 + 2 ^ 1074 := by
        rw [hUdef]
        linarith only [f1]
      exact_mod_cast h

/-! ## Normalisation of a floating vector -/

/-- C5 fails in floating arithmetic: `Vector2d(1,1).normalize()` is
`(0.7071067811865475, 0.7071067811865475)`, of norm `1 - 2^-53`, not `1`; and
for `Vector2d(2^600, 0)` the squares overflow, the norm is infinite and the
result `(0, 0)` has norm `0`. -/
theorem normalize_float_counterexample :
    Fp.ne (Vector2.norm (⟨Fp.ofInt binary64 1, Fp.ofInt binary64 1⟩ : Vector2 F64))
      (Fp.ofInt binary64 0) = true ∧
    (Vector2.normalize (⟨Fp.ofInt binary64 1, Fp.ofInt binary64 1⟩ : Vector2 F64)).map
      Vector2.norm = some (Fp.fin false (binary64.unit - 2 ^ 1021)) ∧
    (Vector2.normalize (⟨Fp.ofInt binary64 1, Fp.ofInt binary64 1⟩ : Vector2 F64)).map
      Vector2.norm ≠ some (Fp.ofInt binary64 1) ∧
    Fp.ne (Vector2.norm (⟨Fp.fin false (2 ^ 600 * binary64.unit), Fp.fin false 0⟩ : Vector2 F64))
      (Fp.ofInt binary64 0) = true ∧
    (Vector2.normalize
      (⟨Fp.fin false (2 ^ 600 * binary64.unit), Fp.fin false 0⟩ : Vector2 F64)).map
      Vector2.norm = some (Fp.fin false 0) := by
  decide!

/-- C5, amended: for a `double` vector whose norm does not compare equal to
zero, `normalize()` is the vector divided component-wise by `norm()`, each
quotient rounded to `double`; for a `float` vector the divisor is `norm()`
converted to `float`. When every component is a zero or has a magnitude from
`2^-250` to `2^250` (`double`), respectively from `2^-60` to `2^60` (`float`),
the result exists and its norm `m` is within `2^-50`, respectively `2^-22`, of
one: `|m - 1| <= 2^-50` with `m` counted in units of `2^-1074`. Outside that
range a square or a quotient can underflow or overflow:
`Vector2d(1.2 * 2^-537, 0)` has norm `2^-537` and normalises to `(1.2, 0)`, of
norm `1.2`. `Vector2d(-4,3).normalize() == (-4.0/5.0, 3.0/5.0)` and
`Vector3d(3,4,0).normalize() == (0.6, 0.8, 0)`, both in the range and of norm
exactly `1`. -/
theorem normalize_float :
    (∀ v : Vector2 F64,
      v.normalize =
        if Fp.ne v.norm (Fp.ofInt binary64 0) then
          some ⟨Fp.div v.x v.norm, Fp.div v.y v.norm⟩
        else some v) ∧
    (∀ v : Vector3 F64,
      v.normalize =
        if Fp.ne v.norm (Fp.ofInt binary64 0) then
          some ⟨Fp.div v.x v.norm, Fp.div v.y v.norm, Fp.div v.z v.norm⟩
        else some v) ∧
    (∀ v : Vector4 F64,
      v.normalize =
        if Fp.ne v.norm (Fp.ofInt binary64 0) then
          some ⟨Fp.div v.x v.norm, Fp.div v.y v.norm, Fp.div v.z v.norm, Fp.div v.w v.norm⟩
        else some v) ∧
    (∀ v : Vector2 F32,
      v.normalize =
        if Fp.ne v.norm (Fp.ofInt binary64 0) then
          some ⟨Fp.div v.x (Fp.cvt binary32 v.norm), Fp.div v.y (Fp.cvt binary32 v.norm)⟩
        else some v) ∧
    (∀ v : Vector3 F32,
      v.normalize =
        if Fp.ne v.norm (Fp.ofInt binary64 0) then
          some ⟨Fp.div v.x (Fp.cvt binary32 v.norm), Fp.div v.y (Fp.cvt binary32 v.norm), Fp.div v.z (Fp.cvt binary32 v.norm)⟩
        else some v) ∧
    (∀ v : Vector4 F32,
      v.normalize =
        if Fp.ne v.norm (Fp.ofInt binary64 0) then
          some ⟨Fp.div v.x (Fp.cvt binary32 v.norm), Fp.div v.y (Fp.cvt binary32 v.norm), Fp.div v.z (Fp.cvt binary32 v.norm), Fp.div v.w (Fp.cvt binary32 v.norm)⟩
        else some v) ∧
    (∀ v : Vector2 F64,
      Fp.inBand 250 v.x = true → Fp.inBand 250 v.y = true →
      Fp.ne v.norm (Fp.ofInt binary64 0) = true →
      ∃ w m, v.normalize = some w ∧ w.norm = Fp.fin false m ∧
        m * 2 ^ 50 ≤ binary64.unit * 2 ^ 50 + binary64.unit ∧
        binary64.unit * 2 ^ 50 ≤ m * 2 ^ 50 + binary64.unit) ∧
    (∀ v : Vector3 F64,
      Fp.inBand 250 v.x = true → Fp.inBand 250 v.y = true → Fp.inBand 250 v.z = true →
      Fp.ne v.norm (Fp.ofInt binary64 0) = true →
      ∃ w m, v.normalize = some w ∧ w.norm = Fp.fin false m ∧
        m * 2 ^ 50 ≤ binary64.unit * 2 ^ 50 + binary64.unit ∧
        binary64.unit * 2 ^ 50 ≤ m * 2 ^ 50 + binary64.unit) ∧
    (∀ v : Vector4 F64,
      Fp.inBand 250 v.x = true → Fp.inBand 250 v.y = true →
      Fp.inBand 250 v.z = true → Fp.inBand 250 v.w = true →
      Fp.ne v.norm (Fp.ofInt binary64 0) = true →
      ∃ w m, v.normalize = some w ∧ w.norm = Fp.fin false m ∧
        m * 2 ^ 50 ≤ binary64.unit * 2 ^ 50 + binary64.unit ∧
        binary64.unit * 2 ^ 50 ≤ m * 2 ^ 50 + binary64.unit) ∧
    (∀ v : Vector2 F32,
      Fp.inBand 60 v.x = true → Fp.inBand 60 v.y = true →
      Fp.ne v.norm (Fp.ofInt binary64 0) = true →
      ∃ w m, v.normalize = some w ∧ w.norm = Fp.fin false m ∧
        m * 2 ^ 22 ≤ binary64.unit * 2 ^ 22 + binary64.unit ∧
        binary64.unit * 2 ^ 22 ≤ m * 2 ^ 22 + binary64.unit) ∧
    (∀ v : Vector3 F32,
      Fp.inBand 60 v.x = true → Fp.inBand 60 v.y = true → Fp.inBand 60 v.z = true →
      Fp.ne v.norm (Fp.ofInt binary64 0) = true →
      ∃ w m, v.normalize = some w ∧ w.norm = Fp.fin false m ∧
        m * 2 ^ 22 ≤ binary64.unit * 2 ^ 22 + binary64.unit ∧
        binary64.unit * 2 ^ 22 ≤ m * 2 ^ 22 + binary64.unit) ∧
    (∀ v : Vector4 F32,
      Fp.inBand 60 v.x = true → Fp.inBand 60 v.y = true →
      Fp.inBand 60 v.z = true → Fp.inBand 60 v.w = true →
      Fp.ne v.norm (Fp.ofInt binary64 0) = true →
      ∃ w m, v.normalize = some w ∧ w.norm = Fp.fin false m ∧
        m * 2 ^ 22 ≤ binary64.unit * 2 ^ 22 + binary64.unit ∧
        binary64.unit * 2 ^ 22 ≤ m * 2 ^ 22 + binary64.unit) ∧
    (Vector2.normalize (⟨Fp.ofInt binary64 (-4), Fp.ofInt binary64 3⟩ : Vector2 F64) =
        some ⟨Fp.div (Fp.ofInt binary64 (-4)) (Fp.ofInt binary64 5),
          Fp.div (Fp.ofInt binary64 3) (Fp.ofInt binary64 5)⟩ ∧
      Vector3.normalize
          (⟨Fp.ofInt binary64 3, Fp.ofInt binary64 4, Fp.ofInt binary64 0⟩ : Vector3 F64) =
        some ⟨Fp.round binary64 false (6 * binary64.unit) 10,
          Fp.round binary64 false (8 * binary64.unit) 10, Fp.fin false 0⟩ ∧
      (Vector2.normalize (⟨Fp.ofInt binary64 (-4), Fp.ofInt binary64 3⟩ : Vector2 F64)).map
        Vector2.norm = some (Fp.ofInt binary64 1) ∧
      (Vector3.normalize
          (⟨Fp.ofInt binary64 3, Fp.ofInt binary64 4, Fp.ofInt binary64 0⟩ : Vector3 F64)).map
        Vector3.norm = some (Fp.ofInt binary64 1) ∧
      Fp.inBand 250 (Fp.ofInt binary64 (-4)) = true ∧
      Fp.inBand 250 (Fp.ofInt binary64 3) = true ∧
      Fp.inBand 250 (Fp.ofInt binary64 4) = true ∧
      Fp.inBand 250 (Fp.ofInt binary64 0) = true) ∧
    (Fp.inBand 250 (Fp.round binary64 false (12 * 2 ^ 537) 10) = false ∧
      Vector2.norm (⟨Fp.round binary64 false (12 * 2 ^ 537) 10, Fp.fin false 0⟩ : Vector2 F64) =
        Fp.fin false (2 ^ 537) ∧
      Vector2.normalize
          (⟨Fp.round binary64 false (12 * 2 ^ 537) 10, Fp.fin false 0⟩ : Vector2 F64) =
        some ⟨Fp.round binary64 false (12 * binary64.unit) 10, Fp.fin false 0⟩ ∧
      (Vector2.normalize
          (⟨Fp.round binary64 false (12 * 2 ^ 537) 10, Fp.fin false 0⟩ : Vector2 F64)).map
        Vector2.norm = some (Fp.round binary64 false (12 * binary64.unit) 10)) := by
  refine ⟨fun _ => rfl, fun _ => rfl, fun _ => rfl, fun _ => rfl, fun _ => rfl, fun _ => rfl,
    normalize_norm2d, normalize_norm3d, normalize_norm4d, normalize_norm2f, normalize_norm3f,
    normalize_norm4f, by decide!, by decide!⟩

/-- C5, witness: `Vector2d(1,1)` and `Vector2f(1,1)` are in the range and
their norm is not zero, so the bound applies to them: the norm of their
normalised vector is within `2^-50`, respectively `2^-22`, of one. -/
theorem normalize_float_witness :
    (∃ w m, Vector2.normalize (⟨Fp.ofInt binary64 1, Fp.ofInt binary64 1⟩ : Vector2 F64) = some w ∧
      w.norm = Fp.fin false m ∧
      m * 2 ^ 50 ≤ binary64.unit * 2 ^ 50 + binary64.unit ∧
      binary64.unit * 2 ^ 50 ≤ m * 2 ^ 50 + binary64.unit) ∧
    (∃ w m, Vector2.normalize (⟨Fp.ofInt binary32 1, Fp.ofInt binary32 1⟩ : Vector2 F32) = some w ∧
      w.norm = Fp.fin false m ∧
      m * 2 ^ 22 ≤ binary64.unit * 2 ^ 22 + binary64.unit ∧
      binary64.unit * 2 ^ 22 ≤ m * 2 ^ 22 + binary64.unit) :=
  ⟨normalize_float.2.2.2.2.2.2.1 ⟨Fp.ofInt binary64 1, Fp.ofInt binary64 1⟩
      (by decide!) (by decide!) (by decide!),
    normalize_float.2.2.2.2.2.2.2.2.2.1 ⟨Fp.ofInt binary32 1, Fp.ofInt binary32 1⟩
      (by decide!) (by decide!) (by decide!)⟩

end VectorsCpp
